import Mathlib

/-!
# Wavelet consensus core: view graph, Snowball and transaction applier

A shallow embedding of `graph.go`, `snowball.go` and `tx_applier.go`.

Conventions of the embedding

* 32-byte identifiers (`common.TransactionID`, `common.AccountID`) are natural
  numbers: the array read as a big-endian number. `bytes.Compare` on two such
  arrays is the comparison of the two numbers, the zero identifier is `0`.
* Go maps are association lists. `mapGet` reads a key, `mapSet` writes one,
  `mapDel` deletes one. Sets (`map[K]struct{}`) are lists with `setAdd` and
  `setDel`. Where Go iterates over a map the list order stands for the
  iteration order, which Go leaves unspecified.
* `uint64`, `uint16` and `int` arithmetic wraps explicitly (`add64`, `sub64`,
  `wrapInt`); `int` is taken to be 64 bits wide.
* A finite value of `float64` is the rational number it stands for. Comparisons
  of such values are exact; products, quotients and conversions round to the
  nearest value of `float64`, ties to even (`nearestFloat64`, `roundFloat64`).
* Functions that mutate the receiver take the old state and return the new one.
* A Go `error` is `Option String`: `none` is `nil`.
-/

namespace Wavelet

/-! ## Maps, sets and machine integers -/

/-- The modulus of `uint64` arithmetic. -/
def u64 : Nat := 2 ^ 64

/-- The modulus of `uint16` arithmetic. -/
def u16 : Nat := 2 ^ 16

/-- The `uint64` sum `a + b`. -/
def add64 (a b : Nat) : Nat := (a + b) % u64

/-- The `uint64` difference `a - b` of two values below `2 ^ 64`. -/
def sub64 (a b : Nat) : Nat := (a + u64 - b % u64) % u64

/-- A value brought into the range of a 64-bit signed `int`. -/
def wrapInt (x : Int) : Int := (x + 2 ^ 63) % 2 ^ 64 - 2 ^ 63

/-- The value stored under key `k`, if any: `v, ok := m[k]`. -/
def mapGet {K V : Type} [DecidableEq K] : List (K × V) → K → Option V
  | [], _ => none
  | (k', v) :: rest, k => if k' = k then some v else mapGet rest k

/-- The value stored under key `k`, or `d` when the key is absent: `m[k]`. -/
def mapGetD {K V : Type} [DecidableEq K] (m : List (K × V)) (k : K) (d : V) : V :=
  match mapGet m k with
  | some v => v
  | none => d

/-- The map without key `k`: `delete(m, k)`. -/
def mapDel {K V : Type} [DecidableEq K] (m : List (K × V)) (k : K) : List (K × V) :=
  m.filter (fun e => decide (e.1 ≠ k))

/-- The map with `k` bound to `v`: `m[k] = v`. -/
def mapSet {K V : Type} [DecidableEq K] (m : List (K × V)) (k : K) (v : V) : List (K × V) :=
  (k, v) :: mapDel m k

/-- The set with `x` added: `s[x] = struct{}{}`. -/
def setAdd {K : Type} [DecidableEq K] (s : List K) (x : K) : List K :=
  if x ∈ s then s else x :: s

/-- The set without `x`: `delete(s, x)`. -/
def setDel {K : Type} [DecidableEq K] (s : List K) (x : K) : List K :=
  s.filter (fun y => decide (y ≠ x))

/-! ## Data model -/

abbrev TransactionID := Nat

abbrev AccountID := Nat

abbrev BlockID := Nat

abbrev VoteID := Nat

/-- The value `common.ZeroTransactionID`. -/
def ZeroTransactionID : TransactionID := 0

/-- The value `common.ZeroAccountID`. -/
def ZeroAccountID : AccountID := 0

/-- Modelled from the spec: the tags of package `sys`, which is not part of the
sources; numbered in the order the data model lists them. -/
def TagNop : Nat := 0

/-- Modelled from the spec: see `TagNop`. -/
def TagTransfer : Nat := 1

/-- Modelled from the spec: see `TagNop`. -/
def TagContract : Nat := 2

/-- Modelled from the spec: see `TagNop`. -/
def TagStake : Nat := 3

/-- Modelled from the spec: see `TagNop`. -/
def TagBatch : Nat := 4

/-- The fields of `Transaction` that the graph and the applier read. -/
structure Transaction where
  ID : TransactionID := 0
  Sender : AccountID := 0
  Creator : AccountID := 0
  Nonce : Nat := 0
  ParentIDs : List TransactionID := []
  Depth : Nat := 0
  Confidence : Nat := 0
  Seed : Nat := 0
  Tag : Nat := 0
  Payload : List Nat := []
deriving DecidableEq, Repr

/-- The fields of `Round` that the graph and the applier read. -/
structure Round where
  Index : Nat := 0
  Root : Transaction := {}
deriving DecidableEq, Repr

/-- The constants of package `sys` (the stake opcodes among them) and the
pruning depth, which the sources use and do not declare. `FaucetAddress` is the
account whose hex encoding is `sys.FaucetAddress`. -/
structure SysConf where
  MaxEligibleParentsDepthDiff : Nat
  PruningDepth : Nat
  FaucetAddress : AccountID
  MinimumRewardWithdraw : Nat
  PlaceStake : Nat
  WithdrawStake : Nat
  WithdrawReward : Nat
deriving DecidableEq, Repr

/-! ## View graph (`graph.go`) -/

structure Graph where
  transactions : List (TransactionID × Transaction) := []
  children : List (TransactionID × List TransactionID) := []
  eligible : List TransactionID := []
  incomplete : List TransactionID := []
  missing : List TransactionID := []
  seedIndex : List (Nat × List TransactionID) := []
  depthIndex : List (Nat × List TransactionID) := []
  roundIndex : List (Nat × List TransactionID) := []
  rootID : TransactionID := 0
  height : Nat := 0
deriving DecidableEq, Repr

def ErrMissingParents : String := "parents for transaction are not in graph"

def ErrAlreadyExists : String := "transaction already exists in the graph"

/-- The loop of `assertTransactionIsValid` from index `i` down to index 1, with
the set of the parent ids seen so far. -/
def checkParents (tx : Transaction) : Nat → List TransactionID → Option String
  | 0, _ => none
  | i + 1, set =>
    if tx.ID = tx.ParentIDs.getD (i + 1) 0 then
      some "tx must not include itself in its parents"
    else if tx.ParentIDs.getD i 0 > tx.ParentIDs.getD (i + 1) 0 then
      some "tx must have sorted parent ids"
    else if tx.ParentIDs.getD (i + 1) 0 ∈ set then
      some "tx must not have duplicate parent ids"
    else checkParents tx i (setAdd set (tx.ParentIDs.getD (i + 1) 0))

def assertTransactionIsValid (tx : Transaction) : Option String :=
  if tx.ID = ZeroTransactionID then some "tx must have an id"
  else if tx.Sender = ZeroAccountID then some "tx must have sender associated to it"
  else if tx.Creator = ZeroAccountID then some "tx must have a creator associated to it"
  else if tx.ParentIDs.length = 0 then some "transaction has no parents"
  else
    match checkParents tx (tx.ParentIDs.length - 1) [] with
    | some err => some err
    | none =>
      if tx.Tag > TagStake then some "tx has an unknown tag"
      else if tx.Tag ≠ TagNop ∧ tx.Payload.length = 0 then
        some "tx must have payload if not a nop transaction"
      else if tx.Tag = TagNop ∧ tx.Payload.length ≠ 0 then
        some "tx must have no payload if is a nop transaction"
      else none

def lookupTransactionByID (g : Graph) (id : TransactionID) : Graph × Option Transaction :=
  match mapGet g.transactions id with
  | some tx => (g, some tx)
  | none =>
    if id ∈ g.missing then (g, none)
    else ({ g with missing := setAdd g.missing id }, none)

def LookupTransactionByID (g : Graph) (id : TransactionID) : Graph × Option Transaction :=
  lookupTransactionByID g id

/-- The loop of `assertTransactionIsComplete` over the parent ids that are left,
with the running `maxDepth` and `maxConfidence`; the result is an error or the
two maxima. -/
def completeLoop (sys : SysConf) (tx : Transaction) :
    List TransactionID → Graph → Nat → Nat → Graph × (String ⊕ (Nat × Nat))
  | [], g, maxDepth, maxConfidence => (g, Sum.inr (maxDepth, maxConfidence))
  | parentID :: rest, g, maxDepth, maxConfidence =>
    match lookupTransactionByID g parentID with
    | (g1, none) => (g1, Sum.inl "parent not stored in graph")
    | (g1, some parent) =>
      if add64 parent.Depth sys.MaxEligibleParentsDepthDiff < tx.Depth then
        (g1, Sum.inl "tx parents exceeds max eligible parents depth diff")
      else
        completeLoop sys tx rest g1
          (if maxDepth < parent.Depth then parent.Depth else maxDepth)
          (if maxConfidence < parent.Confidence then parent.Confidence else maxConfidence)

def assertTransactionIsComplete (sys : SysConf) (g : Graph) (tx : Transaction) :
    Graph × Option String :=
  match completeLoop sys tx tx.ParentIDs g 0 0 with
  | (g1, Sum.inl err) => (g1, some err)
  | (g1, Sum.inr (maxDepth, maxConfidence)) =>
    if tx.Depth ≠ add64 maxDepth 1 then
      (g1, some "transactions depth is invalid")
    else if tx.Confidence ≠ add64 maxConfidence tx.ParentIDs.length then
      (g1, some "transactions confidence is invalid")
    else (g1, none)

/-- One iteration of the loop of `processParents`. -/
def processParent (tx : Transaction) (acc : Graph × List TransactionID)
    (parentID : TransactionID) : Graph × List TransactionID :=
  let r := lookupTransactionByID acc.1 parentID
  let g1 := r.1
  let missingParentIDs :=
    if r.2.isNone ∨ parentID ∈ g1.incomplete then acc.2 ++ [parentID] else acc.2
  ({ g1 with
      children := mapSet g1.children parentID (mapGetD g1.children parentID [] ++ [tx.ID])
      eligible := setDel g1.eligible parentID },
   missingParentIDs)

def processParents (g : Graph) (tx : Transaction) : Graph × List TransactionID :=
  tx.ParentIDs.foldl (processParent tx) (g, [])

def deleteTransaction (g : Graph) (id : TransactionID) : Graph :=
  let g1 : Graph :=
    match mapGet g.transactions id with
    | some tx =>
      let seedIndex := mapSet g.seedIndex tx.Seed (setDel (mapGetD g.seedIndex tx.Seed []) id)
      let depthIndex :=
        mapSet g.depthIndex tx.Depth (setDel (mapGetD g.depthIndex tx.Depth []) id)
      let seedIndex :=
        if (mapGetD seedIndex tx.Seed []).length = 0 then mapDel seedIndex tx.Seed
        else seedIndex
      let depthIndex :=
        if (mapGetD depthIndex tx.Depth []).length = 0 then mapDel depthIndex tx.Depth
        else depthIndex
      { g with seedIndex := seedIndex, depthIndex := depthIndex }
    | none => g
  { g1 with
    transactions := mapDel g1.transactions id
    children := mapDel g1.children id
    eligible := setDel g1.eligible id
    incomplete := setDel g1.incomplete id
    missing := setDel g1.missing id }

def DeleteTransaction (g : Graph) (id : TransactionID) : Graph :=
  deleteTransaction g id

def deleteIncompleteTransaction (g : Graph) (id : TransactionID) : Graph :=
  let children := mapGetD g.children id []
  children.foldl deleteTransaction (deleteTransaction g id)

def createTransactionIndices (sys : SysConf) (g : Graph) (tx : Transaction) : Graph :=
  let g1 : Graph :=
    { g with seedIndex := mapSet g.seedIndex tx.Seed (setAdd (mapGetD g.seedIndex tx.Seed []) tx.ID) }
  let g2 : Graph :=
    { g1 with
      depthIndex := mapSet g1.depthIndex tx.Depth (setAdd (mapGetD g1.depthIndex tx.Depth []) tx.ID) }
  let g3 : Graph :=
    if g2.height < tx.Depth then { g2 with height := add64 tx.Depth 1 } else g2
  if (mapGet g3.children tx.ID).isNone then
    if add64 tx.Depth sys.MaxEligibleParentsDepthDiff ≥ g3.height then
      { g3 with eligible := setAdd g3.eligible tx.ID }
    else g3
  else g3

/-- The test `complete` of `markTransactionAsComplete`: no parent of the child
is incomplete and every parent is stored. -/
def parentsComplete (g : Graph) (parentIDs : List TransactionID) : Bool :=
  parentIDs.all (fun parentID =>
    decide (parentID ∉ g.incomplete) && (mapGet g.transactions parentID).isSome)

/-- The loop of `markTransactionAsComplete` over the children that are left;
`mark` is the recursive call. The result of the recursive call is discarded, as
in the source. -/
def promoteChildren (mark : Graph → Transaction → Option (Graph × Option String)) :
    List TransactionID → Graph → Option Graph
  | [], g => some g
  | childID :: rest, g =>
    if childID ∉ g.incomplete then promoteChildren mark rest g
    else
      match mapGet g.transactions childID with
      | none => promoteChildren mark rest g
      | some child =>
        if parentsComplete g child.ParentIDs then
          match mark { g with incomplete := setDel g.incomplete childID } child with
          | none => none
          | some r => promoteChildren mark rest r.1
        else promoteChildren mark rest g

/-- The recursion of `markTransactionAsComplete`, at most `fuel` calls deep;
`none` when the fuel does not suffice. -/
def markTransactionAsComplete (sys : SysConf) :
    Nat → Graph → Transaction → Option (Graph × Option String)
  | 0, _, _ => none
  | fuel + 1, g, tx =>
    match assertTransactionIsComplete sys g tx with
    | (g1, some err) => some (deleteIncompleteTransaction g1 tx.ID, some err)
    | (g1, none) =>
      let g2 := createTransactionIndices sys g1 tx
      match promoteChildren (markTransactionAsComplete sys fuel)
          (mapGetD g2.children tx.ID []) g2 with
      | none => none
      | some g3 => some (g3, none)

/-- Every recursive call of `markTransactionAsComplete` first takes an id out
of `incomplete`, so `incomplete.length + 1` nested calls suffice. -/
def AddTransaction (sys : SysConf) (g : Graph) (tx : Transaction) :
    Option (Graph × Option String) :=
  if (mapGet g.transactions tx.ID).isSome then some (g, some ErrAlreadyExists)
  else
    match assertTransactionIsValid tx with
    | some err => some (g, some err)
    | none =>
      let g1 : Graph := { g with transactions := mapSet g.transactions tx.ID tx }
      let g2 : Graph := { g1 with missing := setDel g1.missing tx.ID }
      let r := processParents g2 tx
      if r.2.length > 0 then
        some ({ r.1 with incomplete := setAdd r.1.incomplete tx.ID }, some ErrMissingParents)
      else markTransactionAsComplete sys (r.1.incomplete.length + 1) r.1 tx

def NewGraph (sys : SysConf) (genesis : Option Round) : Graph :=
  let g : Graph := { height := 1 }
  let g1 : Graph :=
    match genesis with
    | some round =>
      { g with
        rootID := round.Root.ID
        transactions := mapSet g.transactions round.Root.ID round.Root }
    | none =>
      let ptr : Transaction := {}
      { g with rootID := ptr.ID, transactions := mapSet g.transactions ptr.ID ptr }
  let root := mapGetD g1.transactions g1.rootID {}
  createTransactionIndices sys { g1 with height := add64 root.Depth 1 } root

/-- One iteration of the loop of `FindEligibleParents`. -/
def findEligibleStep (sys : SysConf) (root : Transaction)
    (acc : Graph × List TransactionID) (eligibleID : TransactionID) :
    Graph × List TransactionID :=
  let g := acc.1
  match mapGet g.transactions eligibleID with
  | none => ({ g with eligible := setDel g.eligible eligibleID }, acc.2)
  | some eligibleParent =>
    if eligibleParent.ID ≠ root.ID ∧ eligibleParent.Depth ≤ root.Depth then
      ({ g with eligible := setDel g.eligible eligibleID }, acc.2)
    else if add64 eligibleParent.Depth sys.MaxEligibleParentsDepthDiff ≤ g.height then
      ({ g with eligible := setDel g.eligible eligibleID }, acc.2)
    else (g, acc.2 ++ [eligibleID])

/-- The root is read without a test of its presence; `none` is the nil pointer
dereference of `root.ID` when the root is not stored and `eligible` has an
entry that is stored. -/
def FindEligibleParents (sys : SysConf) (g : Graph) : Option (Graph × List TransactionID) :=
  match mapGet g.transactions g.rootID with
  | some root => some (g.eligible.foldl (findEligibleStep sys root) (g, []))
  | none =>
    if g.eligible.all (fun id => (mapGet g.transactions id).isNone) then
      some ({ g with eligible := [] }, [])
    else none

/-- The inner loop of `Reset`: every id of `depthIndex[i]` goes into
`roundIndex[index]`. -/
def addDepthToRound (g : Graph) (index : Nat) (i : Nat) : Graph :=
  let ids := (mapGetD g.depthIndex i []).foldl setAdd (mapGetD g.roundIndex index [])
  { g with roundIndex := mapSet g.roundIndex index ids }

/-- The outer loop of `Reset` for the `n` depths `i, i + 1, ...`. -/
def resetDepths (index : Nat) : Nat → Nat → Graph → Graph
  | 0, _, g => g
  | n + 1, i, g => resetDepths index n (i + 1) (addDepthToRound g index i)

/-- The old root is read without a test of its presence, and the loop counter is
a `uint64`: the result is `none` when the old root is not stored (nil pointer
dereference) and when the new root has depth `2 ^ 64 - 1` and the loop is
entered (the loop condition can then never fail). -/
def Reset (sys : SysConf) (g : Graph) (newRound : Round) : Option Graph :=
  let g1 : Graph :=
    { g with transactions := mapSet g.transactions newRound.Root.ID newRound.Root }
  let g2 := createTransactionIndices sys g1 newRound.Root
  match mapGet g2.transactions g2.rootID with
  | none => none
  | some oldRoot =>
    let g3 : Graph := { g2 with roundIndex := mapSet g2.roundIndex newRound.Index [] }
    let lo := add64 oldRoot.Depth 1
    let hi := newRound.Root.Depth
    if lo ≤ hi ∧ hi + 1 = u64 then none
    else
      let g4 := resetDepths newRound.Index (hi + 1 - lo) lo g3
      some { g4 with rootID := newRound.Root.ID }

/-- One iteration of the outer loop of `Prune`. -/
def pruneStep (sys : SysConf) (round : Round) (g : Graph)
    (entry : Nat × List TransactionID) : Graph :=
  if add64 entry.1 sys.PruningDepth ≤ round.Index then
    let g1 := entry.2.foldl deleteTransaction g
    { g1 with roundIndex := mapDel g1.roundIndex entry.1 }
  else g

def Prune (sys : SysConf) (g : Graph) (round : Round) : Graph :=
  g.roundIndex.foldl (pruneStep sys round) g

def TransactionApplied (g : Graph) (id : TransactionID) : Bool :=
  g.roundIndex.any (fun round => decide (id ∈ round.2))

def MissingTransactions (g : Graph) : List TransactionID :=
  g.missing

def TransactionsWithDifficulty (g : Graph) (difficulty : Nat) :
    Option (List TransactionID) :=
  mapGet g.seedIndex difficulty

def NumTransactionsInDepth (g : Graph) (depth : Nat) : Nat :=
  (mapGetD g.depthIndex depth []).length

def NumTransactionsInStore (g : Graph) : Nat :=
  g.transactions.length

def NumMissingTransactions (g : Graph) : Nat :=
  g.missing.length

def Height (g : Graph) : Nat :=
  g.height

/-! ## Snowball (`snowball.go`) -/

/-- The declaration of `snowballVote` is not part of the sources. `Tick` reads
its field `id` only; `ptr` stands for the rest of the value a
`*snowballVote` points to, so that two votes may share an id. -/
structure snowballVote where
  id : BlockID
  ptr : Nat := 0
deriving DecidableEq, Repr

/-- The integer nearest to `q`, and the even one of the two nearest when `q`
lies halfway between them: the rounding rule of `float64` arithmetic. -/
def roundHalfEven (q : ℚ) : ℤ :=
  if q - ⌊q⌋ < 1 / 2 then ⌊q⌋
  else if 1 / 2 < q - ⌊q⌋ then ⌊q⌋ + 1
  else if ⌊q⌋ % 2 = 0 then ⌊q⌋ else ⌊q⌋ + 1

/-- The number `m * 2 ^ e` with `|m| <= 2 ^ 53` and `e >= -1074` that is nearest
to `q`, ties to even: what `q` rounds to in `float64` (53 significant bits,
subnormal numbers below `2 ^ -1022`), before the test for overflow. -/
def nearestFloat64 (q : ℚ) : ℚ :=
  if q = 0 then 0
  else
    roundHalfEven (q / 2 ^ max (Int.log 2 |q| - 52) (-1074))
      * 2 ^ max (Int.log 2 |q| - 52) (-1074)

/-- The result of an operation of `float64` arithmetic on finite operands, NaN
apart: a number or an infinity. -/
inductive Float64 where
  | finite (value : ℚ)
  | posInf
  | negInf
deriving DecidableEq

/-- The value of `float64` that the exact result `q` of an operation rounds to:
the nearest number, or an infinity when that is `2 ^ 1024` or beyond. -/
def roundFloat64 (q : ℚ) : Float64 :=
  if 2 ^ 1024 ≤ nearestFloat64 q then Float64.posInf
  else if nearestFloat64 q ≤ -(2 ^ 1024) then Float64.negInf
  else Float64.finite (nearestFloat64 q)

/-- The `float64` quotient `x / d` for a divisor `d` that is a number and at
least 2. -/
def divFloat64 (x : Float64) (d : ℚ) : Float64 :=
  match x with
  | Float64.finite value => roundFloat64 (value / d)
  | Float64.posInf => Float64.posInf
  | Float64.negInf => Float64.negInf

/-- The comparison `t < x` of a number with a value of `float64`. -/
def lessThan (t : ℚ) (x : Float64) : Bool :=
  match x with
  | Float64.finite value => decide (t < value)
  | Float64.posInf => true
  | Float64.negInf => false

/-- The values `conf.GetSnowballAlpha()` and `conf.GetSnowballBeta()`. The
`float64` quorum fraction and the tallies are finite values of `float64`, given
as the rational numbers they are; NaN and infinite tallies are not modelled. -/
structure Conf where
  SnowballAlpha : ℚ
  SnowballBeta : Int

structure Snowball where
  beta : Int := 0
  alpha : Int := 0
  count : Int := 0
  counts : List (BlockID × Nat) := []
  preferred : Option snowballVote := none
  last : Option snowballVote := none
  decided : Bool := false
deriving DecidableEq

def NewSnowball : Snowball :=
  { counts := [] }

def Snowball.Reset (s : Snowball) : Snowball :=
  { s with preferred := none, last := none, counts := [], count := 0, decided := false }

/-- How a call of `Tick` ends: it returns, or it stops at the nil pointer
dereference `s.preferred.id` with the receiver as it is at that point. -/
inductive TickResult where
  | returned (s : Snowball)
  | panicked (s : Snowball)
deriving DecidableEq

/-- One iteration of the loop of `Tick` over `tallies`; `votes[id]` is nil when
`id` has no vote. -/
def majorityStep (votes : List (VoteID × snowballVote))
    (acc : Option snowballVote × ℚ) (entry : VoteID × ℚ) : Option snowballVote × ℚ :=
  if entry.2 > acc.2 then (mapGet votes entry.1, entry.2) else acc

def Snowball.Tick (conf : Conf) (s : Snowball) (tallies : List (VoteID × ℚ))
    (votes : List (VoteID × snowballVote)) : TickResult :=
  if s.decided then TickResult.returned s
  else
    let m := tallies.foldl (majorityStep votes) (none, 0)
    let denom : ℚ :=
      if nearestFloat64 (votes.length : ℚ) < 2 then 2 else nearestFloat64 (votes.length : ℚ)
    match m.1 with
    | none => TickResult.returned { s with count := 0 }
    | some majority =>
      if lessThan m.2 (divFloat64 (roundFloat64 (conf.SnowballAlpha * 2)) denom) then
        TickResult.returned { s with count := 0 }
      else
        let s1 : Snowball :=
          { s with counts := mapSet s.counts majority.id ((mapGetD s.counts majority.id 0 + 1) % u16) }
        match s1.preferred with
        | none => TickResult.panicked s1
        | some preferred =>
          let s2 : Snowball :=
            if mapGetD s1.counts majority.id 0 > mapGetD s1.counts preferred.id 0 then
              { s1 with preferred := some majority }
            else s1
          match s2.last with
          | none => TickResult.returned { s2 with last := some majority, count := 1 }
          | some last =>
            if majority.id ≠ last.id then
              TickResult.returned { s2 with last := some majority, count := 1 }
            else
              let s3 : Snowball := { s2 with count := wrapInt (s2.count + 1) }
              if s3.count > conf.SnowballBeta then
                TickResult.returned { s3 with decided := true }
              else TickResult.returned s3

def Snowball.Prefer (s : Snowball) (b : Option snowballVote) : Snowball :=
  { s with preferred := b }

def Snowball.Preferred (s : Snowball) : Option snowballVote :=
  s.preferred

def Snowball.Decided (s : Snowball) : Bool :=
  s.decided

def Snowball.Progress (s : Snowball) : Int :=
  s.count

/-- A stream of ticks, one after another; a tick that panics ends the stream. -/
def Snowball.Ticks (conf : Conf) :
    Snowball → List (List (VoteID × ℚ) × List (VoteID × snowballVote)) → TickResult
  | s, [] => TickResult.returned s
  | s, t :: rest =>
    match Snowball.Tick conf s t.1 t.2 with
    | TickResult.returned s1 => Snowball.Ticks conf s1 rest
    | TickResult.panicked s1 => TickResult.panicked s1

/-! ## Transaction applier (`tx_applier.go`) -/

/-- Modelled from the spec: the keys of the persisted-state key layout
(`balance/<account>`, `stake/<account>`, `reward/<account>`,
`contract_code/<account>`, `contract_gas_balance/<account>`,
`reward_withdrawal/<round>/<account>/<seq>`). -/
inductive Key where
  | balance (account : AccountID)
  | stake (account : AccountID)
  | reward (account : AccountID)
  | contractCode (account : AccountID)
  | contractGasBalance (account : AccountID)
  | rewardWithdrawal (round : Nat) (account : AccountID) (seq : Nat)
deriving DecidableEq, Repr

/-- Modelled from the spec: a stored value, a `u64` or bytes. -/
inductive Val where
  | u64 (n : Nat)
  | bytes (b : List Nat)
deriving DecidableEq, Repr

/-- Modelled from the spec: the state tree `avl.Tree`, of which the sources use
the interface only, as the map from keys to values it stores. -/
abbrev Tree := List (Key × Val)

/-- Modelled from the spec: `snapshot()` hands out the tree as it is. -/
def Tree.Snapshot (t : Tree) : Tree := t

/-- Modelled from the spec: `revert(snapshot)` makes the tree the snapshot. -/
def Tree.Revert (_t : Tree) (snapshot : Tree) : Tree := snapshot

/-- Modelled from the spec: the `u64` under a key, and whether there is one. -/
def readU64 (t : Tree) (k : Key) : Nat × Bool :=
  match mapGet t k with
  | some (Val.u64 n) => (n, true)
  | _ => (0, false)

/-- Modelled from the spec: the accessor of `balance/<account>`. -/
def ReadAccountBalance (t : Tree) (id : AccountID) : Nat × Bool :=
  readU64 t (Key.balance id)

/-- Modelled from the spec: the writer of `balance/<account>`. -/
def WriteAccountBalance (t : Tree) (id : AccountID) (balance : Nat) : Tree :=
  mapSet t (Key.balance id) (Val.u64 balance)

/-- Modelled from the spec: the accessor of `stake/<account>`. -/
def ReadAccountStake (t : Tree) (id : AccountID) : Nat × Bool :=
  readU64 t (Key.stake id)

/-- Modelled from the spec: the writer of `stake/<account>`. -/
def WriteAccountStake (t : Tree) (id : AccountID) (stake : Nat) : Tree :=
  mapSet t (Key.stake id) (Val.u64 stake)

/-- Modelled from the spec: the accessor of `reward/<account>`. -/
def ReadAccountReward (t : Tree) (id : AccountID) : Nat × Bool :=
  readU64 t (Key.reward id)

/-- Modelled from the spec: the writer of `reward/<account>`. -/
def WriteAccountReward (t : Tree) (id : AccountID) (reward : Nat) : Tree :=
  mapSet t (Key.reward id) (Val.u64 reward)

/-- Modelled from the spec: the accessor of `contract_gas_balance/<account>`. -/
def ReadAccountContractGasBalance (t : Tree) (id : AccountID) : Nat × Bool :=
  readU64 t (Key.contractGasBalance id)

/-- Modelled from the spec: the writer of `contract_gas_balance/<account>`. -/
def WriteAccountContractGasBalance (t : Tree) (id : AccountID) (gas : Nat) : Tree :=
  mapSet t (Key.contractGasBalance id) (Val.u64 gas)

/-- Modelled from the spec: the accessor of `contract_code/<account>`. -/
def ReadAccountContractCode (t : Tree) (id : AccountID) : List Nat × Bool :=
  match mapGet t (Key.contractCode id) with
  | some (Val.bytes code) => (code, true)
  | _ => ([], false)

/-- Modelled from the spec: the writer of `contract_code/<account>`. -/
def WriteAccountContractCode (t : Tree) (id : AccountID) (code : List Nat) : Tree :=
  mapSet t (Key.contractCode id) (Val.bytes code)

structure contractExecutorState where
  GasPayer : AccountID := 0
  GasLimit : Nat := 0
  GasLimitIsSet : Bool := false
deriving DecidableEq, Repr

/-- The fields of the parsed payload of a transfer. -/
structure Transfer where
  Recipient : AccountID := 0
  Amount : Nat := 0
  GasLimit : Nat := 0
  GasDeposit : Nat := 0
  FuncName : List Nat := []
  FuncParams : List Nat := []
deriving DecidableEq, Repr

/-- The fields of the parsed payload of a stake transaction. -/
structure Stake where
  Opcode : Nat := 0
  Amount : Nat := 0
deriving DecidableEq, Repr

/-- The fields of the parsed payload of a contract creation. -/
structure Contract where
  GasLimit : Nat := 0
  GasDeposit : Nat := 0
  Params : List Nat := []
  Code : List Nat := []
deriving DecidableEq, Repr

/-- The fields of the parsed payload of a batch. -/
structure Batch where
  Size : Nat := 0
  Tags : List Nat := []
  Payloads : List (List Nat) := []
deriving DecidableEq, Repr

structure RewardWithdrawalRequest where
  account : AccountID
  amount : Nat
  round : Nat
deriving DecidableEq, Repr

/-- What `ContractExecutor.Execute` leaves behind: the tree as the contract
wrote it, the fields `Gas`, `GasLimitExceeded` and `Queue` of the executor and
the error of the invocation. -/
structure Execution where
  tree : Tree
  Gas : Nat
  GasLimitExceeded : Bool := false
  Queue : List Transaction := []
  err : Option String := none

/-- The collaborators of the applier that the sources call and do not define:
the constants of `sys`, the payload parsers, the store of reward withdrawal
requests and the contract executor (arguments in the order of the call in
`executeContractInTransactionContext`). -/
structure Env where
  sys : SysConf
  ParseTransferTransaction : List Nat → Except String Transfer
  ParseStakeTransaction : List Nat → Except String Stake
  ParseContractTransaction : List Nat → Except String Contract
  ParseBatchTransaction : List Nat → Except String Batch
  StoreRewardWithdrawalRequest : Tree → RewardWithdrawalRequest → Tree
  Execute : Tree → AccountID → Round → Transaction → Nat → Nat → List Nat → List Nat →
    List Nat → Execution

/-- How a call of the applier ends: it returns an error or nil and leaves the
tree and the executor state as given; or the process stops in `logger.Fatal`;
or it stops in an index out of range; or the embedding ran out of fuel. -/
inductive Outcome where
  | returned (tree : Tree) (state : contractExecutorState) (err : Option String)
  | fatal (msg : String)
  | panicked
  | outOfFuel
deriving DecidableEq

def transferValue (unitName : String) (snapshot : Tree) (src dst : AccountID) (amount : Nat)
    (srcRead : Tree → AccountID → Nat × Bool) (srcWrite : Tree → AccountID → Nat → Tree)
    (dstRead : Tree → AccountID → Nat × Bool) (dstWrite : Tree → AccountID → Nat → Tree) :
    Tree × Option String :=
  let senderValue := (srcRead snapshot src).1
  if senderValue < amount then
    (snapshot, some ("transfer_value: tried to send more " ++ unitName ++ " than the sender has"))
  else
    let snapshot1 := srcWrite snapshot src (senderValue - amount)
    let recipientValue := (dstRead snapshot1 dst).1
    (dstWrite snapshot1 dst (add64 recipientValue amount), none)

/-- The payment of `gas` for an invocation, first from the gas balance of the
contract and then from the balance of the gas payer; `none` is the fatal
`BUG: gasPayerBalance < (executor.Gas - contractGasBalance)`. Both branches of
`executeContractInTransactionContext` carry this same block. -/
def deductGas (snapshot : Tree) (contractID gasPayer : AccountID)
    (gasPayerBalance contractGasBalance gas : Nat) : Option Tree :=
  if gas > contractGasBalance then
    let snapshot1 := WriteAccountContractGasBalance snapshot contractID 0
    if gasPayerBalance < gas - contractGasBalance then none
    else some (WriteAccountBalance snapshot1 gasPayer (gasPayerBalance - (gas - contractGasBalance)))
  else some (WriteAccountContractGasBalance snapshot contractID (contractGasBalance - gas))

/-- The loop over `executor.Queue`: the error of a sub-transaction is logged and
dropped. `apply` is the recursive call of `applyTransaction`. -/
def applyQueue (apply : Round → Tree → Transaction → contractExecutorState → Outcome)
    (round : Round) : List Transaction → Tree → contractExecutorState → Outcome
  | [], snapshot, state => Outcome.returned snapshot state none
  | entry :: rest, snapshot, state =>
    match apply round snapshot entry state with
    | Outcome.returned snapshot1 state1 _ => applyQueue apply round rest snapshot1 state1
    | other => other

def executeContractInTransactionContext (env : Env)
    (apply : Round → Tree → Transaction → contractExecutorState → Outcome)
    (tx : Transaction) (contractID : AccountID) (code : List Nat) (snapshot : Tree)
    (round : Round) (amount requestedGasLimit : Nat) (funcName funcParams : List Nat)
    (state : contractExecutorState) : Outcome :=
  let gasPayerBalance := (ReadAccountBalance snapshot state.GasPayer).1
  let contractGasBalance := (ReadAccountContractGasBalance snapshot contractID).1
  let availableBalance := add64 gasPayerBalance contractGasBalance
  let state1 : contractExecutorState :=
    if state.GasLimitIsSet then state
    else { state with GasLimit := requestedGasLimit, GasLimitIsSet := true }
  let realGasLimit :=
    if requestedGasLimit < state1.GasLimit then requestedGasLimit else state1.GasLimit
  if availableBalance < realGasLimit then
    Outcome.returned snapshot state1
      (some "execute_contract: attempted to deduct gas fee, but the balance is too low")
  else
    let snapshotBeforeExec := Tree.Snapshot snapshot
    let executor :=
      env.Execute snapshot contractID round tx amount realGasLimit funcName funcParams code
    if realGasLimit < executor.Gas then Outcome.fatal "BUG: realGasLimit < executor.Gas"
    else if state1.GasLimit < realGasLimit then
      Outcome.fatal "BUG: state.GasLimit < realGasLimit"
    else if executor.GasLimitExceeded ∨ executor.err.isSome then
      match deductGas (Tree.Revert executor.tree snapshotBeforeExec) contractID state1.GasPayer
          gasPayerBalance contractGasBalance executor.Gas with
      | none => Outcome.fatal "BUG: gasPayerBalance < (executor.Gas - contractGasBalance)"
      | some snapshot1 =>
        Outcome.returned snapshot1
          { state1 with GasLimit := sub64 state1.GasLimit executor.Gas } none
    else
      match deductGas executor.tree contractID state1.GasPayer
          gasPayerBalance contractGasBalance executor.Gas with
      | none => Outcome.fatal "BUG: gasPayerBalance < (executor.Gas - contractGasBalance)"
      | some snapshot1 =>
        applyQueue apply round executor.Queue snapshot1
          { state1 with GasLimit := sub64 state1.GasLimit executor.Gas }

def applyTransferTransaction (env : Env)
    (apply : Round → Tree → Transaction → contractExecutorState → Outcome)
    (snapshot : Tree) (round : Round) (tx : Transaction) (state : contractExecutorState) :
    Outcome :=
  match env.ParseTransferTransaction tx.Payload with
  | Except.error err => Outcome.returned snapshot state (some err)
  | Except.ok params =>
    let code := (ReadAccountContractCode snapshot params.Recipient).1
    let codeAvailable := (ReadAccountContractCode snapshot params.Recipient).2
    if !codeAvailable ∧
        (params.GasLimit > 0 ∨ params.FuncName.length > 0 ∨ params.FuncParams.length > 0) then
      Outcome.returned snapshot state
        (some "transfer: transactions to non-contract accounts should not specify gas limit or function names or params")
    else if tx.Creator = env.sys.FaucetAddress then
      let recipientBalance := (ReadAccountBalance snapshot params.Recipient).1
      Outcome.returned
        (WriteAccountBalance snapshot params.Recipient (add64 recipientBalance params.Amount))
        state none
    else
      match transferValue "PERL" snapshot tx.Creator params.Recipient params.Amount
          ReadAccountBalance WriteAccountBalance ReadAccountBalance WriteAccountBalance with
      | (snapshot1, some err) =>
        Outcome.returned snapshot1 state
          (some ("failed to execute transferValue on balance: " ++ err))
      | (snapshot1, none) =>
        if !codeAvailable then Outcome.returned snapshot1 state none
        else
          let r : Tree × Option String :=
            if params.GasDeposit ≠ 0 then
              transferValue "PERL (Gas Deposit)" snapshot1 tx.Creator params.Recipient
                params.GasDeposit ReadAccountBalance WriteAccountBalance
                ReadAccountContractGasBalance WriteAccountContractGasBalance
            else (snapshot1, none)
          match r with
          | (snapshot2, some err) =>
            Outcome.returned snapshot2 state
              (some ("failed to execute transferValue on gas deposit: " ++ err))
          | (snapshot2, none) =>
            if params.FuncName.length = 0 then Outcome.returned snapshot2 state none
            else
              executeContractInTransactionContext env apply tx params.Recipient code snapshot2
                round params.Amount params.GasLimit params.FuncName params.FuncParams state

def applyStakeTransaction (env : Env) (snapshot : Tree) (round : Round) (tx : Transaction) :
    Tree × Option String :=
  match env.ParseStakeTransaction tx.Payload with
  | Except.error err => (snapshot, some err)
  | Except.ok params =>
    let balance := (ReadAccountBalance snapshot tx.Creator).1
    let stake := (ReadAccountStake snapshot tx.Creator).1
    let reward := (ReadAccountReward snapshot tx.Creator).1
    if params.Opcode = env.sys.PlaceStake then
      if balance < params.Amount then
        (snapshot, some "stake: attempt to place a stake of more PERLs than the balance")
      else
        let snapshot1 := WriteAccountBalance snapshot tx.Creator (balance - params.Amount)
        (WriteAccountStake snapshot1 tx.Creator (add64 stake params.Amount), none)
    else if params.Opcode = env.sys.WithdrawStake then
      if stake < params.Amount then
        (snapshot, some "stake: attempt to withdraw a stake of more PERLs than are staked")
      else
        let snapshot1 := WriteAccountBalance snapshot tx.Creator (add64 balance params.Amount)
        (WriteAccountStake snapshot1 tx.Creator (stake - params.Amount), none)
    else if params.Opcode = env.sys.WithdrawReward then
      if params.Amount < env.sys.MinimumRewardWithdraw then
        (snapshot, some "stake: attempt to withdraw rewards below the minimum amount")
      else if reward < params.Amount then
        (snapshot, some "stake: attempt to withdraw more rewards than there are")
      else
        let snapshot1 := WriteAccountReward snapshot tx.Creator (reward - params.Amount)
        (env.StoreRewardWithdrawalRequest snapshot1
          { account := tx.Creator, amount := params.Amount, round := round.Index }, none)
    else (snapshot, none)

def applyContractTransaction (env : Env)
    (apply : Round → Tree → Transaction → contractExecutorState → Outcome)
    (snapshot : Tree) (round : Round) (tx : Transaction) (state : contractExecutorState) :
    Outcome :=
  match env.ParseContractTransaction tx.Payload with
  | Except.error err => Outcome.returned snapshot state (some err)
  | Except.ok params =>
    if (ReadAccountContractCode snapshot tx.ID).2 then
      Outcome.returned snapshot state (some "contract: already exists")
    else
      let snapshot1 := WriteAccountContractCode snapshot tx.ID params.Code
      let r : Tree × Option String :=
        if params.GasDeposit ≠ 0 then
          transferValue "PERL (Gas Deposit)" snapshot1 tx.Creator tx.ID params.GasDeposit
            ReadAccountBalance WriteAccountBalance
            ReadAccountContractGasBalance WriteAccountContractGasBalance
        else (snapshot1, none)
      match r with
      | (snapshot2, some err) =>
        Outcome.returned snapshot2 state
          (some ("failed to execute transferValue on gas deposit: " ++ err))
      | (snapshot2, none) =>
        executeContractInTransactionContext env apply tx tx.ID params.Code snapshot2 round 0
          params.GasLimit [105, 110, 105, 116] params.Params state

/-- The loop of `applyBatchTransaction` from entry `i` on, `n` entries being
left; an entry that `Tags` or `Payloads` does not have is an index out of
range. -/
def applyBatchEntries (apply : Round → Tree → Transaction → contractExecutorState → Outcome)
    (round : Round) (tx : Transaction) (params : Batch) :
    Nat → Nat → Tree → contractExecutorState → Outcome
  | 0, _, snapshot, state => Outcome.returned snapshot state none
  | n + 1, i, snapshot, state =>
    match params.Tags.get? i, params.Payloads.get? i with
    | some tag, some payload =>
      let entry : Transaction :=
        { ID := tx.ID, Sender := tx.Sender, Creator := tx.Creator, Nonce := tx.Nonce,
          Tag := tag, Payload := payload }
      match apply round snapshot entry state with
      | Outcome.returned snapshot1 state1 (some err) =>
        Outcome.returned snapshot1 state1
          (some ("Error while processing a transaction in a batch.: " ++ err))
      | Outcome.returned snapshot1 state1 none =>
        applyBatchEntries apply round tx params n (i + 1) snapshot1 state1
      | other => other
    | _, _ => Outcome.panicked

def applyBatchTransaction (env : Env)
    (apply : Round → Tree → Transaction → contractExecutorState → Outcome)
    (snapshot : Tree) (round : Round) (tx : Transaction) (state : contractExecutorState) :
    Outcome :=
  match env.ParseBatchTransaction tx.Payload with
  | Except.error err => Outcome.returned snapshot state (some err)
  | Except.ok params => applyBatchEntries apply round tx params (params.Size % 256) 0 snapshot state

/-- The error of a failed step with its context, after the tree went back to
the snapshot `original`. -/
def revertOnError (original : Tree) (context : String) : Outcome → Outcome
  | Outcome.returned state execState (some err) =>
    Outcome.returned (Tree.Revert state original) execState (some (context ++ ": " ++ err))
  | other => other

/-- The recursion of `applyTransaction`, at most `fuel` calls deep: a batch
applies its entries and a contract the transactions it queued through the
calls `applyTransaction env fuel`. -/
def applyTransaction (env : Env) :
    Nat → Round → Tree → Transaction → contractExecutorState → Outcome
  | 0, _, _, _, _ => Outcome.outOfFuel
  | fuel + 1, round, state, tx, execState =>
    let original := Tree.Snapshot state
    if tx.Tag = TagNop then Outcome.returned state execState none
    else if tx.Tag = TagTransfer then
      revertOnError original "could not apply transfer transaction"
        (applyTransferTransaction env (applyTransaction env fuel) state round tx execState)
    else if tx.Tag = TagStake then
      match applyStakeTransaction env state round tx with
      | (state1, some err) =>
        Outcome.returned (Tree.Revert state1 original) execState
          (some ("could not apply stake transaction" ++ ": " ++ err))
      | (state1, none) => Outcome.returned state1 execState none
    else if tx.Tag = TagContract then
      revertOnError original "could not apply contract transaction"
        (applyContractTransaction env (applyTransaction env fuel) state round tx execState)
    else if tx.Tag = TagBatch then
      revertOnError original "could not apply batch transaction"
        (applyBatchTransaction env (applyTransaction env fuel) state round tx execState)
    else Outcome.returned state execState none

def ApplyTransaction (env : Env) (fuel : Nat) (round : Round) (state : Tree) (tx : Transaction) :
    Outcome :=
  applyTransaction env fuel round state tx { GasPayer := tx.Creator }

/-! ## Concrete collaborators, for evaluating the applier on literal inputs -/

/-- A payload codec for examples: a transfer is the list
`[recipient, amount, gasLimit, gasDeposit]` followed by the function name. -/
def exampleParseTransfer : List Nat → Except String Transfer
  | recipient :: amount :: gasLimit :: gasDeposit :: funcName =>
    Except.ok { Recipient := recipient, Amount := amount, GasLimit := gasLimit,
                GasDeposit := gasDeposit, FuncName := funcName }
  | _ => Except.error "transfer: failed to decode payload"

/-- A payload codec for examples: a stake payload is `[opcode, amount]`. -/
def exampleParseStake : List Nat → Except String Stake
  | [opcode, amount] => Except.ok { Opcode := opcode, Amount := amount }
  | _ => Except.error "stake: failed to decode payload"

/-- A payload codec for examples: a contract is `[gasLimit, gasDeposit]` followed
by its code. -/
def exampleParseContract : List Nat → Except String Contract
  | gasLimit :: gasDeposit :: code =>
    Except.ok { GasLimit := gasLimit, GasDeposit := gasDeposit, Code := code }
  | _ => Except.error "contract: failed to decode payload"

/-- A payload codec for examples: a batch of transfers, four numbers each. -/
def exampleParseBatch (payload : List Nat) : Except String Batch :=
  if payload.length % 4 = 0 then
    Except.ok { Size := payload.length / 4
                Tags := List.replicate (payload.length / 4) TagTransfer
                Payloads := (List.range (payload.length / 4)).map
                  (fun i => (payload.drop (4 * i)).take 4) }
  else Except.error "batch: failed to decode payload"

def exampleSys : SysConf :=
  { MaxEligibleParentsDepthDiff := 5, PruningDepth := 3, FaucetAddress := 999,
    MinimumRewardWithdraw := 100, PlaceStake := 1, WithdrawStake := 0, WithdrawReward := 2 }

/-- An environment for examples; its executor uses no gas, writes nothing and
queues nothing. -/
def exampleEnv : Env :=
  { sys := exampleSys
    ParseTransferTransaction := exampleParseTransfer
    ParseStakeTransaction := exampleParseStake
    ParseContractTransaction := exampleParseContract
    ParseBatchTransaction := exampleParseBatch
    StoreRewardWithdrawalRequest := fun t rw =>
      mapSet t (Key.rewardWithdrawal rw.round rw.account 0) (Val.u64 rw.amount)
    Execute := fun t _ _ _ _ _ _ _ _ => { tree := t, Gas := 0 } }

/-- The transfer of scenarios S1 and S2: `amount` PERL from account 1 to
account 2, no gas limit, no gas deposit, no function. -/
def exampleTransfer (amount : Nat) : Transaction :=
  { ID := 7, Sender := 1, Creator := 1, Tag := TagTransfer, Payload := [2, amount, 0, 0] }

/-- A state with the balances `a` of account 1 and `b` of account 2. -/
def exampleBalances (a b : Nat) : Tree :=
  [(Key.balance 1, Val.u64 a), (Key.balance 2, Val.u64 b)]

/-- The tallies of scenario S4: the `float64` values of 0.9 for X (id 1) and of
0.1 for Y (id 2). -/
def exampleTallies : List (VoteID × ℚ) :=
  [(1, nearestFloat64 (9 / 10)), (2, nearestFloat64 (1 / 10))]

/-- Ten votes, for the ids 1 to 10. -/
def exampleVotes : List (VoteID × snowballVote) :=
  [(1, { id := 1 }), (2, { id := 2 }), (3, { id := 3 }), (4, { id := 4 }), (5, { id := 5 }),
   (6, { id := 6 }), (7, { id := 7 }), (8, { id := 8 }), (9, { id := 9 }), (10, { id := 10 })]

/-- The parameters of scenario S4: alpha is the `float64` value of 0.8, with the
given beta. -/
def exampleConf (beta : Int) : Conf :=
  { SnowballAlpha := nearestFloat64 (4 / 5), SnowballBeta := beta }

/-- The value of `conf.GetSnowballAlpha()*2/denom` in `Tick`, where `denom` is
`float64(len(votes))`, or 2 when that is below 2: a product and a quotient of
`float64` arithmetic. -/
def threshold (conf : Conf) (votes : List (VoteID × snowballVote)) : Float64 :=
  divFloat64 (roundFloat64 (conf.SnowballAlpha * 2))
    (if nearestFloat64 (votes.length : ℚ) < 2 then 2 else nearestFloat64 (votes.length : ℚ))

/-- The vote `v` has the top tally of a tick: some id with the vote `v` has a
positive tally that is strictly larger than every other tally and is not below
the threshold of the tick, the `float64` value of
`alpha * 2 / max(2, |votes|)`. -/
def TopTally (conf : Conf) (v : snowballVote) (tallies : List (VoteID × ℚ))
    (votes : List (VoteID × snowballVote)) : Prop :=
  ∃ id t, (id, t) ∈ tallies ∧ mapGet votes id = some v ∧ 0 < t ∧
    (∀ e ∈ tallies, e = (id, t) ∨ e.2 < t) ∧
    lessThan t (threshold conf votes) = false

/-- The state after a tick that meets the threshold with majority `v`, on a
receiver whose preferred vote is `p`. -/
def tickedState (conf : Conf) (s : Snowball) (v p : snowballVote) : Snowball :=
  let s1 : Snowball :=
    { s with counts := mapSet s.counts v.id ((mapGetD s.counts v.id 0 + 1) % u16) }
  let s2 : Snowball :=
    if mapGetD s1.counts v.id 0 > mapGetD s1.counts p.id 0 then { s1 with preferred := some v }
    else s1
  match s2.last with
  | none => { s2 with last := some v, count := 1 }
  | some last =>
    if v.id ≠ last.id then { s2 with last := some v, count := 1 }
    else
      let s3 : Snowball := { s2 with count := wrapInt (s2.count + 1) }
      if s3.count > conf.SnowballBeta then { s3 with decided := true } else s3

/-- The graph after `AddTransaction`, whatever it returned. -/
def addToGraph (sys : SysConf) (g : Graph) (tx : Transaction) : Graph :=
  match AddTransaction sys g tx with
  | some r => r.1
  | none => g

/-- A transaction whose only parent is itself. -/
def exampleSelfOnly : Transaction :=
  { ID := 5, Sender := 1, Creator := 1, ParentIDs := [5], Depth := 1, Confidence := 1 }

/-- A transaction whose first parent is itself and whose second parent, 9, is
not in the graph. -/
def exampleSelfFirst : Transaction :=
  { ID := 5, Sender := 1, Creator := 1, ParentIDs := [5, 9], Depth := 1, Confidence := 1 }

/-- Two children of the root of `NewGraph sys none`, each of depth 1 and
confidence 1. -/
def exampleA : Transaction :=
  { ID := 10, Sender := 1, Creator := 1, ParentIDs := [0], Depth := 1, Confidence := 1 }

/-- See `exampleA`. -/
def exampleB : Transaction :=
  { ID := 11, Sender := 1, Creator := 1, ParentIDs := [0], Depth := 1, Confidence := 1 }

/-- The graph with the root, `exampleA` and `exampleB`. -/
def exampleGraphAB : Graph :=
  addToGraph exampleSys (addToGraph exampleSys (NewGraph exampleSys none) exampleA) exampleB

/-- A child of `exampleA` and `exampleB` with the depth and the confidence that
`assertTransactionIsComplete` computes: 1 + 1 and 1 + 2. -/
def exampleChildAB : Transaction :=
  { ID := 20, Sender := 1, Creator := 1, ParentIDs := [10, 11], Depth := 2, Confidence := 3 }

/-- A genesis round whose root has the largest depth a `uint64` holds. -/
def exampleDeepGenesis : Round :=
  { Index := 0, Root := { ID := 1, Sender := 1, Creator := 1, Depth := 2 ^ 64 - 1 } }

/-- A child of the root of `exampleDeepGenesis`, of depth 0. -/
def exampleWrappedChild : Transaction :=
  { ID := 2, Sender := 1, Creator := 1, ParentIDs := [1], Depth := 0, Confidence := 1 }

/-- What the promotion of `C` by the arrival of its parent `B` relies on, as a
property of the graph while `markTransactionAsComplete` runs: the store is
keyed by id; `B` and `C` are stored; every parent of `C` is stored as in `txs`
and is not incomplete; `B` is not incomplete; no incomplete transaction other
than `C` has `B`, `C` or a parent of `C` among its recorded children; neither
`B` nor `C` is recorded as missing; and `B` is indexed at its depth. -/
structure PromotionFrame (B C : Transaction) (txs : List (TransactionID × Transaction))
    (g : Graph) : Prop where
  keys : ∀ k t, mapGet g.transactions k = some t → t.ID = k
  storedB : mapGet g.transactions B.ID = some B
  storedC : mapGet g.transactions C.ID = some C
  parentsC : ∀ p ∈ C.ParentIDs, p ∉ g.incomplete ∧ (mapGet g.transactions p).isSome ∧
    mapGet g.transactions p = mapGet txs p
  completeB : B.ID ∉ g.incomplete
  guarded : ∀ d ∈ g.incomplete, d ≠ C.ID →
    ∀ x ∈ mapGetD g.children d [], x ≠ B.ID ∧ x ≠ C.ID ∧ x ∉ C.ParentIDs
  notMissing : B.ID ∉ g.missing ∧ C.ID ∉ g.missing
  indexedB : B.ID ∈ mapGetD g.depthIndex B.Depth []

/-- The transaction `C` waits in `incomplete`, or it left `incomplete` and is
indexed at its depth. -/
def PromotionStatus (C : Transaction) (g : Graph) : Prop :=
  C.ID ∈ g.incomplete ∨ (C.ID ∉ g.incomplete ∧ C.ID ∈ mapGetD g.depthIndex C.Depth [])

/-- The transactions that `markTransactionAsComplete` is called for while `C`
is promoted: `C` itself, just taken out of `incomplete`; or a transaction that
is neither `B` nor `C` nor a parent of `C` and has none of them among its
recorded children, in a graph where `C` waits or is promoted. -/
def PromotionCall (B C : Transaction) (g : Graph) (tx : Transaction) : Prop :=
  (tx = C ∧ C.ID ∉ g.incomplete) ∨
  (PromotionStatus C g ∧ tx.ID ≠ B.ID ∧ tx.ID ≠ C.ID ∧ tx.ID ∉ C.ParentIDs ∧
    ∀ x ∈ mapGetD g.children tx.ID [], x ≠ B.ID ∧ x ≠ C.ID ∧ x ∉ C.ParentIDs)

/-- The graph of scenario S5 before `C` arrives: the root alone. -/
def exampleGraphRoot : Graph := NewGraph exampleSys none

/-- The transaction `B` of scenario S5, a child of the root. -/
def examplePromotedB : Transaction :=
  { ID := 10, Sender := 1, Creator := 1, ParentIDs := [0], Depth := 1, Confidence := 1 }

/-- The transaction `C` of scenario S5, a child of `B`. -/
def examplePromotedC : Transaction :=
  { ID := 20, Sender := 1, Creator := 1, ParentIDs := [10], Depth := 2, Confidence := 2 }

/-- The graph of scenario S5 after `add(C)`: `C` waits for its parent `B`. -/
def exampleGraphWaiting : Graph := addToGraph exampleSys exampleGraphRoot examplePromotedC

/-- The first two steps of `AddTransaction`: the transaction is stored and its
id leaves `missing`. -/
def storeTransaction (g : Graph) (tx : Transaction) : Graph :=
  { g with transactions := mapSet g.transactions tx.ID tx, missing := setDel g.missing tx.ID }

/-- The graph of scenario S5 after `add(C)` and a `DeleteTransaction` of the id
of `B`, which is not stored: the call drops `children[B]`, the record that `C`
waits for `B`. -/
def exampleGraphUnlinked : Graph := DeleteTransaction exampleGraphWaiting examplePromotedB.ID

/-- Tallies of 0.9 for the id `top` and 0.1 for the id `other`. -/
def exampleTalliesFor (top other : VoteID) : List (VoteID × ℚ) :=
  [(top, nearestFloat64 (9 / 10)), (other, nearestFloat64 (1 / 10))]

/-- A tick with the tallies `exampleTalliesFor top other` over the ten votes. -/
def exampleTick (top other : VoteID) : List (VoteID × ℚ) × List (VoteID × snowballVote) :=
  (exampleTalliesFor top other, exampleVotes)

/-- The state of a Snowball that was told to prefer Y (id 2) and then saw nine
ticks whose majorities alternate between Y and Z (id 3), Y first. -/
def exampleAlternated : Snowball :=
  { count := 1, counts := [(2, 5), (3, 4)], preferred := some { id := 2 },
    last := some { id := 2 } }

/-- A transaction whose two parents are the same id, 3. -/
def exampleRepeatedParent : Transaction :=
  { ID := 5, Sender := 1, Creator := 1, ParentIDs := [3, 3] }

/-- A child of the root whose depth, 5, is not the depth of the root plus one. -/
def exampleInvalidB : Transaction :=
  { ID := 10, Sender := 1, Creator := 1, ParentIDs := [0], Depth := 5, Confidence := 1 }

/-- A child of `examplePromotedC`, which is a child of the id 10. -/
def exampleGrandchildD : Transaction :=
  { ID := 30, Sender := 1, Creator := 1, ParentIDs := [20], Depth := 3, Confidence := 3 }

/-- The graph with the root after `add(D)` and `add(C)`: `D` waits for `C` and
`C` waits for the id 10. -/
def exampleGraphChain : Graph :=
  addToGraph exampleSys (addToGraph exampleSys exampleGraphRoot exampleGrandchildD)
    examplePromotedC

/-- A transfer of `amount` PERL from the faucet of `exampleSys`, account 999, to
account 2, with the gas limit `gasLimit`, no gas deposit and no function. -/
def exampleFaucetTransfer (amount gasLimit : Nat) : Transaction :=
  { ID := 8, Sender := 999, Creator := 999, Tag := TagTransfer,
    Payload := [2, amount, gasLimit, 0] }

/-- A stake transaction of account 1 with the opcode `PlaceStake` of
`exampleSys` and the given amount. -/
def examplePlaceStake (amount : Nat) : Transaction :=
  { ID := 9, Sender := 1, Creator := 1, Tag := TagStake, Payload := [1, amount] }

/-- A state with the balance `balance` and the stake `stake` of account 1. -/
def exampleStaked (balance stake : Nat) : Tree :=
  [(Key.balance 1, Val.u64 balance), (Key.stake 1, Val.u64 stake)]

/-- The transaction that the loop of `applyBatchTransaction` makes of the entry
with the tag `e.1` and the payload `e.2`. -/
def batchEntry (tx : Transaction) (e : Nat × List Nat) : Transaction :=
  { ID := tx.ID, Sender := tx.Sender, Creator := tx.Creator, Nonce := tx.Nonce,
    Tag := e.1, Payload := e.2 }

/-- The transactions `T1, ..., Tn` applied one after another with `apply`, each
on the tree and with the executor state that the one before left; the run ends
at the first one that does not return nil, with what that one gave. -/
def applyInSequence (apply : Round → Tree → Transaction → contractExecutorState → Outcome)
    (round : Round) : List Transaction → Tree → contractExecutorState → Outcome
  | [], tree, st => Outcome.returned tree st none
  | T :: rest, tree, st =>
    match apply round tree T st with
    | Outcome.returned tree1 st1 none => applyInSequence apply round rest tree1 st1
    | other => other

/-- The error of an entry of a batch with the context that the loop of
`applyBatchTransaction` puts before it. -/
def wrapBatchError : Outcome → Outcome
  | Outcome.returned tree st (some err) =>
    Outcome.returned tree st (some ("Error while processing a transaction in a batch.: " ++ err))
  | other => other

/-- A payload codec for examples: a batch of transfers that call a function,
five numbers each: recipient, amount, gas limit, gas deposit and the function
name, one number. -/
def exampleParseCalls (payload : List Nat) : Except String Batch :=
  if payload.length % 5 = 0 then
    Except.ok { Size := payload.length / 5
                Tags := List.replicate (payload.length / 5) TagTransfer
                Payloads := (List.range (payload.length / 5)).map
                  (fun i => (payload.drop (5 * i)).take 5) }
  else Except.error "batch: failed to decode payload"

/-- An executor for examples. The function 1 uses the gas limit up to 50 and
writes nothing. The function 2 writes the balance of account 77, queues a
transfer and reports an error with the gas limit up to 20 used. The function 3
writes the balance of account 77, uses the gas limit up to 10 and queues a
transfer of account 1 that overdraws and a transfer of 5 from account 1 to
account 3. The function 4 reports an error and one unit of gas more than the
limit. The function 5 uses the gas limit up to 10 and queues a call of the
function 1 of the contract of account 2 with the gas limit 100. Every other
function uses no gas and writes nothing. -/
def exampleExecute (t : Tree) (_contractID : AccountID) (_round : Round) (_tx : Transaction)
    (_amount : Nat) (gasLimit : Nat) (funcName : List Nat) (_funcParams : List Nat)
    (_code : List Nat) : Execution :=
  if funcName = [1] then { tree := t, Gas := min gasLimit 50 }
  else if funcName = [2] then
    { tree := WriteAccountBalance t 77 1, Gas := min gasLimit 20, err := some "fault"
      Queue := [{ ID := 40, Sender := 1, Creator := 1, Tag := TagTransfer, Payload := [3, 5, 0, 0] }] }
  else if funcName = [3] then
    { tree := WriteAccountBalance t 77 1, Gas := min gasLimit 10
      Queue := [{ ID := 41, Sender := 1, Creator := 1, Tag := TagTransfer,
                  Payload := [3, 1000000, 0, 0] },
                { ID := 42, Sender := 1, Creator := 1, Tag := TagTransfer,
                  Payload := [3, 5, 0, 0] }] }
  else if funcName = [4] then { tree := t, Gas := gasLimit + 1, err := some "fault" }
  else if funcName = [5] then
    { tree := t, Gas := min gasLimit 10
      Queue := [{ ID := 43, Sender := 1, Creator := 1, Tag := TagTransfer,
                  Payload := [2, 0, 100, 0, 1] }] }
  else { tree := t, Gas := 0 }

/-- The environment `exampleEnv` with the executor `exampleExecute` and the batch
codec `exampleParseCalls`. -/
def exampleGasEnv : Env :=
  { exampleEnv with
    ParseBatchTransaction := exampleParseCalls
    Execute := exampleExecute }

/-- A state in which account 1 holds `balance` PERL and account 2 holds contract
code and the gas balance `gas`. -/
def exampleContractState (balance gas : Nat) : Tree :=
  [(Key.balance 1, Val.u64 balance), (Key.contractCode 2, Val.bytes [0]),
   (Key.contractGasBalance 2, Val.u64 gas)]

/-- A transfer of account 1 to the contract of account 2 that calls the function
`func` with the gas limit `gasLimit`, the amount 0 and no gas deposit. -/
def exampleCall (gasLimit func : Nat) : Transaction :=
  { ID := 7, Sender := 1, Creator := 1, Tag := TagTransfer, Payload := [2, 0, gasLimit, 0, func] }

/-- A batch of account 1 with three plain transfers to account 2, of 30, of 100
and of 10 PERL. -/
def exampleBatchOverdraft : Transaction :=
  { ID := 7, Sender := 1, Creator := 1, Tag := TagBatch,
    Payload := [2, 30, 0, 0, 2, 100, 0, 0, 2, 10, 0, 0] }

/-- The executor state of `executeContractInTransactionContext` after the test
of `GasLimitIsSet`: an invocation that finds no gas limit set sets it to the
limit it asks for. -/
def gasLimitState (state : contractExecutorState) (requestedGasLimit : Nat) :
    contractExecutorState :=
  if state.GasLimitIsSet then state
  else { state with GasLimit := requestedGasLimit, GasLimitIsSet := true }

/-- The local variable `realGasLimit` of `executeContractInTransactionContext`,
the gas limit the executor runs with. -/
def realGasLimit (state : contractExecutorState) (requestedGasLimit : Nat) : Nat :=
  if requestedGasLimit < (gasLimitState state requestedGasLimit).GasLimit then requestedGasLimit
  else (gasLimitState state requestedGasLimit).GasLimit

/-- The local variable `executor` of `executeContractInTransactionContext` after
the call of `Execute`. -/
def executorOf (env : Env) (tx : Transaction) (contractID : AccountID) (code : List Nat)
    (snapshot : Tree) (round : Round) (amount requestedGasLimit : Nat)
    (funcName funcParams : List Nat) (state : contractExecutorState) : Execution :=
  env.Execute snapshot contractID round tx amount (realGasLimit state requestedGasLimit)
    funcName funcParams code

/-- The executor state of `executeContractInTransactionContext` after
`state.GasLimit -= executor.Gas`, for an executor that reports the gas `gas`. -/
def gasChargedState (state : contractExecutorState) (requestedGasLimit gas : Nat) :
    contractExecutorState :=
  { GasPayer := (gasLimitState state requestedGasLimit).GasPayer
    GasLimit := sub64 (gasLimitState state requestedGasLimit).GasLimit gas
    GasLimitIsSet := (gasLimitState state requestedGasLimit).GasLimitIsSet }

/-- One run of the contract executor within
`executeContractInTransactionContext`: the gas limit the transaction asks for
(`requested`), `state.GasLimit` after the test of `GasLimitIsSet` (`limit`), the
gas limit the executor runs with (`effective`, the local variable
`realGasLimit`) and the gas the executor reports (`used`). -/
structure Invocation where
  requested : Nat
  limit : Nat
  effective : Nat
  used : Nat
deriving DecidableEq, Repr

/-- The runs of the executor during the loop over `executor.Queue`, in the order
they happen; `log` gives the runs during a recursive call of
`applyTransaction`. -/
def queueInvocations (apply : Round → Tree → Transaction → contractExecutorState → Outcome)
    (log : Round → Tree → Transaction → contractExecutorState → List Invocation)
    (round : Round) : List Transaction → Tree → contractExecutorState → List Invocation
  | [], _, _ => []
  | entry :: rest, snapshot, state =>
    log round snapshot entry state ++
      match apply round snapshot entry state with
      | Outcome.returned snapshot1 state1 _ =>
        queueInvocations apply log round rest snapshot1 state1
      | _ => []

/-- The runs of the executor during `executeContractInTransactionContext`: none
when the balances do not cover the gas limit; else the run of this invocation,
and after it the runs during the loop over the queue when that loop is
reached. -/
def executeInvocations (env : Env)
    (apply : Round → Tree → Transaction → contractExecutorState → Outcome)
    (log : Round → Tree → Transaction → contractExecutorState → List Invocation)
    (tx : Transaction) (contractID : AccountID) (code : List Nat) (snapshot : Tree)
    (round : Round) (amount requestedGasLimit : Nat) (funcName funcParams : List Nat)
    (state : contractExecutorState) : List Invocation :=
  let gasPayerBalance := (ReadAccountBalance snapshot state.GasPayer).1
  let contractGasBalance := (ReadAccountContractGasBalance snapshot contractID).1
  let state1 := gasLimitState state requestedGasLimit
  let executor := executorOf env tx contractID code snapshot round amount requestedGasLimit
    funcName funcParams state
  let run : Invocation :=
    { requested := requestedGasLimit, limit := state1.GasLimit,
      effective := realGasLimit state requestedGasLimit, used := executor.Gas }
  if add64 gasPayerBalance contractGasBalance < realGasLimit state requestedGasLimit then []
  else if realGasLimit state requestedGasLimit < executor.Gas then [run]
  else if state1.GasLimit < realGasLimit state requestedGasLimit then [run]
  else if executor.GasLimitExceeded ∨ executor.err.isSome then [run]
  else
    match deductGas executor.tree contractID state1.GasPayer gasPayerBalance contractGasBalance
        executor.Gas with
    | none => [run]
    | some snapshot1 =>
      run :: queueInvocations apply log round executor.Queue snapshot1
        (gasChargedState state requestedGasLimit executor.Gas)

/-- The runs of the executor during `applyTransferTransaction`: those of the
invocation it ends in, when it gets there. -/
def transferInvocations (env : Env)
    (apply : Round → Tree → Transaction → contractExecutorState → Outcome)
    (log : Round → Tree → Transaction → contractExecutorState → List Invocation)
    (snapshot : Tree) (round : Round) (tx : Transaction) (state : contractExecutorState) :
    List Invocation :=
  match env.ParseTransferTransaction tx.Payload with
  | Except.error _ => []
  | Except.ok params =>
    let code := (ReadAccountContractCode snapshot params.Recipient).1
    let codeAvailable := (ReadAccountContractCode snapshot params.Recipient).2
    if !codeAvailable ∧
        (params.GasLimit > 0 ∨ params.FuncName.length > 0 ∨ params.FuncParams.length > 0) then []
    else if tx.Creator = env.sys.FaucetAddress then []
    else
      match transferValue "PERL" snapshot tx.Creator params.Recipient params.Amount
          ReadAccountBalance WriteAccountBalance ReadAccountBalance WriteAccountBalance with
      | (_, some _) => []
      | (snapshot1, none) =>
        if !codeAvailable then []
        else
          let r : Tree × Option String :=
            if params.GasDeposit ≠ 0 then
              transferValue "PERL (Gas Deposit)" snapshot1 tx.Creator params.Recipient
                params.GasDeposit ReadAccountBalance WriteAccountBalance
                ReadAccountContractGasBalance WriteAccountContractGasBalance
            else (snapshot1, none)
          match r with
          | (_, some _) => []
          | (snapshot2, none) =>
            if params.FuncName.length = 0 then []
            else
              executeInvocations env apply log tx params.Recipient code snapshot2 round
                params.Amount params.GasLimit params.FuncName params.FuncParams state

/-- The runs of the executor during `applyContractTransaction`: those of the
invocation of `init`, when it gets there. -/
def contractInvocations (env : Env)
    (apply : Round → Tree → Transaction → contractExecutorState → Outcome)
    (log : Round → Tree → Transaction → contractExecutorState → List Invocation)
    (snapshot : Tree) (round : Round) (tx : Transaction) (state : contractExecutorState) :
    List Invocation :=
  match env.ParseContractTransaction tx.Payload with
  | Except.error _ => []
  | Except.ok params =>
    if (ReadAccountContractCode snapshot tx.ID).2 then []
    else
      let snapshot1 := WriteAccountContractCode snapshot tx.ID params.Code
      let r : Tree × Option String :=
        if params.GasDeposit ≠ 0 then
          transferValue "PERL (Gas Deposit)" snapshot1 tx.Creator tx.ID params.GasDeposit
            ReadAccountBalance WriteAccountBalance
            ReadAccountContractGasBalance WriteAccountContractGasBalance
        else (snapshot1, none)
      match r with
      | (_, some _) => []
      | (snapshot2, none) =>
        executeInvocations env apply log tx tx.ID params.Code snapshot2 round 0
          params.GasLimit [105, 110, 105, 116] params.Params state

/-- The runs of the executor during the loop of `applyBatchTransaction` from
entry `i` on, `n` entries being left. -/
def batchInvocations (apply : Round → Tree → Transaction → contractExecutorState → Outcome)
    (log : Round → Tree → Transaction → contractExecutorState → List Invocation)
    (round : Round) (tx : Transaction) (params : Batch) :
    Nat → Nat → Tree → contractExecutorState → List Invocation
  | 0, _, _, _ => []
  | n + 1, i, snapshot, state =>
    match params.Tags.get? i, params.Payloads.get? i with
    | some tag, some payload =>
      log round snapshot (batchEntry tx (tag, payload)) state ++
        match apply round snapshot (batchEntry tx (tag, payload)) state with
        | Outcome.returned snapshot1 state1 none =>
          batchInvocations apply log round tx params n (i + 1) snapshot1 state1
        | _ => []
    | _, _ => []

/-- The runs of the executor during `applyTransaction env fuel`, in the order
they happen: the body follows the branches of `applyTransaction` and records a
run wherever `executeContractInTransactionContext` calls `Execute`. -/
def invocations (env : Env) :
    Nat → Round → Tree → Transaction → contractExecutorState → List Invocation
  | 0, _, _, _, _ => []
  | fuel + 1, round, state, tx, execState =>
    if tx.Tag = TagNop then []
    else if tx.Tag = TagTransfer then
      transferInvocations env (applyTransaction env fuel) (invocations env fuel) state round tx
        execState
    else if tx.Tag = TagStake then []
    else if tx.Tag = TagContract then
      contractInvocations env (applyTransaction env fuel) (invocations env fuel) state round tx
        execState
    else if tx.Tag = TagBatch then
      match env.ParseBatchTransaction tx.Payload with
      | Except.error _ => []
      | Except.ok params =>
        batchInvocations (applyTransaction env fuel) (invocations env fuel) round tx params
          (params.Size % 256) 0 state execState
    else []

/-- The runs of the executor during `ApplyTransaction`, in the order they
happen. -/
def ApplyTransactionInvocations (env : Env) (fuel : Nat) (round : Round) (state : Tree)
    (tx : Transaction) : List Invocation :=
  invocations env fuel round state tx { GasPayer := tx.Creator }

/-- A Snowball that decided for the vote with the id 1. -/
def exampleDecided : Snowball :=
  { count := 4, counts := [(1, 4)], preferred := some { id := 1 }, last := some { id := 1 },
    decided := true }

/-- The graph `exampleGraphRoot` after a lookup of the id 50, which it does not
have. -/
def exampleGraphLookedUp : Graph := (LookupTransactionByID exampleGraphRoot 50).1

/-- A round with the index 1 whose root has the id 50 and the depth 1. -/
def exampleRoundFifty : Round :=
  { Index := 1, Root := { ID := 50, Sender := 1, Creator := 1, Depth := 1 } }

/-- A stake transaction of account 1 with the opcode `WithdrawStake` of
`exampleSys` and the given amount. -/
def exampleWithdrawStake (amount : Nat) : Transaction :=
  { ID := 9, Sender := 1, Creator := 1, Tag := TagStake, Payload := [0, amount] }

/-- The test of the loop of `FindEligibleParents` on one entry of `eligible`:
the entry is returned when its transaction is stored, is the root or lies deeper
than the root, and is not `MaxEligibleParentsDepthDiff` or more below the
height. -/
def eligibleKept (sys : SysConf) (g : Graph) (root : Transaction) (id : TransactionID) : Bool :=
  match mapGet g.transactions id with
  | none => false
  | some eligibleParent =>
    !(decide (eligibleParent.ID ≠ root.ID ∧ eligibleParent.Depth ≤ root.Depth))
      && !(decide (add64 eligibleParent.Depth sys.MaxEligibleParentsDepthDiff ≤ g.height))

/-- The graph `g` with `eligible` replaced. -/
def withEligible (g : Graph) (eligible : List TransactionID) : Graph :=
  { g with eligible := eligible }

/-- The graph after `Reset`, or the graph as it is when `Reset` does not
return. -/
def resetGraph (sys : SysConf) (g : Graph) (newRound : Round) : Graph :=
  (Reset sys g newRound).getD g

/-- The transaction of round `i` of scenario S6: its depth and its confidence
are `i`, its parent is the transaction of round `i - 1`, the root for
`i = 1`. -/
def exampleRoundTx (i : Nat) : Transaction :=
  { ID := 100 + i, Sender := 1, Creator := 1,
    ParentIDs := [if i = 1 then 0 else 100 + i - 1], Depth := i, Confidence := i }

/-- One round of scenario S6: the transaction of round `i` is added and becomes
the root of round `i`. -/
def exampleAdvance (g : Graph) (i : Nat) : Graph :=
  resetGraph exampleSys (addToGraph exampleSys g (exampleRoundTx i))
    { Index := i, Root := exampleRoundTx i }

/-- The graph of scenario S6 after the rounds 1 to 5. -/
def exampleRounds : Graph := [1, 2, 3, 4, 5].foldl exampleAdvance exampleGraphRoot

/-- The new graph after `Reset` with a round of the largest index a `uint64`
holds. -/
def exampleLastRound : Graph :=
  resetGraph exampleSys exampleGraphRoot
    { Index := 2 ^ 64 - 1, Root := { ID := 50, Sender := 1, Creator := 1, Depth := 1 } }

/-- A round with the index 1 whose root has the id 50 and the depth 5. -/
def exampleRoundDeep : Round :=
  { Index := 1, Root := { ID := 50, Sender := 1, Creator := 1, Depth := 5 } }

/-- The graph of `Reset` after its first two statements: the new root is stored
and indexed. -/
def resetStored (sys : SysConf) (g : Graph) (newRound : Round) : Graph :=
  createTransactionIndices sys
    { g with transactions := mapSet g.transactions newRound.Root.ID newRound.Root }
    newRound.Root

/-- The graph of `Reset` before its loop: the round index of the new round is
allocated. -/
def resetAllocated (sys : SysConf) (g : Graph) (newRound : Round) : Graph :=
  { resetStored sys g newRound with
    roundIndex := mapSet (resetStored sys g newRound).roundIndex newRound.Index [] }

/-- A property `P` of the graph, with a condition `Q` on the transaction that
`markTransactionAsComplete` is called for, that every step of
`markTransactionAsComplete` keeps: the deletion of a transaction, the indexing
of the transaction, the record of an absent parent as missing, and the removal
of a child from `incomplete` before the recursive call for it. -/
structure StepInvariant (sys : SysConf) (P : Graph → Prop) (Q : Graph → Transaction → Prop) :
    Prop where
  delete : ∀ g id, P g → P (deleteTransaction g id)
  index : ∀ g tx, P g → Q g tx → P (createTransactionIndices sys g tx)
  miss : ∀ g tx p, P g → Q g tx → p ∈ tx.ParentIDs → mapGet g.transactions p = none →
    P { g with missing := setAdd g.missing p } ∧ Q { g with missing := setAdd g.missing p } tx
  child : ∀ g id child, P g → id ∈ g.incomplete → mapGet g.transactions id = some child →
    parentsComplete g child.ParentIDs = true →
    P { g with incomplete := setDel g.incomplete id }
      ∧ Q { g with incomplete := setDel g.incomplete id } child

/-- Every child link whose child is stored names a parent of that child: for
every `p` and every `c` in `children[p]` that is in `transactions`, `p` is in
the parent ids of `c`. -/
def ChildrenLinked (g : Graph) : Prop :=
  ∀ p c tx, c ∈ mapGetD g.children p [] → mapGet g.transactions c = some tx →
    p ∈ tx.ParentIDs

/-- The graph `g1` has no transaction and no child link that `g` does not
have. -/
def Shrinks (g g1 : Graph) : Prop :=
  (∀ k tx, mapGet g1.transactions k = some tx → mapGet g.transactions k = some tx)
  ∧ (∀ p c, c ∈ mapGetD g1.children p [] → c ∈ mapGetD g.children p [])

/-- The root of a new graph: the root of the genesis round, or the zero
transaction when there is none. -/
def genesisRoot (genesis : Option Round) : Transaction :=
  match genesis with
  | some round => round.Root
  | none => {}

/-- The graph after the calls `AddTransaction(tx)` for the transactions of
`txs`, in order, whatever each call returns. -/
def addAll (sys : SysConf) (g : Graph) (txs : List Transaction) : Graph :=
  txs.foldl (addToGraph sys) g

/-- Every id in `missing` is absent from `transactions` and is a parent id of a
transaction of `S`, and every stored transaction is one of `S`. -/
def MissingTracked (S : List Transaction) (g : Graph) : Prop :=
  (∀ id ∈ g.missing, mapGet g.transactions id = none ∧ ∃ tx ∈ S, id ∈ tx.ParentIDs)
  ∧ (∀ id tx, mapGet g.transactions id = some tx → tx ∈ S)

/-- A transaction with the id 20 that waits for the parents 10 and 11. -/
def exampleTwoParents : Transaction :=
  { ID := 20, Sender := 1, Creator := 1, ParentIDs := [10, 11], Depth := 2, Confidence := 3 }

/-- A Snowball right after `Reset`, here of an instance that had decided. -/
def exampleJustReset : Snowball := Snowball.Reset exampleDecided

/-- Tallies below the threshold of scenario S4: the `float64` values of 0.1 for
the id 1 and of 0.05 for the id 2. -/
def exampleLowTallies : List (VoteID × ℚ) :=
  [(1, nearestFloat64 (1 / 10)), (2, nearestFloat64 (1 / 20))]

/-- A batch of account 1 with two plain transfers to account 2, of 30 and of 10
PERL, as a child of the root of the new graph. -/
def exampleBatchChild : Transaction :=
  { ID := 7, Sender := 1, Creator := 1, ParentIDs := [0], Depth := 1, Confidence := 1,
    Tag := TagBatch, Payload := [2, 30, 0, 0, 2, 10, 0, 0] }

/-- The transaction `exampleBatchChild` with the tag `tag`. -/
def exampleTagged (tag : Nat) : Transaction :=
  { ID := 7, Sender := 1, Creator := 1, ParentIDs := [0], Depth := 1, Confidence := 1,
    Tag := tag, Payload := [2, 30, 0, 0, 2, 10, 0, 0] }

/-- A round whose root is the transaction `C` of scenario S5. -/
def exampleRoundOfC : Round :=
  { Index := 1, Root := examplePromotedC }

/-- A transfer of `amount` PERL from account 1 to itself, no gas limit, no gas
deposit, no function. -/
def exampleSelfTransfer (amount : Nat) : Transaction :=
  { ID := 7, Sender := 1, Creator := 1, Tag := TagTransfer, Payload := [1, amount, 0, 0] }

/-- A transfer of 30 PERL from the faucet to the contract of account 2 with the
gas limit 100, the gas deposit 7 and the function 1. -/
def exampleFaucetCall : Transaction :=
  { ID := 8, Sender := 999, Creator := 999, Tag := TagTransfer, Payload := [2, 30, 100, 7, 1] }

/-- The test of `ListTransactions` on a transaction: no filter when `sender`
and `creator` are both zero, else the sender or the creator is the one asked
for. -/
def listFilter (sender creator : AccountID) (tx : Transaction) : Bool :=
  decide ((sender = ZeroAccountID ∧ creator = ZeroAccountID)
    ∨ (sender ≠ ZeroAccountID ∧ tx.Sender = sender)
    ∨ (creator ≠ ZeroAccountID ∧ tx.Creator = creator))

/-- The slice expression `s[low:high]` of Go on a slice without spare capacity;
`none` is the panic `slice bounds out of range`. -/
def sliceOf {α : Type} (s : List α) (low high : Nat) : Option (List α) :=
  if low ≤ high ∧ high ≤ s.length then some ((s.drop low).take (high - low)) else none

/-- The local variable `transactions` of `ListTransactions` after the call of
`sort.Slice`: the stored transactions that pass the filter, in the order of the
iteration over the map, sorted by `sortSlice`. -/
def sortedMatches (sortSlice : List Transaction → List Transaction) (g : Graph)
    (sender creator : AccountID) : List Transaction :=
  sortSlice ((g.transactions.map (fun e => e.2)).filter (listFilter sender creator))

/-- The function `sort.Slice` of the Go library is a parameter, `sortSlice`: what
it makes of a slice under the comparison `transactions[i].Depth <
transactions[j].Depth` (it need not keep the order of equal depths). `none` is a
panic of the slice expression. -/
def ListTransactions (sortSlice : List Transaction → List Transaction) (g : Graph)
    (offset limit : Nat) (sender creator : AccountID) : Option (List Transaction) :=
  let transactions := sortedMatches sortSlice g sender creator
  if offset ≠ 0 ∨ limit ≠ 0 then
    if offset ≥ limit ∨ offset ≥ transactions.length then some []
    else
      let limit1 :=
        if add64 offset limit > transactions.length then transactions.length - offset
        else limit
      sliceOf transactions offset (add64 offset limit1)
  else some transactions

/-- A sort by depth for examples: insertion sort. -/
def exampleSortSlice (l : List Transaction) : List Transaction :=
  l.insertionSort (fun a b => a.Depth ≤ b.Depth)

/-- The eligible-set invariant, with the two facts its induction needs: every id
in `eligible` is stored, is not in `incomplete` and has no entry in `children`;
every id in `incomplete` is stored; and a transaction is stored under its own
id. -/
def EligibleSound (g : Graph) : Prop :=
  (∀ id ∈ g.eligible, (mapGet g.transactions id).isSome = true ∧ id ∉ g.incomplete
      ∧ mapGet g.children id = none)
  ∧ (∀ id ∈ g.incomplete, (mapGet g.transactions id).isSome = true)
  ∧ (∀ id tx, mapGet g.transactions id = some tx → tx.ID = id)

/-- What `createTransactionIndices` needs of the transaction it indexes for the
eligible-set invariant: it is stored and not incomplete. -/
def Indexable (g : Graph) (tx : Transaction) : Prop :=
  (mapGet g.transactions tx.ID).isSome = true ∧ tx.ID ∉ g.incomplete

/-- A state in which account 2 holds contract code, the gas balance 3 and the
largest balance a `uint64` holds. -/
def exampleRichContract : Tree :=
  [(Key.balance 2, Val.u64 (2 ^ 64 - 1)), (Key.contractCode 2, Val.bytes [0]),
   (Key.contractGasBalance 2, Val.u64 3)]

/-- A tally at the threshold of scenario S4: the `float64` value of 0.16 for the
id 1. -/
def exampleEdgeTallies : List (VoteID × ℚ) := [(1, nearestFloat64 (4 / 25))]

/-- The number of ticks with the majority `v` after which an undecided instance
decides, as long as `count` does not wrap around. When `last` has the id of `v`
every tick adds one to `count` and the instance decides once `count` is above
beta, after `beta + 1 - count` ticks and at least one. Otherwise the first tick
sets `count` to 1 without the test, and the instance decides after `beta + 1`
ticks and at least two. -/
def ticksToDecide (conf : Conf) (v : snowballVote) (s : Snowball) : Int :=
  match s.last with
  | some last =>
    if v.id ≠ last.id then max 2 (conf.SnowballBeta + 1)
    else max 1 (conf.SnowballBeta + 1 - s.count)
  | none => max 2 (conf.SnowballBeta + 1)

/-! ## Theorems -/

/-! ### Maps and sets -/

theorem mapDel_cons {K V : Type} [DecidableEq K] (a : K) (b : V) (rest : List (K × V))
    (k : K) : mapDel ((a, b) :: rest) k = if a = k then mapDel rest k else (a, b) :: mapDel rest k := by
  by_cases h : a = k <;> simp [mapDel, List.filter_cons, h]

theorem mapGet_cons {K V : Type} [DecidableEq K] (a : K) (b : V) (rest : List (K × V))
    (k : K) : mapGet ((a, b) :: rest) k = if a = k then some b else mapGet rest k := rfl

theorem mapGet_mapDel_self {K V : Type} [DecidableEq K] (m : List (K × V)) (k : K) :
    mapGet (mapDel m k) k = none := by
  induction m with
  | nil => rfl
  | cons e rest ih =>
    obtain ⟨a, b⟩ := e
    rw [mapDel_cons]
    by_cases h : a = k
    · simpa [h] using ih
    · simpa [h, mapGet_cons] using ih

theorem mapGet_mapDel_ne {K V : Type} [DecidableEq K] (m : List (K × V)) (k k' : K)
    (hne : k' ≠ k) : mapGet (mapDel m k) k' = mapGet m k' := by
  induction m with
  | nil => rfl
  | cons e rest ih =>
    obtain ⟨a, b⟩ := e
    rw [mapDel_cons]
    by_cases h : a = k
    · have h' : ¬ a = k' := by rw [h]; exact fun h2 => hne h2.symm
      rw [if_pos h, mapGet_cons, if_neg h']
      exact ih
    · rw [if_neg h, mapGet_cons, mapGet_cons, ih]

theorem mapGet_mapSet_self {K V : Type} [DecidableEq K] (m : List (K × V)) (k : K) (v : V) :
    mapGet (mapSet m k v) k = some v := by
  simp [mapSet, mapGet]

theorem mapGet_mapSet_ne {K V : Type} [DecidableEq K] (m : List (K × V)) (k k' : K) (v : V)
    (hne : k' ≠ k) : mapGet (mapSet m k v) k' = mapGet m k' := by
  have h : ¬ k = k' := fun h => hne h.symm
  simp [mapSet, mapGet, h, mapGet_mapDel_ne m k k' hne]

theorem mem_setAdd {K : Type} [DecidableEq K] (s : List K) (x y : K) :
    y ∈ setAdd s x ↔ y = x ∨ y ∈ s := by
  unfold setAdd
  split
  · constructor
    · exact fun h => Or.inr h
    · rintro (rfl | h)
      · assumption
      · exact h
  · simp

theorem mem_setDel {K : Type} [DecidableEq K] (s : List K) (x y : K) :
    y ∈ setDel s x ↔ y ∈ s ∧ y ≠ x := by
  simp [setDel]

/-! ### Applier -/

theorem revertOnError_error (original : Tree) (context : String) (o : Outcome)
    (tree : Tree) (st : contractExecutorState) (err : String)
    (h : revertOnError original context o = Outcome.returned tree st (some err)) :
    tree = original := by
  cases o with
  | returned t s e =>
    cases e with
    | none => simp [revertOnError] at h
    | some e =>
      simp [revertOnError, Tree.Revert] at h
      exact h.1.symm
  | fatal m => simp [revertOnError] at h
  | panicked => simp [revertOnError] at h
  | outOfFuel => simp [revertOnError] at h

theorem applyTransaction_error (env : Env) (fuel : Nat) (round : Round) (state : Tree)
    (tx : Transaction) (execState : contractExecutorState)
    (tree : Tree) (st : contractExecutorState) (err : String)
    (h : applyTransaction env fuel round state tx execState
      = Outcome.returned tree st (some err)) :
    tree = state := by
  cases fuel with
  | zero => simp [applyTransaction] at h
  | succ fuel =>
    unfold applyTransaction at h
    simp only [Tree.Snapshot] at h
    split_ifs at h
    · simp at h
    · exact revertOnError_error _ _ _ _ _ _ h
    · split at h
      · simp [Tree.Revert] at h
        exact h.1.symm
      · simp at h
    · exact revertOnError_error _ _ _ _ _ _ h
    · exact revertOnError_error _ _ _ _ _ _ h
    · simp at h

/-- C1. If `ApplyTransaction` returns an error, for a transaction of any tag,
nested batches included, the state tree after the call is the state tree before
the call. -/
theorem C1_error_leaves_tree_unchanged (env : Env) (fuel : Nat) (round : Round) (state : Tree)
    (tx : Transaction) (tree : Tree) (st : contractExecutorState) (err : String)
    (h : ApplyTransaction env fuel round state tx = Outcome.returned tree st (some err)) :
    tree = state :=
  applyTransaction_error env fuel round state tx _ tree st err h

theorem ReadAccountBalance_write_self (t : Tree) (id : AccountID) (v : Nat) :
    ReadAccountBalance (WriteAccountBalance t id v) id = (v, true) := by
  simp [ReadAccountBalance, WriteAccountBalance, readU64, mapGet_mapSet_self]

theorem ReadAccountBalance_write_ne (t : Tree) (id id' : AccountID) (v : Nat) (hne : id' ≠ id) :
    ReadAccountBalance (WriteAccountBalance t id v) id' = ReadAccountBalance t id' := by
  have h : Key.balance id' ≠ Key.balance id := by
    intro h
    exact hne (Key.balance.inj h)
  simp [ReadAccountBalance, WriteAccountBalance, readU64, mapGet_mapSet_ne _ _ _ _ h]

/-- What a transfer of `amount` from `creator` to a different account
`recipient` without contract code does, when the creator is not the faucet, has
the funds, and the payload names no gas limit and no function. -/
theorem applyTransferTransaction_plain (env : Env)
    (apply : Round → Tree → Transaction → contractExecutorState → Outcome)
    (round : Round) (state : Tree) (tx : Transaction) (execState : contractExecutorState)
    (params : Transfer)
    (hparse : env.ParseTransferTransaction tx.Payload = Except.ok params)
    (hfaucet : tx.Creator ≠ env.sys.FaucetAddress)
    (hcode : (ReadAccountContractCode state params.Recipient).2 = false)
    (hlimit : params.GasLimit = 0) (hname : params.FuncName = [])
    (hparams : params.FuncParams = [])
    (hfunds : params.Amount ≤ (ReadAccountBalance state tx.Creator).1) :
    applyTransferTransaction env apply state round tx execState =
      Outcome.returned
        (WriteAccountBalance
          (WriteAccountBalance state tx.Creator
            ((ReadAccountBalance state tx.Creator).1 - params.Amount))
          params.Recipient
          (add64 (ReadAccountBalance
            (WriteAccountBalance state tx.Creator
              ((ReadAccountBalance state tx.Creator).1 - params.Amount))
            params.Recipient).1 params.Amount))
        execState none := by
  have hlt : ¬ (ReadAccountBalance state tx.Creator).1 < params.Amount := Nat.not_lt.mpr hfunds
  simp [applyTransferTransaction, hparse, hcode, hlimit, hname, hparams, hfaucet,
    transferValue, hlt]

/-- What a transfer does when the creator, who is not the faucet, has less than
the amount. -/
theorem applyTransferTransaction_overdraft (env : Env)
    (apply : Round → Tree → Transaction → contractExecutorState → Outcome)
    (round : Round) (state : Tree) (tx : Transaction) (execState : contractExecutorState)
    (params : Transfer)
    (hparse : env.ParseTransferTransaction tx.Payload = Except.ok params)
    (hfaucet : tx.Creator ≠ env.sys.FaucetAddress)
    (hfunds : (ReadAccountBalance state tx.Creator).1 < params.Amount) :
    ∃ err, applyTransferTransaction env apply state round tx execState =
      Outcome.returned state execState (some err) := by
  have htv : transferValue "PERL" state tx.Creator params.Recipient params.Amount
      ReadAccountBalance WriteAccountBalance ReadAccountBalance WriteAccountBalance
      = (state, some ("transfer_value: tried to send more " ++ "PERL" ++ " than the sender has")) := by
    simp [transferValue, hfunds]
  by_cases h1 : (!(ReadAccountContractCode state params.Recipient).2) = true ∧
      (params.GasLimit > 0 ∨ params.FuncName.length > 0 ∨ params.FuncParams.length > 0)
  · simp only [applyTransferTransaction, hparse, if_pos h1]
    exact ⟨_, rfl⟩
  · simp only [applyTransferTransaction, hparse, if_neg h1, if_neg hfaucet, htv]
    exact ⟨_, rfl⟩

/-- C7. A transfer whose creator is not the faucet and holds less than the
amount (a missing balance counts as 0) makes `ApplyTransaction` return an
error and leaves the state as it was. -/
theorem C7_overdraft_fails_and_reverts (env : Env) (fuel : Nat) (round : Round) (state : Tree)
    (tx : Transaction) (params : Transfer)
    (htag : tx.Tag = TagTransfer)
    (hparse : env.ParseTransferTransaction tx.Payload = Except.ok params)
    (hfaucet : tx.Creator ≠ env.sys.FaucetAddress)
    (hfunds : (ReadAccountBalance state tx.Creator).1 < params.Amount) :
    ∃ err, ApplyTransaction env (fuel + 1) round state tx =
      Outcome.returned state { GasPayer := tx.Creator } (some err) := by
  obtain ⟨err, herr⟩ := applyTransferTransaction_overdraft env (applyTransaction env fuel)
    round state tx { GasPayer := tx.Creator } params hparse hfaucet hfunds
  refine ⟨"could not apply transfer transaction" ++ ": " ++ err, ?_⟩
  simp [ApplyTransaction, applyTransaction, htag, TagTransfer, TagNop, herr, revertOnError,
    Tree.Revert, Tree.Snapshot]

/-- C1, on scenario S2: the overdraft of 100 from a balance of 10 returns an
error and the tree is the one before the call. -/
theorem C1_error_leaves_tree_unchanged_witness :
    ApplyTransaction exampleEnv 1 {} (exampleBalances 10 0) (exampleTransfer 100)
      = Outcome.returned (exampleBalances 10 0) { GasPayer := 1 }
          (some "could not apply transfer transaction: failed to execute transferValue on balance: transfer_value: tried to send more PERL than the sender has")
    ∧ exampleBalances 10 0 = exampleBalances 10 0 :=
  ⟨by decide,
   C1_error_leaves_tree_unchanged exampleEnv 1 {} (exampleBalances 10 0) (exampleTransfer 100)
     (exampleBalances 10 0) { GasPayer := 1 }
     "could not apply transfer transaction: failed to execute transferValue on balance: transfer_value: tried to send more PERL than the sender has"
     (by decide)⟩

/-- C7, on scenario S2: balance 10, amount 100. -/
theorem C7_overdraft_fails_and_reverts_witness :
    ∃ err, ApplyTransaction exampleEnv 1 {} (exampleBalances 10 0) (exampleTransfer 100) =
      Outcome.returned (exampleBalances 10 0) { GasPayer := 1 } (some err) :=
  C7_overdraft_fails_and_reverts exampleEnv 0 {} (exampleBalances 10 0) (exampleTransfer 100)
    { Recipient := 2, Amount := 100 } rfl rfl (by decide) (by decide)

/-- C6 as stated fails where the balance of the recipient wraps around: with
balances 100 and `2 ^ 64 - 1` a transfer of 30 succeeds and leaves the recipient
with 29, which is not its old balance plus 30. -/
theorem C6_counterexample_recipient_balance_wraps :
    ApplyTransaction exampleEnv 1 {} (exampleBalances 100 (2 ^ 64 - 1)) (exampleTransfer 30)
      = Outcome.returned [(Key.balance 2, Val.u64 29), (Key.balance 1, Val.u64 70)]
          { GasPayer := 1 } none
    ∧ (ReadAccountBalance [(Key.balance 2, Val.u64 29), (Key.balance 1, Val.u64 70)] 2).1
        ≠ (ReadAccountBalance (exampleBalances 100 (2 ^ 64 - 1)) 2).1 + 30 := by
  constructor
  · decide
  · decide

/-- C6, amended. For every state and every transfer whose creator A is not the
faucet, whose recipient B differs from A and has no contract code, whose gas
limit, function name and function parameters are empty, with
`balance(A) >= amount` and `balance(B) + amount < 2 ^ 64`: `ApplyTransaction`
returns nil, the balance of A goes down by exactly the amount, the balance of B
goes up by exactly the amount, and no other key of the state changes. -/
theorem C6_transfer_moves_amount (env : Env) (fuel : Nat) (round : Round) (state : Tree)
    (tx : Transaction) (params : Transfer)
    (htag : tx.Tag = TagTransfer)
    (hparse : env.ParseTransferTransaction tx.Payload = Except.ok params)
    (hfaucet : tx.Creator ≠ env.sys.FaucetAddress)
    (hne : params.Recipient ≠ tx.Creator)
    (hcode : (ReadAccountContractCode state params.Recipient).2 = false)
    (hlimit : params.GasLimit = 0) (hname : params.FuncName = [])
    (hparams : params.FuncParams = [])
    (hfunds : params.Amount ≤ (ReadAccountBalance state tx.Creator).1)
    (hroom : (ReadAccountBalance state params.Recipient).1 + params.Amount < 2 ^ 64) :
    ∃ tree, ApplyTransaction env (fuel + 1) round state tx =
        Outcome.returned tree { GasPayer := tx.Creator } none
      ∧ (ReadAccountBalance tree tx.Creator).1 + params.Amount
          = (ReadAccountBalance state tx.Creator).1
      ∧ (ReadAccountBalance tree params.Recipient).1
          = (ReadAccountBalance state params.Recipient).1 + params.Amount
      ∧ ∀ k, k ≠ Key.balance tx.Creator → k ≠ Key.balance params.Recipient →
          mapGet tree k = mapGet state k := by
  refine ⟨WriteAccountBalance
      (WriteAccountBalance state tx.Creator
        ((ReadAccountBalance state tx.Creator).1 - params.Amount))
      params.Recipient
      (add64 (ReadAccountBalance
        (WriteAccountBalance state tx.Creator
          ((ReadAccountBalance state tx.Creator).1 - params.Amount))
        params.Recipient).1 params.Amount), ?_, ?_, ?_, ?_⟩
  · simp only [ApplyTransaction, applyTransaction, htag, Tree.Snapshot]
    rw [applyTransferTransaction_plain env _ round state tx _ params hparse hfaucet hcode hlimit
      hname hparams hfunds]
    simp [TagTransfer, TagNop, revertOnError]
  · rw [ReadAccountBalance_write_ne _ _ _ _ (Ne.symm hne), ReadAccountBalance_write_self]
    exact Nat.sub_add_cancel hfunds
  · rw [ReadAccountBalance_write_self, ReadAccountBalance_write_ne _ _ _ _ hne]
    exact Nat.mod_eq_of_lt hroom
  · intro k hk1 hk2
    simp only [WriteAccountBalance]
    rw [mapGet_mapSet_ne _ _ _ _ hk2, mapGet_mapSet_ne _ _ _ _ hk1]

/-- C6 amended, on scenario S1: balances 100 and 0, amount 30. -/
theorem C6_transfer_moves_amount_witness :
    ∃ tree, ApplyTransaction exampleEnv 1 {} (exampleBalances 100 0) (exampleTransfer 30) =
        Outcome.returned tree { GasPayer := 1 } none
      ∧ (ReadAccountBalance tree 1).1 + 30 = (ReadAccountBalance (exampleBalances 100 0) 1).1
      ∧ (ReadAccountBalance tree 2).1 = (ReadAccountBalance (exampleBalances 100 0) 2).1 + 30
      ∧ ∀ k, k ≠ Key.balance 1 → k ≠ Key.balance 2 →
          mapGet tree k = mapGet (exampleBalances 100 0) k :=
  C6_transfer_moves_amount exampleEnv 0 {} (exampleBalances 100 0) (exampleTransfer 30)
    { Recipient := 2, Amount := 30 } rfl rfl (by decide) (by decide)
    (by decide) rfl rfl rfl (by decide) (by decide)

/-! ### Snowball -/

theorem majority_foldl (votes : List (VoteID × snowballVote)) (id : VoteID) (t : ℚ)
    (l : List (VoteID × ℚ)) (acc : Option snowballVote × ℚ)
    (hall : ∀ e ∈ l, e = (id, t) ∨ e.2 < t)
    (hacc : acc = (mapGet votes id, t) ∨ (acc.2 < t ∧ (id, t) ∈ l)) :
    l.foldl (majorityStep votes) acc = (mapGet votes id, t) := by
  induction l generalizing acc with
  | nil =>
    rcases hacc with h | ⟨_, h⟩
    · simpa using h
    · simp at h
  | cons e l ih =>
    rw [List.foldl_cons]
    apply ih
    · exact fun x hx => hall x (List.mem_cons_of_mem _ hx)
    · rcases hall e (List.mem_cons_self _ _) with he | he
      · left
        rcases hacc with h | ⟨h, _⟩
        · subst h
          subst he
          simp [majorityStep]
        · subst he
          simp [majorityStep, h]
      · rcases hacc with h | ⟨h, hmem⟩
        · left
          subst h
          have : ¬ e.2 > t := not_lt.mpr (le_of_lt he)
          simp [majorityStep, this]
        · right
          have hmem' : (id, t) ∈ l := by
            rcases List.mem_cons.mp hmem with h1 | h1
            · rw [← h1] at he
              exact absurd he (lt_irrefl _)
            · exact h1
          refine ⟨?_, hmem'⟩
          unfold majorityStep
          split_ifs
          · exact he
          · exact h

theorem Tick_of_TopTally (conf : Conf) (s : Snowball) (v p : snowballVote)
    (tallies : List (VoteID × ℚ)) (votes : List (VoteID × snowballVote))
    (hund : s.decided = false) (hpref : s.preferred = some p)
    (htop : TopTally conf v tallies votes) :
    Snowball.Tick conf s tallies votes = TickResult.returned (tickedState conf s v p) := by
  obtain ⟨id, t, hmem, hvote, hpos, hall, hthr⟩ := htop
  have hfold : tallies.foldl (majorityStep votes) (none, 0) = (some v, t) := by
    rw [← hvote]
    exact majority_foldl votes id t tallies _ hall (Or.inr ⟨hpos, hmem⟩)
  have hthr' : lessThan t (divFloat64 (roundFloat64 (conf.SnowballAlpha * 2))
      (if nearestFloat64 (votes.length : ℚ) < 2 then 2 else nearestFloat64 (votes.length : ℚ)))
      = false := hthr
  unfold Snowball.Tick tickedState
  simp only [hund, hfold, hpref, Bool.false_eq_true, if_false, hthr']
  cases hl : s.last with
  | none => split_ifs <;> simp [hl]
  | some last =>
    by_cases hid : v.id = last.id
    · split_ifs <;> simp [hl, hid]
    · split_ifs <;> simp [hl, hid]

/-- A tick that meets the threshold on a state whose `preferred` is nil counts
the vote and stops at `s.preferred.id`. -/
theorem Tick_of_TopTally_nil (conf : Conf) (s : Snowball) (v : snowballVote)
    (tallies : List (VoteID × ℚ)) (votes : List (VoteID × snowballVote))
    (hund : s.decided = false) (hpref : s.preferred = none)
    (htop : TopTally conf v tallies votes) :
    Snowball.Tick conf s tallies votes
      = TickResult.panicked
          { s with counts := mapSet s.counts v.id ((mapGetD s.counts v.id 0 + 1) % u16) } := by
  obtain ⟨id, t, hmem, hvote, hpos, hall, hthr⟩ := htop
  have hfold : tallies.foldl (majorityStep votes) (none, 0) = (some v, t) := by
    rw [← hvote]
    exact majority_foldl votes id t tallies _ hall (Or.inr ⟨hpos, hmem⟩)
  have hthr' : lessThan t (divFloat64 (roundFloat64 (conf.SnowballAlpha * 2))
      (if nearestFloat64 (votes.length : ℚ) < 2 then 2 else nearestFloat64 (votes.length : ℚ)))
      = false := hthr
  unfold Snowball.Tick
  simp only [hund, hfold, hpref, Bool.false_eq_true, if_false, hthr']

theorem wrapInt_eq (x : Int) (h1 : -(2 ^ 63) ≤ x) (h2 : x < 2 ^ 63) : wrapInt x = x := by
  unfold wrapInt
  rw [Int.emod_eq_of_lt (by omega) (by omega)]
  omega

theorem Ticks_decided (conf : Conf) (s : Snowball)
    (ticks : List (List (VoteID × ℚ) × List (VoteID × snowballVote)))
    (hdec : s.decided = true) : Snowball.Ticks conf s ticks = TickResult.returned s := by
  induction ticks with
  | nil => rfl
  | cons t rest ih => simp [Snowball.Ticks, Snowball.Tick, hdec, ih]

/-- The threshold of scenario S4: with alpha the `float64` value of 0.8 and ten
votes, the product is the value of 1.6 and the quotient the value of 0.16. -/
theorem exampleThreshold (beta : Int) :
    threshold (exampleConf beta) exampleVotes
      = Float64.finite (5764607523034235 / 36028797018963968) := by
  have h : threshold (exampleConf 0) exampleVotes
      = Float64.finite (5764607523034235 / 36028797018963968) := by decide!
  exact h

theorem exampleTallies_order :
    (0 : ℚ) < nearestFloat64 (9 / 10)
    ∧ nearestFloat64 (1 / 10) < nearestFloat64 (9 / 10)
    ∧ ¬ nearestFloat64 (9 / 10) < 5764607523034235 / 36028797018963968 := by
  decide!

theorem exampleTopTally (beta : Int) :
    TopTally (exampleConf beta) { id := 1 } exampleTallies exampleVotes := by
  refine ⟨1, nearestFloat64 (9 / 10), ?_, ?_, exampleTallies_order.1, ?_, ?_⟩
  · simp [exampleTallies]
  · simp [exampleVotes, mapGet]
  · intro e he
    simp only [exampleTallies, List.mem_cons, List.mem_singleton, List.not_mem_nil, or_false] at he
    rcases he with rfl | rfl
    · exact Or.inl rfl
    · exact Or.inr exampleTallies_order.2.1
  · rw [exampleThreshold]
    exact decide_eq_false exampleTallies_order.2.2

/-- C2, the code at the input of scenario S4: on a newly created Snowball with
alpha = 0.8 and beta = 3 the first tick with tallies X: 0.9, Y: 0.1 over ten
votes counts the vote for X and then stops at the nil pointer dereference
`s.preferred.id`; the four ticks do not end with `preferred = X`,
`decided = true`, `progress = 4`. -/
theorem C2_new_snowball_first_tick_panics :
    Snowball.Tick (exampleConf 3) NewSnowball exampleTallies exampleVotes
      = TickResult.panicked { counts := [(1, 1)] }
    ∧ Snowball.Ticks (exampleConf 3) NewSnowball
        (List.replicate 4 (exampleTallies, exampleVotes))
      = TickResult.panicked { counts := [(1, 1)] } := by
  have h : Snowball.Tick (exampleConf 3) NewSnowball exampleTallies exampleVotes
      = TickResult.panicked { counts := [(1, 1)] } := by
    rw [Tick_of_TopTally_nil (exampleConf 3) NewSnowball { id := 1 } exampleTallies exampleVotes
      rfl rfl (exampleTopTally 3)]
    decide
  exact ⟨h, by simp only [List.replicate, Snowball.Ticks, h]⟩

theorem exampleTopTallyFor (beta : Int) (top other : VoteID)
    (htop : top = 1 ∨ top = 2 ∨ top = 3) :
    TopTally (exampleConf beta) { id := top } (exampleTalliesFor top other) exampleVotes := by
  refine ⟨top, nearestFloat64 (9 / 10), ?_, ?_, exampleTallies_order.1, ?_, ?_⟩
  · simp [exampleTalliesFor]
  · rcases htop with rfl | rfl | rfl <;> simp [exampleVotes, mapGet]
  · intro e he
    simp only [exampleTalliesFor, List.mem_cons, List.mem_singleton, List.not_mem_nil,
      or_false] at he
    rcases he with rfl | rfl
    · exact Or.inl rfl
    · exact Or.inr exampleTallies_order.2.1
  · rw [exampleThreshold]
    exact decide_eq_false exampleTallies_order.2.2

theorem Ticks_cons_of_TopTally (conf : Conf) (s : Snowball) (v p : snowballVote)
    (t : List (VoteID × ℚ) × List (VoteID × snowballVote))
    (rest : List (List (VoteID × ℚ) × List (VoteID × snowballVote)))
    (hund : s.decided = false) (hpref : s.preferred = some p)
    (htop : TopTally conf v t.1 t.2) :
    Snowball.Ticks conf s (t :: rest) = Snowball.Ticks conf (tickedState conf s v p) rest := by
  simp only [Snowball.Ticks, Tick_of_TopTally conf s v p t.1 t.2 hund hpref htop]

/-- C3 as stated fails. A Snowball that was told to prefer Y (id 2) and saw nine
ticks with the majorities Y, Z, Y, Z, Y, Z, Y, Z, Y is undecided (beta = 3) with
five counts for Y. From that state, four consecutive ticks in which X (id 1) has
the largest tally, 0.9, above the threshold 0.16, end with `decided = true` and
the preferred vote still Y, not X. -/
theorem C3_counterexample_preferred_keeps_lead :
    Snowball.Ticks (exampleConf 3) (NewSnowball.Prefer (some { id := 2 }))
        [exampleTick 2 3, exampleTick 3 2, exampleTick 2 3, exampleTick 3 2, exampleTick 2 3,
         exampleTick 3 2, exampleTick 2 3, exampleTick 3 2, exampleTick 2 3]
      = TickResult.returned exampleAlternated
    ∧ exampleAlternated.decided = false
    ∧ Snowball.Ticks (exampleConf 3) exampleAlternated (List.replicate 4 (exampleTick 1 2))
      = TickResult.returned
          { count := 4, counts := [(1, 4), (2, 5), (3, 4)], preferred := some { id := 2 },
            last := some { id := 1 }, decided := true }
    ∧ (some { id := 2 } : Option snowballVote) ≠ some { id := 1 } := by
  have hX := exampleTopTallyFor 3 1 2 (Or.inl rfl)
  have hY := exampleTopTallyFor 3 2 3 (Or.inr (Or.inl rfl))
  have hZ := exampleTopTallyFor 3 3 2 (Or.inr (Or.inr rfl))
  refine ⟨?_, rfl, ?_, by decide⟩
  · rw [Ticks_cons_of_TopTally _ _ { id := 2 } { id := 2 } (exampleTick 2 3) _ rfl rfl hY,
      Ticks_cons_of_TopTally _ _ { id := 3 } { id := 2 } (exampleTick 3 2) _ (by decide)
        (by decide) hZ,
      Ticks_cons_of_TopTally _ _ { id := 2 } { id := 2 } (exampleTick 2 3) _ (by decide)
        (by decide) hY,
      Ticks_cons_of_TopTally _ _ { id := 3 } { id := 2 } (exampleTick 3 2) _ (by decide)
        (by decide) hZ,
      Ticks_cons_of_TopTally _ _ { id := 2 } { id := 2 } (exampleTick 2 3) _ (by decide)
        (by decide) hY,
      Ticks_cons_of_TopTally _ _ { id := 3 } { id := 2 } (exampleTick 3 2) _ (by decide)
        (by decide) hZ,
      Ticks_cons_of_TopTally _ _ { id := 2 } { id := 2 } (exampleTick 2 3) _ (by decide)
        (by decide) hY,
      Ticks_cons_of_TopTally _ _ { id := 3 } { id := 2 } (exampleTick 3 2) _ (by decide)
        (by decide) hZ,
      Ticks_cons_of_TopTally _ _ { id := 2 } { id := 2 } (exampleTick 2 3) _ (by decide)
        (by decide) hY]
    simp only [Snowball.Ticks]
    decide
  · simp only [List.replicate]
    rw [Ticks_cons_of_TopTally _ _ { id := 1 } { id := 2 } (exampleTick 1 2) _ rfl rfl hX,
      Ticks_cons_of_TopTally _ _ { id := 1 } { id := 2 } (exampleTick 1 2) _ (by decide)
        (by decide) hX,
      Ticks_cons_of_TopTally _ _ { id := 1 } { id := 2 } (exampleTick 1 2) _ (by decide)
        (by decide) hX,
      Ticks_cons_of_TopTally _ _ { id := 1 } { id := 2 } (exampleTick 1 2) _ (by decide)
        (by decide) hX]
    simp only [Snowball.Ticks]
    decide

theorem tickedState_fields (conf : Conf) (s : Snowball) (v q : snowballVote) :
    (tickedState conf s v q).counts
        = mapSet s.counts v.id ((mapGetD s.counts v.id 0 + 1) % u16)
    ∧ (tickedState conf s v q).preferred
        = (if mapGetD (mapSet s.counts v.id ((mapGetD s.counts v.id 0 + 1) % u16)) v.id 0
              > mapGetD (mapSet s.counts v.id ((mapGetD s.counts v.id 0 + 1) % u16)) q.id 0
            then some v else s.preferred)
    ∧ (tickedState conf s v q).count = (match s.last with
        | some last => if v.id ≠ last.id then 1 else wrapInt (s.count + 1)
        | none => 1)
    ∧ (tickedState conf s v q).last = (match s.last with
        | some last => if v.id ≠ last.id then some v else some last
        | none => some v)
    ∧ (tickedState conf s v q).decided = (match s.last with
        | some last =>
          if v.id ≠ last.id then s.decided
          else if wrapInt (s.count + 1) > conf.SnowballBeta then true else s.decided
        | none => s.decided) := by
  unfold tickedState
  simp only [gt_iff_lt]
  by_cases hp : mapGetD (mapSet s.counts v.id ((mapGetD s.counts v.id 0 + 1) % u16)) q.id 0
      < mapGetD (mapSet s.counts v.id ((mapGetD s.counts v.id 0 + 1) % u16)) v.id 0
  · simp only [if_pos hp]
    cases hl : s.last with
    | none => exact ⟨rfl, rfl, rfl, rfl, rfl⟩
    | some last =>
      by_cases hid : v.id = last.id
      · by_cases hgt : wrapInt (s.count + 1) > conf.SnowballBeta
        · simp only [ne_eq, hid, not_true_eq_false, if_false, if_pos hgt]
          exact ⟨trivial, trivial, trivial, trivial, trivial⟩
        · simp only [ne_eq, hid, not_true_eq_false, if_false, if_neg hgt]
          exact ⟨trivial, trivial, trivial, trivial, trivial⟩
      · simp only [ne_eq, hid, not_false_eq_true, if_true]
        exact ⟨trivial, trivial, trivial, trivial, trivial⟩
  · simp only [if_neg hp]
    cases hl : s.last with
    | none => exact ⟨rfl, rfl, rfl, rfl, rfl⟩
    | some last =>
      by_cases hid : v.id = last.id
      · by_cases hgt : wrapInt (s.count + 1) > conf.SnowballBeta
        · simp only [ne_eq, hid, not_true_eq_false, if_false, if_pos hgt]
          exact ⟨trivial, trivial, trivial, trivial, trivial⟩
        · simp only [ne_eq, hid, not_true_eq_false, if_false, if_neg hgt]
          exact ⟨trivial, trivial, trivial, trivial, trivial⟩
      · simp only [ne_eq, hid, not_false_eq_true, if_true]
        exact ⟨trivial, trivial, trivial, trivial, trivial⟩

theorem ticksToDecide_pos (conf : Conf) (v : snowballVote) (s : Snowball) :
    1 ≤ ticksToDecide conf v s := by
  unfold ticksToDecide
  cases s.last with
  | none => exact le_trans (by decide) (le_max_left _ _)
  | some last =>
    simp only []
    split_ifs
    · exact le_trans (by decide) (le_max_left _ _)
    · exact le_max_left _ _

theorem Ticks_reach_decision (conf : Conf) (v : snowballVote)
    (hbeta : conf.SnowballBeta < 2 ^ 63 - 1) :
    ∀ (ticks : List (List (VoteID × ℚ) × List (VoteID × snowballVote)))
      (s : Snowball) (q : snowballVote),
      (∀ t ∈ ticks, TopTally conf v t.1 t.2) → s.decided = false → s.preferred = some q →
      -(2 ^ 63) ≤ s.count → s.count < 2 ^ 63 - 1 →
      (q = v ∨ (q.id ≠ v.id ∧ ∃ k : Nat, 1 ≤ k ∧ (k : Int) ≤ ticksToDecide conf v s ∧
        mapGetD s.counts q.id 0 < (mapGetD s.counts v.id 0 + k) % u16)) →
      ticksToDecide conf v s ≤ ticks.length →
      ∃ s', Snowball.Ticks conf s ticks = TickResult.returned s' ∧
        s'.preferred = some v ∧ s'.decided = true := by
  intro ticks
  induction ticks with
  | nil =>
    intro s q _ _ _ _ _ _ hD
    have := ticksToDecide_pos conf v s
    simp only [List.length_nil, Nat.cast_zero] at hD
    omega
  | cons t rest ih =>
    intro s q htop hund hpref hlo hhi hlead hD
    rw [Ticks_cons_of_TopTally conf s v q t rest hund hpref (htop t (List.mem_cons_self _ _))]
    obtain ⟨f1, f2, f3, f4, f5⟩ := tickedState_fields conf s v q
    have hw : wrapInt (s.count + 1) = s.count + 1 := wrapInt_eq _ (by omega) (by omega)
    rw [hw] at f3 f5
    have hcv : mapGetD (tickedState conf s v q).counts v.id 0
        = (mapGetD s.counts v.id 0 + 1) % u16 := by
      rw [f1]
      simp only [mapGetD, mapGet_mapSet_self]
    have hcv' : mapGetD (mapSet s.counts v.id ((mapGetD s.counts v.id 0 + 1) % u16)) v.id 0
        = (mapGetD s.counts v.id 0 + 1) % u16 := by
      simp only [mapGetD, mapGet_mapSet_self]
    rw [hcv'] at f2
    have hp1 : (tickedState conf s v q).preferred = some v
        ∨ ((tickedState conf s v q).preferred = some q ∧ q.id ≠ v.id
            ∧ ¬ mapGetD s.counts q.id 0 < (mapGetD s.counts v.id 0 + 1) % u16
            ∧ mapGetD (tickedState conf s v q).counts q.id 0 = mapGetD s.counts q.id 0) := by
      rcases hlead with h | ⟨hne, _⟩
      · subst h
        rw [hcv'] at f2
        rw [f2, if_neg (lt_irrefl _)]
        exact Or.inl hpref
      · have hcq : mapGetD (mapSet s.counts v.id ((mapGetD s.counts v.id 0 + 1) % u16)) q.id 0
            = mapGetD s.counts q.id 0 := by
          simp only [mapGetD, mapGet_mapSet_ne _ _ _ _ hne]
        rw [hcq] at f2
        by_cases hsw : mapGetD s.counts q.id 0 < (mapGetD s.counts v.id 0 + 1) % u16
        · rw [f2, if_pos hsw]
          exact Or.inl rfl
        · rw [f2, if_neg hsw]
          refine Or.inr ⟨hpref, hne, hsw, ?_⟩
          rw [f1]
          exact hcq
    have hone : ∀ k : Nat, 1 ≤ k → (k : Int) ≤ 1 → k = 1 := fun k h1 h2 => by omega
    have hstep : ∀ k : Nat, 2 ≤ k →
        ((mapGetD s.counts v.id 0 + 1) % u16 + (k - 1)) % u16
          = (mapGetD s.counts v.id 0 + k) % u16 := by
      intro k hk
      unfold u16
      omega
    -- the last vote, the counter and the decided flag after the tick
    have hcases : ((tickedState conf s v q).decided = true ∧ ticksToDecide conf v s = 1)
        ∨ ((tickedState conf s v q).decided = false
            ∧ -(2 ^ 63) ≤ (tickedState conf s v q).count
            ∧ (tickedState conf s v q).count < 2 ^ 63 - 1
            ∧ ticksToDecide conf v (tickedState conf s v q) = ticksToDecide conf v s - 1) := by
      unfold ticksToDecide
      rw [f4]
      cases hl : s.last with
      | none =>
        rw [hl] at f3 f5
        simp only [] at f3 f5 ⊢
        rw [f3, f5]
        refine Or.inr ⟨hund, by omega, by omega, ?_⟩
        simp only [ne_eq, not_true_eq_false, if_false]
        omega
      | some last =>
        rw [hl] at f3 f5
        simp only [] at f3 f5 ⊢
        by_cases hid : v.id = last.id
        · simp only [ne_eq, hid, not_true_eq_false, if_false] at f3 f5 ⊢
          by_cases hgt : s.count + 1 > conf.SnowballBeta
          · rw [if_pos hgt] at f5
            exact Or.inl ⟨f5, by omega⟩
          · rw [if_neg hgt] at f5
            rw [f3, f5]
            exact Or.inr ⟨hund, by omega, by omega, by omega⟩
        · simp only [ne_eq, hid, not_false_eq_true, if_true] at f3 f5 ⊢
          rw [f3, f5]
          refine Or.inr ⟨hund, by omega, by omega, ?_⟩
          simp only [not_true_eq_false, if_false]
          omega
    have hrest : ∀ x ∈ rest, TopTally conf v x.1 x.2 :=
      fun x hx => htop x (List.mem_cons_of_mem _ hx)
    simp only [List.length_cons, Nat.cast_add, Nat.cast_one] at hD
    generalize tickedState conf s v q = s1 at *
    rcases hcases with ⟨hdec, hD1⟩ | ⟨hund1, hlo1, hhi1, hD1⟩
    · refine ⟨s1, Ticks_decided conf s1 rest hdec, ?_, hdec⟩
      rcases hp1 with h | ⟨_, _, hsw, _⟩
      · exact h
      · rcases hlead with h | ⟨hne, k, hk1, hk2, hk3⟩
        · exact absurd (congrArg snowballVote.id h) ‹q.id ≠ v.id›
        · rw [hD1] at hk2
          rw [hone k hk1 hk2] at hk3
          exact absurd hk3 hsw
    · rcases hp1 with h | ⟨hq, hne, hsw, hcq⟩
      · exact ih s1 v hrest hund1 h hlo1 hhi1 (Or.inl rfl) (by omega)
      · rcases hlead with h | ⟨_, k, hk1, hk2, hk3⟩
        · exact absurd (congrArg snowballVote.id h) hne
        · have hk : 2 ≤ k := by
            rcases Nat.lt_or_ge k 2 with h | h
            · have : k = 1 := by omega
              rw [this] at hk3
              exact absurd hk3 hsw
            · exact h
          refine ih s1 q hrest hund1 hq hlo1 hhi1 (Or.inr ⟨hne, k - 1, by omega, ?_, ?_⟩)
            (by omega)
          · rw [hD1]
            omega
          · rw [hcq, hcv, hstep k hk]
            exact hk3

/-- C3, amended. Write `d` for the number of ticks for `v` after which the state
decides: `max(1, beta + 1 - count)` when `last` has the id of `v`, else
`max(2, beta + 1)`. For every alpha, every beta below `2 ^ 63 - 1` and every
undecided Snowball state with a preferred vote `p`, a counter below
`2 ^ 63 - 1` and `d <= beta + 1`: if in beta + 1 consecutive ticks the same
vote `v` has a positive tally that is strictly the largest and is not below the
`float64` value of `alpha * 2 / max(2, |votes|)`, and before the ticks `p` is
`v`, or `p` has another id and `counts[p.id] < (counts[v.id] + k) mod 2 ^ 16`
for some `k` with `1 <= k <= d`, then the ticks all return and afterwards
`preferred = v` and `decided = true`. -/
theorem C3_streak_decides (conf : Conf) (s : Snowball) (v p : snowballVote)
    (ticks : List (List (VoteID × ℚ) × List (VoteID × snowballVote)))
    (hbeta : conf.SnowballBeta < 2 ^ 63 - 1)
    (hund : s.decided = false) (hpref : s.preferred = some p)
    (hcount : -(2 ^ 63) ≤ s.count ∧ s.count < 2 ^ 63 - 1)
    (hdecide : ticksToDecide conf v s ≤ conf.SnowballBeta + 1)
    (hlead : p = v ∨ (p.id ≠ v.id ∧ ∃ k : Nat, 1 ≤ k ∧ (k : Int) ≤ ticksToDecide conf v s ∧
      mapGetD s.counts p.id 0 < (mapGetD s.counts v.id 0 + k) % u16))
    (hlen : (ticks.length : Int) = conf.SnowballBeta + 1)
    (htop : ∀ t ∈ ticks, TopTally conf v t.1 t.2) :
    ∃ s', Snowball.Ticks conf s ticks = TickResult.returned s' ∧
      s'.preferred = some v ∧ s'.decided = true :=
  Ticks_reach_decision conf v hbeta ticks s p htop hund hpref hcount.1 hcount.2 hlead
    (by rw [hlen]; exact hdecide)

/-- C3 amended, on scenario S4 with a Snowball that prefers Y and has two counts
for Y: four ticks for X end with `preferred = X` and `decided = true`. -/
theorem C3_streak_decides_witness :
    ∃ s', Snowball.Ticks (exampleConf 3) { preferred := some { id := 2 }, counts := [(2, 2)] }
        (List.replicate 4 (exampleTallies, exampleVotes)) = TickResult.returned s' ∧
      s'.preferred = some { id := 1 } ∧ s'.decided = true :=
  C3_streak_decides (exampleConf 3) { preferred := some { id := 2 }, counts := [(2, 2)] }
    { id := 1 } { id := 2 }
    (List.replicate 4 (exampleTallies, exampleVotes))
    (by decide) rfl rfl (by decide) (by decide)
    (Or.inr ⟨by decide, 3, by decide, by decide, by decide⟩) (by decide)
    (fun t ht => by
      rw [List.eq_of_mem_replicate ht]
      exact exampleTopTally 3)

/-! ### View graph: validation and completeness -/

/-- C10, the code at two self-referential transactions: `assertTransactionIsValid`
returns nil for a transaction whose only parent is itself and for one that names
itself at position 0 of a longer list (the loop stops before index 0), and
`AddTransaction` stores the second one as an incomplete transaction. A
transaction that names itself at position 1 is rejected. -/
theorem C10_self_parent_at_position_zero_accepted :
    assertTransactionIsValid exampleSelfOnly = none
    ∧ assertTransactionIsValid exampleSelfFirst = none
    ∧ (AddTransaction exampleSys (NewGraph exampleSys none) exampleSelfFirst).map
        (fun r => (r.2, mapGet r.1.transactions 5, decide (5 ∈ r.1.incomplete)))
      = some (some ErrMissingParents, some exampleSelfFirst, true)
    ∧ assertTransactionIsValid { exampleSelfFirst with ParentIDs := [4, 5] }
      = some "tx must not include itself in its parents" := by
  decide

theorem lookupTransactionByID_some (g g1 : Graph) (id : TransactionID) (tx : Transaction)
    (h : lookupTransactionByID g id = (g1, some tx)) :
    g1 = g ∧ mapGet g.transactions id = some tx := by
  unfold lookupTransactionByID at h
  cases hget : mapGet g.transactions id with
  | none =>
    rw [hget] at h
    simp only at h
    split_ifs at h <;> simp at h
  | some t =>
    rw [hget] at h
    simp only [Prod.mk.injEq, Option.some.injEq] at h
    exact ⟨h.1.symm, by rw [h.2]⟩

theorem lookupTransactionByID_of_stored (g : Graph) (id : TransactionID) (tx : Transaction)
    (h : mapGet g.transactions id = some tx) : lookupTransactionByID g id = (g, some tx) := by
  simp [lookupTransactionByID, h]

theorem lookupTransactionByID_transactions (g : Graph) (id : TransactionID) :
    (lookupTransactionByID g id).1.transactions = g.transactions := by
  unfold lookupTransactionByID
  split
  · rfl
  · split_ifs <;> rfl

theorem processParents_foldl_transactions (tx : Transaction) (ps : List TransactionID)
    (acc : Graph × List TransactionID) :
    (ps.foldl (processParent tx) acc).1.transactions = acc.1.transactions := by
  induction ps generalizing acc with
  | nil => rfl
  | cons p rest ih =>
    rw [List.foldl_cons, ih]
    simp only [processParent]
    exact lookupTransactionByID_transactions _ _

theorem processParents_transactions (g : Graph) (tx : Transaction) :
    (processParents g tx).1.transactions = g.transactions :=
  processParents_foldl_transactions tx tx.ParentIDs (g, [])

theorem ite_lt_eq_max (a b : Nat) : (if a < b then b else a) = max a b := by
  split_ifs with h
  · exact (max_eq_right (le_of_lt h)).symm
  · exact (max_eq_left (not_lt.mp h)).symm

theorem completeLoop_inr (sys : SysConf) (tx : Transaction) (ps : List TransactionID)
    (g g1 : Graph) (d c d' c' : Nat)
    (h : completeLoop sys tx ps g d c = (g1, Sum.inr (d', c'))) :
    g1 = g ∧ ∃ parents : List Transaction,
      ps.map (mapGet g.transactions) = parents.map some ∧
      d' = (parents.map (fun p => p.Depth)).foldl max d ∧
      c' = (parents.map (fun p => p.Confidence)).foldl max c ∧
      ∀ p ∈ parents, ¬ add64 p.Depth sys.MaxEligibleParentsDepthDiff < tx.Depth := by
  induction ps generalizing g d c with
  | nil =>
    simp only [completeLoop, Prod.mk.injEq, Sum.inr.injEq] at h
    exact ⟨h.1.symm, [], rfl, h.2.1.symm, h.2.2.symm, by simp⟩
  | cons p rest ih =>
    unfold completeLoop at h
    cases hl : lookupTransactionByID g p with
    | mk g2 o =>
      cases o with
      | none =>
        rw [hl] at h
        simp at h
      | some parent =>
        rw [hl] at h
        obtain ⟨hg2, hget⟩ := lookupTransactionByID_some g g2 p parent hl
        subst hg2
        simp only [ite_lt_eq_max] at h
        by_cases hdiff : add64 parent.Depth sys.MaxEligibleParentsDepthDiff < tx.Depth
        · rw [if_pos hdiff] at h
          simp at h
        · rw [if_neg hdiff] at h
          obtain ⟨hg1, parents, hmap, hd, hc, hall⟩ := ih _ _ _ h
          refine ⟨hg1, parent :: parents, ?_, ?_, ?_, ?_⟩
          · simp [hget, hmap]
          · rw [hd]
            simp only [List.map_cons, List.foldl_cons]
          · rw [hc]
            simp only [List.map_cons, List.foldl_cons]
          · intro q hq
            rcases List.mem_cons.mp hq with rfl | hq
            · exact hdiff
            · exact hall q hq

theorem assertTransactionIsComplete_none (sys : SysConf) (g g1 : Graph) (tx : Transaction)
    (h : assertTransactionIsComplete sys g tx = (g1, none)) :
    g1 = g ∧ ∃ parents : List Transaction,
      tx.ParentIDs.map (mapGet g.transactions) = parents.map some ∧
      tx.Depth = add64 ((parents.map (fun p => p.Depth)).foldl max 0) 1 ∧
      tx.Confidence
        = add64 ((parents.map (fun p => p.Confidence)).foldl max 0) tx.ParentIDs.length ∧
      ∀ p ∈ parents, ¬ add64 p.Depth sys.MaxEligibleParentsDepthDiff < tx.Depth := by
  unfold assertTransactionIsComplete at h
  cases hloop : completeLoop sys tx tx.ParentIDs g 0 0 with
  | mk g2 r =>
    cases r with
    | inl err =>
      rw [hloop] at h
      simp at h
    | inr dc =>
      obtain ⟨d', c'⟩ := dc
      rw [hloop] at h
      obtain ⟨hg2, parents, hmap, hd, hc, hall⟩ := completeLoop_inr sys tx _ _ _ _ _ _ _ hloop
      simp only at h
      by_cases h1 : tx.Depth ≠ add64 d' 1
      · rw [if_pos h1] at h
        simp at h
      · rw [if_neg h1] at h
        by_cases h2 : tx.Confidence ≠ add64 c' tx.ParentIDs.length
        · rw [if_pos h2] at h
          simp at h
        · rw [if_neg h2] at h
          simp only [Prod.mk.injEq, and_true] at h
          refine ⟨by rw [← h, hg2], parents, hmap, ?_, ?_, hall⟩
          · rw [← hd]
            exact not_not.mp h1
          · rw [← hc]
            exact not_not.mp h2

theorem markTransactionAsComplete_nil (sys : SysConf) (fuel : Nat) (g g' : Graph)
    (tx : Transaction) (h : markTransactionAsComplete sys fuel g tx = some (g', none)) :
    assertTransactionIsComplete sys g tx = (g, none) := by
  cases fuel with
  | zero => simp [markTransactionAsComplete] at h
  | succ fuel =>
    unfold markTransactionAsComplete at h
    cases hc : assertTransactionIsComplete sys g tx with
    | mk g1 e =>
      cases e with
      | some err =>
        rw [hc] at h
        simp at h
      | none =>
        rw [(assertTransactionIsComplete_none sys g g1 tx hc).1]

/-- What `AddTransaction` did when it returns nil: the id was new, the
transaction is valid, no parent was missing, and the completeness check passed
on the graph with the transaction stored and its parents processed. -/
theorem AddTransaction_nil (sys : SysConf) (g g' : Graph) (tx : Transaction)
    (h : AddTransaction sys g tx = some (g', none)) :
    mapGet g.transactions tx.ID = none ∧ assertTransactionIsValid tx = none ∧
    (processParents { g with transactions := mapSet g.transactions tx.ID tx,
                             missing := setDel g.missing tx.ID } tx).2 = [] ∧
    assertTransactionIsComplete sys
      (processParents { g with transactions := mapSet g.transactions tx.ID tx,
                               missing := setDel g.missing tx.ID } tx).1 tx
      = ((processParents { g with transactions := mapSet g.transactions tx.ID tx,
                                  missing := setDel g.missing tx.ID } tx).1, none) := by
  unfold AddTransaction at h
  split_ifs at h with hex
  · simp at h
  · cases hv : assertTransactionIsValid tx with
    | some err =>
      rw [hv] at h
      simp at h
    | none =>
      rw [hv] at h
      simp only at h
      split_ifs at h with hm
      · simp at h
      · refine ⟨?_, rfl, ?_, markTransactionAsComplete_nil sys _ _ _ _ h⟩
        · simpa using hex
        · exact List.length_eq_zero.mp (by omega)

/-- C8 as stated fails for more than one parent: in the graph with the root and
its children `exampleA` and `exampleB` (confidence 1 each), `AddTransaction`
returns nil for a child of both with confidence 3, which is not the sum of the
confidences of its parents plus the number of parents, 1 + 1 + 2. -/
theorem C8_counterexample_two_parents :
    (AddTransaction exampleSys exampleGraphAB exampleChildAB).map (fun r => r.2) = some none
    ∧ exampleChildAB.ParentIDs = [10, 11]
    ∧ mapGet exampleGraphAB.transactions 10 = some exampleA
    ∧ mapGet exampleGraphAB.transactions 11 = some exampleB
    ∧ exampleChildAB.Confidence ≠ (exampleA.Confidence + exampleB.Confidence) + 2 := by
  decide

/-- C8, amended. Whenever `AddTransaction` returns nil for `tx`, every parent
of `tx` is stored in the graph and `tx.Confidence` is the largest of the
confidences of the parents plus the number of parents, in `uint64` arithmetic
(modulo `2 ^ 64`), for parent lists of any length. -/
theorem C8_confidence_is_max_plus_count (sys : SysConf) (g g' : Graph) (tx : Transaction)
    (h : AddTransaction sys g tx = some (g', none)) :
    ∃ parents : List Transaction,
      tx.ParentIDs.map (mapGet (mapSet g.transactions tx.ID tx)) = parents.map some ∧
      tx.Confidence
        = ((parents.map (fun p => p.Confidence)).foldl max 0 + tx.ParentIDs.length) % 2 ^ 64 := by
  obtain ⟨_, _, _, hc⟩ := AddTransaction_nil sys g g' tx h
  obtain ⟨_, parents, hmap, _, hconf, _⟩ := assertTransactionIsComplete_none sys _ _ tx hc
  rw [processParents_transactions] at hmap
  exact ⟨parents, hmap, hconf⟩

/-- C8 amended, on the child of `exampleA` and `exampleB`. -/
theorem C8_confidence_is_max_plus_count_witness :
    ∃ parents : List Transaction,
      exampleChildAB.ParentIDs.map
          (mapGet (mapSet exampleGraphAB.transactions exampleChildAB.ID exampleChildAB))
        = parents.map some ∧
      exampleChildAB.Confidence
        = ((parents.map (fun p => p.Confidence)).foldl max 0
            + exampleChildAB.ParentIDs.length) % 2 ^ 64 :=
  C8_confidence_is_max_plus_count exampleSys exampleGraphAB
    (addToGraph exampleSys exampleGraphAB exampleChildAB) exampleChildAB (by decide)

/-- C9 as stated fails where the depth wraps around: under a root of depth
`2 ^ 64 - 1`, `AddTransaction` returns nil for a child of depth 0, which is not
1 + the depth of its parent. -/
theorem C9_counterexample_depth_wraps :
    (AddTransaction exampleSys (NewGraph exampleSys (some exampleDeepGenesis))
        exampleWrappedChild).map (fun r => r.2) = some none
    ∧ exampleWrappedChild.ParentIDs = [1]
    ∧ mapGet (NewGraph exampleSys (some exampleDeepGenesis)).transactions 1
        = some exampleDeepGenesis.Root
    ∧ exampleWrappedChild.Depth ≠ 1 + exampleDeepGenesis.Root.Depth := by
  decide

/-- C9, amended. Whenever `AddTransaction` returns nil for `tx`, every parent
of `tx` is stored in the graph, `tx.Depth` is 1 + the largest depth of the
parents in `uint64` arithmetic (modulo `2 ^ 64`), and every parent `p` has
`p.Depth + MaxEligibleParentsDepthDiff >= tx.Depth`. -/
theorem C9_depth_is_max_plus_one (sys : SysConf) (g g' : Graph) (tx : Transaction)
    (h : AddTransaction sys g tx = some (g', none)) :
    ∃ parents : List Transaction,
      tx.ParentIDs.map (mapGet (mapSet g.transactions tx.ID tx)) = parents.map some ∧
      tx.Depth = (1 + (parents.map (fun p => p.Depth)).foldl max 0) % 2 ^ 64 ∧
      ∀ p ∈ parents, p.Depth + sys.MaxEligibleParentsDepthDiff ≥ tx.Depth := by
  obtain ⟨_, _, _, hc⟩ := AddTransaction_nil sys g g' tx h
  obtain ⟨_, parents, hmap, hdepth, _, hall⟩ := assertTransactionIsComplete_none sys _ _ tx hc
  rw [processParents_transactions] at hmap
  refine ⟨parents, hmap, ?_, ?_⟩
  · rw [hdepth, add64, Nat.add_comm]
    rfl
  · intro p hp
    have h1 := not_lt.mp (hall p hp)
    exact le_trans h1 (Nat.mod_le _ _)

/-- C9 amended, on the child of `exampleA` and `exampleB`. -/
theorem C9_depth_is_max_plus_one_witness :
    ∃ parents : List Transaction,
      exampleChildAB.ParentIDs.map
          (mapGet (mapSet exampleGraphAB.transactions exampleChildAB.ID exampleChildAB))
        = parents.map some ∧
      exampleChildAB.Depth = (1 + (parents.map (fun p => p.Depth)).foldl max 0) % 2 ^ 64 ∧
      ∀ p ∈ parents, p.Depth + exampleSys.MaxEligibleParentsDepthDiff ≥ exampleChildAB.Depth :=
  C9_depth_is_max_plus_one exampleSys exampleGraphAB
    (addToGraph exampleSys exampleGraphAB exampleChildAB) exampleChildAB (by decide)

/-! ### View graph: the effect of the primitive steps -/

theorem mapGetD_mapSet_self {K V : Type} [DecidableEq K] (m : List (K × V)) (k : K) (v d : V) :
    mapGetD (mapSet m k v) k d = v := by
  simp [mapGetD, mapGet_mapSet_self]

theorem mapGetD_mapSet_ne {K V : Type} [DecidableEq K] (m : List (K × V)) (k k' : K) (v d : V)
    (hne : k' ≠ k) : mapGetD (mapSet m k v) k' d = mapGetD m k' d := by
  simp [mapGetD, mapGet_mapSet_ne _ _ _ _ hne]

theorem mapGetD_mapDel_ne {K V : Type} [DecidableEq K] (m : List (K × V)) (k k' : K) (d : V)
    (hne : k' ≠ k) : mapGetD (mapDel m k) k' d = mapGetD m k' d := by
  simp [mapGetD, mapGet_mapDel_ne _ _ _ hne]

theorem mapGetD_mapDel_self {K V : Type} [DecidableEq K] (m : List (K × V)) (k : K) (d : V) :
    mapGetD (mapDel m k) k d = d := by
  simp [mapGetD, mapGet_mapDel_self]

theorem mapGet_mapDel_eq_or {K V : Type} [DecidableEq K] (m : List (K × V)) (k k' : K) :
    mapGet (mapDel m k) k' = mapGet m k' ∨ mapGet (mapDel m k) k' = none := by
  by_cases h : k' = k
  · right
    rw [h]
    exact mapGet_mapDel_self m k
  · left
    exact mapGet_mapDel_ne m k k' h

theorem setDel_length_le {K : Type} [DecidableEq K] (s : List K) (x : K) :
    (setDel s x).length ≤ s.length :=
  List.length_filter_le _ _

theorem setDel_length_lt {K : Type} [DecidableEq K] (s : List K) (x : K) (h : x ∈ s) :
    (setDel s x).length < s.length := by
  unfold setDel
  apply List.length_filter_lt_length_iff_exists.mpr
  exact ⟨x, h, by simp⟩

/-- The depth index after `deleteTransaction` keeps every other id it had. -/
theorem deleteTransaction_depthIndex_mem (g : Graph) (x y : TransactionID) (depth : Nat)
    (hne : y ≠ x) (hy : y ∈ mapGetD g.depthIndex depth []) :
    y ∈ mapGetD (deleteTransaction g x).depthIndex depth [] := by
  unfold deleteTransaction
  cases hget : mapGet g.transactions x with
  | none => simpa using hy
  | some t =>
    simp only
    by_cases hd : depth = t.Depth
    · subst hd
      have hmem : y ∈ mapGetD (mapSet g.depthIndex t.Depth
          (setDel (mapGetD g.depthIndex t.Depth []) x)) t.Depth [] := by
        rw [mapGetD_mapSet_self]
        exact (mem_setDel _ _ _).mpr ⟨hy, hne⟩
      have hlen : ¬ (mapGetD (mapSet g.depthIndex t.Depth
          (setDel (mapGetD g.depthIndex t.Depth []) x)) t.Depth []).length = 0 := by
        intro h0
        rw [List.length_eq_zero.mp h0] at hmem
        simp at hmem
      rw [if_neg hlen]
      exact hmem
    · split_ifs
      · rw [mapGetD_mapDel_ne _ _ _ _ hd, mapGetD_mapSet_ne _ _ _ _ _ hd]
        exact hy
      · rw [mapGetD_mapSet_ne _ _ _ _ _ hd]
        exact hy

theorem deleteTransaction_transactions (g : Graph) (x : TransactionID) :
    (deleteTransaction g x).transactions = mapDel g.transactions x := by
  unfold deleteTransaction
  split <;> rfl

theorem deleteTransaction_children (g : Graph) (x : TransactionID) :
    (deleteTransaction g x).children = mapDel g.children x := by
  unfold deleteTransaction
  split <;> rfl

theorem deleteTransaction_incomplete (g : Graph) (x : TransactionID) :
    (deleteTransaction g x).incomplete = setDel g.incomplete x := by
  unfold deleteTransaction
  split <;> rfl

theorem deleteTransaction_missing (g : Graph) (x : TransactionID) :
    (deleteTransaction g x).missing = setDel g.missing x := by
  unfold deleteTransaction
  split <;> rfl

theorem createTransactionIndices_transactions (sys : SysConf) (g : Graph) (tx : Transaction) :
    (createTransactionIndices sys g tx).transactions = g.transactions := by
  unfold createTransactionIndices
  simp only
  split_ifs <;> rfl

theorem createTransactionIndices_children (sys : SysConf) (g : Graph) (tx : Transaction) :
    (createTransactionIndices sys g tx).children = g.children := by
  unfold createTransactionIndices
  simp only
  split_ifs <;> rfl

theorem createTransactionIndices_incomplete (sys : SysConf) (g : Graph) (tx : Transaction) :
    (createTransactionIndices sys g tx).incomplete = g.incomplete := by
  unfold createTransactionIndices
  simp only
  split_ifs <;> rfl

theorem createTransactionIndices_missing (sys : SysConf) (g : Graph) (tx : Transaction) :
    (createTransactionIndices sys g tx).missing = g.missing := by
  unfold createTransactionIndices
  simp only
  split_ifs <;> rfl

theorem createTransactionIndices_depthIndex (sys : SysConf) (g : Graph) (tx : Transaction) :
    (createTransactionIndices sys g tx).depthIndex
      = mapSet g.depthIndex tx.Depth (setAdd (mapGetD g.depthIndex tx.Depth []) tx.ID) := by
  unfold createTransactionIndices
  simp only
  split_ifs <;> rfl

theorem createTransactionIndices_depthIndex_self (sys : SysConf) (g : Graph) (tx : Transaction) :
    tx.ID ∈ mapGetD (createTransactionIndices sys g tx).depthIndex tx.Depth [] := by
  rw [createTransactionIndices_depthIndex, mapGetD_mapSet_self]
  exact (mem_setAdd _ _ _).mpr (Or.inl rfl)

theorem createTransactionIndices_depthIndex_mem (sys : SysConf) (g : Graph) (tx : Transaction)
    (y : TransactionID) (depth : Nat) (hy : y ∈ mapGetD g.depthIndex depth []) :
    y ∈ mapGetD (createTransactionIndices sys g tx).depthIndex depth [] := by
  rw [createTransactionIndices_depthIndex]
  by_cases hd : depth = tx.Depth
  · subst hd
    rw [mapGetD_mapSet_self]
    exact (mem_setAdd _ _ _).mpr (Or.inr hy)
  · rw [mapGetD_mapSet_ne _ _ _ _ _ hd]
    exact hy

/-! ### View graph: the frame of a promotion is kept by every step -/

theorem PromotionFrame_deleteTransaction (B C : Transaction)
    (txs : List (TransactionID × Transaction)) (g : Graph) (x : TransactionID)
    (hf : PromotionFrame B C txs g)
    (hB : x ≠ B.ID) (hC : x ≠ C.ID) (hP : x ∉ C.ParentIDs) :
    PromotionFrame B C txs (deleteTransaction g x) := by
  refine ⟨?_, ?_, ?_, ?_, ?_, ?_, ?_, ?_⟩
  · intro k t hk
    rw [deleteTransaction_transactions] at hk
    rcases mapGet_mapDel_eq_or g.transactions x k with h | h
    · rw [h] at hk
      exact hf.keys k t hk
    · rw [h] at hk
      cases hk
  · rw [deleteTransaction_transactions, mapGet_mapDel_ne _ _ _ (Ne.symm hB)]
    exact hf.storedB
  · rw [deleteTransaction_transactions, mapGet_mapDel_ne _ _ _ (Ne.symm hC)]
    exact hf.storedC
  · intro p hp
    have hpx : p ≠ x := fun h => hP (h ▸ hp)
    obtain ⟨h1, h2, h3⟩ := hf.parentsC p hp
    rw [deleteTransaction_transactions, deleteTransaction_incomplete,
      mapGet_mapDel_ne _ _ _ hpx]
    exact ⟨fun h => h1 ((mem_setDel _ _ _).mp h).1, h2, h3⟩
  · rw [deleteTransaction_incomplete]
    exact fun h => hf.completeB ((mem_setDel _ _ _).mp h).1
  · intro d hd hdC y hy
    rw [deleteTransaction_incomplete] at hd
    rw [deleteTransaction_children] at hy
    by_cases hdx : d = x
    · rw [hdx, mapGetD_mapDel_self] at hy
      simp at hy
    · rw [mapGetD_mapDel_ne _ _ _ _ hdx] at hy
      exact hf.guarded d ((mem_setDel _ _ _).mp hd).1 hdC y hy
  · rw [deleteTransaction_missing]
    exact ⟨fun h => hf.notMissing.1 ((mem_setDel _ _ _).mp h).1,
      fun h => hf.notMissing.2 ((mem_setDel _ _ _).mp h).1⟩
  · exact deleteTransaction_depthIndex_mem g x B.ID B.Depth (Ne.symm hB) hf.indexedB

theorem PromotionStatus_deleteTransaction (C : Transaction) (g : Graph) (x : TransactionID)
    (hs : PromotionStatus C g) (hC : x ≠ C.ID) :
    PromotionStatus C (deleteTransaction g x) := by
  unfold PromotionStatus at *
  rw [deleteTransaction_incomplete]
  rcases hs with h | ⟨h1, h2⟩
  · exact Or.inl ((mem_setDel _ _ _).mpr ⟨h, Ne.symm hC⟩)
  · exact Or.inr ⟨fun h => h1 ((mem_setDel _ _ _).mp h).1,
      deleteTransaction_depthIndex_mem g x C.ID C.Depth (Ne.symm hC) h2⟩

theorem deleteTransaction_incomplete_subset (g : Graph) (x y : TransactionID)
    (h : y ∈ (deleteTransaction g x).incomplete) : y ∈ g.incomplete := by
  rw [deleteTransaction_incomplete] at h
  exact ((mem_setDel _ _ _).mp h).1

/-- Deleting a list of ids none of which is `B`, `C` or a parent of `C`. -/
theorem PromotionFrame_foldl_delete (B C : Transaction)
    (txs : List (TransactionID × Transaction)) (ids : List TransactionID) (g : Graph)
    (hf : PromotionFrame B C txs g)
    (hids : ∀ x ∈ ids, x ≠ B.ID ∧ x ≠ C.ID ∧ x ∉ C.ParentIDs) :
    PromotionFrame B C txs (ids.foldl deleteTransaction g) ∧
    (PromotionStatus C g → PromotionStatus C (ids.foldl deleteTransaction g)) ∧
    (∀ y ∈ (ids.foldl deleteTransaction g).incomplete, y ∈ g.incomplete) := by
  induction ids generalizing g with
  | nil => exact ⟨hf, id, fun _ h => h⟩
  | cons x rest ih =>
    obtain ⟨h1, h2, h3⟩ := hids x (List.mem_cons_self _ _)
    obtain ⟨i1, i2, i3⟩ := ih (deleteTransaction g x)
      (PromotionFrame_deleteTransaction B C txs g x hf h1 h2 h3)
      (fun y hy => hids y (List.mem_cons_of_mem _ hy))
    refine ⟨i1, fun hs => i2 (PromotionStatus_deleteTransaction C g x hs h2), ?_⟩
    intro y hy
    exact deleteTransaction_incomplete_subset g x y (i3 y hy)

theorem PromotionFrame_deleteIncompleteTransaction (B C : Transaction)
    (txs : List (TransactionID × Transaction)) (g : Graph) (id : TransactionID)
    (hf : PromotionFrame B C txs g)
    (hid : id ≠ B.ID ∧ id ≠ C.ID ∧ id ∉ C.ParentIDs)
    (hch : ∀ x ∈ mapGetD g.children id [], x ≠ B.ID ∧ x ≠ C.ID ∧ x ∉ C.ParentIDs) :
    PromotionFrame B C txs (deleteIncompleteTransaction g id) ∧
    (PromotionStatus C g → PromotionStatus C (deleteIncompleteTransaction g id)) ∧
    (∀ y ∈ (deleteIncompleteTransaction g id).incomplete, y ∈ g.incomplete) := by
  unfold deleteIncompleteTransaction
  obtain ⟨i1, i2, i3⟩ := PromotionFrame_foldl_delete B C txs (mapGetD g.children id [])
    (deleteTransaction g id)
    (PromotionFrame_deleteTransaction B C txs g id hf hid.1 hid.2.1 hid.2.2) hch
  refine ⟨i1, fun hs => i2 (PromotionStatus_deleteTransaction C g id hs hid.2.1), ?_⟩
  intro y hy
  exact deleteTransaction_incomplete_subset g id y (i3 y hy)

theorem PromotionFrame_createTransactionIndices (sys : SysConf) (B C : Transaction)
    (txs : List (TransactionID × Transaction)) (g : Graph) (tx : Transaction)
    (hf : PromotionFrame B C txs g) :
    PromotionFrame B C txs (createTransactionIndices sys g tx) := by
  refine ⟨?_, ?_, ?_, ?_, ?_, ?_, ?_, ?_⟩
  · rw [createTransactionIndices_transactions]
    exact hf.keys
  · rw [createTransactionIndices_transactions]
    exact hf.storedB
  · rw [createTransactionIndices_transactions]
    exact hf.storedC
  · rw [createTransactionIndices_transactions, createTransactionIndices_incomplete]
    exact hf.parentsC
  · rw [createTransactionIndices_incomplete]
    exact hf.completeB
  · rw [createTransactionIndices_incomplete, createTransactionIndices_children]
    exact hf.guarded
  · rw [createTransactionIndices_missing]
    exact hf.notMissing
  · exact createTransactionIndices_depthIndex_mem sys g tx B.ID B.Depth hf.indexedB

theorem PromotionStatus_createTransactionIndices (sys : SysConf) (C : Transaction) (g : Graph)
    (tx : Transaction) (hs : PromotionStatus C g) :
    PromotionStatus C (createTransactionIndices sys g tx) := by
  unfold PromotionStatus at *
  rw [createTransactionIndices_incomplete]
  rcases hs with h | ⟨h1, h2⟩
  · exact Or.inl h
  · exact Or.inr ⟨h1, createTransactionIndices_depthIndex_mem sys g tx C.ID C.Depth h2⟩

/-- Taking a child out of `incomplete`, the step before its promotion. -/
theorem PromotionFrame_promote (B C : Transaction)
    (txs : List (TransactionID × Transaction)) (g : Graph) (childID : TransactionID)
    (hf : PromotionFrame B C txs g) :
    PromotionFrame B C txs { g with incomplete := setDel g.incomplete childID } := by
  refine ⟨hf.keys, hf.storedB, hf.storedC, ?_, ?_, ?_, hf.notMissing, hf.indexedB⟩
  · intro p hp
    obtain ⟨h1, h2, h3⟩ := hf.parentsC p hp
    exact ⟨fun h => h1 ((mem_setDel _ _ _).mp h).1, h2, h3⟩
  · exact fun h => hf.completeB ((mem_setDel _ _ _).mp h).1
  · intro d hd hdC y hy
    exact hf.guarded d ((mem_setDel _ _ _).mp hd).1 hdC y hy

theorem lookupTransactionByID_none (g : Graph) (id : TransactionID)
    (h : mapGet g.transactions id = none) :
    (lookupTransactionByID g id).2 = none ∧
    ((lookupTransactionByID g id).1 = g ∨
      (lookupTransactionByID g id).1 = { g with missing := setAdd g.missing id }) := by
  unfold lookupTransactionByID
  rw [h]
  simp only
  split_ifs
  · exact ⟨rfl, Or.inl rfl⟩
  · exact ⟨rfl, Or.inr rfl⟩

theorem completeLoop_graph (sys : SysConf) (tx : Transaction) (ps : List TransactionID)
    (g : Graph) (d c : Nat) :
    (completeLoop sys tx ps g d c).1 = g ∨
    ∃ p, mapGet g.transactions p = none ∧
      (completeLoop sys tx ps g d c).1 = { g with missing := setAdd g.missing p } := by
  induction ps generalizing d c with
  | nil => exact Or.inl rfl
  | cons p rest ih =>
    unfold completeLoop
    cases hget : mapGet g.transactions p with
    | none =>
      obtain ⟨h2, h1⟩ := lookupTransactionByID_none g p hget
      cases hl : lookupTransactionByID g p with
      | mk g1 o =>
        rw [hl] at h1 h2
        simp only at h1 h2
        subst h2
        simp only
        rcases h1 with h1 | h1
        · exact Or.inl h1
        · exact Or.inr ⟨p, hget, h1⟩
    | some parent =>
      rw [lookupTransactionByID_of_stored g p parent hget]
      simp only [ite_lt_eq_max]
      by_cases hdiff : add64 parent.Depth sys.MaxEligibleParentsDepthDiff < tx.Depth
      · rw [if_pos hdiff]
        exact Or.inl rfl
      · rw [if_neg hdiff]
        exact ih _ _

theorem assertTransactionIsComplete_graph (sys : SysConf) (g : Graph) (tx : Transaction) :
    (assertTransactionIsComplete sys g tx).1 = g ∨
    ∃ p, mapGet g.transactions p = none ∧
      (assertTransactionIsComplete sys g tx).1 = { g with missing := setAdd g.missing p } := by
  have h := completeLoop_graph sys tx tx.ParentIDs g 0 0
  unfold assertTransactionIsComplete
  cases hloop : completeLoop sys tx tx.ParentIDs g 0 0 with
  | mk g1 r =>
    rw [hloop] at h
    cases r with
    | inl err => exact h
    | inr dc =>
      obtain ⟨d', c'⟩ := dc
      simp only
      split_ifs <;> exact h

theorem completeLoop_congr (sys : SysConf) (tx : Transaction) (ps : List TransactionID)
    (g h : Graph) (d c : Nat)
    (hsame : ∀ p ∈ ps, mapGet g.transactions p = mapGet h.transactions p) :
    (completeLoop sys tx ps g d c).2 = (completeLoop sys tx ps h d c).2 := by
  induction ps generalizing d c with
  | nil => rfl
  | cons p rest ih =>
    have hp := hsame p (List.mem_cons_self _ _)
    have ih := fun d c => ih d c (fun q hq => hsame q (List.mem_cons_of_mem _ hq))
    unfold completeLoop
    cases hget : mapGet g.transactions p with
    | none =>
      have h1 := (lookupTransactionByID_none g p hget).1
      have h2 := (lookupTransactionByID_none h p (hp ▸ hget)).1
      cases hl : lookupTransactionByID g p with
      | mk g1 o =>
        cases hl' : lookupTransactionByID h p with
        | mk h1' o' =>
          rw [hl] at h1
          rw [hl'] at h2
          simp only at h1 h2
          subst h1
          subst h2
          rfl
    | some parent =>
      rw [lookupTransactionByID_of_stored g p parent hget,
        lookupTransactionByID_of_stored h p parent (hp ▸ hget)]
      simp only [ite_lt_eq_max]
      by_cases hdiff : add64 parent.Depth sys.MaxEligibleParentsDepthDiff < tx.Depth
      · rw [if_pos hdiff, if_pos hdiff]
      · rw [if_neg hdiff, if_neg hdiff]
        exact ih _ _

/-- The verdict of `assertTransactionIsComplete` depends on the graph only
through the stored parents of the transaction. -/
theorem assertTransactionIsComplete_congr (sys : SysConf) (g h : Graph) (tx : Transaction)
    (hsame : ∀ p ∈ tx.ParentIDs, mapGet g.transactions p = mapGet h.transactions p) :
    (assertTransactionIsComplete sys g tx).2 = (assertTransactionIsComplete sys h tx).2 := by
  have hc := completeLoop_congr sys tx tx.ParentIDs g h 0 0 hsame
  unfold assertTransactionIsComplete
  cases h1 : completeLoop sys tx tx.ParentIDs g 0 0 with
  | mk g1 r1 =>
    cases h2 : completeLoop sys tx tx.ParentIDs h 0 0 with
    | mk g2 r2 =>
      rw [h1, h2] at hc
      simp only at hc
      subst hc
      cases r1 with
      | inl err => rfl
      | inr dc =>
        obtain ⟨d', c'⟩ := dc
        simp only
        split_ifs <;> rfl

theorem PromotionFrame_missing (B C : Transaction)
    (txs : List (TransactionID × Transaction)) (g : Graph) (p : TransactionID)
    (hf : PromotionFrame B C txs g) (hp : mapGet g.transactions p = none) :
    PromotionFrame B C txs { g with missing := setAdd g.missing p } := by
  refine ⟨hf.keys, hf.storedB, hf.storedC, hf.parentsC, hf.completeB, hf.guarded, ⟨?_, ?_⟩,
    hf.indexedB⟩
  · intro h
    rcases (mem_setAdd _ _ _).mp h with h | h
    · rw [← h, hf.storedB] at hp
      cases hp
    · exact hf.notMissing.1 h
  · intro h
    rcases (mem_setAdd _ _ _).mp h with h | h
    · rw [← h, hf.storedC] at hp
      cases hp
    · exact hf.notMissing.2 h

/-- The completeness check keeps the frame of a promotion and touches neither
`incomplete` nor `children` nor the depth index. -/
theorem PromotionFrame_assert (sys : SysConf) (B C : Transaction)
    (txs : List (TransactionID × Transaction)) (g : Graph) (tx : Transaction)
    (hf : PromotionFrame B C txs g) :
    PromotionFrame B C txs (assertTransactionIsComplete sys g tx).1 ∧
    (assertTransactionIsComplete sys g tx).1.incomplete = g.incomplete ∧
    (assertTransactionIsComplete sys g tx).1.children = g.children ∧
    (assertTransactionIsComplete sys g tx).1.depthIndex = g.depthIndex := by
  rcases assertTransactionIsComplete_graph sys g tx with h | ⟨p, hp, h⟩
  · rw [h]
    exact ⟨hf, rfl, rfl, rfl⟩
  · rw [h]
    exact ⟨PromotionFrame_missing B C txs g p hf hp, rfl, rfl, rfl⟩

theorem parentsComplete_of_frame (B C : Transaction)
    (txs : List (TransactionID × Transaction)) (g : Graph)
    (hf : PromotionFrame B C txs g) : parentsComplete g C.ParentIDs = true := by
  unfold parentsComplete
  rw [List.all_eq_true]
  intro p hp
  obtain ⟨h1, h2, _⟩ := hf.parentsC p hp
  simp [h1, h2]

/-! ### View graph: promotion through the recursion -/

theorem promoteChildren_frame (B C : Transaction) (txs : List (TransactionID × Transaction))
    (mark : Graph → Transaction → Option (Graph × Option String))
    (hmark : ∀ g tx r, PromotionFrame B C txs g → mark g tx = some r → PromotionCall B C g tx →
      PromotionFrame B C txs r.1 ∧ PromotionStatus C r.1 ∧ ∀ y ∈ r.1.incomplete, y ∈ g.incomplete)
    (ids : List TransactionID) (g g' : Graph)
    (hf : PromotionFrame B C txs g) (hs : PromotionStatus C g)
    (h : promoteChildren mark ids g = some g') :
    PromotionFrame B C txs g' ∧ PromotionStatus C g' ∧
    (∀ y ∈ g'.incomplete, y ∈ g.incomplete) ∧ (C.ID ∈ ids → C.ID ∉ g'.incomplete) := by
  induction ids generalizing g with
  | nil =>
    simp only [promoteChildren, Option.some.injEq] at h
    subst h
    exact ⟨hf, hs, fun _ hy => hy, fun hmem => by simp at hmem⟩
  | cons childID rest ih =>
    unfold promoteChildren at h
    by_cases hinc : childID ∉ g.incomplete
    · rw [if_pos hinc] at h
      obtain ⟨i1, i2, i3, i4⟩ := ih g hf hs h
      refine ⟨i1, i2, i3, fun hmem => ?_⟩
      rcases List.mem_cons.mp hmem with heq | hmem
      · exact fun hc => hinc (heq ▸ i3 _ hc)
      · exact i4 hmem
    · rw [if_neg hinc] at h
      have hinc' : childID ∈ g.incomplete := not_not.mp hinc
      cases hget : mapGet g.transactions childID with
      | none =>
        rw [hget] at h
        simp only at h
        obtain ⟨i1, i2, i3, i4⟩ := ih g hf hs h
        refine ⟨i1, i2, i3, fun hmem => ?_⟩
        rcases List.mem_cons.mp hmem with heq | hmem
        · rw [← heq, hf.storedC] at hget
          cases hget
        · exact i4 hmem
      | some child =>
        rw [hget] at h
        simp only at h
        by_cases hpc : parentsComplete g child.ParentIDs = true
        · rw [if_pos hpc] at h
          cases hm : mark { g with incomplete := setDel g.incomplete childID } child with
          | none =>
            rw [hm] at h
            cases h
          | some r =>
            rw [hm] at h
            simp only at h
            have hf1 := PromotionFrame_promote B C txs g childID hf
            have hcall : PromotionCall B C { g with incomplete := setDel g.incomplete childID }
                child := by
              by_cases hcC : childID = C.ID
              · left
                rw [hcC, hf.storedC] at hget
                refine ⟨(Option.some.inj hget).symm, ?_⟩
                rw [hcC]
                exact fun hc => ((mem_setDel _ _ _).mp hc).2 rfl
              · right
                have hid : child.ID = childID := hf.keys childID child hget
                have hgd := hf.guarded childID hinc' hcC
                refine ⟨?_, ?_, ?_, ?_, ?_⟩
                · rcases hs with hs | ⟨hs1, hs2⟩
                  · exact Or.inl ((mem_setDel _ _ _).mpr ⟨hs, fun hc => hcC hc.symm⟩)
                  · exact Or.inr ⟨fun hc => hs1 ((mem_setDel _ _ _).mp hc).1, hs2⟩
                · rw [hid]
                  exact fun hc => hf.completeB (hc ▸ hinc')
                · rw [hid]
                  exact hcC
                · rw [hid]
                  exact fun hc => (hf.parentsC childID hc).1 hinc'
                · rw [hid]
                  exact hgd
            obtain ⟨m1, m2, m3⟩ := hmark _ _ _ hf1 hm hcall
            obtain ⟨i1, i2, i3, i4⟩ := ih r.1 m1 m2 h
            have hmono : ∀ y ∈ g'.incomplete, y ∈ setDel g.incomplete childID :=
              fun y hy => m3 y (i3 y hy)
            refine ⟨i1, i2, fun y hy => ((mem_setDel _ _ _).mp (hmono y hy)).1, fun hmem => ?_⟩
            rcases List.mem_cons.mp hmem with heq | hmem
            · exact fun hc => ((mem_setDel _ _ _).mp (hmono _ hc)).2 heq
            · exact i4 hmem
        · rw [if_neg hpc] at h
          obtain ⟨i1, i2, i3, i4⟩ := ih g hf hs h
          refine ⟨i1, i2, i3, fun hmem => ?_⟩
          rcases List.mem_cons.mp hmem with heq | hmem
          · rw [← heq, hf.storedC] at hget
            rw [← Option.some.inj hget] at hpc
            exact absurd (parentsComplete_of_frame B C txs g hf) hpc
          · exact i4 hmem

theorem markTransactionAsComplete_frame (sys : SysConf) (B C : Transaction)
    (txs : List (TransactionID × Transaction))
    (hcheck : ∀ g : Graph, (∀ p ∈ C.ParentIDs, mapGet g.transactions p = mapGet txs p) →
      (assertTransactionIsComplete sys g C).2 = none)
    (fuel : Nat) (g : Graph) (tx : Transaction) (r : Graph × Option String)
    (hf : PromotionFrame B C txs g)
    (h : markTransactionAsComplete sys fuel g tx = some r)
    (hcall : PromotionCall B C g tx) :
    PromotionFrame B C txs r.1 ∧ PromotionStatus C r.1 ∧
    ∀ y ∈ r.1.incomplete, y ∈ g.incomplete := by
  induction fuel generalizing g tx r with
  | zero => simp [markTransactionAsComplete] at h
  | succ fuel ih =>
    unfold markTransactionAsComplete at h
    obtain ⟨a1, a2, a3, a4⟩ := PromotionFrame_assert sys B C txs g tx hf
    cases hc : assertTransactionIsComplete sys g tx with
    | mk g1 e =>
      rw [hc] at h a1 a2 a3 a4
      simp only at a1 a2 a3 a4
      cases e with
      | some err =>
        simp only [Option.some.injEq] at h
        subst h
        simp only
        rcases hcall with ⟨htx, _⟩ | ⟨hs, h1, h2, h3, h4⟩
        · subst htx
          have := hcheck g (fun p hp => (hf.parentsC p hp).2.2)
          rw [hc] at this
          cases this
        · have hs1 : PromotionStatus C g1 := by
            unfold PromotionStatus at *
            rw [a2, a4]
            exact hs
          obtain ⟨d1, d2, d3⟩ := PromotionFrame_deleteIncompleteTransaction B C txs g1 tx.ID a1
            ⟨h1, h2, h3⟩ (by rw [a3]; exact h4)
          exact ⟨d1, d2 hs1, fun y hy => a2 ▸ d3 y hy⟩
      | none =>
        have hg1 : g1 = g := (assertTransactionIsComplete_none sys g g1 tx hc).1
        subst hg1
        simp only at h
        cases hp : promoteChildren (markTransactionAsComplete sys fuel)
            (mapGetD (createTransactionIndices sys g1 tx).children tx.ID [])
            (createTransactionIndices sys g1 tx) with
        | none =>
          rw [hp] at h
          cases h
        | some g3 =>
          rw [hp] at h
          simp only [Option.some.injEq] at h
          subst h
          simp only
          have hf2 := PromotionFrame_createTransactionIndices sys B C txs g1 tx hf
          have hs2 : PromotionStatus C (createTransactionIndices sys g1 tx) := by
            rcases hcall with ⟨htx, hnot⟩ | ⟨hs, _⟩
            · subst htx
              right
              rw [createTransactionIndices_incomplete]
              exact ⟨hnot, createTransactionIndices_depthIndex_self sys g1 tx⟩
            · exact PromotionStatus_createTransactionIndices sys C g1 tx hs
          obtain ⟨l1, l2, l3, _⟩ := promoteChildren_frame B C txs
            (markTransactionAsComplete sys fuel)
            (fun g tx r hf hm hcall => ih g tx r hf hm hcall) _ _ g3 hf2 hs2 hp
          refine ⟨l1, l2, fun y hy => ?_⟩
          have := l3 y hy
          rw [createTransactionIndices_incomplete] at this
          exact this

/-! ### View graph: `processParents` -/

theorem processParent_spec (tx : Transaction) (acc : Graph × List TransactionID)
    (p : TransactionID) :
    (processParent tx acc p).1.transactions = acc.1.transactions ∧
    (processParent tx acc p).1.incomplete = acc.1.incomplete ∧
    (processParent tx acc p).1.depthIndex = acc.1.depthIndex ∧
    (processParent tx acc p).1.seedIndex = acc.1.seedIndex ∧
    (processParent tx acc p).1.children
      = mapSet acc.1.children p (mapGetD acc.1.children p [] ++ [tx.ID]) ∧
    (∀ x, x ∈ (processParent tx acc p).1.missing ↔
      x ∈ acc.1.missing ∨ (x = p ∧ mapGet acc.1.transactions p = none)) ∧
    (processParent tx acc p).2
      = if mapGet acc.1.transactions p = none ∨ p ∈ acc.1.incomplete then acc.2 ++ [p]
        else acc.2 := by
  cases hget : mapGet acc.1.transactions p with
  | some parent =>
    simp [processParent, lookupTransactionByID_of_stored acc.1 p parent hget]
  | none =>
    unfold processParent lookupTransactionByID
    rw [hget]
    by_cases hm : p ∈ acc.1.missing
    · rw [if_pos hm]
      refine ⟨rfl, rfl, rfl, rfl, rfl, fun x => ?_, by simp⟩
      show x ∈ acc.1.missing ↔ _
      constructor
      · exact fun h => Or.inl h
      · rintro (h | ⟨h, _⟩)
        · exact h
        · exact h ▸ hm
    · rw [if_neg hm]
      refine ⟨rfl, rfl, rfl, rfl, rfl, fun x => ?_, by simp⟩
      show x ∈ setAdd acc.1.missing p ↔ _
      rw [mem_setAdd]
      constructor
      · rintro (h | h)
        · exact Or.inr ⟨h, rfl⟩
        · exact Or.inl h
      · rintro (h | ⟨h, _⟩)
        · exact Or.inr h
        · exact Or.inl h

theorem processParents_foldl_spec (tx : Transaction) (ps : List TransactionID)
    (acc : Graph × List TransactionID) :
    (ps.foldl (processParent tx) acc).1.incomplete = acc.1.incomplete ∧
    (ps.foldl (processParent tx) acc).1.depthIndex = acc.1.depthIndex ∧
    (ps.foldl (processParent tx) acc).1.seedIndex = acc.1.seedIndex ∧
    (∀ q, mapGetD (ps.foldl (processParent tx) acc).1.children q []
      = mapGetD acc.1.children q [] ++ List.replicate (ps.count q) tx.ID) ∧
    (∀ x, x ∈ (ps.foldl (processParent tx) acc).1.missing ↔
      x ∈ acc.1.missing ∨ (x ∈ ps ∧ mapGet acc.1.transactions x = none)) ∧
    (∀ x, x ∈ (ps.foldl (processParent tx) acc).2 ↔
      x ∈ acc.2 ∨ (x ∈ ps ∧ (mapGet acc.1.transactions x = none ∨ x ∈ acc.1.incomplete))) := by
  induction ps generalizing acc with
  | nil => simp
  | cons p rest ih =>
    obtain ⟨s1, s2, s3, s4, s5, s6, s7⟩ := processParent_spec tx acc p
    obtain ⟨i1, i2, i3, i4, i5, i6⟩ := ih (processParent tx acc p)
    rw [List.foldl_cons]
    refine ⟨by rw [i1, s2], by rw [i2, s3], by rw [i3, s4], fun q => ?_, fun x => ?_, fun x => ?_⟩
    · rw [i4, s5]
      by_cases hq : p = q
      · subst hq
        rw [mapGetD_mapSet_self, List.count_cons_self, List.replicate_succ, List.append_assoc]
        rfl
      · rw [mapGetD_mapSet_ne _ _ _ _ _ (Ne.symm hq), List.count_cons_of_ne (Ne.symm hq)]
    · rw [i5, s6, s1]
      constructor
      · rintro ((h | ⟨h, hn⟩) | ⟨h, hn⟩)
        · exact Or.inl h
        · exact Or.inr ⟨h ▸ List.mem_cons_self _ _, h ▸ hn⟩
        · exact Or.inr ⟨List.mem_cons_of_mem _ h, hn⟩
      · rintro (h | ⟨h, hn⟩)
        · exact Or.inl (Or.inl h)
        · rcases List.mem_cons.mp h with h | h
          · exact Or.inl (Or.inr ⟨h, h ▸ hn⟩)
          · exact Or.inr ⟨h, hn⟩
    · rw [i6, s7, s1, s2]
      constructor
      · rintro (h | ⟨h, hn⟩)
        · split_ifs at h with hc
          · rcases List.mem_append.mp h with h | h
            · exact Or.inl h
            · rw [List.mem_singleton.mp h]
              exact Or.inr ⟨List.mem_cons_self _ _, hc⟩
          · exact Or.inl h
        · exact Or.inr ⟨List.mem_cons_of_mem _ h, hn⟩
      · rintro (h | ⟨h, hn⟩)
        · left
          split_ifs
          · exact List.mem_append_left _ h
          · exact h
        · rcases List.mem_cons.mp h with h | h
          · left
            subst h
            rw [if_pos hn]
            exact List.mem_append_right _ (List.mem_singleton.mpr rfl)
          · exact Or.inr ⟨h, hn⟩

theorem AddTransaction_store (sys : SysConf) (g : Graph) (tx : Transaction)
    (hnew : mapGet g.transactions tx.ID = none) (hvalid : assertTransactionIsValid tx = none) :
    AddTransaction sys g tx =
      if (processParents (storeTransaction g tx) tx).2.length > 0 then
        some ({ (processParents (storeTransaction g tx) tx).1 with
                incomplete := setAdd (processParents (storeTransaction g tx) tx).1.incomplete tx.ID },
              some ErrMissingParents)
      else markTransactionAsComplete sys
        ((processParents (storeTransaction g tx) tx).1.incomplete.length + 1)
        (processParents (storeTransaction g tx) tx).1 tx := by
  unfold AddTransaction
  rw [hnew, hvalid]
  rfl

/-- The missing-parents branch of `AddTransaction`. For every transaction `tx`
that passes `assertTransactionIsValid`, whose id is not in the graph (not stored
and in no depth or seed index entry) and that has a parent other than `tx`
itself that is absent from `transactions`, or a parent that is in `incomplete`:
`AddTransaction` returns `ErrMissingParents`, and afterwards `tx` is in
`transactions` and in `incomplete`, `tx` is in no depth index and no seed index
entry, `tx.ID` has been appended to `children[p]` for each parent `p` (once for
each time `p` is listed), and every parent that is absent from `transactions`
is in `missing`. -/
theorem AddTransaction_missing_parents (sys : SysConf) (g : Graph) (tx : Transaction)
    (hnew : mapGet g.transactions tx.ID = none)
    (hdepth : ∀ e ∈ g.depthIndex, tx.ID ∉ e.2) (hseed : ∀ e ∈ g.seedIndex, tx.ID ∉ e.2)
    (hvalid : assertTransactionIsValid tx = none)
    (hmiss : ∃ p ∈ tx.ParentIDs,
      (p ≠ tx.ID ∧ mapGet g.transactions p = none) ∨ p ∈ g.incomplete) :
    ∃ g', AddTransaction sys g tx = some (g', some ErrMissingParents) ∧
      mapGet g'.transactions tx.ID = some tx ∧ tx.ID ∈ g'.incomplete ∧
      (∀ e ∈ g'.depthIndex, tx.ID ∉ e.2) ∧ (∀ e ∈ g'.seedIndex, tx.ID ∉ e.2) ∧
      (∀ p ∈ tx.ParentIDs, mapGetD g'.children p []
        = mapGetD g.children p [] ++ List.replicate (tx.ParentIDs.count p) tx.ID) ∧
      (∀ p ∈ tx.ParentIDs, mapGet g'.transactions p = none → p ∈ g'.missing) := by
  obtain ⟨i1, i2, i3, i4, i5, i6⟩ :=
    processParents_foldl_spec tx tx.ParentIDs (storeTransaction g tx, [])
  have itx := processParents_transactions (storeTransaction g tx) tx
  have hlen : (processParents (storeTransaction g tx) tx).2.length > 0 := by
    obtain ⟨p, hp, hpm⟩ := hmiss
    have hmem : p ∈ (processParents (storeTransaction g tx) tx).2 := by
      apply (i6 p).mpr
      right
      refine ⟨hp, ?_⟩
      show mapGet (mapSet g.transactions tx.ID tx) p = none ∨ p ∈ g.incomplete
      rcases hpm with ⟨hne, habs⟩ | hinc
      · left
        rw [mapGet_mapSet_ne _ _ _ _ hne]
        exact habs
      · exact Or.inr hinc
    exact List.length_pos_of_mem hmem
  rw [AddTransaction_store sys g tx hnew hvalid, if_pos hlen]
  refine ⟨_, rfl, ?_, ?_, ?_, ?_, ?_, ?_⟩
  · show mapGet (processParents (storeTransaction g tx) tx).1.transactions tx.ID = some tx
    rw [itx]
    exact mapGet_mapSet_self _ _ _
  · exact (mem_setAdd _ _ _).mpr (Or.inl rfl)
  · show ∀ e ∈ (processParents (storeTransaction g tx) tx).1.depthIndex, tx.ID ∉ e.2
    unfold processParents
    rw [i2]
    exact hdepth
  · show ∀ e ∈ (processParents (storeTransaction g tx) tx).1.seedIndex, tx.ID ∉ e.2
    unfold processParents
    rw [i3]
    exact hseed
  · intro p _
    exact i4 p
  · intro p hp habs
    show p ∈ (processParents (storeTransaction g tx) tx).1.missing
    have habs' : mapGet (processParents (storeTransaction g tx) tx).1.transactions p = none :=
      habs
    rw [itx] at habs'
    exact (i5 p).mpr (Or.inr ⟨hp, habs'⟩)

/-- Scenario S5: `C`, whose parent `B` is unknown, is added to the graph that
holds the root only. -/
theorem AddTransaction_missing_parents_example :
    ∃ g', AddTransaction exampleSys exampleGraphRoot examplePromotedC
        = some (g', some ErrMissingParents) ∧
      mapGet g'.transactions examplePromotedC.ID = some examplePromotedC ∧
      examplePromotedC.ID ∈ g'.incomplete ∧
      (∀ e ∈ g'.depthIndex, examplePromotedC.ID ∉ e.2) ∧
      (∀ e ∈ g'.seedIndex, examplePromotedC.ID ∉ e.2) ∧
      (∀ p ∈ examplePromotedC.ParentIDs, mapGetD g'.children p []
        = mapGetD exampleGraphRoot.children p []
          ++ List.replicate (examplePromotedC.ParentIDs.count p) examplePromotedC.ID) ∧
      (∀ p ∈ examplePromotedC.ParentIDs, mapGet g'.transactions p = none → p ∈ g'.missing) :=
  AddTransaction_missing_parents exampleSys exampleGraphRoot examplePromotedC
    (by decide) (by decide) (by decide) (by decide) (by decide)

theorem deleteTransaction_foldl_incomplete_length (ids : List TransactionID) (g : Graph) :
    (ids.foldl deleteTransaction g).incomplete.length ≤ g.incomplete.length := by
  induction ids generalizing g with
  | nil => exact le_refl _
  | cons x rest ih =>
    rw [List.foldl_cons]
    refine le_trans (ih _) ?_
    rw [deleteTransaction_incomplete]
    exact setDel_length_le _ _

theorem assertTransactionIsComplete_incomplete (sys : SysConf) (g : Graph) (tx : Transaction) :
    (assertTransactionIsComplete sys g tx).1.incomplete = g.incomplete := by
  rcases assertTransactionIsComplete_graph sys g tx with h | ⟨p, _, h⟩ <;> rw [h]

theorem promoteChildren_returns (mark : Graph → Transaction → Option (Graph × Option String))
    (n : Nat)
    (hmark : ∀ g tx, g.incomplete.length < n →
      ∃ r, mark g tx = some r ∧ r.1.incomplete.length ≤ g.incomplete.length)
    (ids : List TransactionID) (g : Graph) (hg : g.incomplete.length ≤ n) :
    ∃ g', promoteChildren mark ids g = some g' ∧ g'.incomplete.length ≤ g.incomplete.length := by
  induction ids generalizing g with
  | nil => exact ⟨g, rfl, le_refl _⟩
  | cons childID rest ih =>
    unfold promoteChildren
    by_cases hinc : childID ∉ g.incomplete
    · rw [if_pos hinc]
      exact ih g hg
    · rw [if_neg hinc]
      cases hget : mapGet g.transactions childID with
      | none => exact ih g hg
      | some child =>
        simp only
        by_cases hpc : parentsComplete g child.ParentIDs = true
        · rw [if_pos hpc]
          have hlt : (setDel g.incomplete childID).length < g.incomplete.length :=
            setDel_length_lt _ _ (not_not.mp hinc)
          obtain ⟨r, hr, hle⟩ := hmark { g with incomplete := setDel g.incomplete childID } child
            (lt_of_lt_of_le hlt hg)
          rw [hr]
          simp only
          have hle' : r.1.incomplete.length ≤ g.incomplete.length :=
            le_trans hle (le_of_lt hlt)
          obtain ⟨g', hg', hle''⟩ := ih r.1 (le_trans hle' hg)
          exact ⟨g', hg', le_trans hle'' hle'⟩
        · rw [if_neg hpc]
          exact ih g hg

/-- With more fuel than `incomplete` has entries, `markTransactionAsComplete`
returns, and `incomplete` has not grown. -/
theorem markTransactionAsComplete_returns (sys : SysConf) (fuel : Nat) (g : Graph)
    (tx : Transaction) (hfuel : g.incomplete.length < fuel) :
    ∃ r, markTransactionAsComplete sys fuel g tx = some r ∧
      r.1.incomplete.length ≤ g.incomplete.length := by
  induction fuel generalizing g tx with
  | zero => omega
  | succ fuel ih =>
    unfold markTransactionAsComplete
    have hinc := assertTransactionIsComplete_incomplete sys g tx
    cases hc : assertTransactionIsComplete sys g tx with
    | mk g1 e =>
      rw [hc] at hinc
      simp only at hinc
      cases e with
      | some err =>
        refine ⟨_, rfl, ?_⟩
        simp only [deleteIncompleteTransaction]
        refine le_trans (deleteTransaction_foldl_incomplete_length _ _) ?_
        rw [deleteTransaction_incomplete, ← hinc]
        exact setDel_length_le _ _
      | none =>
        simp only
        obtain ⟨g3, hg3, hle⟩ := promoteChildren_returns (markTransactionAsComplete sys fuel) fuel
          (fun g tx h => ih g tx h)
          (mapGetD (createTransactionIndices sys g1 tx).children tx.ID [])
          (createTransactionIndices sys g1 tx)
          (by rw [createTransactionIndices_incomplete, hinc]; omega)
        rw [hg3]
        refine ⟨_, rfl, ?_⟩
        rw [createTransactionIndices_incomplete, hinc] at hle
        exact hle

/-- The embedding of `AddTransaction` is total: the fuel it hands to
`markTransactionAsComplete` always suffices. -/
theorem AddTransaction_returns (sys : SysConf) (g : Graph) (tx : Transaction) :
    ∃ r, AddTransaction sys g tx = some r := by
  unfold AddTransaction
  split_ifs
  · exact ⟨_, rfl⟩
  · split
    · exact ⟨_, rfl⟩
    · simp only
      split_ifs
      · exact ⟨_, rfl⟩
      · obtain ⟨r, hr, _⟩ := markTransactionAsComplete_returns sys _ _ tx (Nat.lt_succ_self _)
        exact ⟨r, hr⟩

/-! ### View graph: promotion on arrival of the last missing parent -/

theorem mapGet_some_mem {K V : Type} [DecidableEq K] (m : List (K × V)) (k : K) (v : V)
    (h : mapGet m k = some v) : (k, v) ∈ m := by
  induction m with
  | nil => cases h
  | cons e rest ih =>
    obtain ⟨a, b⟩ := e
    rw [mapGet_cons] at h
    by_cases hk : a = k
    · rw [if_pos hk] at h
      rw [hk, Option.some.inj h]
      exact List.mem_cons_self _ _
    · rw [if_neg hk] at h
      exact List.mem_cons_of_mem _ (ih h)

/-- C4, amended. Let the store of the graph be keyed by id. Let `B` pass
`assertTransactionIsValid` and be absent (not stored, not in `incomplete`), with
every parent stored and complete. Let `C` be stored, in `incomplete`, not
recorded as missing and recorded among the children of `B`, with every parent
other than `B` stored and complete. Let `B` and `C` each pass the completeness
check against their parents, and let no other incomplete transaction have `B`,
`C` or a parent of `C` among its recorded children. Then `AddTransaction(B)`
returns nil and afterwards `B` and `C` are both in `transactions`, neither is in
`incomplete`, `B` is in `depthIndex[B.Depth]`, `C` is in `depthIndex[C.Depth]`,
and neither is in `missing`. -/
theorem C4_promotion_on_arrival_of_parent (sys : SysConf) (g : Graph) (B C : Transaction)
    (hkeys : ∀ e ∈ g.transactions, e.2.ID = e.1)
    (hBnew : mapGet g.transactions B.ID = none) (hBinc : B.ID ∉ g.incomplete)
    (hBvalid : assertTransactionIsValid B = none)
    (hBparents : ∀ p ∈ B.ParentIDs, (mapGet g.transactions p).isSome ∧ p ∉ g.incomplete)
    (hBcheck : (assertTransactionIsComplete sys (storeTransaction g B) B).2 = none)
    (hC : mapGet g.transactions C.ID = some C) (hCinc : C.ID ∈ g.incomplete)
    (hCmissing : C.ID ∉ g.missing)
    (hlink : C.ID ∈ mapGetD g.children B.ID [])
    (hCparents : ∀ p ∈ C.ParentIDs, p ≠ B.ID →
      (mapGet g.transactions p).isSome ∧ p ∉ g.incomplete)
    (hCcheck : (assertTransactionIsComplete sys (storeTransaction g B) C).2 = none)
    (hguard : ∀ d ∈ g.incomplete, d ≠ C.ID →
      ∀ x ∈ mapGetD g.children d [], x ≠ B.ID ∧ x ≠ C.ID ∧ x ∉ C.ParentIDs) :
    ∃ g', AddTransaction sys g B = some (g', none) ∧
      mapGet g'.transactions B.ID = some B ∧ mapGet g'.transactions C.ID = some C ∧
      B.ID ∉ g'.incomplete ∧ C.ID ∉ g'.incomplete ∧
      B.ID ∈ mapGetD g'.depthIndex B.Depth [] ∧ C.ID ∈ mapGetD g'.depthIndex C.Depth [] ∧
      B.ID ∉ g'.missing ∧ C.ID ∉ g'.missing := by
  obtain ⟨i1, i2, _, i4, i5, i6⟩ :=
    processParents_foldl_spec B B.ParentIDs (storeTransaction g B, [])
  have itx := processParents_transactions (storeTransaction g B) B
  have hCB : C.ID ≠ B.ID := by
    intro h
    rw [h, hBnew] at hC
    cases hC
  have hstored : ∀ p, (mapGet g.transactions p).isSome →
      (mapGet (mapSet g.transactions B.ID B) p).isSome := by
    intro p hp
    by_cases hpB : p = B.ID
    · rw [hpB, mapGet_mapSet_self]
      rfl
    · rw [mapGet_mapSet_ne _ _ _ _ hpB]
      exact hp
  -- no parent of `B` is missing
  have hnone : ¬ (processParents (storeTransaction g B) B).2.length > 0 := by
    intro hpos
    obtain ⟨x, hx⟩ := List.exists_mem_of_length_pos hpos
    rcases (i6 x).mp hx with h | ⟨hxp, h⟩
    · simp at h
    · obtain ⟨h1, h2⟩ := hBparents x hxp
      rcases h with h | h
      · have := hstored x h1
        rw [show mapGet (storeTransaction g B, ([] : List TransactionID)).1.transactions x
          = mapGet (mapSet g.transactions B.ID B) x from rfl] at h
        rw [h] at this
        cases this
      · exact h2 h
  rw [AddTransaction_store sys g B hBnew hBvalid, if_neg hnone]
  -- the completeness check of `B` passes
  have hBpass : assertTransactionIsComplete sys (processParents (storeTransaction g B) B).1 B
      = ((processParents (storeTransaction g B) B).1, none) := by
    have h2 : (assertTransactionIsComplete sys (processParents (storeTransaction g B) B).1 B).2
        = none := by
      rw [assertTransactionIsComplete_congr sys _ (storeTransaction g B) B
        (fun p _ => by rw [itx])]
      exact hBcheck
    cases hc : assertTransactionIsComplete sys (processParents (storeTransaction g B) B).1 B with
    | mk g1 e =>
      rw [hc] at h2
      simp only at h2
      subst h2
      rw [(assertTransactionIsComplete_none sys _ g1 B hc).1]
  -- the frame holds once `B` is indexed
  have hframe : PromotionFrame B C (mapSet g.transactions B.ID B)
      (createTransactionIndices sys (processParents (storeTransaction g B) B).1 B) := by
    refine ⟨?_, ?_, ?_, ?_, ?_, ?_, ?_, ?_⟩
    · intro k t hk
      rw [createTransactionIndices_transactions, itx] at hk
      by_cases hkB : k = B.ID
      · rw [hkB] at hk ⊢
        have hk' : mapGet (mapSet g.transactions B.ID B) B.ID = some t := hk
        rw [mapGet_mapSet_self] at hk'
        rw [← Option.some.inj hk']
      · have hk' : mapGet (mapSet g.transactions B.ID B) k = some t := hk
        rw [mapGet_mapSet_ne _ _ _ _ hkB] at hk'
        exact hkeys (k, t) (mapGet_some_mem _ _ _ hk')
    · rw [createTransactionIndices_transactions, itx]
      exact mapGet_mapSet_self _ _ _
    · rw [createTransactionIndices_transactions, itx]
      show mapGet (mapSet g.transactions B.ID B) C.ID = some C
      rw [mapGet_mapSet_ne _ _ _ _ hCB]
      exact hC
    · intro p hp
      rw [createTransactionIndices_transactions, createTransactionIndices_incomplete, itx]
      unfold processParents
      rw [i1]
      refine ⟨?_, ?_, rfl⟩
      · by_cases hpB : p = B.ID
        · rw [hpB]
          exact hBinc
        · exact (hCparents p hp hpB).2
      · by_cases hpB : p = B.ID
        · rw [hpB]
          show (mapGet (mapSet g.transactions B.ID B) B.ID).isSome = true
          rw [mapGet_mapSet_self]
          rfl
        · exact hstored p (hCparents p hp hpB).1
    · rw [createTransactionIndices_incomplete]
      unfold processParents
      rw [i1]
      exact hBinc
    · intro d hd hdC x hx
      rw [createTransactionIndices_incomplete] at hd
      rw [createTransactionIndices_children] at hx
      unfold processParents at hd hx
      rw [i1] at hd
      rw [i4] at hx
      have hdB : d ∉ B.ParentIDs := fun h => (hBparents d h).2 hd
      rw [List.count_eq_zero_of_not_mem hdB] at hx
      simp only [List.replicate_zero, List.append_nil] at hx
      exact hguard d hd hdC x hx
    · rw [createTransactionIndices_missing]
      unfold processParents
      constructor
      · intro h
        rcases (i5 B.ID).mp h with h | ⟨_, h⟩
        · exact ((mem_setDel _ _ _).mp h).2 rfl
        · have h' : mapGet (mapSet g.transactions B.ID B) B.ID = none := h
          rw [mapGet_mapSet_self] at h'
          cases h'
      · intro h
        rcases (i5 C.ID).mp h with h | ⟨_, h⟩
        · exact hCmissing ((mem_setDel _ _ _).mp h).1
        · have h' : mapGet (mapSet g.transactions B.ID B) C.ID = none := h
          rw [mapGet_mapSet_ne _ _ _ _ hCB, hC] at h'
          cases h'
    · exact createTransactionIndices_depthIndex_self sys _ B
  have hstatus : PromotionStatus C
      (createTransactionIndices sys (processParents (storeTransaction g B) B).1 B) := by
    left
    rw [createTransactionIndices_incomplete]
    unfold processParents
    rw [i1]
    exact hCinc
  have hmem : C.ID ∈ mapGetD
      (createTransactionIndices sys (processParents (storeTransaction g B) B).1 B).children
      B.ID [] := by
    rw [createTransactionIndices_children]
    unfold processParents
    rw [i4]
    exact List.mem_append_left _ hlink
  -- the loop over the children of `B` returns and promotes `C`
  obtain ⟨g3, hg3, _⟩ := promoteChildren_returns
    (markTransactionAsComplete sys (processParents (storeTransaction g B) B).1.incomplete.length)
    (processParents (storeTransaction g B) B).1.incomplete.length
    (fun g tx h => markTransactionAsComplete_returns sys _ g tx h)
    (mapGetD (createTransactionIndices sys (processParents (storeTransaction g B) B).1 B).children
      B.ID [])
    (createTransactionIndices sys (processParents (storeTransaction g B) B).1 B)
    (by rw [createTransactionIndices_incomplete])
  have hcheck : ∀ h : Graph, (∀ p ∈ C.ParentIDs,
      mapGet h.transactions p = mapGet (mapSet g.transactions B.ID B) p) →
      (assertTransactionIsComplete sys h C).2 = none := by
    intro h hsame
    rw [assertTransactionIsComplete_congr sys h (storeTransaction g B) C hsame]
    exact hCcheck
  obtain ⟨l1, l2, _, l4⟩ := promoteChildren_frame B C (mapSet g.transactions B.ID B)
    (markTransactionAsComplete sys (processParents (storeTransaction g B) B).1.incomplete.length)
    (fun g tx r hf hm hcall =>
      markTransactionAsComplete_frame sys B C _ hcheck _ g tx r hf hm hcall)
    _ _ g3 hframe hstatus hg3
  have hCdone := l4 hmem
  refine ⟨g3, ?_, l1.storedB, l1.storedC, l1.completeB, hCdone, l1.indexedB, ?_,
    l1.notMissing.1, l1.notMissing.2⟩
  · unfold markTransactionAsComplete
    rw [hBpass]
    simp only
    rw [hg3]
  · rcases l2 with h | ⟨_, h⟩
    · exact absurd h hCdone
    · exact h

/-- C4 amended, on scenario S5: `C` waits for `B`, then `B` arrives with the root
as its parent. -/
theorem C4_promotion_on_arrival_of_parent_witness :
    ∃ g', AddTransaction exampleSys exampleGraphWaiting examplePromotedB = some (g', none) ∧
      mapGet g'.transactions examplePromotedB.ID = some examplePromotedB ∧
      mapGet g'.transactions examplePromotedC.ID = some examplePromotedC ∧
      examplePromotedB.ID ∉ g'.incomplete ∧ examplePromotedC.ID ∉ g'.incomplete ∧
      examplePromotedB.ID ∈ mapGetD g'.depthIndex examplePromotedB.Depth [] ∧
      examplePromotedC.ID ∈ mapGetD g'.depthIndex examplePromotedC.Depth [] ∧
      examplePromotedB.ID ∉ g'.missing ∧ examplePromotedC.ID ∉ g'.missing :=
  C4_promotion_on_arrival_of_parent exampleSys exampleGraphWaiting examplePromotedB
    examplePromotedC (by decide) (by decide) (by decide) (by decide) (by decide) (by decide)
    (by decide) (by decide) (by decide) (by decide) (by decide) (by decide) (by decide)

/-- C4 as stated fails when the graph no longer records `C` among the children
of `B`. In `exampleGraphUnlinked` the transaction `C` is stored and incomplete,
its only parent `B` is absent, the only parent of `B` (the root) is stored and
complete, and `B` and `C` pass the completeness check; `AddTransaction(B)`
returns nil and `C` is still in `incomplete` and in no depth index. -/
theorem C4_counterexample_children_link_dropped :
    mapGet exampleGraphUnlinked.transactions 20 = some examplePromotedC
    ∧ 20 ∈ exampleGraphUnlinked.incomplete
    ∧ examplePromotedC.ParentIDs = [10]
    ∧ mapGet exampleGraphUnlinked.transactions 10 = none
    ∧ examplePromotedB.ParentIDs = [0]
    ∧ (mapGet exampleGraphUnlinked.transactions 0).isSome = true
    ∧ 0 ∉ exampleGraphUnlinked.incomplete
    ∧ (assertTransactionIsComplete exampleSys
        (storeTransaction exampleGraphUnlinked examplePromotedB) examplePromotedB).2 = none
    ∧ (assertTransactionIsComplete exampleSys
        (storeTransaction exampleGraphUnlinked examplePromotedB) examplePromotedC).2 = none
    ∧ (AddTransaction exampleSys exampleGraphUnlinked examplePromotedB).map
        (fun r => (r.2, decide (20 ∈ r.1.incomplete),
          decide (20 ∈ mapGetD r.1.depthIndex 2 [])))
      = some (none, true, false) := by
  decide

/-! ### View graph: validation of the parent ids, deletion of the progeny -/

/-- C11. `assertTransactionIsValid` returns nil for a transaction whose parent
ids are `[3, 3]`, which are not strictly ascending: the loop compares
neighbours with `>` and looks for duplicates among the ids at the positions 1
and up only, so the same id at the positions 0 and 1 passes both checks. -/
theorem C11_repeated_parent_at_positions_zero_and_one_accepted :
    assertTransactionIsValid exampleRepeatedParent = none
    ∧ exampleRepeatedParent.ParentIDs = [3, 3]
    ∧ ¬ List.Pairwise (fun a b => a < b) exampleRepeatedParent.ParentIDs := by
  decide

/-- C12. `D` waits for `C` and `C` waits for the id 10; `AddTransaction` of a
transaction with the id 10 that fails the completeness check returns the error
and deletes that transaction and its child `C`, and leaves the grandchild `D` in
`transactions` and in `incomplete`. -/
theorem C12_grandchild_survives_failed_add :
    20 ∈ mapGetD exampleGraphChain.children 10 []
    ∧ 30 ∈ mapGetD exampleGraphChain.children 20 []
    ∧ (AddTransaction exampleSys exampleGraphChain exampleInvalidB).map (fun r => r.2)
        = some (some "transactions depth is invalid")
    ∧ mapGet (addToGraph exampleSys exampleGraphChain exampleInvalidB).transactions 10 = none
    ∧ mapGet (addToGraph exampleSys exampleGraphChain exampleInvalidB).transactions 20 = none
    ∧ mapGet (addToGraph exampleSys exampleGraphChain exampleInvalidB).transactions 30
        = some exampleGrandchildD
    ∧ 30 ∈ (addToGraph exampleSys exampleGraphChain exampleInvalidB).incomplete := by
  decide

/-! ### Applier: faucet transfers and stakes -/

theorem ReadAccountStake_write_self (t : Tree) (id : AccountID) (v : Nat) :
    ReadAccountStake (WriteAccountStake t id v) id = (v, true) := by
  simp [ReadAccountStake, WriteAccountStake, readU64, mapGet_mapSet_self]

/-- What a transfer from the faucet does once the guard on transfers to
accounts without code is passed. -/
theorem applyTransferTransaction_faucet (env : Env)
    (apply : Round → Tree → Transaction → contractExecutorState → Outcome)
    (round : Round) (state : Tree) (tx : Transaction) (execState : contractExecutorState)
    (params : Transfer)
    (hparse : env.ParseTransferTransaction tx.Payload = Except.ok params)
    (hfaucet : tx.Creator = env.sys.FaucetAddress)
    (hguard : (ReadAccountContractCode state params.Recipient).2 = true ∨
      (params.GasLimit = 0 ∧ params.FuncName = [] ∧ params.FuncParams = [])) :
    applyTransferTransaction env apply state round tx execState =
      Outcome.returned
        (WriteAccountBalance state params.Recipient
          (add64 (ReadAccountBalance state params.Recipient).1 params.Amount))
        execState none := by
  have h1 : ¬ ((!(ReadAccountContractCode state params.Recipient).2) = true ∧
      (params.GasLimit > 0 ∨ params.FuncName.length > 0 ∨ params.FuncParams.length > 0)) := by
    rintro ⟨hc, hg⟩
    rcases hguard with h | ⟨hl, hn, hp⟩
    · simp [h] at hc
    · simp [hl, hn, hp] at hg
  simp only [applyTransferTransaction, hparse, if_neg h1, if_pos hfaucet]

/-- C19 as stated fails for a recipient without contract code when the payload
names a gas limit: the faucet sends 30 to account 2 with the gas limit 5 and
`ApplyTransaction` returns an error. -/
theorem C19_counterexample_faucet_transfer_rejected :
    (exampleFaucetTransfer 30 5).Creator = exampleEnv.sys.FaucetAddress
    ∧ exampleEnv.ParseTransferTransaction (exampleFaucetTransfer 30 5).Payload
        = Except.ok { Recipient := 2, Amount := 30, GasLimit := 5 }
    ∧ ApplyTransaction exampleEnv 1 {} (exampleBalances 0 0) (exampleFaucetTransfer 30 5)
      = Outcome.returned (exampleBalances 0 0) { GasPayer := 999 }
          (some "could not apply transfer transaction: transfer: transactions to non-contract accounts should not specify gas limit or function names or params") := by
  refine ⟨rfl, rfl, ?_⟩
  decide

/-- C19, amended. For every state and every transfer whose creator is the
faucet, whose recipient is a different account that holds contract code or else
comes with an empty gas limit, function name and function parameters, and with
`balance(recipient) + amount < 2 ^ 64`: `ApplyTransaction` returns nil whatever
the balance of the faucet is, the balance of the recipient goes up by the
amount, the balance of the faucet is unchanged, and so is every key other than
the balance of the recipient. -/
theorem C19_faucet_transfer_mints (env : Env) (fuel : Nat) (round : Round) (state : Tree)
    (tx : Transaction) (params : Transfer)
    (htag : tx.Tag = TagTransfer)
    (hparse : env.ParseTransferTransaction tx.Payload = Except.ok params)
    (hfaucet : tx.Creator = env.sys.FaucetAddress)
    (hne : params.Recipient ≠ tx.Creator)
    (hguard : (ReadAccountContractCode state params.Recipient).2 = true ∨
      (params.GasLimit = 0 ∧ params.FuncName = [] ∧ params.FuncParams = []))
    (hroom : (ReadAccountBalance state params.Recipient).1 + params.Amount < 2 ^ 64) :
    ∃ tree, ApplyTransaction env (fuel + 1) round state tx =
        Outcome.returned tree { GasPayer := tx.Creator } none
      ∧ (ReadAccountBalance tree params.Recipient).1
          = (ReadAccountBalance state params.Recipient).1 + params.Amount
      ∧ ReadAccountBalance tree tx.Creator = ReadAccountBalance state tx.Creator
      ∧ ∀ k, k ≠ Key.balance params.Recipient → mapGet tree k = mapGet state k := by
  refine ⟨WriteAccountBalance state params.Recipient
      (add64 (ReadAccountBalance state params.Recipient).1 params.Amount), ?_, ?_, ?_, ?_⟩
  · simp only [ApplyTransaction, applyTransaction, htag, Tree.Snapshot]
    rw [applyTransferTransaction_faucet env _ round state tx _ params hparse hfaucet hguard]
    simp [TagTransfer, TagNop, revertOnError]
  · rw [ReadAccountBalance_write_self]
    exact Nat.mod_eq_of_lt hroom
  · exact ReadAccountBalance_write_ne _ _ _ _ (Ne.symm hne)
  · intro k hk
    simp only [WriteAccountBalance]
    rw [mapGet_mapSet_ne _ _ _ _ hk]

/-- C19 amended, on a faucet without any balance: it sends 30 to account 2, which
holds 5. -/
theorem C19_faucet_transfer_mints_witness :
    ∃ tree, ApplyTransaction exampleEnv 1 {} (exampleBalances 0 5) (exampleFaucetTransfer 30 0) =
        Outcome.returned tree { GasPayer := 999 } none
      ∧ (ReadAccountBalance tree 2).1 = (ReadAccountBalance (exampleBalances 0 5) 2).1 + 30
      ∧ ReadAccountBalance tree 999 = ReadAccountBalance (exampleBalances 0 5) 999
      ∧ ∀ k, k ≠ Key.balance 2 → mapGet tree k = mapGet (exampleBalances 0 5) k :=
  C19_faucet_transfer_mints exampleEnv 0 {} (exampleBalances 0 5) (exampleFaucetTransfer 30 0)
    { Recipient := 2, Amount := 30 } rfl rfl rfl (by decide) (Or.inr ⟨rfl, rfl, rfl⟩) (by decide)

/-- C20 as stated fails where the stake wraps around: with the balance 10 and
the stake `2 ^ 64 - 1` a stake of 1 is placed and the stake becomes 0. -/
theorem C20_counterexample_stake_wraps :
    ApplyTransaction exampleEnv 1 {} (exampleStaked 10 (2 ^ 64 - 1)) (examplePlaceStake 1)
      = Outcome.returned [(Key.stake 1, Val.u64 0), (Key.balance 1, Val.u64 9)]
          { GasPayer := 1 } none
    ∧ (ReadAccountStake [(Key.stake 1, Val.u64 0), (Key.balance 1, Val.u64 9)] 1).1
        ≠ (ReadAccountStake (exampleStaked 10 (2 ^ 64 - 1)) 1).1 + 1 := by
  constructor
  · decide
  · decide

/-- C20, amended. For every state and every stake transaction with the opcode
`PlaceStake`: `ApplyTransaction` returns an error, with the state unchanged, if
and only if the balance of the creator is less than the amount; otherwise it
returns nil, the balance of the creator goes down by the amount, the reward of
the creator and every key other than its balance and its stake are unchanged,
and the stake of the creator goes up by the amount provided
`stake + amount < 2 ^ 64`. -/
theorem C20_place_stake (env : Env) (fuel : Nat) (round : Round) (state : Tree)
    (tx : Transaction) (params : Stake)
    (htag : tx.Tag = TagStake)
    (hparse : env.ParseStakeTransaction tx.Payload = Except.ok params)
    (hop : params.Opcode = env.sys.PlaceStake) :
    ((∃ tree st err, ApplyTransaction env (fuel + 1) round state tx
          = Outcome.returned tree st (some err))
        ↔ (ReadAccountBalance state tx.Creator).1 < params.Amount)
    ∧ ((ReadAccountBalance state tx.Creator).1 < params.Amount →
        ∃ err, ApplyTransaction env (fuel + 1) round state tx
          = Outcome.returned state { GasPayer := tx.Creator } (some err))
    ∧ (params.Amount ≤ (ReadAccountBalance state tx.Creator).1 →
        ∃ tree, ApplyTransaction env (fuel + 1) round state tx
            = Outcome.returned tree { GasPayer := tx.Creator } none
          ∧ (ReadAccountBalance tree tx.Creator).1 + params.Amount
              = (ReadAccountBalance state tx.Creator).1
          ∧ ((ReadAccountStake state tx.Creator).1 + params.Amount < 2 ^ 64 →
              (ReadAccountStake tree tx.Creator).1
                = (ReadAccountStake state tx.Creator).1 + params.Amount)
          ∧ ReadAccountReward tree tx.Creator = ReadAccountReward state tx.Creator
          ∧ ∀ k, k ≠ Key.balance tx.Creator → k ≠ Key.stake tx.Creator →
              mapGet tree k = mapGet state k) := by
  have hfail : (ReadAccountBalance state tx.Creator).1 < params.Amount →
      ApplyTransaction env (fuel + 1) round state tx
        = Outcome.returned state { GasPayer := tx.Creator }
            (some ("could not apply stake transaction" ++ ": " ++
              "stake: attempt to place a stake of more PERLs than the balance")) := by
    intro hlt
    simp [ApplyTransaction, applyTransaction, htag, TagStake, TagNop, TagTransfer,
      applyStakeTransaction, hparse, hop, hlt, Tree.Revert, Tree.Snapshot]
  have hok : params.Amount ≤ (ReadAccountBalance state tx.Creator).1 →
      ApplyTransaction env (fuel + 1) round state tx
        = Outcome.returned
            (WriteAccountStake
              (WriteAccountBalance state tx.Creator
                ((ReadAccountBalance state tx.Creator).1 - params.Amount))
              tx.Creator (add64 (ReadAccountStake state tx.Creator).1 params.Amount))
            { GasPayer := tx.Creator } none := by
    intro hle
    have hlt : ¬ (ReadAccountBalance state tx.Creator).1 < params.Amount := Nat.not_lt.mpr hle
    simp [ApplyTransaction, applyTransaction, htag, TagStake, TagNop, TagTransfer,
      applyStakeTransaction, hparse, hop, hlt, Tree.Snapshot]
  refine ⟨⟨?_, ?_⟩, ?_, ?_⟩
  · rintro ⟨tree, st, err, h⟩
    by_contra hlt
    rw [hok (Nat.not_lt.mp hlt)] at h
    simp at h
  · intro hlt
    exact ⟨_, _, _, hfail hlt⟩
  · intro hlt
    exact ⟨_, hfail hlt⟩
  · intro hle
    refine ⟨_, hok hle, ?_, ?_, ?_, ?_⟩
    · have hk : Key.balance tx.Creator ≠ Key.stake tx.Creator := by simp
      simp only [ReadAccountBalance, WriteAccountStake, WriteAccountBalance, readU64]
      rw [mapGet_mapSet_ne _ _ _ _ hk, mapGet_mapSet_self]
      exact Nat.sub_add_cancel hle
    · intro hroom
      rw [ReadAccountStake_write_self]
      exact Nat.mod_eq_of_lt hroom
    · have hk1 : Key.reward tx.Creator ≠ Key.stake tx.Creator := by simp
      have hk2 : Key.reward tx.Creator ≠ Key.balance tx.Creator := by simp
      simp only [ReadAccountReward, WriteAccountStake, WriteAccountBalance, readU64]
      rw [mapGet_mapSet_ne _ _ _ _ hk1, mapGet_mapSet_ne _ _ _ _ hk2]
    · intro k hk1 hk2
      simp only [WriteAccountStake, WriteAccountBalance]
      rw [mapGet_mapSet_ne _ _ _ _ hk2, mapGet_mapSet_ne _ _ _ _ hk1]

/-- C20 amended, on the balance 10 and the stake 4 of account 1: a stake of 3 is
placed. -/
theorem C20_place_stake_witness :
    ((∃ tree st err, ApplyTransaction exampleEnv 1 {} (exampleStaked 10 4) (examplePlaceStake 3)
          = Outcome.returned tree st (some err))
        ↔ (ReadAccountBalance (exampleStaked 10 4) 1).1 < 3)
    ∧ ((ReadAccountBalance (exampleStaked 10 4) 1).1 < 3 →
        ∃ err, ApplyTransaction exampleEnv 1 {} (exampleStaked 10 4) (examplePlaceStake 3)
          = Outcome.returned (exampleStaked 10 4) { GasPayer := 1 } (some err))
    ∧ (3 ≤ (ReadAccountBalance (exampleStaked 10 4) 1).1 →
        ∃ tree, ApplyTransaction exampleEnv 1 {} (exampleStaked 10 4) (examplePlaceStake 3)
            = Outcome.returned tree { GasPayer := 1 } none
          ∧ (ReadAccountBalance tree 1).1 + 3 = (ReadAccountBalance (exampleStaked 10 4) 1).1
          ∧ ((ReadAccountStake (exampleStaked 10 4) 1).1 + 3 < 2 ^ 64 →
              (ReadAccountStake tree 1).1 = (ReadAccountStake (exampleStaked 10 4) 1).1 + 3)
          ∧ ReadAccountReward tree 1 = ReadAccountReward (exampleStaked 10 4) 1
          ∧ ∀ k, k ≠ Key.balance 1 → k ≠ Key.stake 1 →
              mapGet tree k = mapGet (exampleStaked 10 4) k) :=
  C20_place_stake exampleEnv 0 {} (exampleStaked 10 4) (examplePlaceStake 3)
    { Opcode := 1, Amount := 3 } rfl rfl rfl

/-! ### Applier: batches -/

theorem applyBatchEntries_eq
    (apply : Round → Tree → Transaction → contractExecutorState → Outcome)
    (round : Round) (tx : Transaction) (params : Batch) (es : List (Nat × List Nat))
    (htags : params.Tags = es.map Prod.fst) (hpay : params.Payloads = es.map Prod.snd) :
    ∀ (rest : List (Nat × List Nat)) (i : Nat) (tree : Tree) (st : contractExecutorState),
      es.drop i = rest →
      applyBatchEntries apply round tx params rest.length i tree st
        = wrapBatchError (applyInSequence apply round (rest.map (batchEntry tx)) tree st) := by
  intro rest
  induction rest with
  | nil =>
    intro i tree st _
    simp [applyBatchEntries, applyInSequence, wrapBatchError]
  | cons e rest ih =>
    intro i tree st hdrop
    have hget : es[i]? = some e := by
      have h := List.getElem?_drop (L := es) (i := i) (j := 0)
      rw [hdrop] at h
      simpa using h.symm
    have hrest : es.drop (i + 1) = rest := by
      have h := List.tail_drop es i
      rw [hdrop] at h
      simpa using h.symm
    have h1 : params.Tags.get? i = some e.1 := by
      rw [htags]
      simp [hget]
    have h2 : params.Payloads.get? i = some e.2 := by
      rw [hpay]
      simp [hget]
    have ih1 := ih (i + 1)
    simp only [List.length_cons, applyBatchEntries, h1, h2, List.map_cons, applyInSequence]
    have hentry : apply round tree (batchEntry tx e) st
        = apply round tree (batchEntry tx (e.1, e.2)) st := rfl
    rw [hentry]
    simp only [batchEntry]
    generalize apply round tree _ st = out
    cases out with
    | returned tree1 st1 err =>
      cases err with
      | none => simpa using ih1 tree1 st1 hrest
      | some err => simp [wrapBatchError]
    | fatal m => simp [wrapBatchError]
    | panicked => simp [wrapBatchError]
    | outOfFuel => simp [wrapBatchError]

theorem applyInSequence_append_error
    (apply : Round → Tree → Transaction → contractExecutorState → Outcome)
    (round : Round) (T : Transaction) (post : List Transaction)
    (t1 t2 : Tree) (s1 s2 : contractExecutorState) (err : String)
    (hfail : apply round t1 T s1 = Outcome.returned t2 s2 (some err)) :
    ∀ (pre : List Transaction) (tree : Tree) (st : contractExecutorState),
      applyInSequence apply round pre tree st = Outcome.returned t1 s1 none →
      applyInSequence apply round (pre ++ T :: post) tree st
        = Outcome.returned t2 s2 (some err) := by
  intro pre
  induction pre with
  | nil =>
    intro tree st h
    simp only [applyInSequence, Outcome.returned.injEq, and_true] at h
    obtain ⟨rfl, rfl⟩ := h
    simp [applyInSequence, hfail]
  | cons P pre ih =>
    intro tree st h
    simp only [List.cons_append, applyInSequence] at h ⊢
    cases hout : apply round tree P st with
    | returned tree1 st1 e =>
      rw [hout] at h
      cases e with
      | none => simpa using ih tree1 st1 h
      | some e => simp at h
    | fatal m => rw [hout] at h; simp at h
    | panicked => rw [hout] at h; simp at h
    | outOfFuel => rw [hout] at h; simp at h

/-- What `applyTransaction` does with a batch of the entries `es`: the entries in
sequence, the error with its two contexts and the tree reverted. -/
theorem applyTransaction_batch (env : Env) (fuel : Nat) (round : Round) (state : Tree)
    (tx : Transaction) (execState : contractExecutorState) (params : Batch)
    (es : List (Nat × List Nat))
    (htag : tx.Tag = TagBatch)
    (hparse : env.ParseBatchTransaction tx.Payload = Except.ok params)
    (hsize : params.Size = es.length) (hu8 : es.length < 256)
    (htags : params.Tags = es.map Prod.fst) (hpay : params.Payloads = es.map Prod.snd) :
    applyTransaction env (fuel + 1) round state tx execState
      = revertOnError state "could not apply batch transaction"
          (wrapBatchError
            (applyInSequence (applyTransaction env fuel) round (es.map (batchEntry tx))
              state execState)) := by
  have h := applyBatchEntries_eq (applyTransaction env fuel) round tx params es htags hpay
    es 0 state execState (by simp)
  have hmod : params.Size % 256 = es.length := by
    rw [hsize]
    exact Nat.mod_eq_of_lt hu8
  simp only [applyTransaction, htag, Tree.Snapshot, applyBatchTransaction, hparse, hmod, h]
  simp [TagBatch, TagNop, TagTransfer, TagStake, TagContract]

/-- C14. In a batch whose entries before entry k return nil one after another
and whose entry k returns an error, `ApplyTransaction` returns an error (the
error of entry k with the contexts of the batch), the tree is the one before the
batch, and the executor state is the one entry k left: whatever entries follow
entry k, they are not applied. -/
theorem C14_batch_stops_at_failing_entry (env : Env) (fuel : Nat) (round : Round)
    (state : Tree) (tx : Transaction) (params : Batch)
    (pre post : List (Nat × List Nat)) (e : Nat × List Nat)
    (t1 t2 : Tree) (s1 s2 : contractExecutorState) (err : String)
    (htag : tx.Tag = TagBatch)
    (hparse : env.ParseBatchTransaction tx.Payload = Except.ok params)
    (hsize : params.Size = (pre ++ e :: post).length)
    (hu8 : (pre ++ e :: post).length < 256)
    (htags : params.Tags = (pre ++ e :: post).map Prod.fst)
    (hpay : params.Payloads = (pre ++ e :: post).map Prod.snd)
    (hpre : applyInSequence (applyTransaction env fuel) round (pre.map (batchEntry tx)) state
      { GasPayer := tx.Creator } = Outcome.returned t1 s1 none)
    (hfail : applyTransaction env fuel round t1 (batchEntry tx e) s1
      = Outcome.returned t2 s2 (some err)) :
    ApplyTransaction env (fuel + 1) round state tx
      = Outcome.returned state s2
          (some ("could not apply batch transaction: "
            ++ ("Error while processing a transaction in a batch.: " ++ err))) := by
  have hseq := applyInSequence_append_error (applyTransaction env fuel) round (batchEntry tx e)
    (post.map (batchEntry tx)) t1 t2 s1 s2 err hfail (pre.map (batchEntry tx)) state
    { GasPayer := tx.Creator } hpre
  have hmap : (pre ++ e :: post).map (batchEntry tx)
      = pre.map (batchEntry tx) ++ batchEntry tx e :: post.map (batchEntry tx) := by
    simp
  rw [ApplyTransaction,
    applyTransaction_batch env fuel round state tx _ params (pre ++ e :: post) htag hparse hsize
      hu8 htags hpay, hmap, hseq]
  simp [wrapBatchError, revertOnError, Tree.Revert]

/-- C14, on a batch of three transfers from a balance of 100: the first, of 30,
is applied, the second, of 100, overdraws, the third is not applied and the
balances are those before the batch. -/
theorem C14_batch_stops_at_failing_entry_witness :
    ApplyTransaction exampleEnv 2 {} (exampleBalances 100 0) exampleBatchOverdraft
      = Outcome.returned (exampleBalances 100 0) { GasPayer := 1 }
          (some ("could not apply batch transaction: "
            ++ ("Error while processing a transaction in a batch.: "
            ++ "could not apply transfer transaction: failed to execute transferValue on balance: transfer_value: tried to send more PERL than the sender has"))) :=
  C14_batch_stops_at_failing_entry exampleEnv 1 {} (exampleBalances 100 0) exampleBatchOverdraft
    { Size := 3, Tags := [1, 1, 1], Payloads := [[2, 30, 0, 0], [2, 100, 0, 0], [2, 10, 0, 0]] }
    [(1, [2, 30, 0, 0])] [(1, [2, 10, 0, 0])] (1, [2, 100, 0, 0])
    [(Key.balance 2, Val.u64 30), (Key.balance 1, Val.u64 70)]
    [(Key.balance 2, Val.u64 30), (Key.balance 1, Val.u64 70)]
    { GasPayer := 1 } { GasPayer := 1 }
    "could not apply transfer transaction: failed to execute transferValue on balance: transfer_value: tried to send more PERL than the sender has"
    rfl rfl rfl (by decide) rfl rfl (by decide) (by decide)

theorem ReadAccountContractGasBalance_write_self (t : Tree) (id : AccountID) (v : Nat) :
    ReadAccountContractGasBalance (WriteAccountContractGasBalance t id v) id = (v, true) := by
  simp [ReadAccountContractGasBalance, WriteAccountContractGasBalance, readU64,
    mapGet_mapSet_self]

/-- What the payment of the gas does when the two balances cover it. -/
theorem deductGas_spec (snapshot : Tree) (contractID gasPayer : AccountID)
    (gasPayerBalance contractGasBalance gas : Nat)
    (h : gas ≤ gasPayerBalance + contractGasBalance) :
    ∃ paid, deductGas snapshot contractID gasPayer gasPayerBalance contractGasBalance gas
        = some paid
      ∧ (ReadAccountContractGasBalance paid contractID).1 = contractGasBalance - gas
      ∧ (gas ≤ contractGasBalance →
          ReadAccountBalance paid gasPayer = ReadAccountBalance snapshot gasPayer)
      ∧ (contractGasBalance < gas →
          (ReadAccountBalance paid gasPayer).1 = gasPayerBalance - (gas - contractGasBalance))
      ∧ ∀ k, k ≠ Key.balance gasPayer → k ≠ Key.contractGasBalance contractID →
          mapGet paid k = mapGet snapshot k := by
  have hk : Key.contractGasBalance contractID ≠ Key.balance gasPayer := by simp
  by_cases hgt : gas > contractGasBalance
  · have hpay : ¬ gasPayerBalance < gas - contractGasBalance := by omega
    refine ⟨WriteAccountBalance (WriteAccountContractGasBalance snapshot contractID 0) gasPayer
      (gasPayerBalance - (gas - contractGasBalance)),
      by simp only [deductGas, if_pos hgt, if_neg hpay], ?_, ?_, ?_, ?_⟩
    · simp only [ReadAccountContractGasBalance, WriteAccountBalance,
        WriteAccountContractGasBalance, readU64]
      rw [mapGet_mapSet_ne _ _ _ _ hk, mapGet_mapSet_self]
      simp only
      omega
    · intro hle
      omega
    · intro _
      rw [ReadAccountBalance_write_self]
    · intro k hk1 hk2
      simp only [WriteAccountBalance, WriteAccountContractGasBalance]
      rw [mapGet_mapSet_ne _ _ _ _ hk1, mapGet_mapSet_ne _ _ _ _ hk2]
  · refine ⟨WriteAccountContractGasBalance snapshot contractID (contractGasBalance - gas),
      by simp only [deductGas, if_neg hgt], ?_, ?_, ?_, ?_⟩
    · rw [ReadAccountContractGasBalance_write_self]
    · intro _
      simp only [ReadAccountBalance, WriteAccountContractGasBalance, readU64]
      rw [mapGet_mapSet_ne _ _ _ _ (Ne.symm hk)]
    · intro hlt
      omega
    · intro k _ hk2
      simp only [WriteAccountContractGasBalance]
      rw [mapGet_mapSet_ne _ _ _ _ hk2]

theorem realGasLimit_le (state : contractExecutorState) (requestedGasLimit : Nat) :
    realGasLimit state requestedGasLimit ≤ (gasLimitState state requestedGasLimit).GasLimit
    ∧ realGasLimit state requestedGasLimit ≤ requestedGasLimit := by
  unfold realGasLimit
  split_ifs with h
  · exact ⟨Nat.le_of_lt h, le_refl _⟩
  · exact ⟨le_refl _, Nat.not_lt.mp h⟩

/-- The invocation of a contract, when the two balances cover the limit and the
executor reports gas within the limit: the gas is paid on the tree before the
execution when the executor reports a fault, and nothing else is done; it is
paid on the tree the executor left otherwise, and the queue is applied. -/
theorem executeContractInTransactionContext_run (env : Env)
    (apply : Round → Tree → Transaction → contractExecutorState → Outcome)
    (tx : Transaction) (contractID : AccountID) (code : List Nat) (snapshot : Tree)
    (round : Round) (amount requestedGasLimit : Nat) (funcName funcParams : List Nat)
    (state : contractExecutorState)
    (hbal : ¬ add64 (ReadAccountBalance snapshot state.GasPayer).1
        (ReadAccountContractGasBalance snapshot contractID).1
      < realGasLimit state requestedGasLimit)
    (hgas : (executorOf env tx contractID code snapshot round amount requestedGasLimit
        funcName funcParams state).Gas ≤ realGasLimit state requestedGasLimit) :
    executeContractInTransactionContext env apply tx contractID code snapshot round amount
        requestedGasLimit funcName funcParams state
      = if (executorOf env tx contractID code snapshot round amount requestedGasLimit
              funcName funcParams state).GasLimitExceeded = true
            ∨ (executorOf env tx contractID code snapshot round amount requestedGasLimit
              funcName funcParams state).err.isSome = true then
          match deductGas snapshot contractID state.GasPayer
              (ReadAccountBalance snapshot state.GasPayer).1
              (ReadAccountContractGasBalance snapshot contractID).1
              (executorOf env tx contractID code snapshot round amount requestedGasLimit
                funcName funcParams state).Gas with
          | none => Outcome.fatal "BUG: gasPayerBalance < (executor.Gas - contractGasBalance)"
          | some paid =>
            Outcome.returned paid
              { gasLimitState state requestedGasLimit with
                GasLimit := sub64 (gasLimitState state requestedGasLimit).GasLimit
                  (executorOf env tx contractID code snapshot round amount requestedGasLimit
                    funcName funcParams state).Gas } none
        else
          match deductGas
              (executorOf env tx contractID code snapshot round amount requestedGasLimit
                funcName funcParams state).tree contractID state.GasPayer
              (ReadAccountBalance snapshot state.GasPayer).1
              (ReadAccountContractGasBalance snapshot contractID).1
              (executorOf env tx contractID code snapshot round amount requestedGasLimit
                funcName funcParams state).Gas with
          | none => Outcome.fatal "BUG: gasPayerBalance < (executor.Gas - contractGasBalance)"
          | some paid =>
            applyQueue apply round
              (executorOf env tx contractID code snapshot round amount requestedGasLimit
                funcName funcParams state).Queue paid
              { gasLimitState state requestedGasLimit with
                GasLimit := sub64 (gasLimitState state requestedGasLimit).GasLimit
                  (executorOf env tx contractID code snapshot round amount requestedGasLimit
                    funcName funcParams state).Gas } := by
  have hle := (realGasLimit_le state requestedGasLimit).1
  have h1 : ¬ realGasLimit state requestedGasLimit
      < (executorOf env tx contractID code snapshot round amount requestedGasLimit
        funcName funcParams state).Gas := Nat.not_lt.mpr hgas
  have h2 : ¬ (gasLimitState state requestedGasLimit).GasLimit
      < realGasLimit state requestedGasLimit := Nat.not_lt.mpr hle
  unfold executeContractInTransactionContext
  simp only [Tree.Snapshot, Tree.Revert]
  change (if add64 (ReadAccountBalance snapshot state.GasPayer).1
        (ReadAccountContractGasBalance snapshot contractID).1
      < realGasLimit state requestedGasLimit then _ else _) = _
  rw [if_neg hbal]
  change (if realGasLimit state requestedGasLimit
      < (executorOf env tx contractID code snapshot round amount requestedGasLimit
        funcName funcParams state).Gas then _ else _) = _
  rw [if_neg h1]
  change (if (gasLimitState state requestedGasLimit).GasLimit
      < realGasLimit state requestedGasLimit then _ else _) = _
  rw [if_neg h2]
  obtain ⟨payer, limit, isSet⟩ := state
  cases isSet <;> rfl

theorem realGasLimit_fresh (creator : AccountID) (requestedGasLimit : Nat) :
    realGasLimit { GasPayer := creator } requestedGasLimit = requestedGasLimit := by
  simp [realGasLimit, gasLimitState]

theorem gasLimitState_fresh (creator : AccountID) (requestedGasLimit : Nat) :
    gasLimitState { GasPayer := creator } requestedGasLimit
      = { GasPayer := creator, GasLimit := requestedGasLimit, GasLimitIsSet := true } := by
  simp [gasLimitState]

/-- A transfer to an account with contract code that names a function, from a
creator who is not the faucet and can pay the amount and the gas deposit, ends
in the invocation of the contract on the tree `s2` after both payments. -/
theorem applyTransferTransaction_invokes (env : Env)
    (apply : Round → Tree → Transaction → contractExecutorState → Outcome)
    (round : Round) (state : Tree) (tx : Transaction) (execState : contractExecutorState)
    (params : Transfer) (s1 s2 : Tree)
    (hparse : env.ParseTransferTransaction tx.Payload = Except.ok params)
    (hfaucet : tx.Creator ≠ env.sys.FaucetAddress)
    (hcode : (ReadAccountContractCode state params.Recipient).2 = true)
    (hname : params.FuncName.length ≠ 0)
    (h1 : transferValue "PERL" state tx.Creator params.Recipient params.Amount
      ReadAccountBalance WriteAccountBalance ReadAccountBalance WriteAccountBalance = (s1, none))
    (h2 : (if params.GasDeposit ≠ 0 then
        transferValue "PERL (Gas Deposit)" s1 tx.Creator params.Recipient params.GasDeposit
          ReadAccountBalance WriteAccountBalance
          ReadAccountContractGasBalance WriteAccountContractGasBalance
      else (s1, none)) = (s2, none)) :
    applyTransferTransaction env apply state round tx execState
      = executeContractInTransactionContext env apply tx params.Recipient
          (ReadAccountContractCode state params.Recipient).1 s2 round params.Amount
          params.GasLimit params.FuncName params.FuncParams execState := by
  have hg : ¬ ((!(ReadAccountContractCode state params.Recipient).2) = true ∧
      (params.GasLimit > 0 ∨ params.FuncName.length > 0 ∨ params.FuncParams.length > 0)) := by
    rintro ⟨hc, _⟩
    simp [hcode] at hc
  have hc : ¬ ((!(ReadAccountContractCode state params.Recipient).2) = true) := by
    simp [hcode]
  simp only [applyTransferTransaction, hparse, if_neg hg, if_neg hfaucet, h1, if_neg hc, h2,
    if_neg hname]

/-- What `ApplyTransaction` does with the transfer of
`applyTransferTransaction_invokes`. -/
theorem ApplyTransaction_invokes (env : Env) (fuel : Nat) (round : Round) (state : Tree)
    (tx : Transaction) (params : Transfer) (s1 s2 : Tree)
    (htag : tx.Tag = TagTransfer)
    (hparse : env.ParseTransferTransaction tx.Payload = Except.ok params)
    (hfaucet : tx.Creator ≠ env.sys.FaucetAddress)
    (hcode : (ReadAccountContractCode state params.Recipient).2 = true)
    (hname : params.FuncName.length ≠ 0)
    (h1 : transferValue "PERL" state tx.Creator params.Recipient params.Amount
      ReadAccountBalance WriteAccountBalance ReadAccountBalance WriteAccountBalance = (s1, none))
    (h2 : (if params.GasDeposit ≠ 0 then
        transferValue "PERL (Gas Deposit)" s1 tx.Creator params.Recipient params.GasDeposit
          ReadAccountBalance WriteAccountBalance
          ReadAccountContractGasBalance WriteAccountContractGasBalance
      else (s1, none)) = (s2, none)) :
    ApplyTransaction env (fuel + 1) round state tx
      = revertOnError state "could not apply transfer transaction"
          (executeContractInTransactionContext env (applyTransaction env fuel) tx
            params.Recipient (ReadAccountContractCode state params.Recipient).1 s2 round
            params.Amount params.GasLimit params.FuncName params.FuncParams
            { GasPayer := tx.Creator }) := by
  simp only [ApplyTransaction, applyTransaction, htag, Tree.Snapshot]
  rw [applyTransferTransaction_invokes env _ round state tx _ params s1 s2 hparse hfaucet hcode
    hname h1 h2]
  simp [TagTransfer, TagNop]

/-- C15. For every invocation of a contract in which the executor runs (the two
balances cover the effective limit), reports gas within the effective limit and,
when it reports no fault, has left the balance of the gas payer and the gas
balance of the contract as they were: the gas is paid on the tree before the
execution (fault) or on the tree the executor left (no fault, the queue is
applied afterwards); the gas balance of the contract becomes
`max(0, before - gas_used)`, the gas payer pays `max(0, gas_used - contract gas
balance before)`, and the two decreases add up to `gas_used`. -/
theorem C15_gas_is_paid_by_contract_balance_first (env : Env)
    (apply : Round → Tree → Transaction → contractExecutorState → Outcome)
    (tx : Transaction) (contractID : AccountID) (code : List Nat) (snapshot : Tree)
    (round : Round) (amount requestedGasLimit : Nat) (funcName funcParams : List Nat)
    (state : contractExecutorState)
    (hbal : ¬ add64 (ReadAccountBalance snapshot state.GasPayer).1
        (ReadAccountContractGasBalance snapshot contractID).1
      < realGasLimit state requestedGasLimit)
    (hgas : (executorOf env tx contractID code snapshot round amount requestedGasLimit
        funcName funcParams state).Gas ≤ realGasLimit state requestedGasLimit)
    (hkeep : ¬ ((executorOf env tx contractID code snapshot round amount requestedGasLimit
          funcName funcParams state).GasLimitExceeded = true
        ∨ (executorOf env tx contractID code snapshot round amount requestedGasLimit
          funcName funcParams state).err.isSome = true) →
      (ReadAccountBalance (executorOf env tx contractID code snapshot round amount
          requestedGasLimit funcName funcParams state).tree state.GasPayer).1
        = (ReadAccountBalance snapshot state.GasPayer).1
      ∧ (ReadAccountContractGasBalance (executorOf env tx contractID code snapshot round amount
          requestedGasLimit funcName funcParams state).tree contractID).1
        = (ReadAccountContractGasBalance snapshot contractID).1) :
    ∃ paid,
      executeContractInTransactionContext env apply tx contractID code snapshot round amount
          requestedGasLimit funcName funcParams state
        = (if (executorOf env tx contractID code snapshot round amount requestedGasLimit
                funcName funcParams state).GasLimitExceeded = true
              ∨ (executorOf env tx contractID code snapshot round amount requestedGasLimit
                funcName funcParams state).err.isSome = true then
            Outcome.returned paid
              (gasChargedState state requestedGasLimit
                (executorOf env tx contractID code snapshot round amount requestedGasLimit
                  funcName funcParams state).Gas) none
          else
            applyQueue apply round
              (executorOf env tx contractID code snapshot round amount requestedGasLimit
                funcName funcParams state).Queue paid
              (gasChargedState state requestedGasLimit
                (executorOf env tx contractID code snapshot round amount requestedGasLimit
                  funcName funcParams state).Gas))
      ∧ ((ReadAccountContractGasBalance paid contractID).1 : Int)
          = max 0 (((ReadAccountContractGasBalance snapshot contractID).1 : Int)
              - (executorOf env tx contractID code snapshot round amount requestedGasLimit
                  funcName funcParams state).Gas)
      ∧ ((ReadAccountBalance snapshot state.GasPayer).1 : Int)
            - (ReadAccountBalance paid state.GasPayer).1
          = max 0 (((executorOf env tx contractID code snapshot round amount requestedGasLimit
                  funcName funcParams state).Gas : Int)
              - (ReadAccountContractGasBalance snapshot contractID).1)
      ∧ (((ReadAccountContractGasBalance snapshot contractID).1 : Int)
            - (ReadAccountContractGasBalance paid contractID).1)
          + (((ReadAccountBalance snapshot state.GasPayer).1 : Int)
            - (ReadAccountBalance paid state.GasPayer).1)
          = (executorOf env tx contractID code snapshot round amount requestedGasLimit
              funcName funcParams state).Gas := by
  have hrun := executeContractInTransactionContext_run env apply tx contractID code snapshot
    round amount requestedGasLimit funcName funcParams state hbal hgas
  have hsum : (executorOf env tx contractID code snapshot round amount requestedGasLimit
        funcName funcParams state).Gas
      ≤ (ReadAccountBalance snapshot state.GasPayer).1
        + (ReadAccountContractGasBalance snapshot contractID).1 := by
    have hmod : add64 (ReadAccountBalance snapshot state.GasPayer).1
          (ReadAccountContractGasBalance snapshot contractID).1
        ≤ (ReadAccountBalance snapshot state.GasPayer).1
          + (ReadAccountContractGasBalance snapshot contractID).1 := Nat.mod_le _ _
    omega
  generalize executorOf env tx contractID code snapshot round amount requestedGasLimit
    funcName funcParams state = ex at *
  by_cases hfault : ex.GasLimitExceeded = true ∨ ex.err.isSome = true
  · obtain ⟨paid, hd, hg, hle, hlt, _⟩ := deductGas_spec snapshot contractID state.GasPayer
      (ReadAccountBalance snapshot state.GasPayer).1
      (ReadAccountContractGasBalance snapshot contractID).1 ex.Gas hsum
    refine ⟨paid, ?_, ?_, ?_, ?_⟩
    · rw [hrun, if_pos hfault, if_pos hfault, hd]
      rfl
    · rw [hg]
      omega
    · rcases Nat.lt_or_ge (ReadAccountContractGasBalance snapshot contractID).1 ex.Gas with h | h
      · rw [hlt h]
        omega
      · rw [hle h]
        omega
    · rcases Nat.lt_or_ge (ReadAccountContractGasBalance snapshot contractID).1 ex.Gas with h | h
      · rw [hlt h, hg]
        omega
      · rw [hle h, hg]
        omega
  · obtain ⟨hkb, hkg⟩ := hkeep hfault
    obtain ⟨paid, hd, hg, hle, hlt, _⟩ := deductGas_spec ex.tree contractID state.GasPayer
      (ReadAccountBalance snapshot state.GasPayer).1
      (ReadAccountContractGasBalance snapshot contractID).1 ex.Gas hsum
    refine ⟨paid, ?_, ?_, ?_, ?_⟩
    · rw [hrun, if_neg hfault, if_neg hfault, hd]
      rfl
    · rw [hg]
      omega
    · rcases Nat.lt_or_ge (ReadAccountContractGasBalance snapshot contractID).1 ex.Gas with h | h
      · rw [hlt h]
        omega
      · rw [hle h, hkb]
        omega
    · rcases Nat.lt_or_ge (ReadAccountContractGasBalance snapshot contractID).1 ex.Gas with h | h
      · rw [hlt h, hg]
        omega
      · rw [hle h, hkb, hg]
        omega

/-- C15, on the call of the function 3 with the gas limit 30, for which the
executor reports 10 units of gas: the contract holds a gas balance of 3, which
becomes 0, and the gas payer, who holds 1000, pays the other 7. -/
theorem C15_gas_is_paid_by_contract_balance_first_witness :
    ∃ paid,
      executeContractInTransactionContext exampleGasEnv (applyTransaction exampleGasEnv 1)
          (exampleCall 30 3) 2 [0] (exampleContractState 1000 3) {} 0 30 [3] []
          { GasPayer := 1 }
        = (if (executorOf exampleGasEnv (exampleCall 30 3) 2 [0] (exampleContractState 1000 3)
                {} 0 30 [3] [] { GasPayer := 1 }).GasLimitExceeded = true
              ∨ (executorOf exampleGasEnv (exampleCall 30 3) 2 [0] (exampleContractState 1000 3)
                {} 0 30 [3] [] { GasPayer := 1 }).err.isSome = true then
            Outcome.returned paid
              (gasChargedState { GasPayer := 1 } 30
                (executorOf exampleGasEnv (exampleCall 30 3) 2 [0] (exampleContractState 1000 3)
                  {} 0 30 [3] [] { GasPayer := 1 }).Gas) none
          else
            applyQueue (applyTransaction exampleGasEnv 1) {}
              (executorOf exampleGasEnv (exampleCall 30 3) 2 [0] (exampleContractState 1000 3)
                {} 0 30 [3] [] { GasPayer := 1 }).Queue paid
              (gasChargedState { GasPayer := 1 } 30
                (executorOf exampleGasEnv (exampleCall 30 3) 2 [0] (exampleContractState 1000 3)
                  {} 0 30 [3] [] { GasPayer := 1 }).Gas))
      ∧ ((ReadAccountContractGasBalance paid 2).1 : Int)
          = max 0 (((ReadAccountContractGasBalance (exampleContractState 1000 3) 2).1 : Int)
              - (executorOf exampleGasEnv (exampleCall 30 3) 2 [0] (exampleContractState 1000 3)
                  {} 0 30 [3] [] { GasPayer := 1 }).Gas)
      ∧ ((ReadAccountBalance (exampleContractState 1000 3) 1).1 : Int)
            - (ReadAccountBalance paid 1).1
          = max 0 (((executorOf exampleGasEnv (exampleCall 30 3) 2 [0]
                  (exampleContractState 1000 3) {} 0 30 [3] [] { GasPayer := 1 }).Gas : Int)
              - (ReadAccountContractGasBalance (exampleContractState 1000 3) 2).1)
      ∧ (((ReadAccountContractGasBalance (exampleContractState 1000 3) 2).1 : Int)
            - (ReadAccountContractGasBalance paid 2).1)
          + (((ReadAccountBalance (exampleContractState 1000 3) 1).1 : Int)
            - (ReadAccountBalance paid 1).1)
          = (executorOf exampleGasEnv (exampleCall 30 3) 2 [0] (exampleContractState 1000 3)
              {} 0 30 [3] [] { GasPayer := 1 }).Gas :=
  C15_gas_is_paid_by_contract_balance_first exampleGasEnv (applyTransaction exampleGasEnv 1)
    (exampleCall 30 3) 2 [0] (exampleContractState 1000 3) {} 0 30 [3] [] { GasPayer := 1 }
    (by decide) (by decide) (by decide)

/-- C17 as stated fails for an executor that reports an error and more gas than
the limit: the call of the function 4 with the gas limit 30 reports an error and
31 units of gas, and `ApplyTransaction` does not return nil, it stops in
`logger.Fatal`. -/
theorem C17_counterexample_gas_over_limit :
    (∀ t, (exampleGasEnv.Execute t 2 {} (exampleCall 30 4) 0 30 [4] [] [0]).err = some "fault"
      ∧ (exampleGasEnv.Execute t 2 {} (exampleCall 30 4) 0 30 [4] [] [0]).Gas = 31)
    ∧ ApplyTransaction exampleGasEnv 2 {} (exampleContractState 1000 0) (exampleCall 30 4)
        = Outcome.fatal "BUG: realGasLimit < executor.Gas" := by
  refine ⟨fun t => ⟨rfl, rfl⟩, ?_⟩
  decide

/-- C17, amended. For every transfer that invokes a contract function (the
creator is not the faucet, the recipient holds code, a function is named, the
amount and the gas deposit are paid, which gives the tree `s2`, and the two
balances cover the gas limit) where the executor reports an exceeded gas limit
or an error, and reports gas within the gas limit: `ApplyTransaction` returns
nil; the tree is `s2` with the gas paid, that is, it differs from `s2` in the gas
balance of the contract and the balance of the creator at most, so what the
executor wrote is undone and nothing of its queue is applied. -/
theorem C17_failed_invocation_is_undone_and_charged (env : Env) (fuel : Nat) (round : Round)
    (state : Tree) (tx : Transaction) (params : Transfer) (s1 s2 : Tree)
    (htag : tx.Tag = TagTransfer)
    (hparse : env.ParseTransferTransaction tx.Payload = Except.ok params)
    (hfaucet : tx.Creator ≠ env.sys.FaucetAddress)
    (hcode : (ReadAccountContractCode state params.Recipient).2 = true)
    (hname : params.FuncName.length ≠ 0)
    (h1 : transferValue "PERL" state tx.Creator params.Recipient params.Amount
      ReadAccountBalance WriteAccountBalance ReadAccountBalance WriteAccountBalance = (s1, none))
    (h2 : (if params.GasDeposit ≠ 0 then
        transferValue "PERL (Gas Deposit)" s1 tx.Creator params.Recipient params.GasDeposit
          ReadAccountBalance WriteAccountBalance
          ReadAccountContractGasBalance WriteAccountContractGasBalance
      else (s1, none)) = (s2, none))
    (hbal : ¬ add64 (ReadAccountBalance s2 tx.Creator).1
        (ReadAccountContractGasBalance s2 params.Recipient).1 < params.GasLimit)
    (hfault : (executorOf env tx params.Recipient (ReadAccountContractCode state params.Recipient).1
          s2 round params.Amount params.GasLimit params.FuncName params.FuncParams
          { GasPayer := tx.Creator }).GasLimitExceeded = true
        ∨ (executorOf env tx params.Recipient (ReadAccountContractCode state params.Recipient).1
          s2 round params.Amount params.GasLimit params.FuncName params.FuncParams
          { GasPayer := tx.Creator }).err.isSome = true)
    (hgas : (executorOf env tx params.Recipient (ReadAccountContractCode state params.Recipient).1
        s2 round params.Amount params.GasLimit params.FuncName params.FuncParams
        { GasPayer := tx.Creator }).Gas ≤ params.GasLimit) :
    ∃ tree,
      ApplyTransaction env (fuel + 1) round state tx
        = Outcome.returned tree
            (gasChargedState { GasPayer := tx.Creator } params.GasLimit
              (executorOf env tx params.Recipient
                (ReadAccountContractCode state params.Recipient).1 s2 round params.Amount
                params.GasLimit params.FuncName params.FuncParams
                { GasPayer := tx.Creator }).Gas) none
      ∧ deductGas s2 params.Recipient tx.Creator (ReadAccountBalance s2 tx.Creator).1
          (ReadAccountContractGasBalance s2 params.Recipient).1
          (executorOf env tx params.Recipient
            (ReadAccountContractCode state params.Recipient).1 s2 round params.Amount
            params.GasLimit params.FuncName params.FuncParams { GasPayer := tx.Creator }).Gas
          = some tree
      ∧ (ReadAccountContractGasBalance tree params.Recipient).1
          = (ReadAccountContractGasBalance s2 params.Recipient).1
            - (executorOf env tx params.Recipient
                (ReadAccountContractCode state params.Recipient).1 s2 round params.Amount
                params.GasLimit params.FuncName params.FuncParams
                { GasPayer := tx.Creator }).Gas
      ∧ (ReadAccountBalance tree tx.Creator).1
          = (ReadAccountBalance s2 tx.Creator).1
            - ((executorOf env tx params.Recipient
                (ReadAccountContractCode state params.Recipient).1 s2 round params.Amount
                params.GasLimit params.FuncName params.FuncParams
                { GasPayer := tx.Creator }).Gas
              - (ReadAccountContractGasBalance s2 params.Recipient).1)
      ∧ ∀ k, k ≠ Key.balance tx.Creator → k ≠ Key.contractGasBalance params.Recipient →
          mapGet tree k = mapGet s2 k := by
  have hreal := realGasLimit_fresh tx.Creator params.GasLimit
  have hbal1 : ¬ add64
      (ReadAccountBalance s2 ({ GasPayer := tx.Creator } : contractExecutorState).GasPayer).1
      (ReadAccountContractGasBalance s2 params.Recipient).1
      < realGasLimit { GasPayer := tx.Creator } params.GasLimit := by
    rw [hreal]
    exact hbal
  have hgas1 : (executorOf env tx params.Recipient
        (ReadAccountContractCode state params.Recipient).1 s2 round params.Amount
        params.GasLimit params.FuncName params.FuncParams { GasPayer := tx.Creator }).Gas
      ≤ realGasLimit { GasPayer := tx.Creator } params.GasLimit := by
    rw [hreal]
    exact hgas
  have hrun := executeContractInTransactionContext_run env (applyTransaction env fuel) tx
    params.Recipient (ReadAccountContractCode state params.Recipient).1 s2 round params.Amount
    params.GasLimit params.FuncName params.FuncParams { GasPayer := tx.Creator } hbal1 hgas1
  have hsum : (executorOf env tx params.Recipient
        (ReadAccountContractCode state params.Recipient).1 s2 round params.Amount
        params.GasLimit params.FuncName params.FuncParams { GasPayer := tx.Creator }).Gas
      ≤ (ReadAccountBalance s2 tx.Creator).1
        + (ReadAccountContractGasBalance s2 params.Recipient).1 := by
    have hmod : add64 (ReadAccountBalance s2 tx.Creator).1
          (ReadAccountContractGasBalance s2 params.Recipient).1
        ≤ (ReadAccountBalance s2 tx.Creator).1
          + (ReadAccountContractGasBalance s2 params.Recipient).1 := Nat.mod_le _ _
    omega
  obtain ⟨paid, hd, hg, hle, hlt, hother⟩ := deductGas_spec s2 params.Recipient tx.Creator
    (ReadAccountBalance s2 tx.Creator).1 (ReadAccountContractGasBalance s2 params.Recipient).1
    _ hsum
  refine ⟨paid, ?_, hd, hg, ?_, hother⟩
  · rw [ApplyTransaction_invokes env fuel round state tx params s1 s2 htag hparse hfaucet hcode
      hname h1 h2, hrun, if_pos hfault]
    simp only at hd ⊢
    rw [hd]
    rfl
  · rcases Nat.lt_or_ge (ReadAccountContractGasBalance s2 params.Recipient).1
        (executorOf env tx params.Recipient
          (ReadAccountContractCode state params.Recipient).1 s2 round params.Amount
          params.GasLimit params.FuncName params.FuncParams { GasPayer := tx.Creator }).Gas
      with h | h
    · exact hlt h
    · rw [hle h]
      omega

/-- C17 amended, on the call of the function 2 with the gas limit 30: the
executor writes the balance of account 77, queues a transfer to account 3 and
reports an error and 20 units of gas; the call returns nil, account 1 pays the
20 units, and neither account 77 nor account 3 has a balance afterwards. -/
theorem C17_failed_invocation_is_undone_and_charged_witness :
    ∃ tree,
      ApplyTransaction exampleGasEnv 2 {} (exampleContractState 1000 0) (exampleCall 30 2)
        = Outcome.returned tree
            (gasChargedState { GasPayer := 1 } 30
              (executorOf exampleGasEnv (exampleCall 30 2) 2 [0]
                [(Key.balance 2, Val.u64 0), (Key.balance 1, Val.u64 1000),
                 (Key.contractCode 2, Val.bytes [0]), (Key.contractGasBalance 2, Val.u64 0)]
                {} 0 30 [2] [] { GasPayer := 1 }).Gas) none
      ∧ deductGas
          [(Key.balance 2, Val.u64 0), (Key.balance 1, Val.u64 1000),
           (Key.contractCode 2, Val.bytes [0]), (Key.contractGasBalance 2, Val.u64 0)]
          2 1 1000 0
          (executorOf exampleGasEnv (exampleCall 30 2) 2 [0]
            [(Key.balance 2, Val.u64 0), (Key.balance 1, Val.u64 1000),
             (Key.contractCode 2, Val.bytes [0]), (Key.contractGasBalance 2, Val.u64 0)]
            {} 0 30 [2] [] { GasPayer := 1 }).Gas
          = some tree
      ∧ (ReadAccountContractGasBalance tree 2).1 = 0 - 20
      ∧ (ReadAccountBalance tree 1).1 = 1000 - (20 - 0)
      ∧ ∀ k, k ≠ Key.balance 1 → k ≠ Key.contractGasBalance 2 →
          mapGet tree k
            = mapGet [(Key.balance 2, Val.u64 0), (Key.balance 1, Val.u64 1000),
                (Key.contractCode 2, Val.bytes [0]), (Key.contractGasBalance 2, Val.u64 0)] k :=
  C17_failed_invocation_is_undone_and_charged exampleGasEnv 1 {} (exampleContractState 1000 0)
    (exampleCall 30 2) { Recipient := 2, Amount := 0, GasLimit := 30, FuncName := [2] }
    [(Key.balance 2, Val.u64 0), (Key.balance 1, Val.u64 1000),
     (Key.contractCode 2, Val.bytes [0]), (Key.contractGasBalance 2, Val.u64 0)]
    [(Key.balance 2, Val.u64 0), (Key.balance 1, Val.u64 1000),
     (Key.contractCode 2, Val.bytes [0]), (Key.contractGasBalance 2, Val.u64 0)]
    rfl rfl (by decide) (by decide) (by decide) (by decide) (by decide) (by decide) (by decide)
    (by decide)

theorem applyQueue_append
    (apply : Round → Tree → Transaction → contractExecutorState → Outcome)
    (round : Round) (rest : List Transaction) (t1 : Tree) (s1 : contractExecutorState)
    (e : Option String) :
    ∀ (pre : List Transaction) (tree : Tree) (st : contractExecutorState),
      applyQueue apply round pre tree st = Outcome.returned t1 s1 e →
      applyQueue apply round (pre ++ rest) tree st = applyQueue apply round rest t1 s1 := by
  intro pre
  induction pre with
  | nil =>
    intro tree st h
    simp only [applyQueue, Outcome.returned.injEq] at h
    obtain ⟨rfl, rfl, _⟩ := h
    rfl
  | cons P pre ih =>
    intro tree st h
    simp only [List.cons_append, applyQueue] at h ⊢
    cases hout : apply round tree P st with
    | returned tree1 st1 e1 =>
      rw [hout] at h
      simpa using ih tree1 st1 h
    | fatal m => rw [hout] at h; simp at h
    | panicked => rw [hout] at h; simp at h
    | outOfFuel => rw [hout] at h; simp at h

/-- An invocation that succeeds (no fault reported, gas within the effective
limit, balances that cover the limit) and whose queue has a sub-transaction `q`
that returns an error, after the sub-transactions `pre` were applied and before
the sub-transactions `post`, each of which returns: the invocation returns nil,
`q` leaves the tree as it was, and `post` is applied to that tree. This holds
for every invocation, whatever reaches it and with whatever executor state. -/
theorem executeContractInTransactionContext_skips (env : Env) (fuel : Nat)
    (tx : Transaction) (contractID : AccountID) (code : List Nat) (snapshot : Tree)
    (round : Round) (amount requestedGasLimit : Nat) (funcName funcParams : List Nat)
    (state : contractExecutorState) (paid : Tree)
    (pre post : List Transaction) (q : Transaction) (t2 t3 t4 : Tree)
    (st2 st3 st4 : contractExecutorState) (err : String)
    (hbal : ¬ add64 (ReadAccountBalance snapshot state.GasPayer).1
        (ReadAccountContractGasBalance snapshot contractID).1
      < realGasLimit state requestedGasLimit)
    (hok : ¬ ((executorOf env tx contractID code snapshot round amount requestedGasLimit
          funcName funcParams state).GasLimitExceeded = true
        ∨ (executorOf env tx contractID code snapshot round amount requestedGasLimit
          funcName funcParams state).err.isSome = true))
    (hgas : (executorOf env tx contractID code snapshot round amount requestedGasLimit
        funcName funcParams state).Gas ≤ realGasLimit state requestedGasLimit)
    (hqueue : (executorOf env tx contractID code snapshot round amount requestedGasLimit
        funcName funcParams state).Queue = pre ++ q :: post)
    (hpaid : deductGas
        (executorOf env tx contractID code snapshot round amount requestedGasLimit
          funcName funcParams state).tree
        contractID state.GasPayer (ReadAccountBalance snapshot state.GasPayer).1
        (ReadAccountContractGasBalance snapshot contractID).1
        (executorOf env tx contractID code snapshot round amount requestedGasLimit
          funcName funcParams state).Gas
      = some paid)
    (hpre : applyQueue (applyTransaction env fuel) round pre paid
        (gasChargedState state requestedGasLimit
          (executorOf env tx contractID code snapshot round amount requestedGasLimit
            funcName funcParams state).Gas)
      = Outcome.returned t2 st2 none)
    (hq : applyTransaction env fuel round t2 q st2 = Outcome.returned t3 st3 (some err))
    (hpost : applyQueue (applyTransaction env fuel) round post t2 st3
      = Outcome.returned t4 st4 none) :
    t3 = t2
    ∧ executeContractInTransactionContext env (applyTransaction env fuel) tx contractID code
        snapshot round amount requestedGasLimit funcName funcParams state
      = Outcome.returned t4 st4 none := by
  have ht : t3 = t2 := applyTransaction_error env fuel round t2 q st2 t3 st3 err hq
  refine ⟨ht, ?_⟩
  have hstep : applyQueue (applyTransaction env fuel) round (q :: post) t2 st2
      = Outcome.returned t4 st4 none := by
    simp only [applyQueue, hq]
    rw [ht]
    exact hpost
  have hall := applyQueue_append (applyTransaction env fuel) round (q :: post) t2 st2 none pre
    paid _ hpre
  rw [executeContractInTransactionContext_run env (applyTransaction env fuel) tx contractID
    code snapshot round amount requestedGasLimit funcName funcParams state hbal hgas,
    if_neg hok]
  simp only at hpaid ⊢
  rw [hpaid, hqueue]
  change applyQueue _ round (pre ++ q :: post) paid
    (gasChargedState state requestedGasLimit _) = _
  rw [hall, hstep]

/-- C18. For every transfer that invokes a contract function with success (the
executor reports no error, no exceeded gas limit and gas within the gas limit)
and whose queue has a sub-transaction `q` that returns an error, after the
sub-transactions `pre` before it were applied and before the sub-transactions
`post`, each of which returns: `ApplyTransaction` returns nil, `q` leaves the
tree as it was just before it, and the tree at the end is the one that the
sub-transactions `post`, applied in the order of the queue, make of that very
tree. -/
theorem C18_failing_queued_transaction_is_skipped (env : Env) (fuel : Nat) (round : Round)
    (state : Tree) (tx : Transaction) (params : Transfer) (s1 s2 paid : Tree)
    (pre post : List Transaction) (q : Transaction) (t2 t3 t4 : Tree)
    (st2 st3 st4 : contractExecutorState) (err : String)
    (htag : tx.Tag = TagTransfer)
    (hparse : env.ParseTransferTransaction tx.Payload = Except.ok params)
    (hfaucet : tx.Creator ≠ env.sys.FaucetAddress)
    (hcode : (ReadAccountContractCode state params.Recipient).2 = true)
    (hname : params.FuncName.length ≠ 0)
    (h1 : transferValue "PERL" state tx.Creator params.Recipient params.Amount
      ReadAccountBalance WriteAccountBalance ReadAccountBalance WriteAccountBalance = (s1, none))
    (h2 : (if params.GasDeposit ≠ 0 then
        transferValue "PERL (Gas Deposit)" s1 tx.Creator params.Recipient params.GasDeposit
          ReadAccountBalance WriteAccountBalance
          ReadAccountContractGasBalance WriteAccountContractGasBalance
      else (s1, none)) = (s2, none))
    (hbal : ¬ add64 (ReadAccountBalance s2 tx.Creator).1
        (ReadAccountContractGasBalance s2 params.Recipient).1 < params.GasLimit)
    (hok : ¬ ((executorOf env tx params.Recipient
          (ReadAccountContractCode state params.Recipient).1 s2 round params.Amount
          params.GasLimit params.FuncName params.FuncParams
          { GasPayer := tx.Creator }).GasLimitExceeded = true
        ∨ (executorOf env tx params.Recipient
          (ReadAccountContractCode state params.Recipient).1 s2 round params.Amount
          params.GasLimit params.FuncName params.FuncParams
          { GasPayer := tx.Creator }).err.isSome = true))
    (hgas : (executorOf env tx params.Recipient (ReadAccountContractCode state params.Recipient).1
        s2 round params.Amount params.GasLimit params.FuncName params.FuncParams
        { GasPayer := tx.Creator }).Gas ≤ params.GasLimit)
    (hqueue : (executorOf env tx params.Recipient
        (ReadAccountContractCode state params.Recipient).1 s2 round params.Amount
        params.GasLimit params.FuncName params.FuncParams { GasPayer := tx.Creator }).Queue
      = pre ++ q :: post)
    (hpaid : deductGas
        (executorOf env tx params.Recipient (ReadAccountContractCode state params.Recipient).1
          s2 round params.Amount params.GasLimit params.FuncName params.FuncParams
          { GasPayer := tx.Creator }).tree
        params.Recipient tx.Creator (ReadAccountBalance s2 tx.Creator).1
        (ReadAccountContractGasBalance s2 params.Recipient).1
        (executorOf env tx params.Recipient (ReadAccountContractCode state params.Recipient).1
          s2 round params.Amount params.GasLimit params.FuncName params.FuncParams
          { GasPayer := tx.Creator }).Gas
      = some paid)
    (hpre : applyQueue (applyTransaction env fuel) round pre paid
        (gasChargedState { GasPayer := tx.Creator } params.GasLimit
          (executorOf env tx params.Recipient (ReadAccountContractCode state params.Recipient).1
            s2 round params.Amount params.GasLimit params.FuncName params.FuncParams
            { GasPayer := tx.Creator }).Gas)
      = Outcome.returned t2 st2 none)
    (hq : applyTransaction env fuel round t2 q st2 = Outcome.returned t3 st3 (some err))
    (hpost : applyQueue (applyTransaction env fuel) round post t2 st3
      = Outcome.returned t4 st4 none) :
    t3 = t2
    ∧ ApplyTransaction env (fuel + 1) round state tx = Outcome.returned t4 st4 none := by
  have hreal := realGasLimit_fresh tx.Creator params.GasLimit
  have hbal1 : ¬ add64
      (ReadAccountBalance s2 ({ GasPayer := tx.Creator } : contractExecutorState).GasPayer).1
      (ReadAccountContractGasBalance s2 params.Recipient).1
      < realGasLimit { GasPayer := tx.Creator } params.GasLimit := by
    rw [hreal]
    exact hbal
  have hgas1 : (executorOf env tx params.Recipient
        (ReadAccountContractCode state params.Recipient).1 s2 round params.Amount
        params.GasLimit params.FuncName params.FuncParams { GasPayer := tx.Creator }).Gas
      ≤ realGasLimit { GasPayer := tx.Creator } params.GasLimit := by
    rw [hreal]
    exact hgas
  obtain ⟨ht, hrun⟩ := executeContractInTransactionContext_skips env fuel tx params.Recipient
    (ReadAccountContractCode state params.Recipient).1 s2 round params.Amount params.GasLimit
    params.FuncName params.FuncParams { GasPayer := tx.Creator } paid pre post q t2 t3 t4
    st2 st3 st4 err hbal1 hok hgas1 hqueue hpaid hpre hq hpost
  refine ⟨ht, ?_⟩
  rw [ApplyTransaction_invokes env fuel round state tx params s1 s2 htag hparse hfaucet hcode
    hname h1 h2, hrun]
  rfl

/-- C18, on the call of the function 3 with the gas limit 30: the executor
queues a transfer of 1000000 PERL, which overdraws, and a transfer of 5 PERL to
account 3; the call returns nil, the first leaves the tree as it was and the
second is applied. -/
theorem C18_failing_queued_transaction_is_skipped_witness :
    ([(Key.balance 1, Val.u64 993), (Key.contractGasBalance 2, Val.u64 0),
      (Key.balance 77, Val.u64 1), (Key.balance 2, Val.u64 0),
      (Key.contractCode 2, Val.bytes [0])] : Tree)
      = [(Key.balance 1, Val.u64 993), (Key.contractGasBalance 2, Val.u64 0),
         (Key.balance 77, Val.u64 1), (Key.balance 2, Val.u64 0),
         (Key.contractCode 2, Val.bytes [0])]
    ∧ ApplyTransaction exampleGasEnv 2 {} (exampleContractState 1000 3) (exampleCall 30 3)
        = Outcome.returned
            [(Key.balance 3, Val.u64 5), (Key.balance 1, Val.u64 988),
             (Key.contractGasBalance 2, Val.u64 0), (Key.balance 77, Val.u64 1),
             (Key.balance 2, Val.u64 0), (Key.contractCode 2, Val.bytes [0])]
            { GasPayer := 1, GasLimit := 20, GasLimitIsSet := true } none :=
  C18_failing_queued_transaction_is_skipped exampleGasEnv 1 {} (exampleContractState 1000 3)
    (exampleCall 30 3) { Recipient := 2, Amount := 0, GasLimit := 30, FuncName := [3] }
    [(Key.balance 2, Val.u64 0), (Key.balance 1, Val.u64 1000),
     (Key.contractCode 2, Val.bytes [0]), (Key.contractGasBalance 2, Val.u64 3)]
    [(Key.balance 2, Val.u64 0), (Key.balance 1, Val.u64 1000),
     (Key.contractCode 2, Val.bytes [0]), (Key.contractGasBalance 2, Val.u64 3)]
    [(Key.balance 1, Val.u64 993), (Key.contractGasBalance 2, Val.u64 0),
     (Key.balance 77, Val.u64 1), (Key.balance 2, Val.u64 0),
     (Key.contractCode 2, Val.bytes [0])]
    []
    [{ ID := 42, Sender := 1, Creator := 1, Tag := TagTransfer, Payload := [3, 5, 0, 0] }]
    { ID := 41, Sender := 1, Creator := 1, Tag := TagTransfer, Payload := [3, 1000000, 0, 0] }
    [(Key.balance 1, Val.u64 993), (Key.contractGasBalance 2, Val.u64 0),
     (Key.balance 77, Val.u64 1), (Key.balance 2, Val.u64 0),
     (Key.contractCode 2, Val.bytes [0])]
    [(Key.balance 1, Val.u64 993), (Key.contractGasBalance 2, Val.u64 0),
     (Key.balance 77, Val.u64 1), (Key.balance 2, Val.u64 0),
     (Key.contractCode 2, Val.bytes [0])]
    [(Key.balance 3, Val.u64 5), (Key.balance 1, Val.u64 988),
     (Key.contractGasBalance 2, Val.u64 0), (Key.balance 77, Val.u64 1),
     (Key.balance 2, Val.u64 0), (Key.contractCode 2, Val.bytes [0])]
    { GasPayer := 1, GasLimit := 20, GasLimitIsSet := true }
    { GasPayer := 1, GasLimit := 20, GasLimitIsSet := true }
    { GasPayer := 1, GasLimit := 20, GasLimitIsSet := true }
    "could not apply transfer transaction: failed to execute transferValue on balance: transfer_value: tried to send more PERL than the sender has"
    rfl rfl (by decide) (by decide) (by decide) (by decide) (by decide) (by decide) (by decide)
    (by decide) (by decide) (by decide) (by decide) (by decide) (by decide)

/-! ### Applier: the gas limit of one top-level call -/

/-- The invocation that does not start: the balances do not cover the limit. -/
theorem executeContractInTransactionContext_low (env : Env)
    (apply : Round → Tree → Transaction → contractExecutorState → Outcome)
    (tx : Transaction) (contractID : AccountID) (code : List Nat) (snapshot : Tree)
    (round : Round) (amount requestedGasLimit : Nat) (funcName funcParams : List Nat)
    (state : contractExecutorState)
    (hbal : add64 (ReadAccountBalance snapshot state.GasPayer).1
        (ReadAccountContractGasBalance snapshot contractID).1
      < realGasLimit state requestedGasLimit) :
    executeContractInTransactionContext env apply tx contractID code snapshot round amount
        requestedGasLimit funcName funcParams state
      = Outcome.returned snapshot (gasLimitState state requestedGasLimit)
          (some "execute_contract: attempted to deduct gas fee, but the balance is too low") := by
  unfold executeContractInTransactionContext
  simp only [Tree.Snapshot, Tree.Revert]
  change (if add64 (ReadAccountBalance snapshot state.GasPayer).1
        (ReadAccountContractGasBalance snapshot contractID).1
      < realGasLimit state requestedGasLimit then _ else _) = _
  rw [if_pos hbal]
  rfl

/-- A transfer makes no run of the executor and leaves the executor state as it
is, or it ends in an invocation. -/
theorem applyTransferTransaction_cases (env : Env)
    (apply : Round → Tree → Transaction → contractExecutorState → Outcome)
    (log : Round → Tree → Transaction → contractExecutorState → List Invocation)
    (snapshot : Tree) (round : Round) (tx : Transaction) (st : contractExecutorState) :
    (transferInvocations env apply log snapshot round tx st = []
      ∧ ∃ t e, applyTransferTransaction env apply snapshot round tx st
          = Outcome.returned t st e)
    ∨ (∃ contractID code s2 amount gasLimit funcName funcParams,
        transferInvocations env apply log snapshot round tx st
          = executeInvocations env apply log tx contractID code s2 round amount gasLimit
              funcName funcParams st
        ∧ applyTransferTransaction env apply snapshot round tx st
          = executeContractInTransactionContext env apply tx contractID code s2 round amount
              gasLimit funcName funcParams st) := by
  unfold transferInvocations applyTransferTransaction
  cases hp : env.ParseTransferTransaction tx.Payload with
  | error err => exact Or.inl ⟨rfl, _, _, rfl⟩
  | ok params =>
    simp only
    by_cases hg : (!(ReadAccountContractCode snapshot params.Recipient).2) = true ∧
        (params.GasLimit > 0 ∨ params.FuncName.length > 0 ∨ params.FuncParams.length > 0)
    · rw [if_pos hg, if_pos hg]
      exact Or.inl ⟨rfl, _, _, rfl⟩
    · rw [if_neg hg, if_neg hg]
      by_cases hf : tx.Creator = env.sys.FaucetAddress
      · rw [if_pos hf, if_pos hf]
        exact Or.inl ⟨rfl, _, _, rfl⟩
      · rw [if_neg hf, if_neg hf]
        rcases htv : transferValue "PERL" snapshot tx.Creator params.Recipient params.Amount
            ReadAccountBalance WriteAccountBalance ReadAccountBalance WriteAccountBalance
          with ⟨s1, _ | err⟩
        · simp only
          by_cases hc : (!(ReadAccountContractCode snapshot params.Recipient).2) = true
          · rw [if_pos hc, if_pos hc]
            exact Or.inl ⟨rfl, _, _, rfl⟩
          · rw [if_neg hc, if_neg hc]
            rcases hdep : (if params.GasDeposit ≠ 0 then
                transferValue "PERL (Gas Deposit)" s1 tx.Creator params.Recipient
                  params.GasDeposit ReadAccountBalance WriteAccountBalance
                  ReadAccountContractGasBalance WriteAccountContractGasBalance
              else (s1, none)) with ⟨s2, _ | err⟩
            · simp only
              by_cases hn : params.FuncName.length = 0
              · rw [if_pos hn, if_pos hn]
                exact Or.inl ⟨rfl, _, _, rfl⟩
              · rw [if_neg hn, if_neg hn]
                exact Or.inr ⟨_, _, _, _, _, _, _, rfl, rfl⟩
            · exact Or.inl ⟨rfl, _, _, rfl⟩
        · exact Or.inl ⟨rfl, _, _, rfl⟩

/-- A contract creation makes no run of the executor and leaves the executor
state as it is, or it ends in an invocation. -/
theorem applyContractTransaction_cases (env : Env)
    (apply : Round → Tree → Transaction → contractExecutorState → Outcome)
    (log : Round → Tree → Transaction → contractExecutorState → List Invocation)
    (snapshot : Tree) (round : Round) (tx : Transaction) (st : contractExecutorState) :
    (contractInvocations env apply log snapshot round tx st = []
      ∧ ∃ t e, applyContractTransaction env apply snapshot round tx st
          = Outcome.returned t st e)
    ∨ (∃ contractID code s2 amount gasLimit funcName funcParams,
        contractInvocations env apply log snapshot round tx st
          = executeInvocations env apply log tx contractID code s2 round amount gasLimit
              funcName funcParams st
        ∧ applyContractTransaction env apply snapshot round tx st
          = executeContractInTransactionContext env apply tx contractID code s2 round amount
              gasLimit funcName funcParams st) := by
  unfold contractInvocations applyContractTransaction
  cases hp : env.ParseContractTransaction tx.Payload with
  | error err => exact Or.inl ⟨rfl, _, _, rfl⟩
  | ok params =>
    simp only
    by_cases hc : (ReadAccountContractCode snapshot tx.ID).2 = true
    · rw [if_pos hc, if_pos hc]
      exact Or.inl ⟨rfl, _, _, rfl⟩
    · rw [if_neg hc, if_neg hc]
      rcases hdep : (if params.GasDeposit ≠ 0 then
          transferValue "PERL (Gas Deposit)" (WriteAccountContractCode snapshot tx.ID params.Code)
            tx.Creator tx.ID params.GasDeposit ReadAccountBalance WriteAccountBalance
            ReadAccountContractGasBalance WriteAccountContractGasBalance
        else (WriteAccountContractCode snapshot tx.ID params.Code, none)) with ⟨s2, _ | err⟩
      · exact Or.inr ⟨_, _, _, _, _, _, _, rfl, rfl⟩
      · exact Or.inl ⟨rfl, _, _, rfl⟩

theorem applyBatchEntries_succ
    (apply : Round → Tree → Transaction → contractExecutorState → Outcome)
    (round : Round) (tx : Transaction) (params : Batch) (n i : Nat) (tree : Tree)
    (st : contractExecutorState) :
    applyBatchEntries apply round tx params (n + 1) i tree st
      = match params.Tags.get? i, params.Payloads.get? i with
        | some tag, some payload =>
          match apply round tree (batchEntry tx (tag, payload)) st with
          | Outcome.returned snapshot1 state1 (some err) =>
            Outcome.returned snapshot1 state1
              (some ("Error while processing a transaction in a batch.: " ++ err))
          | Outcome.returned snapshot1 state1 none =>
            applyBatchEntries apply round tx params n (i + 1) snapshot1 state1
          | other => other
        | _, _ => Outcome.panicked :=
  rfl

/-- C25. A rejected add changes nothing. If the id of `tx` is already in
`transactions`, `AddTransaction` returns `ErrAlreadyExists`; if it is not and
`tx` fails `assertTransactionIsValid` with the error `err`, `AddTransaction`
returns `err`; in both cases the graph after the call is the graph before it,
in every component. -/
theorem C25_rejected_add_is_noop (sys : SysConf) (g : Graph) (tx : Transaction) :
    ((mapGet g.transactions tx.ID).isSome = true →
        AddTransaction sys g tx = some (g, some ErrAlreadyExists))
    ∧ (∀ err, (mapGet g.transactions tx.ID).isSome = false →
        assertTransactionIsValid tx = some err →
        AddTransaction sys g tx = some (g, some err)) := by
  constructor
  · intro h
    unfold AddTransaction
    rw [if_pos h]
  · intro err h hv
    unfold AddTransaction
    rw [if_neg (by simp [h]), hv]

/-- C25, on the graph with the root, `exampleA` and `exampleB`: a second add of
`exampleA` and the add of a transaction without parents. -/
theorem C25_rejected_add_is_noop_witness :
    AddTransaction exampleSys exampleGraphAB exampleA
      = some (exampleGraphAB, some ErrAlreadyExists)
    ∧ AddTransaction exampleSys exampleGraphAB { ID := 30, Sender := 1, Creator := 1 }
      = some (exampleGraphAB, some "transaction has no parents") :=
  ⟨(C25_rejected_add_is_noop exampleSys exampleGraphAB exampleA).1 (by decide),
   (C25_rejected_add_is_noop exampleSys exampleGraphAB { ID := 30, Sender := 1, Creator := 1 }).2
     "transaction has no parents" (by decide) (by decide)⟩

/-- C26. For every Snowball state with `decided = true` and every tallies and
votes, `Tick` returns and leaves the state as it is: `preferred`, `last`,
`counts`, `count` and `decided` are unchanged. -/
theorem C26_decided_is_final (conf : Conf) (s : Snowball) (tallies : List (VoteID × ℚ))
    (votes : List (VoteID × snowballVote)) (h : s.decided = true) :
    Snowball.Tick conf s tallies votes = TickResult.returned s := by
  unfold Snowball.Tick
  rw [if_pos h]

/-- C26, on a Snowball that decided for the id 1 and a tick whose tallies favour
the id 2. -/
theorem C26_decided_is_final_witness :
    Snowball.Tick (exampleConf 3) exampleDecided (exampleTalliesFor 2 1) exampleVotes
      = TickResult.returned exampleDecided :=
  C26_decided_is_final (exampleConf 3) exampleDecided (exampleTalliesFor 2 1) exampleVotes rfl

/-- C27. The new graph has the height 1 and a root of depth 0; `AddTransaction`
of `exampleA`, a child of the root whose depth 1 equals that height, returns
nil and leaves the height at 1, which is the largest depth in the graph and not
that depth plus one: `createTransactionIndices` raises the height only when
`height < tx.Depth`. -/
theorem C27_height_stays_when_depth_equals_height :
    Height exampleGraphRoot = 1
    ∧ exampleA.Depth = 1
    ∧ (AddTransaction exampleSys exampleGraphRoot exampleA).map
        (fun r => (r.2, Height r.1, r.1.transactions.map (fun e => (e.1, e.2.Depth))))
      = some (none, 1, [(10, 1), (0, 0)]) := by
  decide

/-- C28. After a lookup of the absent id 50, which records it as missing,
`Reset` with a round whose root has the id 50 stores the root and leaves the id
in `missing`: the id is both missing and present. -/
theorem C28_reset_keeps_new_root_missing :
    mapGet exampleGraphRoot.transactions 50 = none
    ∧ exampleGraphLookedUp.missing = [50]
    ∧ (Reset exampleSys exampleGraphLookedUp exampleRoundFifty).map
        (fun g => (g.missing, mapGet g.transactions 50, g.rootID))
      = some ([50], some exampleRoundFifty.Root, 50) := by
  decide

/-! ### Applier: placing and withdrawing a stake -/

theorem ReadAccountStake_write_balance (t : Tree) (id id' : AccountID) (v : Nat) :
    ReadAccountStake (WriteAccountBalance t id v) id' = ReadAccountStake t id' := by
  have hk : Key.stake id' ≠ Key.balance id := by simp
  simp only [ReadAccountStake, WriteAccountBalance, readU64]
  rw [mapGet_mapSet_ne _ _ _ _ hk]

theorem ReadAccountBalance_write_stake (t : Tree) (id id' : AccountID) (v : Nat) :
    ReadAccountBalance (WriteAccountStake t id v) id' = ReadAccountBalance t id' := by
  have hk : Key.balance id' ≠ Key.stake id := by simp
  simp only [ReadAccountBalance, WriteAccountStake, readU64]
  rw [mapGet_mapSet_ne _ _ _ _ hk]

/-- What `ApplyTransaction` does with a stake that the balance covers. -/
theorem ApplyTransaction_placeStake (env : Env) (fuel : Nat) (round : Round) (state : Tree)
    (tx : Transaction) (params : Stake)
    (htag : tx.Tag = TagStake)
    (hparse : env.ParseStakeTransaction tx.Payload = Except.ok params)
    (hop : params.Opcode = env.sys.PlaceStake)
    (hle : params.Amount ≤ (ReadAccountBalance state tx.Creator).1) :
    ApplyTransaction env (fuel + 1) round state tx
      = Outcome.returned
          (WriteAccountStake
            (WriteAccountBalance state tx.Creator
              ((ReadAccountBalance state tx.Creator).1 - params.Amount))
            tx.Creator (add64 (ReadAccountStake state tx.Creator).1 params.Amount))
          { GasPayer := tx.Creator } none := by
  have hlt : ¬ (ReadAccountBalance state tx.Creator).1 < params.Amount := Nat.not_lt.mpr hle
  simp [ApplyTransaction, applyTransaction, htag, TagStake, TagNop, TagTransfer,
    applyStakeTransaction, hparse, hop, hlt, Tree.Snapshot]

/-- What `ApplyTransaction` does with a withdrawal that the stake covers. -/
theorem ApplyTransaction_withdrawStake (env : Env) (fuel : Nat) (round : Round) (state : Tree)
    (tx : Transaction) (params : Stake)
    (htag : tx.Tag = TagStake)
    (hparse : env.ParseStakeTransaction tx.Payload = Except.ok params)
    (hop : params.Opcode = env.sys.WithdrawStake)
    (hops : env.sys.WithdrawStake ≠ env.sys.PlaceStake)
    (hle : params.Amount ≤ (ReadAccountStake state tx.Creator).1) :
    ApplyTransaction env (fuel + 1) round state tx
      = Outcome.returned
          (WriteAccountStake
            (WriteAccountBalance state tx.Creator
              (add64 (ReadAccountBalance state tx.Creator).1 params.Amount))
            tx.Creator ((ReadAccountStake state tx.Creator).1 - params.Amount))
          { GasPayer := tx.Creator } none := by
  have hlt : ¬ (ReadAccountStake state tx.Creator).1 < params.Amount := Nat.not_lt.mpr hle
  simp [ApplyTransaction, applyTransaction, htag, TagStake, TagNop, TagTransfer,
    applyStakeTransaction, hparse, hop, hops, hlt, Tree.Snapshot]

/-- What `ApplyTransaction` does with a withdrawal of more than the stake. -/
theorem ApplyTransaction_withdrawStake_fails (env : Env) (fuel : Nat) (round : Round)
    (state : Tree) (tx : Transaction) (params : Stake)
    (htag : tx.Tag = TagStake)
    (hparse : env.ParseStakeTransaction tx.Payload = Except.ok params)
    (hop : params.Opcode = env.sys.WithdrawStake)
    (hops : env.sys.WithdrawStake ≠ env.sys.PlaceStake)
    (hlt : (ReadAccountStake state tx.Creator).1 < params.Amount) :
    ApplyTransaction env (fuel + 1) round state tx
      = Outcome.returned state { GasPayer := tx.Creator }
          (some ("could not apply stake transaction" ++ ": " ++
            "stake: attempt to withdraw a stake of more PERLs than are staked")) := by
  simp [ApplyTransaction, applyTransaction, htag, TagStake, TagNop, TagTransfer,
    applyStakeTransaction, hparse, hop, hops, hlt, Tree.Revert, Tree.Snapshot]

/-- C21 as stated fails where the stake wraps around: with the balance 10 and
the stake `2 ^ 64 - 1`, `PlaceStake(1)` returns nil and leaves the stake 0, and
`WithdrawStake(1)`, with `1 <= s + p`, then returns an error. -/
theorem C21_counterexample_withdraw_after_wrapped_stake :
    ApplyTransaction exampleEnv 1 {} (exampleStaked 10 (2 ^ 64 - 1)) (examplePlaceStake 1)
      = Outcome.returned [(Key.stake 1, Val.u64 0), (Key.balance 1, Val.u64 9)]
          { GasPayer := 1 } none
    ∧ ApplyTransaction exampleEnv 1 {} [(Key.stake 1, Val.u64 0), (Key.balance 1, Val.u64 9)]
        (exampleWithdrawStake 1)
      = Outcome.returned [(Key.stake 1, Val.u64 0), (Key.balance 1, Val.u64 9)]
          { GasPayer := 1 }
          (some "could not apply stake transaction: stake: attempt to withdraw a stake of more PERLs than are staked") := by
  constructor
  · decide
  · decide

/-- C21, amended. For every account with the balance `b` and the stake `s` and
all amounts `p <= b` and `w <= s + p` with `s + p < 2 ^ 64` and
`b - p + w < 2 ^ 64`: `PlaceStake(p)` and then `WithdrawStake(w)` both return
nil and leave the balance `b - p + w` and the stake `s + p - w`, so that with
`w = p` the balance is `b` and the stake is `s` again. On every state,
`WithdrawStake(w)` returns an error and leaves the state as it is when `w`
exceeds the stake. The opcodes `PlaceStake` and `WithdrawStake` differ. -/
theorem C21_place_then_withdraw (env : Env) (fuel : Nat) (round : Round) (state : Tree)
    (place withdraw : Transaction) (p w : Nat)
    (hops : env.sys.WithdrawStake ≠ env.sys.PlaceStake)
    (htag1 : place.Tag = TagStake) (htag2 : withdraw.Tag = TagStake)
    (hcreator : withdraw.Creator = place.Creator)
    (hparse1 : env.ParseStakeTransaction place.Payload
      = Except.ok { Opcode := env.sys.PlaceStake, Amount := p })
    (hparse2 : env.ParseStakeTransaction withdraw.Payload
      = Except.ok { Opcode := env.sys.WithdrawStake, Amount := w })
    (hp : p ≤ (ReadAccountBalance state place.Creator).1)
    (hw : w ≤ (ReadAccountStake state place.Creator).1 + p)
    (hstake : (ReadAccountStake state place.Creator).1 + p < 2 ^ 64)
    (hbalance : (ReadAccountBalance state place.Creator).1 - p + w < 2 ^ 64) :
    (∃ t1 t2,
        ApplyTransaction env (fuel + 1) round state place
          = Outcome.returned t1 { GasPayer := place.Creator } none
        ∧ ApplyTransaction env (fuel + 1) round t1 withdraw
          = Outcome.returned t2 { GasPayer := place.Creator } none
        ∧ (ReadAccountBalance t2 place.Creator).1
            = (ReadAccountBalance state place.Creator).1 - p + w
        ∧ (ReadAccountStake t2 place.Creator).1
            = (ReadAccountStake state place.Creator).1 + p - w
        ∧ (w = p →
            (ReadAccountBalance t2 place.Creator).1 = (ReadAccountBalance state place.Creator).1
            ∧ (ReadAccountStake t2 place.Creator).1
                = (ReadAccountStake state place.Creator).1))
    ∧ (∀ t, (ReadAccountStake t place.Creator).1 < w →
        ∃ err, ApplyTransaction env (fuel + 1) round t withdraw
          = Outcome.returned t { GasPayer := place.Creator } (some err)) := by
  have h1 := ApplyTransaction_placeStake env fuel round state place _ htag1 hparse1 rfl hp
  simp only at h1
  have hs1 : (ReadAccountStake
      (WriteAccountStake
        (WriteAccountBalance state place.Creator
          ((ReadAccountBalance state place.Creator).1 - p))
        place.Creator (add64 (ReadAccountStake state place.Creator).1 p)) place.Creator).1
      = (ReadAccountStake state place.Creator).1 + p := by
    rw [ReadAccountStake_write_self]
    exact Nat.mod_eq_of_lt hstake
  have hb1 : (ReadAccountBalance
      (WriteAccountStake
        (WriteAccountBalance state place.Creator
          ((ReadAccountBalance state place.Creator).1 - p))
        place.Creator (add64 (ReadAccountStake state place.Creator).1 p)) place.Creator).1
      = (ReadAccountBalance state place.Creator).1 - p := by
    rw [ReadAccountBalance_write_stake, ReadAccountBalance_write_self]
  have h2 := ApplyTransaction_withdrawStake env fuel round
    (WriteAccountStake
      (WriteAccountBalance state place.Creator
        ((ReadAccountBalance state place.Creator).1 - p))
      place.Creator (add64 (ReadAccountStake state place.Creator).1 p))
    withdraw _ htag2 hparse2 rfl hops (by rw [hcreator, hs1]; exact hw)
  simp only [hcreator, hs1, hb1] at h2
  have hbal : (ReadAccountBalance
      (WriteAccountStake
        (WriteAccountBalance
          (WriteAccountStake
            (WriteAccountBalance state place.Creator
              ((ReadAccountBalance state place.Creator).1 - p))
            place.Creator (add64 (ReadAccountStake state place.Creator).1 p))
          place.Creator (add64 ((ReadAccountBalance state place.Creator).1 - p) w))
        place.Creator ((ReadAccountStake state place.Creator).1 + p - w)) place.Creator).1
      = (ReadAccountBalance state place.Creator).1 - p + w := by
    rw [ReadAccountBalance_write_stake, ReadAccountBalance_write_self]
    exact Nat.mod_eq_of_lt hbalance
  have hst : (ReadAccountStake
      (WriteAccountStake
        (WriteAccountBalance
          (WriteAccountStake
            (WriteAccountBalance state place.Creator
              ((ReadAccountBalance state place.Creator).1 - p))
            place.Creator (add64 (ReadAccountStake state place.Creator).1 p))
          place.Creator (add64 ((ReadAccountBalance state place.Creator).1 - p) w))
        place.Creator ((ReadAccountStake state place.Creator).1 + p - w)) place.Creator).1
      = (ReadAccountStake state place.Creator).1 + p - w := by
    rw [ReadAccountStake_write_self]
  refine ⟨⟨_, _, h1, h2, hbal, hst, ?_⟩, ?_⟩
  · intro hwp
    rw [hbal, hst, hwp]
    omega
  · intro t hlt
    have h3 := ApplyTransaction_withdrawStake_fails env fuel round t withdraw _ htag2 hparse2 rfl
      hops (by rw [hcreator]; exact hlt)
    rw [hcreator] at h3
    exact ⟨_, h3⟩

/-- C21 amended, on scenario S3: balance 50, stake 0, `PlaceStake(20)` and then
`WithdrawStake(5)` leave the balance 35 and the stake 15. -/
theorem C21_place_then_withdraw_witness :
    (∃ t1 t2,
        ApplyTransaction exampleEnv 1 {} (exampleStaked 50 0) (examplePlaceStake 20)
          = Outcome.returned t1 { GasPayer := 1 } none
        ∧ ApplyTransaction exampleEnv 1 {} t1 (exampleWithdrawStake 5)
          = Outcome.returned t2 { GasPayer := 1 } none
        ∧ (ReadAccountBalance t2 1).1 = 50 - 20 + 5
        ∧ (ReadAccountStake t2 1).1 = 0 + 20 - 5
        ∧ ((5 : Nat) = 20 →
            (ReadAccountBalance t2 1).1 = 50 ∧ (ReadAccountStake t2 1).1 = 0))
    ∧ (∀ t, (ReadAccountStake t 1).1 < 5 →
        ∃ err, ApplyTransaction exampleEnv 1 {} t (exampleWithdrawStake 5)
          = Outcome.returned t { GasPayer := 1 } (some err)) :=
  C21_place_then_withdraw exampleEnv 0 {} (exampleStaked 50 0) (examplePlaceStake 20)
    (exampleWithdrawStake 5) 20 5 (by decide) rfl rfl rfl rfl rfl (by decide) (by decide)
    (by decide) (by decide)

/-! ### View graph: `FindEligibleParents` -/

theorem findEligibleStep_eq (sys : SysConf) (root : Transaction)
    (acc : Graph × List TransactionID) (id : TransactionID) :
    findEligibleStep sys root acc id
      = if eligibleKept sys acc.1 root id = true then (acc.1, acc.2 ++ [id])
        else ({ acc.1 with eligible := setDel acc.1.eligible id }, acc.2) := by
  unfold findEligibleStep eligibleKept
  cases hget : mapGet acc.1.transactions id with
  | none => simp [hget]
  | some p =>
    by_cases h1 : p.ID ≠ root.ID ∧ p.Depth ≤ root.Depth
    · simp [hget, h1]
    · by_cases h2 : add64 p.Depth sys.MaxEligibleParentsDepthDiff ≤ acc.1.height
      · simp [hget, h1, h2]
      · simp [hget, h1, h2]

theorem eligibleKept_congr (sys : SysConf) (g : Graph) (root : Transaction)
    (id : TransactionID) (eligible : List TransactionID) :
    eligibleKept sys (withEligible g eligible) root id = eligibleKept sys g root id :=
  rfl

/-- The loop of `FindEligibleParents` over the entries `l`: the entries of `l`
that fail the test leave `eligible`, the others are returned in order, and no
other component of the graph changes. -/
theorem findEligible_foldl (sys : SysConf) (g : Graph) (root : Transaction) :
    ∀ (l : List TransactionID) (eligible acc : List TransactionID),
      l.foldl (findEligibleStep sys root) (withEligible g eligible, acc)
        = (withEligible g
            (eligible.filter (fun x => decide (x ∈ l → eligibleKept sys g root x = true))),
           acc ++ l.filter (fun x => eligibleKept sys g root x)) := by
  intro l
  induction l with
  | nil =>
    intro eligible acc
    simp
  | cons id rest ih =>
    intro eligible acc
    rw [List.foldl_cons, findEligibleStep_eq]
    simp only [eligibleKept_congr]
    by_cases hk : eligibleKept sys g root id = true
    · rw [if_pos hk, ih]
      congr 1
      · congr 1
        apply List.filter_congr
        intro x _
        by_cases hx : x = id
        · subst hx
          simp [hk]
        · simp [hx]
      · simp [List.filter_cons, hk]
    · rw [if_neg hk]
      have hset : ({ withEligible g eligible with
          eligible := setDel (withEligible g eligible).eligible id } : Graph)
          = withEligible g (setDel eligible id) := rfl
      simp only [hset, ih]
      congr 1
      · congr 1
        unfold setDel
        rw [List.filter_filter]
        apply List.filter_congr
        intro x _
        by_cases hx : x = id
        · subst hx
          simp [hk]
        · simp [hx]
      · simp [List.filter_cons, hk]

/-- C24 as stated fails for the root: in the new graph `FindEligibleParents`
returns the root, whose depth is not strictly greater than the depth of the
root. -/
theorem C24_counterexample_root_is_returned :
    (FindEligibleParents exampleSys exampleGraphRoot).map (fun r => r.2) = some [0]
    ∧ exampleGraphRoot.rootID = 0
    ∧ (mapGet exampleGraphRoot.transactions 0).map (fun tx => tx.Depth) = some 0 := by
  decide

/-- C24, amended. `FindEligibleParents` returns whenever the root is stored.
Every id it returns is an entry of `eligible`, is present in `transactions`, is
the root or has a depth strictly greater than the depth of the root, and
satisfies `depth + MaxEligibleParentsDepthDiff > height`; afterwards `eligible`
holds the returned ids and no other entry, and every other component of the
graph is unchanged. -/
theorem C24_eligible_parents (sys : SysConf) (g : Graph) :
    (∀ root, mapGet g.transactions g.rootID = some root →
      ∃ r, FindEligibleParents sys g = some r)
    ∧ (∀ g1 ids, FindEligibleParents sys g = some (g1, ids) →
        (∀ id ∈ ids, id ∈ g.eligible ∧
          ∃ tx, mapGet g.transactions id = some tx
            ∧ (∀ root, mapGet g.transactions g.rootID = some root →
                tx.ID = root.ID ∨ root.Depth < tx.Depth)
            ∧ g.height < tx.Depth + sys.MaxEligibleParentsDepthDiff)
        ∧ g1.eligible = ids
        ∧ (∀ id ∈ g.eligible, id ∉ ids → id ∉ g1.eligible)
        ∧ g1 = { g with eligible := g1.eligible }) := by
  constructor
  · intro root hroot
    unfold FindEligibleParents
    rw [hroot]
    exact ⟨_, rfl⟩
  · intro g1 ids h
    unfold FindEligibleParents at h
    cases hroot : mapGet g.transactions g.rootID with
    | none =>
      rw [hroot] at h
      simp only at h
      split_ifs at h
      simp only [Option.some.injEq, Prod.mk.injEq] at h
      obtain ⟨rfl, rfl⟩ := h
      exact ⟨fun id hid => absurd hid (List.not_mem_nil _), rfl,
        fun id _ _ hid => absurd hid (List.not_mem_nil _), rfl⟩
    | some root =>
      rw [hroot] at h
      simp only [Option.some.injEq] at h
      have hg : (g, ([] : List TransactionID)) = (withEligible g g.eligible, []) := rfl
      rw [hg, findEligible_foldl sys g root g.eligible g.eligible []] at h
      simp only [List.nil_append, Prod.mk.injEq] at h
      obtain ⟨rfl, rfl⟩ := h
      have hfilter : g.eligible.filter
          (fun x => decide (x ∈ g.eligible → eligibleKept sys g root x = true))
          = g.eligible.filter (fun x => eligibleKept sys g root x) := by
        apply List.filter_congr
        intro x hx
        simp [hx]
      refine ⟨?_, hfilter, ?_, rfl⟩
      · intro id hid
        obtain ⟨hmem, hk⟩ := List.mem_filter.mp hid
        refine ⟨hmem, ?_⟩
        unfold eligibleKept at hk
        cases hget : mapGet g.transactions id with
        | none => rw [hget] at hk; simp at hk
        | some tx =>
          rw [hget] at hk
          simp only [Bool.and_eq_true, Bool.not_eq_true', decide_eq_false_iff_not, not_and,
            not_le] at hk
          refine ⟨tx, rfl, ?_, ?_⟩
          · intro root' hroot'
            rw [← Option.some.inj hroot']
            by_cases hid' : tx.ID = root.ID
            · exact Or.inl hid'
            · exact Or.inr (hk.1 hid')
          · have hmod : add64 tx.Depth sys.MaxEligibleParentsDepthDiff
                ≤ tx.Depth + sys.MaxEligibleParentsDepthDiff := Nat.mod_le _ _
            omega
      · intro id _ hnot hin
        have hin' : id ∈ g.eligible.filter
            (fun x => decide (x ∈ g.eligible → eligibleKept sys g root x = true)) := hin
        rw [hfilter] at hin'
        exact hnot hin'

/-- C24 amended, on the graph with the root, `exampleA` and `exampleB`: the root
has children and is not an entry of `eligible`; the two children are returned. -/
theorem C24_eligible_parents_witness :
    FindEligibleParents exampleSys exampleGraphAB = some (exampleGraphAB, [11, 10])
    ∧ (∀ id ∈ [11, 10], id ∈ exampleGraphAB.eligible ∧
          ∃ tx, mapGet exampleGraphAB.transactions id = some tx
            ∧ (∀ root, mapGet exampleGraphAB.transactions exampleGraphAB.rootID = some root →
                tx.ID = root.ID ∨ root.Depth < tx.Depth)
            ∧ exampleGraphAB.height < tx.Depth + exampleSys.MaxEligibleParentsDepthDiff)
    ∧ exampleGraphAB.eligible = [11, 10]
    ∧ (∀ id ∈ exampleGraphAB.eligible, id ∉ [11, 10] → id ∉ exampleGraphAB.eligible)
    ∧ exampleGraphAB = { exampleGraphAB with eligible := exampleGraphAB.eligible } :=
  ⟨by decide,
   (C24_eligible_parents exampleSys exampleGraphAB).2 exampleGraphAB [11, 10] (by decide)⟩

/-! ### View graph: `Prune` -/

theorem deleteTransaction_roundIndex (g : Graph) (x : TransactionID) :
    (deleteTransaction g x).roundIndex = g.roundIndex := by
  unfold deleteTransaction
  split <;> rfl

theorem deleteTransaction_foldl_roundIndex (ids : List TransactionID) (g : Graph) :
    (ids.foldl deleteTransaction g).roundIndex = g.roundIndex := by
  induction ids generalizing g with
  | nil => rfl
  | cons x rest ih => rw [List.foldl_cons, ih, deleteTransaction_roundIndex]

theorem deleteTransaction_foldl_transactions (ids : List TransactionID) (g : Graph)
    (id : TransactionID) :
    mapGet (ids.foldl deleteTransaction g).transactions id
      = if id ∈ ids then none else mapGet g.transactions id := by
  induction ids generalizing g with
  | nil => simp
  | cons x rest ih =>
    rw [List.foldl_cons, ih, deleteTransaction_transactions]
    by_cases hx : id = x
    · subst hx
      simp [mapGet_mapDel_self]
    · by_cases hr : id ∈ rest
      · simp [hr]
      · simp [hr, hx, mapGet_mapDel_ne _ _ _ hx]

theorem pruneStep_transactions (sys : SysConf) (round : Round) (g : Graph)
    (entry : Nat × List TransactionID) (id : TransactionID) :
    mapGet (pruneStep sys round g entry).transactions id
      = if add64 entry.1 sys.PruningDepth ≤ round.Index ∧ id ∈ entry.2 then none
        else mapGet g.transactions id := by
  unfold pruneStep
  by_cases hp : add64 entry.1 sys.PruningDepth ≤ round.Index
  · rw [if_pos hp]
    simp only [deleteTransaction_foldl_transactions, hp, true_and]
  · rw [if_neg hp]
    simp [hp]

theorem pruneStep_roundIndex (sys : SysConf) (round : Round) (g : Graph)
    (entry : Nat × List TransactionID) (r : Nat) :
    mapGet (pruneStep sys round g entry).roundIndex r
      = if add64 entry.1 sys.PruningDepth ≤ round.Index ∧ r = entry.1 then none
        else mapGet g.roundIndex r := by
  unfold pruneStep
  by_cases hp : add64 entry.1 sys.PruningDepth ≤ round.Index
  · rw [if_pos hp]
    simp only [deleteTransaction_foldl_roundIndex, hp, true_and]
    by_cases hr : r = entry.1
    · rw [if_pos hr, hr]
      exact mapGet_mapDel_self _ _
    · rw [if_neg hr]
      exact mapGet_mapDel_ne _ _ _ hr
  · rw [if_neg hp]
    simp [hp]

/-- The loop of `Prune` over the round entries `l`. -/
theorem prune_foldl (sys : SysConf) (round : Round) :
    ∀ (l : List (Nat × List TransactionID)) (g : Graph),
      (∀ id, (∃ e ∈ l, add64 e.1 sys.PruningDepth ≤ round.Index ∧ id ∈ e.2) →
        mapGet (l.foldl (pruneStep sys round) g).transactions id = none)
      ∧ (∀ id, (∀ e ∈ l, add64 e.1 sys.PruningDepth ≤ round.Index → id ∉ e.2) →
        mapGet (l.foldl (pruneStep sys round) g).transactions id = mapGet g.transactions id)
      ∧ (∀ r, (∃ e ∈ l, add64 e.1 sys.PruningDepth ≤ round.Index ∧ r = e.1) →
        mapGet (l.foldl (pruneStep sys round) g).roundIndex r = none)
      ∧ (∀ r, (∀ e ∈ l, add64 e.1 sys.PruningDepth ≤ round.Index → r ≠ e.1) →
        mapGet (l.foldl (pruneStep sys round) g).roundIndex r = mapGet g.roundIndex r) := by
  intro l
  induction l with
  | nil =>
    intro g
    simp
  | cons e rest ih =>
    intro g
    obtain ⟨i1, i2, i3, i4⟩ := ih (pruneStep sys round g e)
    simp only [List.foldl_cons]
    refine ⟨?_, ?_, ?_, ?_⟩
    · intro id h
      by_cases hrest : ∃ e' ∈ rest, add64 e'.1 sys.PruningDepth ≤ round.Index ∧ id ∈ e'.2
      · exact i1 id hrest
      · have hno : ∀ e' ∈ rest, add64 e'.1 sys.PruningDepth ≤ round.Index → id ∉ e'.2 :=
          fun e' he' hp hid => hrest ⟨e', he', hp, hid⟩
        rw [i2 id hno, pruneStep_transactions]
        obtain ⟨e', he', hp, hid⟩ := h
        rcases List.mem_cons.mp he' with h1 | h1
        · rw [h1] at hp hid
          rw [if_pos ⟨hp, hid⟩]
        · exact absurd ⟨e', h1, hp, hid⟩ hrest
    · intro id h
      rw [i2 id (fun e' he' => h e' (List.mem_cons_of_mem _ he')), pruneStep_transactions]
      rw [if_neg]
      rintro ⟨hp, hid⟩
      exact h e (List.mem_cons_self _ _) hp hid
    · intro r h
      by_cases hrest : ∃ e' ∈ rest, add64 e'.1 sys.PruningDepth ≤ round.Index ∧ r = e'.1
      · exact i3 r hrest
      · have hno : ∀ e' ∈ rest, add64 e'.1 sys.PruningDepth ≤ round.Index → r ≠ e'.1 :=
          fun e' he' hp hr => hrest ⟨e', he', hp, hr⟩
        rw [i4 r hno, pruneStep_roundIndex]
        obtain ⟨e', he', hp, hr⟩ := h
        rcases List.mem_cons.mp he' with h1 | h1
        · rw [h1] at hp hr
          rw [if_pos ⟨hp, hr⟩]
        · exact absurd ⟨e', h1, hp, hr⟩ hrest
    · intro r h
      rw [i4 r (fun e' he' => h e' (List.mem_cons_of_mem _ he')), pruneStep_roundIndex]
      rw [if_neg]
      rintro ⟨hp, hr⟩
      exact h e (List.mem_cons_self _ _) hp hr

theorem mapGet_none_of_not_key {K V : Type} [DecidableEq K] (m : List (K × V)) (k : K)
    (h : ∀ e ∈ m, e.1 ≠ k) : mapGet m k = none := by
  induction m with
  | nil => rfl
  | cons e rest ih =>
    obtain ⟨a, b⟩ := e
    rw [mapGet_cons, if_neg (h (a, b) (List.mem_cons_self _ _))]
    exact ih (fun e' he' => h e' (List.mem_cons_of_mem _ he'))

/-- C22 as stated fails where `roundID + PruningDepth` wraps around: the round
with the index `2 ^ 64 - 1` has `r + PruningDepth > 5`, and `Prune` at round 5
with the pruning depth 3 removes its entry and its transaction, the root 50. -/
theorem C22_counterexample_round_sum_wraps :
    exampleLastRound.roundIndex = [(2 ^ 64 - 1, [50])]
    ∧ (mapGet exampleLastRound.transactions 50).isSome = true
    ∧ 5 < 2 ^ 64 - 1 + exampleSys.PruningDepth
    ∧ (Prune exampleSys exampleLastRound { Index := 5 }).roundIndex = []
    ∧ mapGet (Prune exampleSys exampleLastRound { Index := 5 }).transactions 50 = none := by
  decide

/-- C22, amended. After `Prune(R)`: `roundIndex` has no entry for any round `r`
with `r + PruningDepth <= R.Index`, and no transaction that was indexed under
such a round remains in `transactions`; every round entry with
`R.Index < r + PruningDepth < 2 ^ 64` is retained unchanged; and every
transaction that was indexed under rounds of this second kind only, or under no
round, is retained unchanged. -/
theorem C22_prune_removes_old_rounds (sys : SysConf) (g : Graph) (round : Round) :
    (∀ r, r + sys.PruningDepth ≤ round.Index →
      mapGet (Prune sys g round).roundIndex r = none)
    ∧ (∀ e ∈ g.roundIndex, e.1 + sys.PruningDepth ≤ round.Index →
        ∀ id ∈ e.2, mapGet (Prune sys g round).transactions id = none)
    ∧ (∀ r, round.Index < r + sys.PruningDepth → r + sys.PruningDepth < 2 ^ 64 →
        mapGet (Prune sys g round).roundIndex r = mapGet g.roundIndex r)
    ∧ (∀ id,
        (∀ e ∈ g.roundIndex, id ∈ e.2 →
          round.Index < e.1 + sys.PruningDepth ∧ e.1 + sys.PruningDepth < 2 ^ 64) →
        mapGet (Prune sys g round).transactions id = mapGet g.transactions id) := by
  obtain ⟨p1, p2, p3, p4⟩ := prune_foldl sys round g.roundIndex g
  have hwrap : ∀ r, add64 r sys.PruningDepth ≤ r + sys.PruningDepth :=
    fun r => Nat.mod_le _ _
  have hsame : ∀ r, r + sys.PruningDepth < 2 ^ 64 →
      add64 r sys.PruningDepth = r + sys.PruningDepth := fun r h => Nat.mod_eq_of_lt h
  unfold Prune
  refine ⟨?_, ?_, ?_, ?_⟩
  · intro r hr
    by_cases hkey : ∃ e ∈ g.roundIndex, e.1 = r
    · obtain ⟨e, he, rfl⟩ := hkey
      exact p3 e.1 ⟨e, he, le_trans (hwrap e.1) hr, rfl⟩
    · have hnone : mapGet g.roundIndex r = none :=
        mapGet_none_of_not_key _ _ (fun e he h => hkey ⟨e, he, h⟩)
      rw [p4 r (fun e he _ h => hkey ⟨e, he, h.symm⟩), hnone]
  · intro e he hr id hid
    exact p1 id ⟨e, he, le_trans (hwrap e.1) hr, hid⟩
  · intro r hr hb
    apply p4
    intro e _ hp h
    rw [← h, hsame r hb] at hp
    omega
  · intro id h
    apply p2
    intro e he hp hid
    obtain ⟨h1, h2⟩ := h e he hid
    rw [hsame e.1 h2] at hp
    omega

/-- C22 amended, on scenario S6: the pruning depth is 3 and the rounds 1 to 5
have one transaction each; `Prune` at round 5 removes the rounds 1 and 2 with
their transactions 101 and 102 and keeps the rounds 3, 4 and 5. -/
theorem C22_prune_removes_old_rounds_witness :
    exampleRounds.roundIndex = [(5, [105]), (4, [104]), (3, [103]), (2, [102]), (1, [101])]
    ∧ (Prune exampleSys exampleRounds { Index := 5 }).roundIndex
        = [(5, [105]), (4, [104]), (3, [103])]
    ∧ (Prune exampleSys exampleRounds { Index := 5 }).transactions.map Prod.fst
        = [105, 104, 103, 0]
    ∧ (∀ r, r + exampleSys.PruningDepth ≤ 5 →
        mapGet (Prune exampleSys exampleRounds { Index := 5 }).roundIndex r = none)
    ∧ (∀ e ∈ exampleRounds.roundIndex, e.1 + exampleSys.PruningDepth ≤ 5 →
        ∀ id ∈ e.2, mapGet (Prune exampleSys exampleRounds { Index := 5 }).transactions id
          = none)
    ∧ (∀ r, 5 < r + exampleSys.PruningDepth → r + exampleSys.PruningDepth < 2 ^ 64 →
        mapGet (Prune exampleSys exampleRounds { Index := 5 }).roundIndex r
          = mapGet exampleRounds.roundIndex r)
    ∧ (∀ id,
        (∀ e ∈ exampleRounds.roundIndex, id ∈ e.2 →
          5 < e.1 + exampleSys.PruningDepth ∧ e.1 + exampleSys.PruningDepth < 2 ^ 64) →
        mapGet (Prune exampleSys exampleRounds { Index := 5 }).transactions id
          = mapGet exampleRounds.transactions id) :=
  ⟨by decide, by decide, by decide,
   C22_prune_removes_old_rounds exampleSys exampleRounds { Index := 5 }⟩

/-! ### View graph: `Reset` -/

theorem mem_foldl_setAdd {K : Type} [DecidableEq K] (l : List K) :
    ∀ (acc : List K) (x : K), x ∈ l.foldl setAdd acc ↔ x ∈ acc ∨ x ∈ l := by
  induction l with
  | nil =>
    intro acc x
    simp
  | cons y rest ih =>
    intro acc x
    rw [List.foldl_cons, ih, mem_setAdd, List.mem_cons]
    constructor
    · rintro ((h | h) | h)
      · exact Or.inr (Or.inl h)
      · exact Or.inl h
      · exact Or.inr (Or.inr h)
    · rintro (h | h | h)
      · exact Or.inl (Or.inr h)
      · exact Or.inl (Or.inl h)
      · exact Or.inr h

theorem addDepthToRound_mem (g : Graph) (index i : Nat) (x : TransactionID) :
    x ∈ mapGetD (addDepthToRound g index i).roundIndex index []
      ↔ x ∈ mapGetD g.roundIndex index [] ∨ x ∈ mapGetD g.depthIndex i [] := by
  unfold addDepthToRound
  simp only [mapGetD_mapSet_self]
  exact mem_foldl_setAdd _ _ _

theorem resetDepths_frame (index : Nat) :
    ∀ (n i : Nat) (g : Graph),
      (resetDepths index n i g).depthIndex = g.depthIndex
      ∧ (resetDepths index n i g).transactions = g.transactions
      ∧ (resetDepths index n i g).rootID = g.rootID
      ∧ (resetDepths index n i g).missing = g.missing := by
  intro n
  induction n with
  | zero =>
    intro i g
    exact ⟨rfl, rfl, rfl, rfl⟩
  | succ n ih =>
    intro i g
    obtain ⟨h1, h2, h3, h4⟩ := ih (i + 1) (addDepthToRound g index i)
    simp only [resetDepths]
    exact ⟨h1, h2, h3, h4⟩

theorem resetDepths_mem (index : Nat) :
    ∀ (n i : Nat) (g : Graph) (x : TransactionID),
      (x ∈ mapGetD g.roundIndex index [] →
        x ∈ mapGetD (resetDepths index n i g).roundIndex index [])
      ∧ (∀ d, i ≤ d → d < i + n → x ∈ mapGetD g.depthIndex d [] →
        x ∈ mapGetD (resetDepths index n i g).roundIndex index []) := by
  intro n
  induction n with
  | zero =>
    intro i g x
    exact ⟨fun h => h, fun d h1 h2 _ => by omega⟩
  | succ n ih =>
    intro i g x
    obtain ⟨h1, h2⟩ := ih (i + 1) (addDepthToRound g index i) x
    simp only [resetDepths]
    constructor
    · intro h
      exact h1 ((addDepthToRound_mem g index i x).mpr (Or.inl h))
    · intro d hd1 hd2 hx
      by_cases hdi : d = i
      · subst hdi
        exact h1 ((addDepthToRound_mem g index d x).mpr (Or.inr hx))
      · exact h2 d (by omega) (by omega) hx

theorem createTransactionIndices_rootID (sys : SysConf) (g : Graph) (tx : Transaction) :
    (createTransactionIndices sys g tx).rootID = g.rootID := by
  unfold createTransactionIndices
  simp only
  split_ifs <;> rfl

/-- C23 as stated fails for incomplete transactions: `C` waits for its parent,
it is in `transactions` with the depth 2, and after `Reset` from the root of
depth 0 to a root of depth 5 it is not in the round index of the new round. -/
theorem C23_counterexample_incomplete_not_indexed :
    (mapGet exampleGraphWaiting.transactions exampleGraphWaiting.rootID).map
        (fun tx => tx.Depth) = some 0
    ∧ 20 ∈ exampleGraphWaiting.incomplete
    ∧ (Reset exampleSys exampleGraphWaiting exampleRoundDeep).map
        (fun g => (g.rootID, mapGet g.transactions 20, mapGetD g.roundIndex 1 []))
      = some (50, some examplePromotedC, [50])
    ∧ 0 < examplePromotedC.Depth ∧ examplePromotedC.Depth ≤ exampleRoundDeep.Root.Depth := by
  decide

/-- C23, amended. Let the previous root be stored and have the depth `d_old`,
let the id of `R.Root` differ from the id of the previous root, and let
`R.Root.Depth < 2 ^ 64 - 1`. Then `Reset(R)` returns; afterwards
`rootID = R.Root.ID`, `R.Root` is in `transactions` and is indexed at its depth,
every id that the depth index had before is still indexed there, and every id
that the depth index lists at a depth `d` with `d_old < d <= R.Root.Depth`,
which are the complete transactions of that depth and the new root, is in
`roundIndex[R.Index]`. -/
theorem C23_reset_indexes_round (sys : SysConf) (g : Graph) (newRound : Round)
    (oldRoot : Transaction)
    (hold : mapGet g.transactions g.rootID = some oldRoot)
    (hne : newRound.Root.ID ≠ g.rootID)
    (hdepth : newRound.Root.Depth + 1 < 2 ^ 64) :
    ∃ g1, Reset sys g newRound = some g1
      ∧ g1.rootID = newRound.Root.ID
      ∧ mapGet g1.transactions newRound.Root.ID = some newRound.Root
      ∧ newRound.Root.ID ∈ mapGetD g1.depthIndex newRound.Root.Depth []
      ∧ (∀ d id, id ∈ mapGetD g.depthIndex d [] → id ∈ mapGetD g1.depthIndex d [])
      ∧ (∀ d id, oldRoot.Depth < d → d ≤ newRound.Root.Depth →
          id ∈ mapGetD g1.depthIndex d [] →
          id ∈ mapGetD g1.roundIndex newRound.Index []) := by
  have hroot : mapGet (resetStored sys g newRound).transactions
      (resetStored sys g newRound).rootID = some oldRoot := by
    unfold resetStored
    rw [createTransactionIndices_transactions, createTransactionIndices_rootID]
    simp only
    rw [mapGet_mapSet_ne _ _ _ _ (Ne.symm hne)]
    exact hold
  have hloop : ¬ (add64 oldRoot.Depth 1 ≤ newRound.Root.Depth
      ∧ newRound.Root.Depth + 1 = u64) := by
    rintro ⟨_, h⟩
    unfold u64 at h
    omega
  have hlo : add64 oldRoot.Depth 1 ≤ oldRoot.Depth + 1 := Nat.mod_le _ _
  obtain ⟨f1, f2, _, _⟩ := resetDepths_frame newRound.Index
    (newRound.Root.Depth + 1 - add64 oldRoot.Depth 1) (add64 oldRoot.Depth 1)
    (resetAllocated sys g newRound)
  have key : ∃ g1, Reset sys g newRound = some g1
      ∧ g1.rootID = newRound.Root.ID
      ∧ g1.transactions = (resetAllocated sys g newRound).transactions
      ∧ g1.depthIndex = (resetAllocated sys g newRound).depthIndex
      ∧ g1.roundIndex = (resetDepths newRound.Index
          (newRound.Root.Depth + 1 - add64 oldRoot.Depth 1) (add64 oldRoot.Depth 1)
          (resetAllocated sys g newRound)).roundIndex := by
    have hr : Reset sys g newRound
        = match mapGet (resetStored sys g newRound).transactions
            (resetStored sys g newRound).rootID with
          | none => none
          | some oldRoot =>
            if add64 oldRoot.Depth 1 ≤ newRound.Root.Depth ∧ newRound.Root.Depth + 1 = u64 then
              none
            else
              some { resetDepths newRound.Index
                  (newRound.Root.Depth + 1 - add64 oldRoot.Depth 1) (add64 oldRoot.Depth 1)
                  (resetAllocated sys g newRound) with rootID := newRound.Root.ID } := rfl
    rw [hr, hroot]
    simp only [if_neg hloop]
    exact ⟨_, rfl, rfl, f2, f1, rfl⟩
  obtain ⟨g1, h1, h2, h3, h4, h5⟩ := key
  have hdi : (resetAllocated sys g newRound).depthIndex
      = (createTransactionIndices sys
          { g with transactions := mapSet g.transactions newRound.Root.ID newRound.Root }
          newRound.Root).depthIndex := rfl
  have htx : (resetAllocated sys g newRound).transactions
      = mapSet g.transactions newRound.Root.ID newRound.Root := by
    show (resetStored sys g newRound).transactions = _
    unfold resetStored
    rw [createTransactionIndices_transactions]
  refine ⟨g1, h1, h2, ?_, ?_, ?_, ?_⟩
  · rw [h3, htx, mapGet_mapSet_self]
  · rw [h4, hdi]
    exact createTransactionIndices_depthIndex_self sys _ newRound.Root
  · intro d id hid
    rw [h4, hdi]
    exact createTransactionIndices_depthIndex_mem sys _ newRound.Root id d hid
  · intro d id hd1 hd2 hid
    rw [h4] at hid
    rw [h5]
    exact (resetDepths_mem newRound.Index _ _ _ id).2 d (by omega) (by omega) hid

/-- C23 amended, on the graph with the root and `exampleA`, a complete
transaction of depth 1: after `Reset` to a root of depth 5 both `exampleA` and
the new root are in the round index of the new round. -/
theorem C23_reset_indexes_round_witness :
    ∃ g1, Reset exampleSys (addToGraph exampleSys exampleGraphRoot exampleA) exampleRoundDeep
        = some g1
      ∧ g1.rootID = 50
      ∧ mapGet g1.transactions 50 = some exampleRoundDeep.Root
      ∧ 50 ∈ mapGetD g1.depthIndex 5 []
      ∧ (∀ d id, id ∈ mapGetD (addToGraph exampleSys exampleGraphRoot exampleA).depthIndex d [] →
          id ∈ mapGetD g1.depthIndex d [])
      ∧ (∀ d id, 0 < d → d ≤ 5 → id ∈ mapGetD g1.depthIndex d [] →
          id ∈ mapGetD g1.roundIndex 1 []) :=
  C23_reset_indexes_round exampleSys (addToGraph exampleSys exampleGraphRoot exampleA)
    exampleRoundDeep {} (by decide) (by decide) (by decide)

/-! ### View graph: properties kept by `markTransactionAsComplete` -/

theorem completeLoop_graph_mem (sys : SysConf) (tx : Transaction) (ps : List TransactionID)
    (g : Graph) (d c : Nat) :
    (completeLoop sys tx ps g d c).1 = g ∨
    ∃ p ∈ ps, mapGet g.transactions p = none ∧
      (completeLoop sys tx ps g d c).1 = { g with missing := setAdd g.missing p } := by
  induction ps generalizing d c with
  | nil => exact Or.inl rfl
  | cons p rest ih =>
    unfold completeLoop
    cases hget : mapGet g.transactions p with
    | none =>
      obtain ⟨h2, h1⟩ := lookupTransactionByID_none g p hget
      cases hl : lookupTransactionByID g p with
      | mk g1 o =>
        rw [hl] at h1 h2
        simp only at h1 h2
        subst h2
        simp only
        rcases h1 with h1 | h1
        · exact Or.inl h1
        · exact Or.inr ⟨p, List.mem_cons_self _ _, hget, h1⟩
    | some parent =>
      rw [lookupTransactionByID_of_stored g p parent hget]
      simp only [ite_lt_eq_max]
      by_cases hdiff : add64 parent.Depth sys.MaxEligibleParentsDepthDiff < tx.Depth
      · rw [if_pos hdiff]
        exact Or.inl rfl
      · rw [if_neg hdiff]
        rcases ih _ _ with h | ⟨q, hq, hn, h⟩
        · exact Or.inl h
        · exact Or.inr ⟨q, List.mem_cons_of_mem _ hq, hn, h⟩

theorem assertTransactionIsComplete_graph_mem (sys : SysConf) (g : Graph) (tx : Transaction) :
    (assertTransactionIsComplete sys g tx).1 = g ∨
    ∃ p ∈ tx.ParentIDs, mapGet g.transactions p = none ∧
      (assertTransactionIsComplete sys g tx).1 = { g with missing := setAdd g.missing p } := by
  have h := completeLoop_graph_mem sys tx tx.ParentIDs g 0 0
  unfold assertTransactionIsComplete
  cases hloop : completeLoop sys tx tx.ParentIDs g 0 0 with
  | mk g1 r =>
    rw [hloop] at h
    cases r with
    | inl err => exact h
    | inr dc =>
      obtain ⟨d1, c1⟩ := dc
      simp only
      split_ifs <;> exact h

theorem StepInvariant_assert (sys : SysConf) (P : Graph → Prop)
    (Q : Graph → Transaction → Prop) (h : StepInvariant sys P Q) (g : Graph)
    (tx : Transaction) (hP : P g) (hQ : Q g tx) :
    P (assertTransactionIsComplete sys g tx).1 ∧ Q (assertTransactionIsComplete sys g tx).1 tx := by
  rcases assertTransactionIsComplete_graph_mem sys g tx with h1 | ⟨p, hp, hn, h1⟩
  · rw [h1]
    exact ⟨hP, hQ⟩
  · rw [h1]
    exact h.miss g tx p hP hQ hp hn

theorem StepInvariant_foldl_delete (sys : SysConf) (P : Graph → Prop)
    (Q : Graph → Transaction → Prop) (h : StepInvariant sys P Q) :
    ∀ (ids : List TransactionID) (g : Graph), P g → P (ids.foldl deleteTransaction g) := by
  intro ids
  induction ids with
  | nil => exact fun g hP => hP
  | cons id rest ih => exact fun g hP => ih _ (h.delete g id hP)

theorem promoteChildren_invariant (sys : SysConf) (P : Graph → Prop)
    (Q : Graph → Transaction → Prop) (h : StepInvariant sys P Q)
    (mark : Graph → Transaction → Option (Graph × Option String))
    (hmark : ∀ g tx r, P g → Q g tx → mark g tx = some r → P r.1) :
    ∀ (ids : List TransactionID) (g g1 : Graph), P g →
      promoteChildren mark ids g = some g1 → P g1 := by
  intro ids
  induction ids with
  | nil =>
    intro g g1 hP hr
    simp only [promoteChildren, Option.some.injEq] at hr
    rw [← hr]
    exact hP
  | cons childID rest ih =>
    intro g g1 hP hr
    unfold promoteChildren at hr
    by_cases hinc : childID ∉ g.incomplete
    · rw [if_pos hinc] at hr
      exact ih g g1 hP hr
    · rw [if_neg hinc] at hr
      cases hget : mapGet g.transactions childID with
      | none =>
        rw [hget] at hr
        exact ih g g1 hP hr
      | some child =>
        rw [hget] at hr
        simp only at hr
        by_cases hpc : parentsComplete g child.ParentIDs = true
        · rw [if_pos hpc] at hr
          obtain ⟨hP1, hQ1⟩ := h.child g childID child hP (not_not.mp hinc) hget hpc
          cases hm : mark { g with incomplete := setDel g.incomplete childID } child with
          | none =>
            rw [hm] at hr
            simp at hr
          | some r =>
            rw [hm] at hr
            simp only at hr
            exact ih r.1 g1 (hmark _ _ r hP1 hQ1 hm) hr
        · rw [if_neg hpc] at hr
          exact ih g g1 hP hr

/-- A property that every step keeps holds after `markTransactionAsComplete`,
whatever it returns. -/
theorem markTransactionAsComplete_invariant (sys : SysConf) (P : Graph → Prop)
    (Q : Graph → Transaction → Prop) (h : StepInvariant sys P Q) :
    ∀ (fuel : Nat) (g : Graph) (tx : Transaction) (r : Graph × Option String),
      P g → Q g tx → markTransactionAsComplete sys fuel g tx = some r → P r.1 := by
  intro fuel
  induction fuel with
  | zero =>
    intro g tx r _ _ hr
    simp [markTransactionAsComplete] at hr
  | succ fuel ih =>
    intro g tx r hP hQ hr
    unfold markTransactionAsComplete at hr
    obtain ⟨hP1, hQ1⟩ := StepInvariant_assert sys P Q h g tx hP hQ
    cases hc : assertTransactionIsComplete sys g tx with
    | mk g1 e =>
      rw [hc] at hr hP1 hQ1
      simp only at hP1 hQ1
      cases e with
      | some err =>
        simp only [Option.some.injEq] at hr
        rw [← hr]
        simp only [deleteIncompleteTransaction]
        exact StepInvariant_foldl_delete sys P Q h _ _ (h.delete g1 tx.ID hP1)
      | none =>
        simp only at hr
        cases hp : promoteChildren (markTransactionAsComplete sys fuel)
            (mapGetD (createTransactionIndices sys g1 tx).children tx.ID [])
            (createTransactionIndices sys g1 tx) with
        | none =>
          rw [hp] at hr
          simp at hr
        | some g3 =>
          rw [hp] at hr
          simp only [Option.some.injEq] at hr
          rw [← hr]
          exact promoteChildren_invariant sys P Q h (markTransactionAsComplete sys fuel)
            (fun g' tx' r' hP' hQ' hr' => ih g' tx' r' hP' hQ' hr') _ _ g3
            (h.index g1 tx hP1 hQ1) hp

/-- How `AddTransaction` ends: the graph is untouched (the transaction is
rejected); or the transaction is stored, linked to its parents and waits; or it
is stored, linked and handed to `markTransactionAsComplete`. -/
theorem AddTransaction_cases (sys : SysConf) (g : Graph) (tx : Transaction)
    (r : Graph × Option String) (h : AddTransaction sys g tx = some r) :
    r.1 = g ∨
    (mapGet g.transactions tx.ID = none ∧
      (r.1.transactions = (processParents (storeTransaction g tx) tx).1.transactions
          ∧ r.1.children = (processParents (storeTransaction g tx) tx).1.children
          ∧ r.1.missing = (processParents (storeTransaction g tx) tx).1.missing
        ∨ ∃ fuel, markTransactionAsComplete sys fuel
            (processParents (storeTransaction g tx) tx).1 tx = some r)) := by
  unfold AddTransaction at h
  by_cases hex : (mapGet g.transactions tx.ID).isSome = true
  · rw [if_pos hex] at h
    simp only [Option.some.injEq] at h
    rw [← h]
    exact Or.inl rfl
  · rw [if_neg hex] at h
    have hnone : mapGet g.transactions tx.ID = none := by
      cases hget : mapGet g.transactions tx.ID with
      | none => rfl
      | some t => rw [hget] at hex; simp at hex
    cases hv : assertTransactionIsValid tx with
    | some err =>
      rw [hv] at h
      simp only [Option.some.injEq] at h
      rw [← h]
      exact Or.inl rfl
    | none =>
      rw [hv] at h
      simp only at h
      right
      refine ⟨hnone, ?_⟩
      have hg : ({ ({ g with transactions := mapSet g.transactions tx.ID tx } : Graph) with
          missing := setDel g.missing tx.ID } : Graph) = storeTransaction g tx := rfl
      simp only [hg] at h
      by_cases hlen : (processParents (storeTransaction g tx) tx).2.length > 0
      · rw [if_pos hlen] at h
        simp only [Option.some.injEq] at h
        rw [← h]
        exact Or.inl ⟨rfl, rfl, rfl⟩
      · rw [if_neg hlen] at h
        exact Or.inr ⟨_, h⟩

/-- The graph after a transaction is stored and linked to its parents. -/
theorem processParents_store (g : Graph) (tx : Transaction) :
    (processParents (storeTransaction g tx) tx).1.transactions
        = mapSet g.transactions tx.ID tx
    ∧ (∀ q, mapGetD (processParents (storeTransaction g tx) tx).1.children q []
        = mapGetD g.children q [] ++ List.replicate (tx.ParentIDs.count q) tx.ID)
    ∧ (∀ x, x ∈ (processParents (storeTransaction g tx) tx).1.missing ↔
        x ∈ setDel g.missing tx.ID
          ∨ (x ∈ tx.ParentIDs ∧ mapGet (mapSet g.transactions tx.ID tx) x = none)) := by
  obtain ⟨_, _, _, h4, h5, _⟩ := processParents_foldl_spec tx tx.ParentIDs
    (storeTransaction g tx, [])
  refine ⟨?_, ?_, ?_⟩
  · unfold processParents
    rw [processParents_foldl_transactions]
    rfl
  · intro q
    exact h4 q
  · intro x
    exact h5 x

/-! ### View graph: child links -/

theorem Shrinks_refl (g : Graph) : Shrinks g g :=
  ⟨fun _ _ h => h, fun _ _ h => h⟩

theorem Shrinks_of_eq (g g1 g2 : Graph) (h : Shrinks g g1)
    (ht : g2.transactions = g1.transactions) (hc : g2.children = g1.children) :
    Shrinks g g2 :=
  ⟨fun k tx hk => h.1 k tx (by rw [← ht]; exact hk),
   fun p c hpc => h.2 p c (by rw [← hc]; exact hpc)⟩

theorem Shrinks_delete (g g1 : Graph) (id : TransactionID) (h : Shrinks g g1) :
    Shrinks g (deleteTransaction g1 id) := by
  constructor
  · intro k tx hk
    rw [deleteTransaction_transactions] at hk
    rcases mapGet_mapDel_eq_or g1.transactions id k with h1 | h1
    · exact h.1 k tx (by rw [← h1]; exact hk)
    · rw [h1] at hk
      cases hk
  · intro p c hpc
    rw [deleteTransaction_children] at hpc
    by_cases hp : p = id
    · rw [hp, mapGetD_mapDel_self] at hpc
      cases hpc
    · rw [mapGetD_mapDel_ne _ _ _ _ hp] at hpc
      exact h.2 p c hpc

theorem Shrinks_foldl_delete (g : Graph) :
    ∀ (ids : List TransactionID) (g1 : Graph), Shrinks g g1 →
      Shrinks g (ids.foldl deleteTransaction g1) := by
  intro ids
  induction ids with
  | nil => exact fun g1 h => h
  | cons id rest ih => exact fun g1 h => ih _ (Shrinks_delete g g1 id h)

theorem Shrinks_StepInvariant (sys : SysConf) (g : Graph) :
    StepInvariant sys (Shrinks g) (fun _ _ => True) where
  delete := fun g1 id h => Shrinks_delete g g1 id h
  index := fun g1 tx h _ =>
    Shrinks_of_eq g g1 _ h (createTransactionIndices_transactions sys g1 tx)
      (createTransactionIndices_children sys g1 tx)
  miss := fun g1 _ _ h _ _ _ => ⟨Shrinks_of_eq g g1 _ h rfl rfl, trivial⟩
  child := fun g1 _ _ h _ _ _ => ⟨Shrinks_of_eq g g1 _ h rfl rfl, trivial⟩

theorem ChildrenLinked_of_Shrinks (g g1 : Graph) (h : Shrinks g g1) (hg : ChildrenLinked g) :
    ChildrenLinked g1 :=
  fun p c tx hpc htx => hg p c tx (h.2 p c hpc) (h.1 c tx htx)

theorem pruneStep_Shrinks (sys : SysConf) (round : Round) (g g1 : Graph)
    (entry : Nat × List TransactionID) (h : Shrinks g g1) :
    Shrinks g (pruneStep sys round g1 entry) := by
  unfold pruneStep
  split_ifs
  · exact Shrinks_of_eq g _ _ (Shrinks_foldl_delete g entry.2 g1 h) rfl rfl
  · exact h

theorem Prune_Shrinks (sys : SysConf) (round : Round) (g : Graph) :
    Shrinks g (Prune sys g round) := by
  have hfold : ∀ (l : List (Nat × List TransactionID)) (g1 : Graph), Shrinks g g1 →
      Shrinks g (l.foldl (pruneStep sys round) g1) := by
    intro l
    induction l with
    | nil => exact fun g1 h => h
    | cons e rest ih => exact fun g1 h => ih _ (pruneStep_Shrinks sys round g g1 e h)
  exact hfold _ g (Shrinks_refl g)

theorem resetDepths_children (index : Nat) :
    ∀ (n i : Nat) (g : Graph), (resetDepths index n i g).children = g.children := by
  intro n
  induction n with
  | zero => exact fun i g => rfl
  | succ n ih =>
    intro i g
    simp only [resetDepths]
    rw [ih]
    rfl

/-- What `Reset` leaves of the graph: the transactions with the new root stored,
and the child links and the missing ids as they were. -/
theorem Reset_frame (sys : SysConf) (g g1 : Graph) (newRound : Round)
    (h : Reset sys g newRound = some g1) :
    g1.transactions = mapSet g.transactions newRound.Root.ID newRound.Root
    ∧ g1.children = g.children ∧ g1.missing = g.missing := by
  have hr : Reset sys g newRound
      = match mapGet (resetStored sys g newRound).transactions
          (resetStored sys g newRound).rootID with
        | none => none
        | some oldRoot =>
          if add64 oldRoot.Depth 1 ≤ newRound.Root.Depth ∧ newRound.Root.Depth + 1 = u64 then
            none
          else
            some { resetDepths newRound.Index
                (newRound.Root.Depth + 1 - add64 oldRoot.Depth 1) (add64 oldRoot.Depth 1)
                (resetAllocated sys g newRound) with rootID := newRound.Root.ID } := rfl
  rw [hr] at h
  cases hroot : mapGet (resetStored sys g newRound).transactions
      (resetStored sys g newRound).rootID with
  | none =>
    rw [hroot] at h
    cases h
  | some oldRoot =>
    rw [hroot] at h
    simp only at h
    split_ifs at h
    simp only [Option.some.injEq] at h
    obtain ⟨_, f2, _, f4⟩ := resetDepths_frame newRound.Index
      (newRound.Root.Depth + 1 - add64 oldRoot.Depth 1) (add64 oldRoot.Depth 1)
      (resetAllocated sys g newRound)
    have f5 := resetDepths_children newRound.Index
      (newRound.Root.Depth + 1 - add64 oldRoot.Depth 1) (add64 oldRoot.Depth 1)
      (resetAllocated sys g newRound)
    rw [← h]
    refine ⟨?_, ?_, ?_⟩
    · show (resetDepths _ _ _ _).transactions = _
      rw [f2]
      show (resetStored sys g newRound).transactions = _
      unfold resetStored
      rw [createTransactionIndices_transactions]
    · show (resetDepths _ _ _ _).children = _
      rw [f5]
      show (resetStored sys g newRound).children = _
      unfold resetStored
      rw [createTransactionIndices_children]
    · show (resetDepths _ _ _ _).missing = _
      rw [f4]
      show (resetStored sys g newRound).missing = _
      unfold resetStored
      rw [createTransactionIndices_missing]

/-- The new graph stores its root and nothing else, has no child link and no
missing id. -/
theorem NewGraph_frame (sys : SysConf) (genesis : Option Round) :
    (NewGraph sys genesis).transactions = [((genesisRoot genesis).ID, genesisRoot genesis)]
    ∧ (NewGraph sys genesis).children = []
    ∧ (NewGraph sys genesis).missing = [] := by
  unfold NewGraph
  simp only [createTransactionIndices_transactions, createTransactionIndices_children,
    createTransactionIndices_missing]
  cases genesis <;> exact ⟨rfl, rfl, rfl⟩

/-- Storing a transaction whose parents cover the child links that its id
already has keeps the child links sound. -/
theorem ChildrenLinked_store (g : Graph) (tx : Transaction) (hg : ChildrenLinked g)
    (hid : ∀ p, tx.ID ∈ mapGetD g.children p [] → p ∈ tx.ParentIDs) (g1 : Graph)
    (ht : g1.transactions = mapSet g.transactions tx.ID tx)
    (hc : ∀ q, mapGetD g1.children q []
      = mapGetD g.children q [] ++ List.replicate (tx.ParentIDs.count q) tx.ID) :
    ChildrenLinked g1 := by
  intro p c t hpc htx
  rw [hc p] at hpc
  rw [ht] at htx
  by_cases hct : c = tx.ID
  · rw [hct, mapGet_mapSet_self] at htx
    rw [← Option.some.inj htx]
    rcases List.mem_append.mp hpc with h | h
    · exact hid p (hct ▸ h)
    · have hpos : 0 < tx.ParentIDs.count p := by
        by_contra hz
        rw [Nat.eq_zero_of_not_pos hz] at h
        cases h
      exact List.count_pos_iff.mp hpos
  · rw [mapGet_mapSet_ne _ _ _ _ hct] at htx
    rcases List.mem_append.mp hpc with h | h
    · exact hg p c t h htx
    · exact absurd (List.eq_of_mem_replicate h) hct

/-- C30 as stated fails on a failure path of `AddTransaction`: the add of a child
of the root with a wrong depth returns an error and deletes the child, and the
id of the child stays in `children` of the root. -/
theorem C30_counterexample_child_link_outlives_child :
    (AddTransaction exampleSys exampleGraphRoot exampleInvalidB).map (fun r => r.2)
      = some (some "transactions depth is invalid")
    ∧ 10 ∈ mapGetD (addToGraph exampleSys exampleGraphRoot exampleInvalidB).children 0 []
    ∧ mapGet (addToGraph exampleSys exampleGraphRoot exampleInvalidB).transactions 10
        = none := by
  decide

/-- C30, amended. The new graph has the property that for every `p` and every id
`c` in `children[p]` that is present in `transactions`, `p` is in the parent ids
of `c`; and every public mutation keeps it: `AddTransaction`, whatever it
returns, and `Reset`, provided the transaction they store has among its parents
every `p` whose `children[p]` already holds its id (as it is when an id stands
for one transaction only), `DeleteTransaction` and `Prune`. -/
theorem C30_children_links_are_kept (sys : SysConf) :
    (∀ genesis, ChildrenLinked (NewGraph sys genesis))
    ∧ (∀ g tx r, ChildrenLinked g →
        (∀ p, tx.ID ∈ mapGetD g.children p [] → p ∈ tx.ParentIDs) →
        AddTransaction sys g tx = some r → ChildrenLinked r.1)
    ∧ (∀ g id, ChildrenLinked g → ChildrenLinked (DeleteTransaction g id))
    ∧ (∀ g newRound g1, ChildrenLinked g →
        (∀ p, newRound.Root.ID ∈ mapGetD g.children p [] → p ∈ newRound.Root.ParentIDs) →
        Reset sys g newRound = some g1 → ChildrenLinked g1)
    ∧ (∀ g round, ChildrenLinked g → ChildrenLinked (Prune sys g round)) := by
  refine ⟨?_, ?_, ?_, ?_, ?_⟩
  · intro genesis p c tx hpc _
    rw [(NewGraph_frame sys genesis).2.1] at hpc
    cases hpc
  · intro g tx r hg hid hr
    rcases AddTransaction_cases sys g tx r hr with h | ⟨_, h | ⟨fuel, h⟩⟩
    · rw [h]
      exact hg
    · obtain ⟨s1, s2, _⟩ := processParents_store g tx
      exact ChildrenLinked_store g tx hg hid r.1 (by rw [h.1, s1])
        (fun q => by rw [h.2.1]; exact s2 q)
    · obtain ⟨s1, s2, _⟩ := processParents_store g tx
      have h2 := ChildrenLinked_store g tx hg hid _ s1 s2
      have hs := markTransactionAsComplete_invariant sys _ _
        (Shrinks_StepInvariant sys (processParents (storeTransaction g tx) tx).1) fuel _ tx r
        (Shrinks_refl _) trivial h
      exact ChildrenLinked_of_Shrinks _ _ hs h2
  · intro g id hg
    exact ChildrenLinked_of_Shrinks g _ (Shrinks_delete g g id (Shrinks_refl g)) hg
  · intro g newRound g1 hg hid hr
    obtain ⟨f1, f2, _⟩ := Reset_frame sys g g1 newRound hr
    intro p c t hpc htx
    rw [f2] at hpc
    rw [f1] at htx
    by_cases hct : c = newRound.Root.ID
    · rw [hct, mapGet_mapSet_self] at htx
      rw [← Option.some.inj htx]
      exact hid p (hct ▸ hpc)
    · rw [mapGet_mapSet_ne _ _ _ _ hct] at htx
      exact hg p c t hpc htx
  · intro g round hg
    exact ChildrenLinked_of_Shrinks g _ (Prune_Shrinks sys round g) hg

theorem C30_children_links_are_kept_witness :
    AddTransaction exampleSys exampleGraphRoot exampleInvalidB
      = some (addToGraph exampleSys exampleGraphRoot exampleInvalidB,
          some "transactions depth is invalid")
    ∧ ChildrenLinked (addToGraph exampleSys exampleGraphRoot exampleInvalidB) :=
  ⟨by decide,
   (C30_children_links_are_kept exampleSys).2.1 exampleGraphRoot exampleInvalidB
    (addToGraph exampleSys exampleGraphRoot exampleInvalidB,
      some "transactions depth is invalid")
    ((C30_children_links_are_kept exampleSys).1 none)
    (fun p h => by cases h) (by decide)⟩

/-! ### View graph: the missing ids -/

theorem MissingTracked_of_eq (S : List Transaction) (g g1 : Graph) (h : MissingTracked S g)
    (ht : g1.transactions = g.transactions) (hm : g1.missing = g.missing) :
    MissingTracked S g1 := by
  unfold MissingTracked
  rw [ht, hm]
  exact h

theorem MissingTracked_StepInvariant (sys : SysConf) (S : List Transaction) :
    StepInvariant sys (MissingTracked S) (fun _ tx => tx ∈ S) where
  delete := by
    intro g id h
    constructor
    · intro x hx
      rw [deleteTransaction_missing, mem_setDel] at hx
      rw [deleteTransaction_transactions]
      refine ⟨?_, (h.1 x hx.1).2⟩
      rcases mapGet_mapDel_eq_or g.transactions id x with h1 | h1
      · rw [h1]
        exact (h.1 x hx.1).1
      · exact h1
    · intro x tx hx
      rw [deleteTransaction_transactions] at hx
      rcases mapGet_mapDel_eq_or g.transactions id x with h1 | h1
      · rw [h1] at hx
        exact h.2 x tx hx
      · rw [h1] at hx
        cases hx
  index := fun g tx h _ =>
    MissingTracked_of_eq S g _ h (createTransactionIndices_transactions sys g tx)
      (createTransactionIndices_missing sys g tx)
  miss := by
    intro g tx p h hq hp hnone
    refine ⟨⟨?_, h.2⟩, hq⟩
    intro x hx
    rcases (mem_setAdd g.missing p x).mp hx with hxp | hxm
    · rw [hxp]
      exact ⟨hnone, tx, hq, hp⟩
    · exact h.1 x hxm
  child := fun g id child h _ hget _ =>
    ⟨MissingTracked_of_eq S g _ h rfl rfl, h.2 id child hget⟩

/-- One call of `AddTransaction`, whatever it returns, keeps the missing ids
absent and referenced by the transactions added so far. -/
theorem MissingTracked_add (sys : SysConf) (S : List Transaction) (g : Graph)
    (tx : Transaction) (h : MissingTracked S g) (htx : tx ∈ S) :
    MissingTracked S (addToGraph sys g tx) := by
  obtain ⟨r, hr⟩ := AddTransaction_returns sys g tx
  have hadd : addToGraph sys g tx = r.1 := by
    unfold addToGraph
    rw [hr]
  rw [hadd]
  obtain ⟨s1, _, s3⟩ := processParents_store g tx
  have h0 : MissingTracked S (processParents (storeTransaction g tx) tx).1 := by
    constructor
    · intro x hx
      rw [s1]
      rcases (s3 x).mp hx with hdel | ⟨hp, hnone⟩
      · rw [mem_setDel] at hdel
        rw [mapGet_mapSet_ne _ _ _ _ hdel.2]
        exact h.1 x hdel.1
      · exact ⟨hnone, tx, htx, hp⟩
    · intro x t hx
      rw [s1] at hx
      by_cases hxt : x = tx.ID
      · rw [hxt, mapGet_mapSet_self] at hx
        rw [← Option.some.inj hx]
        exact htx
      · rw [mapGet_mapSet_ne _ _ _ _ hxt] at hx
        exact h.2 x t hx
  rcases AddTransaction_cases sys g tx r hr with hsame | ⟨_, heq | ⟨fuel, hmark⟩⟩
  · rw [hsame]
    exact h
  · exact MissingTracked_of_eq S _ _ h0 heq.1 heq.2.2
  · exact markTransactionAsComplete_invariant sys _ _ (MissingTracked_StepInvariant sys S)
      fuel _ tx r h0 htx hmark

theorem MissingTracked_addAll (sys : SysConf) (S : List Transaction) :
    ∀ (txs : List Transaction) (g : Graph), MissingTracked S g → (∀ tx ∈ txs, tx ∈ S) →
      MissingTracked S (addAll sys g txs) := by
  intro txs
  induction txs with
  | nil => exact fun g h _ => h
  | cons tx rest ih =>
    intro g h hS
    exact ih _ (MissingTracked_add sys S g tx h (hS tx (List.mem_cons_self _ _)))
      (fun t ht => hS t (List.mem_cons_of_mem _ ht))

/-- C29 as stated fails: a transaction that waits for the parents 10 and 11 is
added, then the parent 10 is added with a wrong depth; the failed add deletes
both, and 11 stays in `missing` while no stored transaction has it among its
parents. -/
theorem C29_counterexample_missing_outlives_child :
    11 ∈ (addAll exampleSys (NewGraph exampleSys none)
        [exampleTwoParents, exampleInvalidB]).missing
    ∧ ∀ entry ∈ (addAll exampleSys (NewGraph exampleSys none)
        [exampleTwoParents, exampleInvalidB]).transactions, 11 ∉ entry.2.ParentIDs := by
  decide

/-- C29, amended. After any sequence of `AddTransaction` calls on a new graph,
whatever each call returns, every id in `missing` is not in `transactions` and
is listed in the parent ids of the root or of a transaction of the sequence (a
transaction that was added, not one that is still stored). -/
theorem C29_missing_ids_are_absent_and_were_referenced (sys : SysConf)
    (genesis : Option Round) (txs : List Transaction) (id : TransactionID) :
    id ∈ (addAll sys (NewGraph sys genesis) txs).missing →
      mapGet (addAll sys (NewGraph sys genesis) txs).transactions id = none
      ∧ ∃ tx ∈ genesisRoot genesis :: txs, id ∈ tx.ParentIDs := by
  intro hid
  obtain ⟨n1, _, n3⟩ := NewGraph_frame sys genesis
  have h0 : MissingTracked (genesisRoot genesis :: txs) (NewGraph sys genesis) := by
    constructor
    · intro x hx
      rw [n3] at hx
      cases hx
    · intro x t hx
      rw [n1] at hx
      simp only [mapGet] at hx
      split_ifs at hx
      · rw [← Option.some.inj hx]
        exact List.mem_cons_self _ _
  exact (MissingTracked_addAll sys _ txs _ h0 (fun t ht => List.mem_cons_of_mem _ ht)).1 id hid

theorem C29_missing_ids_are_absent_and_were_referenced_witness :
    10 ∈ (addAll exampleSys (NewGraph exampleSys none) [examplePromotedC]).missing
    ∧ mapGet (addAll exampleSys (NewGraph exampleSys none) [examplePromotedC]).transactions 10
        = none
    ∧ ∃ tx ∈ genesisRoot none :: [examplePromotedC], 10 ∈ tx.ParentIDs :=
  ⟨by decide,
   C29_missing_ids_are_absent_and_were_referenced exampleSys none [examplePromotedC] 10
    (by decide)⟩

/-! ### Snowball: ticks on a state without a preferred vote, ticks without a majority -/

/-- C32. A Snowball that was just reset has `preferred = nil` and is not decided;
a tick whose majority vote, for the id 1 with the tally 0.9 over ten votes,
meets the threshold 0.16 does not complete: it increments `counts[1]` and stops
at the nil pointer dereference `s.preferred.id`, so it does not end with
`preferred` set to the majority vote. -/
theorem C32_tick_after_reset_panics :
    exampleJustReset.preferred = none
    ∧ exampleJustReset.decided = false
    ∧ Snowball.Tick (exampleConf 3) exampleJustReset exampleTallies exampleVotes
      = TickResult.panicked { counts := [(1, 1)] } := by
  refine ⟨rfl, rfl, ?_⟩
  rw [Tick_of_TopTally_nil (exampleConf 3) exampleJustReset { id := 1 } exampleTallies
    exampleVotes rfl rfl (exampleTopTally 3)]
  decide

theorem majority_foldl_none (votes : List (VoteID × snowballVote)) :
    ∀ (l : List (VoteID × ℚ)) (acc : Option snowballVote × ℚ),
      acc.1 = none → 0 ≤ acc.2 → (∀ e ∈ l, 0 < e.2 → mapGet votes e.1 = none) →
      (l.foldl (majorityStep votes) acc).1 = none := by
  intro l
  induction l with
  | nil => exact fun acc h _ _ => h
  | cons e rest ih =>
    intro acc h1 h2 hall
    rw [List.foldl_cons]
    apply ih
    · unfold majorityStep
      split_ifs with hgt
      · exact hall e (List.mem_cons_self _ _) (lt_of_le_of_lt h2 hgt)
      · exact h1
    · unfold majorityStep
      split_ifs with hgt
      · exact le_of_lt (lt_of_le_of_lt h2 hgt)
      · exact h2
    · exact fun x hx => hall x (List.mem_cons_of_mem _ hx)

theorem majority_foldl_lt (votes : List (VoteID × snowballVote)) (t : ℚ) :
    ∀ (l : List (VoteID × ℚ)) (acc : Option snowballVote × ℚ),
      acc.2 < t → (∀ e ∈ l, e.2 < t) → (l.foldl (majorityStep votes) acc).2 < t := by
  intro l
  induction l with
  | nil => exact fun acc h _ => h
  | cons e rest ih =>
    intro acc h hall
    rw [List.foldl_cons]
    apply ih
    · unfold majorityStep
      split_ifs
      · exact hall e (List.mem_cons_self _ _)
      · exact h
    · exact fun x hx => hall x (List.mem_cons_of_mem _ hx)

theorem majority_foldl_keep (votes : List (VoteID × snowballVote)) :
    ∀ (l : List (VoteID × ℚ)) (acc : Option snowballVote × ℚ),
      (∀ e ∈ l, e.2 ≤ acc.2) → l.foldl (majorityStep votes) acc = acc := by
  intro l
  induction l with
  | nil => exact fun acc _ => rfl
  | cons e rest ih =>
    intro acc hall
    have he : majorityStep votes acc e = acc := by
      unfold majorityStep
      rw [if_neg (not_lt.mpr (hall e (List.mem_cons_self _ _)))]
    rw [List.foldl_cons, he]
    exact ih acc (fun x hx => hall x (List.mem_cons_of_mem _ hx))

/-- The loop over the tallies ends at the first entry, in the order of the
iteration, that has the largest tally, when that tally is positive. -/
theorem majority_foldl_first (votes : List (VoteID × snowballVote)) (id : VoteID) (t : ℚ)
    (pre post : List (VoteID × ℚ)) (hpos : 0 < t) (hpre : ∀ e ∈ pre, e.2 < t)
    (hpost : ∀ e ∈ post, e.2 ≤ t) :
    (pre ++ (id, t) :: post).foldl (majorityStep votes) (none, 0) = (mapGet votes id, t) := by
  have h1 := majority_foldl_lt votes t pre (none, 0) hpos hpre
  have h2 : majorityStep votes (pre.foldl (majorityStep votes) (none, 0)) (id, t)
      = (mapGet votes id, t) := if_pos h1
  rw [List.foldl_append, List.foldl_cons, h2]
  exact majority_foldl_keep votes post _ hpost

theorem majority_foldl_max (votes : List (VoteID × snowballVote)) (t : ℚ) :
    ∀ (l : List (VoteID × ℚ)) (acc : Option snowballVote × ℚ),
      acc.2 ≤ t → (∀ e ∈ l, e.2 ≤ t) → (acc.2 = t ∨ ∃ e ∈ l, e.2 = t) →
      (l.foldl (majorityStep votes) acc).2 = t := by
  intro l
  induction l with
  | nil =>
    intro acc _ _ h
    rcases h with h | ⟨e, he, _⟩
    · exact h
    · cases he
  | cons e rest ih =>
    intro acc hacc hall h
    rw [List.foldl_cons]
    have he := hall e (List.mem_cons_self _ _)
    apply ih
    · unfold majorityStep
      split_ifs
      · exact he
      · exact hacc
    · exact fun x hx => hall x (List.mem_cons_of_mem _ hx)
    · rcases h with h | ⟨x, hx, hxt⟩
      · left
        unfold majorityStep
        rw [if_neg (not_lt.mpr (h ▸ he))]
        exact h
      · rcases List.mem_cons.mp hx with hxe | hxr
        · left
          rw [hxe] at hxt
          unfold majorityStep
          split_ifs with hgt
          · exact hxt
          · exact le_antisymm hacc (hxt ▸ not_lt.mp hgt)
        · exact Or.inr ⟨x, hxr, hxt⟩

/-- The tick of a state that has not decided, by what the loop over the tallies
ends with: no vote, or a tally below the threshold. -/
theorem Tick_no_majority (conf : Conf) (s : Snowball) (tallies : List (VoteID × ℚ))
    (votes : List (VoteID × snowballVote)) (hund : s.decided = false)
    (h : (tallies.foldl (majorityStep votes) (none, 0)).1 = none
      ∨ lessThan (tallies.foldl (majorityStep votes) (none, 0)).2 (threshold conf votes)
          = true) :
    Snowball.Tick conf s tallies votes = TickResult.returned { s with count := 0 } := by
  unfold Snowball.Tick
  simp only [hund, Bool.false_eq_true, if_false]
  cases hm : (tallies.foldl (majorityStep votes) (none, 0)).1 with
  | none => rfl
  | some majority =>
    rw [hm] at h
    rcases h with h | h
    · cases h
    · have h' : lessThan (tallies.foldl (majorityStep votes) (none, 0)).2
          (divFloat64 (roundFloat64 (conf.SnowballAlpha * 2))
            (if nearestFloat64 (votes.length : ℚ) < 2 then 2
              else nearestFloat64 (votes.length : ℚ))) = true := h
      simp only [h', if_true]

/-- C33 as stated fails where the quotient rounds down. With alpha the `float64`
value of 0.8 and ten votes, the only tally, the `float64` value of 0.16, is
below `2 * alpha / max(2, |votes|)`; the quotient that `Tick` computes rounds to
that same value of 0.16, the tally is not below it, and `Tick` counts the vote:
`count` becomes 1, not 0, and `counts` and `last` change. -/
theorem C33_counterexample_quotient_rounds_down :
    exampleAlternated.decided = false
    ∧ nearestFloat64 (4 / 25)
        < (exampleConf 3).SnowballAlpha * 2 / max 2 (exampleVotes.length : ℚ)
    ∧ threshold (exampleConf 3) exampleVotes = Float64.finite (nearestFloat64 (4 / 25))
    ∧ Snowball.Tick (exampleConf 3) exampleAlternated exampleEdgeTallies exampleVotes
      = TickResult.returned
          { count := 1, counts := [(1, 1), (2, 5), (3, 4)], preferred := some { id := 2 },
            last := some { id := 1 } } := by
  have hthr : threshold (exampleConf 3) exampleVotes
      = Float64.finite (nearestFloat64 (4 / 25)) := by decide!
  have hpos : (0 : ℚ) < nearestFloat64 (4 / 25) := by decide!
  have htop : TopTally (exampleConf 3) { id := 1 } exampleEdgeTallies exampleVotes := by
    refine ⟨1, nearestFloat64 (4 / 25), ?_, ?_, hpos, ?_, ?_⟩
    · simp [exampleEdgeTallies]
    · simp [exampleVotes, mapGet]
    · intro e he
      simp only [exampleEdgeTallies, List.mem_singleton] at he
      exact Or.inl he
    · rw [hthr]
      exact decide_eq_false (lt_irrefl _)
  refine ⟨rfl, by decide!, hthr, ?_⟩
  rw [Tick_of_TopTally (exampleConf 3) exampleAlternated { id := 1 } { id := 2 }
    exampleEdgeTallies exampleVotes rfl rfl htop]
  decide

/-- C33, amended. For every Snowball state that has not decided and every tick in
which no id that has a vote has a positive tally, or the entry the loop over
the tallies ends at (the first one, in the order of the iteration, with the
largest tally) is positive and its id has no vote, or the largest tally is below
the `float64` value of `alpha * 2 / max(2, |votes|)`, the rounded quotient that
`Tick` computes: `Tick` returns, sets `count` to 0 and leaves `preferred`,
`last`, `counts` and `decided` as they are. -/
theorem C33_tick_without_majority_resets_count (conf : Conf) (s : Snowball)
    (tallies : List (VoteID × ℚ)) (votes : List (VoteID × snowballVote))
    (hund : s.decided = false)
    (h : (∀ e ∈ tallies, 0 < e.2 → mapGet votes e.1 = none)
      ∨ (∃ pre id t post, tallies = pre ++ (id, t) :: post ∧ 0 < t ∧ (∀ e ∈ pre, e.2 < t)
          ∧ (∀ e ∈ post, e.2 ≤ t) ∧ mapGet votes id = none)
      ∨ (∃ t, (∀ e ∈ tallies, e.2 ≤ t) ∧ (∃ e ∈ tallies, e.2 = t)
          ∧ lessThan t (threshold conf votes) = true)) :
    Snowball.Tick conf s tallies votes = TickResult.returned { s with count := 0 } := by
  apply Tick_no_majority conf s tallies votes hund
  rcases h with h | ⟨pre, id, t, post, heq, hpos, hpre, hpost, hvote⟩ | ⟨t, hall, hex, hlt⟩
  · exact Or.inl (majority_foldl_none votes tallies (none, 0) rfl (le_refl _) h)
  · left
    rw [heq, majority_foldl_first votes id t pre post hpos hpre hpost]
    exact hvote
  · by_cases hpos : 0 ≤ t
    · right
      rw [majority_foldl_max votes t tallies (none, 0) hpos hall (Or.inr hex)]
      exact hlt
    · left
      refine majority_foldl_none votes tallies (none, 0) rfl (le_refl _) (fun e he hepos => ?_)
      exact absurd (lt_of_lt_of_le hepos (hall e he)) (fun hlt0 => hpos (le_of_lt hlt0))

theorem exampleLowTallies_order :
    nearestFloat64 (1 / 20) ≤ nearestFloat64 (1 / 10)
    ∧ nearestFloat64 (1 / 10) < 5764607523034235 / 36028797018963968 := by
  decide!

/-- C33 amended, on tallies of 0.1 and 0.05 over ten votes with alpha = 0.8: the
largest tally is below the threshold, the value of 0.16. -/
theorem C33_tick_without_majority_resets_count_witness :
    exampleAlternated.decided = false
    ∧ Snowball.Tick (exampleConf 3) exampleAlternated exampleLowTallies exampleVotes
      = TickResult.returned
          { count := 0, counts := [(2, 5), (3, 4)], preferred := some { id := 2 },
            last := some { id := 2 } } :=
  ⟨rfl, C33_tick_without_majority_resets_count (exampleConf 3) exampleAlternated
    exampleLowTallies exampleVotes rfl
    (Or.inr (Or.inr ⟨nearestFloat64 (1 / 10),
      by simp only [exampleLowTallies, List.mem_cons, List.mem_singleton, List.not_mem_nil,
           or_false]
         rintro e (rfl | rfl)
         · exact le_refl _
         · exact exampleLowTallies_order.1,
      ⟨(1, nearestFloat64 (1 / 10)), by simp [exampleLowTallies], rfl⟩,
      by rw [exampleThreshold]
         exact decide_eq_true exampleLowTallies_order.2⟩))⟩

/-! ### View graph: the tag of a batch, the eligible set after `Reset` -/

/-- C35. A transaction with the tag Batch (4), a non-empty payload, a non-zero
id, sender and creator and the root as its only parent does not pass
`assertTransactionIsValid`: the test `tx.Tag > sys.TagStake` returns
`tx has an unknown tag`, so `AddTransaction` rejects it and leaves the graph as
it is. The same transaction with the tag Transfer, Contract or Stake passes, and
`ApplyTransaction` applies the batch. -/
theorem C35_batch_tag_is_rejected :
    exampleBatchChild.Tag = TagBatch
    ∧ assertTransactionIsValid exampleBatchChild = some "tx has an unknown tag"
    ∧ [TagTransfer, TagContract, TagStake].map
        (fun tag => assertTransactionIsValid (exampleTagged tag)) = [none, none, none]
    ∧ exampleTagged TagBatch = exampleBatchChild
    ∧ AddTransaction exampleSys exampleGraphRoot exampleBatchChild
      = some (exampleGraphRoot, some "tx has an unknown tag")
    ∧ ApplyTransaction exampleEnv 2 {} (exampleBalances 100 0) exampleBatchChild
      = Outcome.returned [(Key.balance 2, Val.u64 40), (Key.balance 1, Val.u64 60)]
          { GasPayer := 1 } none := by
  decide

/-- C31. In the graph of scenario S5 after `add(C)`, `C` (id 20) is stored and
incomplete. `Reset` with a round whose root is `C` stores and indexes the root
and leaves its id in `incomplete`: afterwards the id 20 is in `eligible` and in
`incomplete`. -/
theorem C31_reset_makes_incomplete_root_eligible :
    exampleGraphWaiting.eligible = [0]
    ∧ exampleGraphWaiting.incomplete = [20]
    ∧ mapGet exampleGraphWaiting.transactions 20 = some examplePromotedC
    ∧ (Reset exampleSys exampleGraphWaiting exampleRoundOfC).map
        (fun g => (g.rootID, g.eligible, g.incomplete))
      = some (20, [20, 0], [20]) := by
  decide

/-! ### Applier: conservation, self-transfers, faucet transfers to contracts -/

/-- C36 as stated fails where the balance of the recipient wraps around: account
1 holds 10 and account 2 holds `2 ^ 64 - 1`; `transferValue` of 5 returns nil
and leaves 5 and 4, so the sum of the two balances went from `2 ^ 64 + 9` to
9. -/
theorem C36_counterexample_transfer_destroys_perl :
    transferValue "PERL" (exampleBalances 10 (2 ^ 64 - 1)) 1 2 5
        ReadAccountBalance WriteAccountBalance ReadAccountBalance WriteAccountBalance
      = ([(Key.balance 2, Val.u64 4), (Key.balance 1, Val.u64 5)], none)
    ∧ (ReadAccountBalance (exampleBalances 10 (2 ^ 64 - 1)) 1).1
        + (ReadAccountBalance (exampleBalances 10 (2 ^ 64 - 1)) 2).1 = 2 ^ 64 + 9
    ∧ (ReadAccountBalance [(Key.balance 2, Val.u64 4), (Key.balance 1, Val.u64 5)] 1).1
        + (ReadAccountBalance [(Key.balance 2, Val.u64 4), (Key.balance 1, Val.u64 5)] 2).1
        = 9 := by
  decide

/-- C36, amended. For two distinct accounts, an amount that the sender has and
uint64 values of the recipient's balance and the amount, `transferValue`
returns nil, takes the amount from the sender and never creates PERL: when
`balance(recipient) + amount < 2 ^ 64` the sum of the two balances after the
call equals the sum before, as natural numbers; otherwise the balance of the
recipient wraps around and the sum after the call is the sum before minus
`2 ^ 64`. -/
theorem C36_transfer_conserves_perl_without_wrap (unitName : String) (snapshot : Tree)
    (src dst : AccountID) (amount : Nat)
    (hne : src ≠ dst)
    (hfunds : amount ≤ (ReadAccountBalance snapshot src).1)
    (hdst : (ReadAccountBalance snapshot dst).1 < 2 ^ 64)
    (hamount : amount < 2 ^ 64) :
    ∃ tree, transferValue unitName snapshot src dst amount
        ReadAccountBalance WriteAccountBalance ReadAccountBalance WriteAccountBalance
        = (tree, none)
      ∧ (ReadAccountBalance tree src).1 + amount = (ReadAccountBalance snapshot src).1
      ∧ ((ReadAccountBalance snapshot dst).1 + amount < 2 ^ 64 →
          (ReadAccountBalance tree src).1 + (ReadAccountBalance tree dst).1
            = (ReadAccountBalance snapshot src).1 + (ReadAccountBalance snapshot dst).1)
      ∧ (2 ^ 64 ≤ (ReadAccountBalance snapshot dst).1 + amount →
          (ReadAccountBalance tree src).1 + (ReadAccountBalance tree dst).1 + 2 ^ 64
            = (ReadAccountBalance snapshot src).1 + (ReadAccountBalance snapshot dst).1) := by
  have hlt : ¬ (ReadAccountBalance snapshot src).1 < amount := Nat.not_lt.mpr hfunds
  refine ⟨WriteAccountBalance
      (WriteAccountBalance snapshot src ((ReadAccountBalance snapshot src).1 - amount)) dst
      (add64 (ReadAccountBalance
        (WriteAccountBalance snapshot src ((ReadAccountBalance snapshot src).1 - amount))
        dst).1 amount), ?_, ?_, ?_, ?_⟩
  · simp only [transferValue, if_neg hlt]
  · rw [ReadAccountBalance_write_ne _ _ _ _ hne, ReadAccountBalance_write_self]
    exact Nat.sub_add_cancel hfunds
  · intro hroom
    rw [ReadAccountBalance_write_self, ReadAccountBalance_write_ne _ _ _ _ hne,
      ReadAccountBalance_write_self, ReadAccountBalance_write_ne _ _ _ _ (Ne.symm hne)]
    have hadd : add64 (ReadAccountBalance snapshot dst).1 amount
        = (ReadAccountBalance snapshot dst).1 + amount := Nat.mod_eq_of_lt hroom
    rw [hadd]
    omega
  · intro hwrap
    rw [ReadAccountBalance_write_self, ReadAccountBalance_write_ne _ _ _ _ hne,
      ReadAccountBalance_write_self, ReadAccountBalance_write_ne _ _ _ _ (Ne.symm hne)]
    have hadd : add64 (ReadAccountBalance snapshot dst).1 amount
        = (ReadAccountBalance snapshot dst).1 + amount - 2 ^ 64 := by
      unfold add64 u64
      omega
    rw [hadd]
    omega

theorem C36_transfer_conserves_perl_without_wrap_witness :
    ∃ tree, transferValue "PERL" (exampleBalances 100 0) 1 2 30
        ReadAccountBalance WriteAccountBalance ReadAccountBalance WriteAccountBalance
        = (tree, none)
      ∧ (ReadAccountBalance tree 1).1 + 30 = (ReadAccountBalance (exampleBalances 100 0) 1).1
      ∧ ((ReadAccountBalance (exampleBalances 100 0) 2).1 + 30 < 2 ^ 64 →
          (ReadAccountBalance tree 1).1 + (ReadAccountBalance tree 2).1
            = (ReadAccountBalance (exampleBalances 100 0) 1).1
              + (ReadAccountBalance (exampleBalances 100 0) 2).1)
      ∧ (2 ^ 64 ≤ (ReadAccountBalance (exampleBalances 100 0) 2).1 + 30 →
          (ReadAccountBalance tree 1).1 + (ReadAccountBalance tree 2).1 + 2 ^ 64
            = (ReadAccountBalance (exampleBalances 100 0) 1).1
              + (ReadAccountBalance (exampleBalances 100 0) 2).1) :=
  C36_transfer_conserves_perl_without_wrap "PERL" (exampleBalances 100 0) 1 2 30 (by decide)
    (by decide) (by decide) (by decide)

/-- C37. For every account A that is not the faucet and has no contract code,
whose balance is a uint64 value, and every amount up to that balance, a transfer
from A to A with an empty gas limit, function name and function parameters makes
`ApplyTransaction` return nil and leaves the balance of A, and every other key
of the state, as it was: the balance of the recipient is read after the debit
of the sender is written. -/
theorem C37_self_transfer_is_neutral (env : Env) (fuel : Nat) (round : Round) (state : Tree)
    (tx : Transaction) (params : Transfer)
    (htag : tx.Tag = TagTransfer)
    (hparse : env.ParseTransferTransaction tx.Payload = Except.ok params)
    (hfaucet : tx.Creator ≠ env.sys.FaucetAddress)
    (hself : params.Recipient = tx.Creator)
    (hcode : (ReadAccountContractCode state tx.Creator).2 = false)
    (hlimit : params.GasLimit = 0) (hname : params.FuncName = [])
    (hparams : params.FuncParams = [])
    (hfunds : params.Amount ≤ (ReadAccountBalance state tx.Creator).1)
    (hu64 : (ReadAccountBalance state tx.Creator).1 < 2 ^ 64) :
    ∃ tree, ApplyTransaction env (fuel + 1) round state tx =
        Outcome.returned tree { GasPayer := tx.Creator } none
      ∧ (ReadAccountBalance tree tx.Creator).1 = (ReadAccountBalance state tx.Creator).1
      ∧ ∀ k, k ≠ Key.balance tx.Creator → mapGet tree k = mapGet state k := by
  have hcode' : (ReadAccountContractCode state params.Recipient).2 = false := by
    rw [hself]
    exact hcode
  refine ⟨WriteAccountBalance
      (WriteAccountBalance state tx.Creator
        ((ReadAccountBalance state tx.Creator).1 - params.Amount))
      params.Recipient
      (add64 (ReadAccountBalance
        (WriteAccountBalance state tx.Creator
          ((ReadAccountBalance state tx.Creator).1 - params.Amount))
        params.Recipient).1 params.Amount), ?_, ?_, ?_⟩
  · simp only [ApplyTransaction, applyTransaction, htag, Tree.Snapshot]
    rw [applyTransferTransaction_plain env _ round state tx _ params hparse hfaucet hcode' hlimit
      hname hparams hfunds]
    simp [TagTransfer, TagNop, revertOnError]
  · rw [hself, ReadAccountBalance_write_self, ReadAccountBalance_write_self]
    unfold add64 u64
    rw [Nat.sub_add_cancel hfunds]
    exact Nat.mod_eq_of_lt hu64
  · intro k hk
    rw [hself]
    simp only [WriteAccountBalance]
    rw [mapGet_mapSet_ne _ _ _ _ hk, mapGet_mapSet_ne _ _ _ _ hk]

theorem C37_self_transfer_is_neutral_witness :
    ∃ tree, ApplyTransaction exampleEnv 1 {} (exampleBalances 100 0) (exampleSelfTransfer 30) =
        Outcome.returned tree { GasPayer := 1 } none
      ∧ (ReadAccountBalance tree 1).1 = (ReadAccountBalance (exampleBalances 100 0) 1).1
      ∧ ∀ k, k ≠ Key.balance 1 → mapGet tree k = mapGet (exampleBalances 100 0) k :=
  C37_self_transfer_is_neutral exampleEnv 0 {} (exampleBalances 100 0) (exampleSelfTransfer 30)
    { Recipient := 1, Amount := 30 } rfl rfl (by decide) rfl (by decide) rfl rfl rfl
    (by decide) (by decide)

/-- C38 as stated fails where the balance of the recipient wraps around: the
contract of account 2 holds `2 ^ 64 - 1`, the faucet sends 30 with the gas
deposit 7 and the function 1, and the balance of the contract becomes 29, which
is not a credit of 30. The gas balance, the code and the executor state are as
they were. -/
theorem C38_counterexample_faucet_credit_wraps :
    exampleFaucetCall.Creator = exampleGasEnv.sys.FaucetAddress
    ∧ exampleGasEnv.ParseTransferTransaction exampleFaucetCall.Payload
      = Except.ok { Recipient := 2, Amount := 30, GasLimit := 100, GasDeposit := 7,
                    FuncName := [1] }
    ∧ (ReadAccountContractCode exampleRichContract 2).2 = true
    ∧ (ReadAccountBalance exampleRichContract 2).1 = 2 ^ 64 - 1
    ∧ ApplyTransaction exampleGasEnv 1 {} exampleRichContract exampleFaucetCall
      = Outcome.returned
          [(Key.balance 2, Val.u64 29), (Key.contractCode 2, Val.bytes [0]),
           (Key.contractGasBalance 2, Val.u64 3)]
          { GasPayer := 999 } none := by
  refine ⟨rfl, rfl, ?_, ?_, ?_⟩ <;> decide

/-- C38, amended. When the creator is the faucet and the recipient holds contract
code, a transfer, whatever gas limit, gas deposit and function name it carries,
makes `ApplyTransaction` return nil with the executor state as it was (gas limit
not set) and with the tree changed in one place: the balance of the recipient
is written as its old value plus the amount in uint64 arithmetic, which is a
credit of the amount when the sum is below `2 ^ 64`. The gas balance of the
contract and every other key are unchanged, and the executor is not run. -/
theorem C38_faucet_transfer_to_contract_only_credits (env : Env) (fuel : Nat) (round : Round)
    (state : Tree) (tx : Transaction) (params : Transfer)
    (htag : tx.Tag = TagTransfer)
    (hparse : env.ParseTransferTransaction tx.Payload = Except.ok params)
    (hfaucet : tx.Creator = env.sys.FaucetAddress)
    (hcode : (ReadAccountContractCode state params.Recipient).2 = true) :
    ApplyTransaction env (fuel + 1) round state tx
      = Outcome.returned
          (WriteAccountBalance state params.Recipient
            (add64 (ReadAccountBalance state params.Recipient).1 params.Amount))
          { GasPayer := tx.Creator, GasLimit := 0, GasLimitIsSet := false } none
    ∧ ((ReadAccountBalance state params.Recipient).1 + params.Amount < 2 ^ 64 →
        (ReadAccountBalance
          (WriteAccountBalance state params.Recipient
            (add64 (ReadAccountBalance state params.Recipient).1 params.Amount))
          params.Recipient).1 = (ReadAccountBalance state params.Recipient).1 + params.Amount)
    ∧ ReadAccountContractGasBalance
        (WriteAccountBalance state params.Recipient
          (add64 (ReadAccountBalance state params.Recipient).1 params.Amount)) params.Recipient
      = ReadAccountContractGasBalance state params.Recipient
    ∧ (∀ k, k ≠ Key.balance params.Recipient →
        mapGet (WriteAccountBalance state params.Recipient
          (add64 (ReadAccountBalance state params.Recipient).1 params.Amount)) k
          = mapGet state k)
    ∧ ApplyTransactionInvocations env (fuel + 1) round state tx = [] := by
  have hframe : ∀ k, k ≠ Key.balance params.Recipient →
      mapGet (WriteAccountBalance state params.Recipient
        (add64 (ReadAccountBalance state params.Recipient).1 params.Amount)) k
        = mapGet state k := by
    intro k hk
    simp only [WriteAccountBalance]
    rw [mapGet_mapSet_ne _ _ _ _ hk]
  refine ⟨?_, ?_, ?_, hframe, ?_⟩
  · simp only [ApplyTransaction, applyTransaction, htag, Tree.Snapshot]
    rw [applyTransferTransaction_faucet env _ round state tx _ params hparse hfaucet
      (Or.inl hcode)]
    simp [TagTransfer, TagNop, revertOnError]
  · intro hroom
    rw [ReadAccountBalance_write_self]
    exact Nat.mod_eq_of_lt hroom
  · simp only [ReadAccountContractGasBalance, readU64]
    rw [hframe _ (by simp)]
  · have h1 : ¬ ((!(ReadAccountContractCode state params.Recipient).2) = true ∧
        (params.GasLimit > 0 ∨ params.FuncName.length > 0 ∨ params.FuncParams.length > 0)) := by
      rintro ⟨hc, _⟩
      simp [hcode] at hc
    simp only [ApplyTransactionInvocations, invocations, htag, transferInvocations, hparse,
      if_neg h1, if_pos hfaucet]
    simp [TagTransfer, TagNop]

theorem C38_faucet_transfer_to_contract_only_credits_witness :
    exampleGasEnv.ParseTransferTransaction exampleFaucetCall.Payload
      = Except.ok { Recipient := 2, Amount := 30, GasLimit := 100, GasDeposit := 7,
                    FuncName := [1] }
    ∧ ApplyTransaction exampleGasEnv 1 {} (exampleContractState 50 3) exampleFaucetCall
      = Outcome.returned
          [(Key.balance 2, Val.u64 30), (Key.balance 1, Val.u64 50),
           (Key.contractCode 2, Val.bytes [0]), (Key.contractGasBalance 2, Val.u64 3)]
          { GasPayer := 999 } none :=
  ⟨rfl, (C38_faucet_transfer_to_contract_only_credits exampleGasEnv 0 {}
    (exampleContractState 50 3) exampleFaucetCall
    { Recipient := 2, Amount := 30, GasLimit := 100, GasDeposit := 7, FuncName := [1] }
    rfl rfl rfl rfl).1⟩

/-! ### Applier: the fatal assertions of an invocation -/

theorem applyQueue_fatal (apply : Round → Tree → Transaction → contractExecutorState → Outcome)
    (round : Round) (msg : String) :
    ∀ (queue : List Transaction) (tree : Tree) (st : contractExecutorState),
      applyQueue apply round queue tree st = Outcome.fatal msg →
      ∃ entry ∈ queue, ∃ t s, apply round t entry s = Outcome.fatal msg := by
  intro queue
  induction queue with
  | nil =>
    intro tree st h
    simp [applyQueue] at h
  | cons entry rest ih =>
    intro tree st h
    simp only [applyQueue] at h
    cases ha : apply round tree entry st with
    | returned t1 s1 e =>
      rw [ha] at h
      obtain ⟨x, hx, t, s, hfatal⟩ := ih t1 s1 h
      exact ⟨x, List.mem_cons_of_mem _ hx, t, s, hfatal⟩
    | fatal m =>
      rw [ha] at h
      exact ⟨entry, List.mem_cons_self _ _, tree, st, by rw [ha]; exact h⟩
    | panicked =>
      rw [ha] at h
      cases h
    | outOfFuel =>
      rw [ha] at h
      cases h

theorem revertOnError_fatal (original : Tree) (context : String) (o : Outcome) (msg : String)
    (h : revertOnError original context o = Outcome.fatal msg) : o = Outcome.fatal msg := by
  cases o with
  | returned t s e =>
    cases e with
    | none => simp [revertOnError] at h
    | some e => simp [revertOnError] at h
  | fatal m => simpa [revertOnError] using h
  | panicked => simp [revertOnError] at h
  | outOfFuel => simp [revertOnError] at h

/-- The gas an executor reports within the limit is covered by the two balances
once the test of the available balance, a uint64 sum, is passed. -/
theorem gas_covered (payer contract limit gas : Nat) (hbal : ¬ add64 payer contract < limit)
    (hgas : gas ≤ limit) : gas ≤ payer + contract := by
  have hmod : add64 payer contract ≤ payer + contract := Nat.mod_le _ _
  omega

/-- An invocation whose executor reports gas within the limit ends in
`logger.Fatal` only when a sub-transaction of its queue does. -/
theorem executeContractInTransactionContext_fatal (env : Env)
    (apply : Round → Tree → Transaction → contractExecutorState → Outcome)
    (tx : Transaction) (contractID : AccountID) (code : List Nat) (snapshot : Tree)
    (round : Round) (amount requestedGasLimit : Nat) (funcName funcParams : List Nat)
    (state : contractExecutorState) (msg : String)
    (hgas : (executorOf env tx contractID code snapshot round amount requestedGasLimit
        funcName funcParams state).Gas ≤ realGasLimit state requestedGasLimit)
    (h : executeContractInTransactionContext env apply tx contractID code snapshot round amount
        requestedGasLimit funcName funcParams state = Outcome.fatal msg) :
    ∃ entry ∈ (executorOf env tx contractID code snapshot round amount requestedGasLimit
        funcName funcParams state).Queue,
      ∃ t s, apply round t entry s = Outcome.fatal msg := by
  by_cases hbal : add64 (ReadAccountBalance snapshot state.GasPayer).1
      (ReadAccountContractGasBalance snapshot contractID).1 < realGasLimit state requestedGasLimit
  · rw [executeContractInTransactionContext_low env apply tx contractID code snapshot round
      amount requestedGasLimit funcName funcParams state hbal] at h
    cases h
  · have hsum := gas_covered _ _ _ _ hbal hgas
    rw [executeContractInTransactionContext_run env apply tx contractID code snapshot round
      amount requestedGasLimit funcName funcParams state hbal hgas] at h
    generalize executorOf env tx contractID code snapshot round amount requestedGasLimit
      funcName funcParams state = ex at *
    by_cases hfault : ex.GasLimitExceeded = true ∨ ex.err.isSome = true
    · obtain ⟨paid, hd, _⟩ := deductGas_spec snapshot contractID state.GasPayer
        (ReadAccountBalance snapshot state.GasPayer).1
        (ReadAccountContractGasBalance snapshot contractID).1 ex.Gas hsum
      rw [if_pos hfault, hd] at h
      cases h
    · obtain ⟨paid, hd, _⟩ := deductGas_spec ex.tree contractID state.GasPayer
        (ReadAccountBalance snapshot state.GasPayer).1
        (ReadAccountContractGasBalance snapshot contractID).1 ex.Gas hsum
      rw [if_neg hfault, hd] at h
      exact applyQueue_fatal apply round msg ex.Queue _ _ h

theorem applyBatchEntries_not_fatal
    (apply : Round → Tree → Transaction → contractExecutorState → Outcome)
    (happly : ∀ r t x s msg, apply r t x s ≠ Outcome.fatal msg)
    (round : Round) (tx : Transaction) (params : Batch) (msg : String) :
    ∀ (n i : Nat) (tree : Tree) (st : contractExecutorState),
      applyBatchEntries apply round tx params n i tree st ≠ Outcome.fatal msg := by
  intro n
  induction n with
  | zero =>
    intro i tree st h
    simp [applyBatchEntries] at h
  | succ n ih =>
    intro i tree st h
    rw [applyBatchEntries_succ] at h
    cases ht : params.Tags.get? i with
    | none =>
      rw [ht] at h
      cases h
    | some tag =>
      cases hp : params.Payloads.get? i with
      | none =>
        rw [ht, hp] at h
        cases h
      | some payload =>
        rw [ht, hp] at h
        simp only at h
        cases ha : apply round tree (batchEntry tx (tag, payload)) st with
        | returned t1 s1 e =>
          rw [ha] at h
          cases e with
          | none => exact ih _ _ _ h
          | some err => cases h
        | fatal m => exact happly _ _ _ _ _ ha
        | panicked =>
          rw [ha] at h
          cases h
        | outOfFuel =>
          rw [ha] at h
          cases h

/-- With an executor that never reports more gas than the limit it is given, no
call of `applyTransaction` ends in `logger.Fatal`. -/
theorem applyTransaction_not_fatal (env : Env)
    (hexec : ∀ t c r x a l f p code, (env.Execute t c r x a l f p code).Gas ≤ l) :
    ∀ (fuel : Nat) (round : Round) (state : Tree) (tx : Transaction)
      (st : contractExecutorState) (msg : String),
      applyTransaction env fuel round state tx st ≠ Outcome.fatal msg := by
  intro fuel
  induction fuel with
  | zero =>
    intro round state tx st msg h
    simp [applyTransaction] at h
  | succ fuel ih =>
    intro round state tx st msg h
    have hexe : ∀ x contractID code s2 amount gasLimit funcName funcParams,
        executeContractInTransactionContext env (applyTransaction env fuel) x contractID code s2
          round amount gasLimit funcName funcParams st ≠ Outcome.fatal msg := by
      intro x contractID code s2 amount gasLimit funcName funcParams hf
      obtain ⟨entry, _, t, s, hfatal⟩ := executeContractInTransactionContext_fatal env
        (applyTransaction env fuel) x contractID code s2 round amount gasLimit funcName
        funcParams st msg (hexec _ _ _ _ _ _ _ _ _) hf
      exact ih _ _ _ _ _ hfatal
    simp only [applyTransaction] at h
    split_ifs at h
    · rcases applyTransferTransaction_cases env (applyTransaction env fuel)
        (invocations env fuel) state round tx st with ⟨_, t, e, heq⟩ | ⟨c, code, s2, a, l, f, p, _, heq⟩
      · rw [heq] at h
        cases e <;> simp [revertOnError] at h
      · rw [heq] at h
        exact hexe _ _ _ _ _ _ _ _ (revertOnError_fatal _ _ _ _ h)
    · cases hs : applyStakeTransaction env state round tx with
      | mk t e =>
        rw [hs] at h
        cases e <;> simp at h
    · rcases applyContractTransaction_cases env (applyTransaction env fuel)
        (invocations env fuel) state round tx st with ⟨_, t, e, heq⟩ | ⟨c, code, s2, a, l, f, p, _, heq⟩
      · rw [heq] at h
        cases e <;> simp [revertOnError] at h
      · rw [heq] at h
        exact hexe _ _ _ _ _ _ _ _ (revertOnError_fatal _ _ _ _ h)
    · have hb := revertOnError_fatal _ _ _ _ h
      unfold applyBatchTransaction at hb
      cases hp : env.ParseBatchTransaction tx.Payload with
      | error err =>
        rw [hp] at hb
        cases hb
      | ok params =>
        rw [hp] at hb
        exact applyBatchEntries_not_fatal (applyTransaction env fuel)
          (fun r t x s m => ih r t x s m) round tx params msg _ _ _ _ hb

/-- C34. In `executeContractInTransactionContext`, if the executor reports gas
within the effective limit it was given, then for all balances:
`state.GasLimit >= realGasLimit` holds after the limit is computed; once the
test of the available balance is passed, the gas is at most `state.GasLimit`,
and whenever it exceeds the gas balance of the contract, the balance of the gas
payer is at least the rest, so neither subtraction underflows; and the call
ends in `logger.Fatal` only when a sub-transaction of its queue does. With an
executor that keeps within the limit on every run, no call of
`applyTransaction` ends in `logger.Fatal`. -/
theorem C34_fatal_assertions_are_unreachable (env : Env)
    (apply : Round → Tree → Transaction → contractExecutorState → Outcome)
    (tx : Transaction) (contractID : AccountID) (code : List Nat) (snapshot : Tree)
    (round : Round) (amount requestedGasLimit : Nat) (funcName funcParams : List Nat)
    (state : contractExecutorState)
    (hgas : (executorOf env tx contractID code snapshot round amount requestedGasLimit
        funcName funcParams state).Gas ≤ realGasLimit state requestedGasLimit) :
    realGasLimit state requestedGasLimit ≤ (gasLimitState state requestedGasLimit).GasLimit
    ∧ (¬ add64 (ReadAccountBalance snapshot state.GasPayer).1
          (ReadAccountContractGasBalance snapshot contractID).1
        < realGasLimit state requestedGasLimit →
        (executorOf env tx contractID code snapshot round amount requestedGasLimit
            funcName funcParams state).Gas ≤ (gasLimitState state requestedGasLimit).GasLimit
        ∧ ((ReadAccountContractGasBalance snapshot contractID).1
            < (executorOf env tx contractID code snapshot round amount requestedGasLimit
                funcName funcParams state).Gas →
          (executorOf env tx contractID code snapshot round amount requestedGasLimit
              funcName funcParams state).Gas
            - (ReadAccountContractGasBalance snapshot contractID).1
            ≤ (ReadAccountBalance snapshot state.GasPayer).1))
    ∧ (∀ msg, executeContractInTransactionContext env apply tx contractID code snapshot round
          amount requestedGasLimit funcName funcParams state = Outcome.fatal msg →
        ∃ entry ∈ (executorOf env tx contractID code snapshot round amount requestedGasLimit
            funcName funcParams state).Queue,
          ∃ t s, apply round t entry s = Outcome.fatal msg)
    ∧ ((∀ t c r x a l f p code1, (env.Execute t c r x a l f p code1).Gas ≤ l) →
        ∀ fuel round1 state1 tx1 st msg,
          applyTransaction env fuel round1 state1 tx1 st ≠ Outcome.fatal msg) := by
  have hle := (realGasLimit_le state requestedGasLimit).1
  refine ⟨hle, ?_, ?_, ?_⟩
  · intro hbal
    have hsum := gas_covered _ _ _ _ hbal hgas
    refine ⟨le_trans hgas hle, fun _ => ?_⟩
    omega
  · intro msg h
    exact executeContractInTransactionContext_fatal env apply tx contractID code snapshot round
      amount requestedGasLimit funcName funcParams state msg hgas h
  · intro hexec fuel round1 state1 tx1 st msg
    exact applyTransaction_not_fatal env hexec fuel round1 state1 tx1 st msg

/-- C34 on the call of the function 3 with the gas limit 30 by account 1, which
holds 1000, on the contract of account 2 with the gas balance 3: the executor
reports 10 units of gas. -/
theorem C34_fatal_assertions_are_unreachable_witness :
    (executorOf exampleGasEnv (exampleCall 30 3) 2 [0] (exampleContractState 1000 3) {} 0 30
        [3] [] { GasPayer := 1 }).Gas ≤ realGasLimit { GasPayer := 1 } 30
    ∧ (executorOf exampleGasEnv (exampleCall 30 3) 2 [0] (exampleContractState 1000 3) {} 0 30
        [3] [] { GasPayer := 1 }).Gas ≤ (gasLimitState { GasPayer := 1 } 30).GasLimit
    ∧ ((ReadAccountContractGasBalance (exampleContractState 1000 3) 2).1
        < (executorOf exampleGasEnv (exampleCall 30 3) 2 [0] (exampleContractState 1000 3) {} 0
            30 [3] [] { GasPayer := 1 }).Gas →
      (executorOf exampleGasEnv (exampleCall 30 3) 2 [0] (exampleContractState 1000 3) {} 0 30
          [3] [] { GasPayer := 1 }).Gas
        - (ReadAccountContractGasBalance (exampleContractState 1000 3) 2).1
        ≤ (ReadAccountBalance (exampleContractState 1000 3) 1).1) :=
  ⟨by decide,
   (C34_fatal_assertions_are_unreachable exampleGasEnv (applyTransaction exampleGasEnv 1)
    (exampleCall 30 3) 2 [0] (exampleContractState 1000 3) {} 0 30 [3] []
    { GasPayer := 1 } (by decide)).2.1 (by decide)⟩

/-! ### View graph: pages of `ListTransactions` -/

theorem sliceOf_eq {α : Type} (s : List α) (low high : Nat) (h1 : low ≤ high)
    (h2 : high ≤ s.length) : sliceOf s low high = some ((s.drop low).take (high - low)) := by
  unfold sliceOf
  rw [if_pos ⟨h1, h2⟩]

/-- The page that `ListTransactions` cuts out, when the slice expression does not
panic: `limit` elements from `offset` on, or the rest of the list when it is
shorter. -/
theorem ListTransactions_page (sortSlice : List Transaction → List Transaction) (g : Graph)
    (offset limit : Nat) (sender creator : AccountID)
    (hoff : offset < 2 ^ 64) (hlim : limit < 2 ^ 64)
    (hsum : offset + limit < 2 ^ 64
      ∨ (sortedMatches sortSlice g sender creator).length < offset + limit - 2 ^ 64)
    (h1 : offset < limit) (h2 : offset < (sortedMatches sortSlice g sender creator).length) :
    ListTransactions sortSlice g offset limit sender creator
      = some (((sortedMatches sortSlice g sender creator).drop offset).take
          (min limit ((sortedMatches sortSlice g sender creator).length - offset))) := by
  have hpage : offset ≠ 0 ∨ limit ≠ 0 := Or.inr (by omega)
  have hnot : ¬ (offset ≥ limit ∨ offset ≥ (sortedMatches sortSlice g sender creator).length) := by
    omega
  unfold ListTransactions
  simp only [if_pos hpage, if_neg hnot]
  generalize sortedMatches sortSlice g sender creator = M at *
  by_cases hgt : add64 offset limit > M.length
  · rw [if_pos hgt]
    have hgt' : (offset + limit) % 2 ^ 64 > M.length := hgt
    have hhigh : add64 offset (M.length - offset) = M.length := by
      show (offset + (M.length - offset)) % 2 ^ 64 = M.length
      omega
    have hmin : min limit (M.length - offset) = M.length - offset := by
      omega
    rw [hhigh, hmin]
    exact sliceOf_eq _ _ _ (le_of_lt h2) (le_refl _)
  · rw [if_neg hgt]
    have hgt' : ¬ (offset + limit) % 2 ^ 64 > M.length := hgt
    have hno : offset + limit < 2 ^ 64 := by
      omega
    have hhigh : add64 offset limit = offset + limit := Nat.mod_eq_of_lt hno
    rw [hhigh] at hgt
    have hmin : min limit (M.length - offset) = limit := by
      omega
    rw [hhigh, hmin]
    have hs := sliceOf_eq M offset (offset + limit) (by omega) (by omega)
    rw [Nat.add_sub_cancel_left] at hs
    exact hs

theorem exampleSortSlice_perm (l : List Transaction) : (exampleSortSlice l).Perm l :=
  List.perm_insertionSort _ l

theorem exampleSortSlice_sorted (l : List Transaction) :
    (exampleSortSlice l).Pairwise (fun a b => a.Depth ≤ b.Depth) :=
  @List.sorted_insertionSort Transaction (fun a b => a.Depth ≤ b.Depth) _
    ⟨fun a b => Nat.le_total a.Depth b.Depth⟩ ⟨fun _ _ _ h1 h2 => Nat.le_trans h1 h2⟩ l

/-- What `ListTransactions` returns is a part of the sorted list of the matching
transactions, cut as the offset and the limit say. -/
theorem ListTransactions_cases (sortSlice : List Transaction → List Transaction) (g : Graph)
    (offset limit : Nat) (sender creator : AccountID)
    (hoff : offset < 2 ^ 64) (hlim : limit < 2 ^ 64)
    (hsum : offset + limit < 2 ^ 64
      ∨ (sortedMatches sortSlice g sender creator).length < offset + limit - 2 ^ 64) :
    ∃ result, ListTransactions sortSlice g offset limit sender creator = some result
      ∧ result.Sublist (sortedMatches sortSlice g sender creator)
      ∧ (offset = 0 ∧ limit = 0 → result = sortedMatches sortSlice g sender creator)
      ∧ (¬ (offset = 0 ∧ limit = 0) →
          (limit ≤ offset ∨ (sortedMatches sortSlice g sender creator).length ≤ offset) →
          result = [])
      ∧ (offset < limit → offset < (sortedMatches sortSlice g sender creator).length →
          result = ((sortedMatches sortSlice g sender creator).drop offset).take
            (min limit ((sortedMatches sortSlice g sender creator).length - offset))) := by
  by_cases hzero : offset = 0 ∧ limit = 0
  · refine ⟨sortedMatches sortSlice g sender creator, ?_, List.Sublist.refl _, fun _ => rfl,
      fun h => absurd hzero h, fun h => ?_⟩
    · have hpage : ¬ (offset ≠ 0 ∨ limit ≠ 0) := by omega
      unfold ListTransactions
      simp only [if_neg hpage]
    · omega
  · have hpage : offset ≠ 0 ∨ limit ≠ 0 := by omega
    by_cases hempty : limit ≤ offset
        ∨ (sortedMatches sortSlice g sender creator).length ≤ offset
    · refine ⟨[], ?_, List.nil_sublist _, fun h => absurd h hzero, fun _ _ => rfl,
        fun h1 h2 => ?_⟩
      · unfold ListTransactions
        simp only [if_pos hpage, ge_iff_le, if_pos hempty]
      · omega
    · refine ⟨_, ListTransactions_page sortSlice g offset limit sender creator hoff hlim hsum
          (by omega) (by omega), ?_, fun h => absurd h hzero, fun _ h => absurd h hempty,
        fun _ _ => rfl⟩
      exact (List.take_sublist _ _).trans (List.drop_sublist _ _)

/-- C39 as stated fails where `offset + limit` wraps around: with three stored
transactions, the offset 1 and the limit `2 ^ 64 - 1`, the sum is 0, the limit is
not cut down to the length and the slice expression `transactions[1:0]` panics,
whereas the claim has the `min(limit, 3 - 1) = 2` elements from position 1 on. -/
theorem C39_counterexample_offset_plus_limit_wraps :
    (sortedMatches exampleSortSlice exampleGraphAB 0 0).map (fun tx => (tx.ID, tx.Depth))
      = [(0, 0), (11, 1), (10, 1)]
    ∧ add64 1 (2 ^ 64 - 1) = 0
    ∧ ListTransactions exampleSortSlice exampleGraphAB 1 (2 ^ 64 - 1) 0 0 = none := by
  decide

/-- C39, amended. Let `sort.Slice` return a permutation of its input in
non-decreasing depth, let `M` be the list it makes of the stored transactions
that pass the sender and creator filter, and let `offset` and `limit` be uint64
values with `offset + limit < 2 ^ 64`, or with `|M|` below the wrapped sum
`offset + limit - 2 ^ 64`. Then `ListTransactions` returns. With `offset = 0`
and `limit = 0` the result is all of `M`; otherwise it is empty when
`offset >= limit` or `offset >= |M|`, and else it is the
`min(limit, |M| - offset)` elements of `M` from position `offset` on. The result
is sorted by non-decreasing depth, holds only stored transactions that pass the
filter, and has at most `limit` elements unless `offset` and `limit` are both
0. -/
theorem C39_list_transactions_pages (sortSlice : List Transaction → List Transaction)
    (g : Graph) (offset limit : Nat) (sender creator : AccountID)
    (hperm : ∀ l, (sortSlice l).Perm l)
    (hsorted : ∀ l, (sortSlice l).Pairwise (fun a b => a.Depth ≤ b.Depth))
    (hoff : offset < 2 ^ 64) (hlim : limit < 2 ^ 64)
    (hsum : offset + limit < 2 ^ 64
      ∨ (sortedMatches sortSlice g sender creator).length < offset + limit - 2 ^ 64) :
    (sortedMatches sortSlice g sender creator).Perm
        ((g.transactions.map (fun e => e.2)).filter (listFilter sender creator))
    ∧ (sortedMatches sortSlice g sender creator).Pairwise (fun a b => a.Depth ≤ b.Depth)
    ∧ ∃ result, ListTransactions sortSlice g offset limit sender creator = some result
      ∧ (offset = 0 ∧ limit = 0 → result = sortedMatches sortSlice g sender creator)
      ∧ (¬ (offset = 0 ∧ limit = 0) →
          (limit ≤ offset ∨ (sortedMatches sortSlice g sender creator).length ≤ offset) →
          result = [])
      ∧ (offset < limit → offset < (sortedMatches sortSlice g sender creator).length →
          result = ((sortedMatches sortSlice g sender creator).drop offset).take
              (min limit ((sortedMatches sortSlice g sender creator).length - offset))
          ∧ result.length
              = min limit ((sortedMatches sortSlice g sender creator).length - offset))
      ∧ result.Pairwise (fun a b => a.Depth ≤ b.Depth)
      ∧ (∀ tx ∈ result, listFilter sender creator tx = true ∧ ∃ id, (id, tx) ∈ g.transactions)
      ∧ (¬ (offset = 0 ∧ limit = 0) → result.length ≤ limit) := by
  obtain ⟨result, hres, hsub, hall, hnone, hpage⟩ :=
    ListTransactions_cases sortSlice g offset limit sender creator hoff hlim hsum
  refine ⟨hperm _, hsorted _, result, hres, hall, hnone, ?_, ?_, ?_, ?_⟩
  · intro h1 h2
    refine ⟨hpage h1 h2, ?_⟩
    rw [hpage h1 h2, List.length_take, List.length_drop]
    omega
  · exact (hsorted _).sublist hsub
  · intro tx htx
    have hmem : tx ∈ (g.transactions.map (fun e => e.2)).filter (listFilter sender creator) :=
      (hperm _).subset (hsub.subset htx)
    obtain ⟨hin, hfilter⟩ := List.mem_filter.mp hmem
    obtain ⟨e, he, hetx⟩ := List.mem_map.mp hin
    exact ⟨hfilter, e.1, by rw [← hetx]; exact he⟩
  · intro hzero
    by_cases hempty : limit ≤ offset
        ∨ (sortedMatches sortSlice g sender creator).length ≤ offset
    · rw [hnone hzero hempty]
      exact Nat.zero_le _
    · rw [hpage (by omega) (by omega), List.length_take, List.length_drop]
      omega

/-- C39 amended, on the graph with the root, `exampleA` and `exampleB`, with the
offset 1 and the limit 2: the two transactions of depth 1. -/
theorem C39_list_transactions_pages_witness :
    (ListTransactions exampleSortSlice exampleGraphAB 1 2 0 0).map
        (fun l => l.map (fun tx => (tx.ID, tx.Depth))) = some [(11, 1), (10, 1)]
    ∧ ∃ result, ListTransactions exampleSortSlice exampleGraphAB 1 2 0 0 = some result
      ∧ result.Pairwise (fun a b => a.Depth ≤ b.Depth)
      ∧ (∀ tx ∈ result, listFilter 0 0 tx = true ∧ ∃ id, (id, tx) ∈ exampleGraphAB.transactions)
      ∧ (¬ ((1 : Nat) = 0 ∧ (2 : Nat) = 0) → result.length ≤ 2) :=
  ⟨by decide,
   match (C39_list_transactions_pages exampleSortSlice exampleGraphAB 1 2 0 0
      exampleSortSlice_perm exampleSortSlice_sorted (by decide) (by decide)
      (Or.inl (by decide))).2.2 with
   | ⟨result, h1, _, _, _, h5, h6, h7⟩ => ⟨result, h1, h5, h6, h7⟩⟩

/-! ### View graph: the eligible set outside of `Reset` with an incomplete root -/

theorem deleteTransaction_eligible (g : Graph) (x : TransactionID) :
    (deleteTransaction g x).eligible = setDel g.eligible x := by
  unfold deleteTransaction
  split <;> rfl

theorem createTransactionIndices_eligible (sys : SysConf) (g : Graph) (tx : Transaction) :
    (createTransactionIndices sys g tx).eligible = g.eligible
    ∨ ((createTransactionIndices sys g tx).eligible = setAdd g.eligible tx.ID
        ∧ mapGet g.children tx.ID = none) := by
  cases hc : mapGet g.children tx.ID with
  | none =>
    unfold createTransactionIndices
    simp only
    split_ifs
    all_goals first
      | exact Or.inl rfl
      | exact Or.inr ⟨rfl, trivial⟩
  | some c =>
    left
    unfold createTransactionIndices
    simp only
    split_ifs with h1 h2 h3 h4 h5
    all_goals first
      | rfl
      | (exfalso
         first
           | (rw [hc] at h2; cases h2)
           | (rw [hc] at h4; cases h4))

theorem createTransactionIndices_eligible_mem (sys : SysConf) (g : Graph) (tx : Transaction)
    (x : TransactionID) (h : x ∈ (createTransactionIndices sys g tx).eligible) :
    x ∈ g.eligible ∨ (x = tx.ID ∧ mapGet g.children tx.ID = none) := by
  rcases createTransactionIndices_eligible sys g tx with he | ⟨he, hc⟩
  · rw [he] at h
    exact Or.inl h
  · rw [he] at h
    rcases (mem_setAdd _ _ _).mp h with hx | hx
    · exact Or.inr ⟨hx, hc⟩
    · exact Or.inl hx

theorem EligibleSound_of_eq (g g1 : Graph) (h : EligibleSound g)
    (ht : g1.transactions = g.transactions) (hc : g1.children = g.children)
    (he : g1.eligible = g.eligible) (hi : g1.incomplete = g.incomplete) :
    EligibleSound g1 := by
  unfold EligibleSound
  rw [ht, hc, he, hi]
  exact h

theorem mapGet_isSome_mapDel {K V : Type} [DecidableEq K] (m : List (K × V)) (k k' : K)
    (hne : k' ≠ k) : (mapGet (mapDel m k) k').isSome = (mapGet m k').isSome := by
  rw [mapGet_mapDel_ne _ _ _ hne]

theorem mapGet_isSome_mapSet {K V : Type} [DecidableEq K] (m : List (K × V)) (k k' : K)
    (v : V) (h : (mapGet m k').isSome = true) : (mapGet (mapSet m k v) k').isSome = true := by
  by_cases hk : k' = k
  · rw [hk, mapGet_mapSet_self]
    rfl
  · rw [mapGet_mapSet_ne _ _ _ _ hk]
    exact h

theorem EligibleSound_delete (g : Graph) (id : TransactionID) (h : EligibleSound g) :
    EligibleSound (deleteTransaction g id) := by
  obtain ⟨h1, h2, h3⟩ := h
  refine ⟨?_, ?_, ?_⟩
  · intro x hx
    rw [deleteTransaction_eligible, mem_setDel] at hx
    obtain ⟨hs, hi, hc⟩ := h1 x hx.1
    rw [deleteTransaction_transactions, deleteTransaction_incomplete,
      deleteTransaction_children, mapGet_isSome_mapDel _ _ _ hx.2, mapGet_mapDel_ne _ _ _ hx.2]
    exact ⟨hs, fun hmem => hi ((mem_setDel _ _ _).mp hmem).1, hc⟩
  · intro x hx
    rw [deleteTransaction_incomplete, mem_setDel] at hx
    rw [deleteTransaction_transactions, mapGet_isSome_mapDel _ _ _ hx.2]
    exact h2 x hx.1
  · intro x tx hx
    rw [deleteTransaction_transactions] at hx
    rcases mapGet_mapDel_eq_or g.transactions id x with he | he
    · rw [he] at hx
      exact h3 x tx hx
    · rw [he] at hx
      cases hx

theorem EligibleSound_index (sys : SysConf) (g : Graph) (tx : Transaction)
    (h : EligibleSound g) (hq : Indexable g tx) :
    EligibleSound (createTransactionIndices sys g tx) := by
  obtain ⟨h1, h2, h3⟩ := h
  refine ⟨?_, ?_, ?_⟩
  · intro x hx
    rw [createTransactionIndices_transactions, createTransactionIndices_incomplete,
      createTransactionIndices_children]
    rcases createTransactionIndices_eligible_mem sys g tx x hx with hold | ⟨hxt, hc⟩
    · exact h1 x hold
    · rw [hxt]
      exact ⟨hq.1, hq.2, hc⟩
  · intro x hx
    rw [createTransactionIndices_incomplete] at hx
    rw [createTransactionIndices_transactions]
    exact h2 x hx
  · intro x t hx
    rw [createTransactionIndices_transactions] at hx
    exact h3 x t hx

theorem EligibleSound_StepInvariant (sys : SysConf) :
    StepInvariant sys EligibleSound Indexable where
  delete := fun g id h => EligibleSound_delete g id h
  index := fun g tx h hq => EligibleSound_index sys g tx h hq
  miss := fun g _ _ h hq _ _ => ⟨EligibleSound_of_eq g _ h rfl rfl rfl rfl, hq⟩
  child := by
    intro g id child h _ hget _
    obtain ⟨h1, h2, h3⟩ := h
    have hid : child.ID = id := h3 id child hget
    refine ⟨⟨?_, ?_, h3⟩, ?_, ?_⟩
    · intro x hx
      obtain ⟨hs, hi, hc⟩ := h1 x hx
      exact ⟨hs, fun hmem => hi ((mem_setDel _ _ _).mp hmem).1, hc⟩
    · intro x hx
      exact h2 x ((mem_setDel _ _ _).mp hx).1
    · show (mapGet g.transactions child.ID).isSome = true
      rw [hid, hget]
      rfl
    · show child.ID ∉ setDel g.incomplete id
      rw [hid, mem_setDel]
      exact fun hmem => hmem.2 rfl

theorem processParent_eligible (tx : Transaction) (acc : Graph × List TransactionID)
    (p : TransactionID) :
    (processParent tx acc p).1.eligible = setDel acc.1.eligible p := by
  unfold processParent lookupTransactionByID
  cases mapGet acc.1.transactions p with
  | some parent => rfl
  | none =>
    simp only
    split_ifs <;> rfl

theorem processParents_foldl_eligible (tx : Transaction) :
    ∀ (ps : List TransactionID) (acc : Graph × List TransactionID),
      (∀ x ∈ (ps.foldl (processParent tx) acc).1.eligible, x ∈ acc.1.eligible ∧ x ∉ ps)
      ∧ (∀ x, x ∉ ps →
          mapGet (ps.foldl (processParent tx) acc).1.children x = mapGet acc.1.children x) := by
  intro ps
  induction ps with
  | nil => exact fun acc => ⟨fun x hx => ⟨hx, List.not_mem_nil _⟩, fun _ _ => rfl⟩
  | cons p rest ih =>
    intro acc
    obtain ⟨i1, i2⟩ := ih (processParent tx acc p)
    obtain ⟨_, _, _, _, s5, _, _⟩ := processParent_spec tx acc p
    rw [List.foldl_cons]
    constructor
    · intro x hx
      obtain ⟨hmem, hrest⟩ := i1 x hx
      rw [processParent_eligible, mem_setDel] at hmem
      exact ⟨hmem.1, fun hin => by
        rcases List.mem_cons.mp hin with hp | hr
        · exact hmem.2 hp
        · exact hrest hr⟩
    · intro x hx
      have hxp : x ≠ p := fun hp => hx (hp ▸ List.mem_cons_self _ _)
      rw [i2 x (fun hr => hx (List.mem_cons_of_mem _ hr)), s5, mapGet_mapSet_ne _ _ _ _ hxp]

/-- How `AddTransaction` ends, with the graph it leaves: untouched; or the
transaction is stored, linked to its parents and put into `incomplete`; or it is
stored, linked and handed to `markTransactionAsComplete`. -/
theorem AddTransaction_graphs (sys : SysConf) (g : Graph) (tx : Transaction)
    (r : Graph × Option String) (h : AddTransaction sys g tx = some r) :
    r.1 = g ∨
    (mapGet g.transactions tx.ID = none ∧
      (r.1.transactions = (processParents (storeTransaction g tx) tx).1.transactions
          ∧ r.1.children = (processParents (storeTransaction g tx) tx).1.children
          ∧ r.1.eligible = (processParents (storeTransaction g tx) tx).1.eligible
          ∧ r.1.incomplete
              = setAdd (processParents (storeTransaction g tx) tx).1.incomplete tx.ID
        ∨ ∃ fuel, markTransactionAsComplete sys fuel
            (processParents (storeTransaction g tx) tx).1 tx = some r)) := by
  unfold AddTransaction at h
  by_cases hex : (mapGet g.transactions tx.ID).isSome = true
  · rw [if_pos hex] at h
    simp only [Option.some.injEq] at h
    rw [← h]
    exact Or.inl rfl
  · rw [if_neg hex] at h
    have hnone : mapGet g.transactions tx.ID = none := by
      cases hget : mapGet g.transactions tx.ID with
      | none => rfl
      | some t => rw [hget] at hex; simp at hex
    cases hv : assertTransactionIsValid tx with
    | some err =>
      rw [hv] at h
      simp only [Option.some.injEq] at h
      rw [← h]
      exact Or.inl rfl
    | none =>
      rw [hv] at h
      simp only at h
      right
      refine ⟨hnone, ?_⟩
      have hg : ({ ({ g with transactions := mapSet g.transactions tx.ID tx } : Graph) with
          missing := setDel g.missing tx.ID } : Graph) = storeTransaction g tx := rfl
      simp only [hg] at h
      by_cases hlen : (processParents (storeTransaction g tx) tx).2.length > 0
      · rw [if_pos hlen] at h
        simp only [Option.some.injEq] at h
        rw [← h]
        exact Or.inl ⟨rfl, rfl, rfl, rfl⟩
      · rw [if_neg hlen] at h
        exact Or.inr ⟨_, h⟩

theorem EligibleSound_add (sys : SysConf) (g : Graph) (tx : Transaction)
    (r : Graph × Option String) (h : EligibleSound g)
    (hr : AddTransaction sys g tx = some r) : EligibleSound r.1 := by
  obtain ⟨h1, h2, h3⟩ := h
  rcases AddTransaction_graphs sys g tx r hr with hsame | ⟨hnone, hcase⟩
  · rw [hsame]
    exact ⟨h1, h2, h3⟩
  · obtain ⟨s1, _, _⟩ := processParents_store g tx
    obtain ⟨e1, e2⟩ := processParents_foldl_eligible tx tx.ParentIDs (storeTransaction g tx, [])
    have hinc : (processParents (storeTransaction g tx) tx).1.incomplete = g.incomplete :=
      (processParents_foldl_spec tx tx.ParentIDs (storeTransaction g tx, [])).1
    have hfresh : tx.ID ∉ g.incomplete := by
      intro hmem
      have := h2 tx.ID hmem
      rw [hnone] at this
      cases this
    have h0 : EligibleSound (processParents (storeTransaction g tx) tx).1 := by
      refine ⟨?_, ?_, ?_⟩
      · intro x hx
        obtain ⟨hmem, hpar⟩ := e1 x hx
        obtain ⟨hs, hi, hc⟩ := h1 x hmem
        rw [s1, hinc]
        refine ⟨mapGet_isSome_mapSet _ _ _ _ hs, hi, ?_⟩
        have := e2 x hpar
        unfold processParents
        rw [this]
        exact hc
      · intro x hx
        rw [hinc] at hx
        rw [s1]
        exact mapGet_isSome_mapSet _ _ _ _ (h2 x hx)
      · intro x t hx
        rw [s1] at hx
        by_cases hxt : x = tx.ID
        · rw [hxt, mapGet_mapSet_self] at hx
          rw [← Option.some.inj hx, hxt]
        · rw [mapGet_mapSet_ne _ _ _ _ hxt] at hx
          exact h3 x t hx
    have hq : Indexable (processParents (storeTransaction g tx) tx).1 tx := by
      constructor
      · rw [s1, mapGet_mapSet_self]
        rfl
      · rw [hinc]
        exact hfresh
    rcases hcase with ⟨f1, f2, f3, f4⟩ | ⟨fuel, hmark⟩
    · obtain ⟨g1, g2, g3⟩ := h0
      refine ⟨?_, ?_, ?_⟩
      · intro x hx
        rw [f3] at hx
        obtain ⟨hs, hi, hc⟩ := g1 x hx
        rw [f1, f2, f4]
        refine ⟨hs, ?_, hc⟩
        intro hmem
        rcases (mem_setAdd _ _ _).mp hmem with hxt | hold
        · have hstored := (h1 x (e1 x hx).1).1
          rw [hxt, hnone] at hstored
          cases hstored
        · exact hi hold
      · intro x hx
        rw [f4] at hx
        rw [f1]
        rcases (mem_setAdd _ _ _).mp hx with hxt | hold
        · rw [hxt]
          exact hq.1
        · exact g2 x hold
      · intro x t hx
        rw [f1] at hx
        exact g3 x t hx
    · exact markTransactionAsComplete_invariant sys _ _ (EligibleSound_StepInvariant sys)
        fuel _ tx r h0 hq hmark

theorem EligibleSound_shrink (g g1 : Graph) (h : EligibleSound g)
    (ht : g1.transactions = g.transactions) (hc : g1.children = g.children)
    (hi : g1.incomplete = g.incomplete) (he : ∀ x ∈ g1.eligible, x ∈ g.eligible) :
    EligibleSound g1 := by
  unfold EligibleSound
  rw [ht, hc, hi]
  exact ⟨fun x hx => h.1 x (he x hx), h.2.1, h.2.2⟩

theorem resetDepths_sets (index : Nat) :
    ∀ (n i : Nat) (g : Graph),
      (resetDepths index n i g).eligible = g.eligible
      ∧ (resetDepths index n i g).incomplete = g.incomplete := by
  intro n
  induction n with
  | zero => exact fun i g => ⟨rfl, rfl⟩
  | succ n ih =>
    intro i g
    simp only [resetDepths]
    rw [(ih _ _).1, (ih _ _).2]
    exact ⟨rfl, rfl⟩

/-- What `Reset` leaves of `eligible` and `incomplete`: the entries after the new
root is indexed, and `incomplete` as it was. -/
theorem Reset_sets (sys : SysConf) (g g1 : Graph) (newRound : Round)
    (h : Reset sys g newRound = some g1) :
    g1.eligible = (resetStored sys g newRound).eligible ∧ g1.incomplete = g.incomplete := by
  have hr : Reset sys g newRound
      = match mapGet (resetStored sys g newRound).transactions
          (resetStored sys g newRound).rootID with
        | none => none
        | some oldRoot =>
          if add64 oldRoot.Depth 1 ≤ newRound.Root.Depth ∧ newRound.Root.Depth + 1 = u64 then
            none
          else
            some { resetDepths newRound.Index
                (newRound.Root.Depth + 1 - add64 oldRoot.Depth 1) (add64 oldRoot.Depth 1)
                (resetAllocated sys g newRound) with rootID := newRound.Root.ID } := rfl
  rw [hr] at h
  cases hroot : mapGet (resetStored sys g newRound).transactions
      (resetStored sys g newRound).rootID with
  | none =>
    rw [hroot] at h
    cases h
  | some oldRoot =>
    rw [hroot] at h
    simp only at h
    split_ifs at h
    simp only [Option.some.injEq] at h
    obtain ⟨f1, f2⟩ := resetDepths_sets newRound.Index
      (newRound.Root.Depth + 1 - add64 oldRoot.Depth 1) (add64 oldRoot.Depth 1)
      (resetAllocated sys g newRound)
    rw [← h]
    refine ⟨?_, ?_⟩
    · show (resetDepths _ _ _ _).eligible = _
      rw [f1]
      rfl
    · show (resetDepths _ _ _ _).incomplete = _
      rw [f2]
      show (resetStored sys g newRound).incomplete = _
      unfold resetStored
      rw [createTransactionIndices_incomplete]

theorem EligibleSound_store (g : Graph) (tx : Transaction) (h : EligibleSound g) :
    EligibleSound { g with transactions := mapSet g.transactions tx.ID tx } := by
  obtain ⟨h1, h2, h3⟩ := h
  refine ⟨?_, ?_, ?_⟩
  · intro x hx
    obtain ⟨hs, hi, hc⟩ := h1 x hx
    exact ⟨mapGet_isSome_mapSet _ _ _ _ hs, hi, hc⟩
  · intro x hx
    exact mapGet_isSome_mapSet _ _ _ _ (h2 x hx)
  · intro x t hx
    by_cases hxt : x = tx.ID
    · have hx' : mapGet (mapSet g.transactions tx.ID tx) tx.ID = some t := hxt ▸ hx
      rw [mapGet_mapSet_self] at hx'
      rw [← Option.some.inj hx', hxt]
    · have hx' : mapGet (mapSet g.transactions tx.ID tx) x = some t := hx
      rw [mapGet_mapSet_ne _ _ _ _ hxt] at hx'
      exact h3 x t hx'

theorem EligibleSound_pruneStep (sys : SysConf) (round : Round) (g : Graph)
    (entry : Nat × List TransactionID) (h : EligibleSound g) :
    EligibleSound (pruneStep sys round g entry) := by
  unfold pruneStep
  split_ifs
  · exact EligibleSound_of_eq _ _
      (StepInvariant_foldl_delete sys _ _ (EligibleSound_StepInvariant sys) entry.2 g h)
      rfl rfl rfl rfl
  · exact h

/-- The eligible-set invariant, that every id in `eligible` is stored, is not in
`incomplete` and has no entry in `children`, holds in the new graph and is kept
by `AddTransaction`, `DeleteTransaction`, `Prune` and `FindEligibleParents`, and
by `Reset` when the id of the new root is not in `incomplete`. -/
theorem EligibleSound_kept (sys : SysConf) :
    (∀ genesis, EligibleSound (NewGraph sys genesis))
    ∧ (∀ g tx r, EligibleSound g → AddTransaction sys g tx = some r → EligibleSound r.1)
    ∧ (∀ g id, EligibleSound g → EligibleSound (DeleteTransaction g id))
    ∧ (∀ g newRound g1, EligibleSound g → newRound.Root.ID ∉ g.incomplete →
        Reset sys g newRound = some g1 → EligibleSound g1)
    ∧ (∀ g round, EligibleSound g → EligibleSound (Prune sys g round))
    ∧ (∀ g g1 ids, EligibleSound g → FindEligibleParents sys g = some (g1, ids) →
        EligibleSound g1) := by
  refine ⟨?_, ?_, ?_, ?_, ?_, ?_⟩
  · intro genesis
    have hempty : EligibleSound { height := 1 } :=
      ⟨fun x hx => absurd hx (List.not_mem_nil _), fun x hx => absurd hx (List.not_mem_nil _),
        fun x t hx => by cases hx⟩
    cases genesis with
    | none =>
      exact EligibleSound_index sys _ _
        (EligibleSound_of_eq _ _ (EligibleSound_store { height := 1 } {} hempty) rfl rfl rfl rfl)
        ⟨rfl, fun hmem => absurd hmem (List.not_mem_nil _)⟩
    | some round =>
      refine EligibleSound_index sys _ _
        (EligibleSound_of_eq _ _ (EligibleSound_store { height := 1 } round.Root hempty)
          rfl rfl rfl rfl) ⟨?_, fun hmem => absurd hmem (List.not_mem_nil _)⟩
      simp [mapGetD, mapGet, mapSet, mapDel]
  · exact fun g tx r h hr => EligibleSound_add sys g tx r h hr
  · exact fun g id h => EligibleSound_delete g id h
  · intro g newRound g1 h hroot hr
    obtain ⟨f1, f2, _⟩ := Reset_frame sys g g1 newRound hr
    obtain ⟨e1, e2⟩ := Reset_sets sys g g1 newRound hr
    have hstored : EligibleSound (resetStored sys g newRound) :=
      EligibleSound_index sys _ _ (EligibleSound_store g newRound.Root h)
        ⟨by show (mapGet (mapSet g.transactions newRound.Root.ID newRound.Root)
              newRound.Root.ID).isSome = true
            rw [mapGet_mapSet_self]
            rfl, hroot⟩
    refine EligibleSound_of_eq _ _ hstored ?_ ?_ e1 ?_
    · rw [f1]
      unfold resetStored
      rw [createTransactionIndices_transactions]
    · rw [f2]
      unfold resetStored
      rw [createTransactionIndices_children]
    · rw [e2]
      unfold resetStored
      rw [createTransactionIndices_incomplete]
  · intro g round h
    have hfold : ∀ (l : List (Nat × List TransactionID)) (g1 : Graph), EligibleSound g1 →
        EligibleSound (l.foldl (pruneStep sys round) g1) := by
      intro l
      induction l with
      | nil => exact fun g1 h1 => h1
      | cons e rest ih => exact fun g1 h1 => ih _ (EligibleSound_pruneStep sys round g1 e h1)
    exact hfold _ g h
  · intro g g1 ids h hf
    unfold FindEligibleParents at hf
    cases hroot : mapGet g.transactions g.rootID with
    | none =>
      rw [hroot] at hf
      simp only at hf
      split_ifs at hf
      simp only [Option.some.injEq, Prod.mk.injEq] at hf
      rw [← hf.1]
      exact EligibleSound_shrink g _ h rfl rfl rfl
        (fun x hx => absurd hx (List.not_mem_nil _))
    | some root =>
      rw [hroot] at hf
      simp only [Option.some.injEq] at hf
      have hg : (g, ([] : List TransactionID)) = (withEligible g g.eligible, []) := rfl
      rw [hg, findEligible_foldl sys g root g.eligible g.eligible []] at hf
      simp only [List.nil_append, Prod.mk.injEq] at hf
      rw [← hf.1]
      exact EligibleSound_shrink g _ h rfl rfl rfl
        (fun x hx => (List.mem_filter.mp hx).1)

end Wavelet
